import Mathlib

/-!
# Write-issue core of the network filesystem library (`fs/netfs/write_issue.c`)

A shallow embedding of the subrequest builder (`netfs_prepare_write`,
`netfs_issue_write`, `netfs_advance_write`), of the page write planner
(`netfs_write_folio`, `netfs_write_folio_single`) and of the writeback drivers,
followed by theorems about them.

Conventions of the embedding.

* A `struct netfs_io_request` is a value of `netfs_io_request`; the two
  elements of `io_streams[]` are the fields `io_streams0` and `io_streams1`,
  and a `struct netfs_io_stream *` argument is the index `s` of the stream.
* The list `stream->subrequests` is a Lean list, oldest entry first.  A pointer
  to a subrequest on that list (`stream->construct`, `stream->front`) is the
  position of the subrequest in the list.
* Sizes are natural numbers; where C computes in a fixed width the embedding
  reduces modulo `2^32` (`unsigned int`) or `2^64` (`size_t`).
* Calls on external collaborators (the backend's `issue_write`, the page cache,
  the rolling buffer, the collector) are recorded, in program order, in the
  request's `events`.
-/

namespace Netfs

/-! ## Machine integers -/

/-- Number of values of an `unsigned int`. -/
def U32 : Nat := 4294967296

/-- Number of values of a `size_t` / `unsigned long long`. -/
def U64 : Nat := 18446744073709551616

def UINT_MAX : Nat := 4294967295
def INT_MAX : Nat := 2147483647
def ULONG_MAX : Nat := 18446744073709551615
def LONG_MAX : Nat := 9223372036854775807
def ENOMEM : Int := 12

/-- Unsigned subtraction `a - b` in a type with `m` values. -/
def wrap_sub (m a b : Nat) : Nat := (a % m + (m - b % m)) % m

/-- Unsigned addition `a + b` in a type with `m` values. -/
def wrap_add (m a b : Nat) : Nat := (a + b) % m

/-- The kernel's `umin()`: minimum of two unsigned values. -/
def umin (a b : Nat) : Nat := if a < b then a else b

/-! ## Data model -/

inductive netfs_io_source where
  | NETFS_SOURCE_UNKNOWN
  | NETFS_UPLOAD_TO_SERVER
  | NETFS_WRITE_TO_CACHE
deriving DecidableEq, Repr, Inhabited

inductive netfs_io_origin where
  | NETFS_READAHEAD
  | NETFS_WRITEBACK
  | NETFS_WRITEBACK_SINGLE
  | NETFS_WRITETHROUGH
  | NETFS_UNBUFFERED_WRITE
  | NETFS_DIO_WRITE
  | NETFS_PGPRIV2_COPY_TO_CACHE
deriving DecidableEq, Repr, Inhabited

/-- A `struct netfs_group *` as stored in a folio's private data or in
`wreq->group`: `NULL`, the marker `NETFS_FOLIO_COPY_TO_CACHE`, or a group. -/
inductive netfs_group_ptr where
  | NULL
  | NETFS_FOLIO_COPY_TO_CACHE
  | group (id : Nat)
deriving DecidableEq, Repr, Inhabited

/-- A `struct netfs_folio`: the streaming-write descriptor of a folio. -/
structure netfs_folio where
  dirty_offset : Nat
  dirty_len : Nat
deriving DecidableEq, Repr, Inhabited

/-- A folio as the planner sees it: `folio_pos`, `folio_size`,
`netfs_folio_group`, `netfs_folio_info`. -/
structure folio where
  pos : Nat
  size : Nat
  group : netfs_group_ptr
  finfo : Option netfs_folio
  /-- The number of group references `netfs_folio_written_back(folio)` reports. -/
  gcount : Nat
deriving DecidableEq, Repr, Inhabited

/-- The part of a `struct iov_iter` over the rolling buffer that the write
path touches: where it stands in the buffer and how many bytes it covers. -/
structure iov_iter where
  pos : Nat
  count : Nat
deriving DecidableEq, Repr, Inhabited

structure netfs_io_subrequest where
  start : Nat
  len : Nat
  transferred : Nat
  nr_segs : Nat
  error : Int
  debug_index : Nat
  retry_count : Nat
  source : netfs_io_source
  stream_nr : Nat
  io_iter : iov_iter
  NETFS_SREQ_FAILED : Bool
  NETFS_SREQ_IN_PROGRESS : Bool
  NETFS_SREQ_MADE_PROGRESS : Bool
deriving DecidableEq, Repr, Inhabited

/-- What a backend's `prepare_write` hook leaves behind: the limits it stored in
the stream, and whether it called `netfs_prepare_write_failed` (with the
`subreq->error` it set). -/
structure prepare_write_result where
  sreq_max_len : Nat
  sreq_max_segs : Nat
  failed : Bool
  error : Int
deriving DecidableEq, Repr, Inhabited

/-- Modelled from the spec: the backend-supplied `prepare_write` hook of a stream
("may further shrink the limits, e.g. to credit/object-size constraints").  It
is given the fresh subrequest and the limits `sreq_max_len`, `sreq_max_segs`
that `netfs_prepare_write` has just stored. -/
abbrev prepare_write_hook := netfs_io_subrequest → Nat → Nat → prepare_write_result

structure netfs_io_stream where
  construct : Option Nat
  sreq_max_len : Nat
  sreq_max_segs : Nat
  submit_off : Nat
  submit_len : Nat
  submit_extendable_to : Nat
  prepare_write : Option prepare_write_hook
  subrequests : List netfs_io_subrequest
  front : Option Nat
  collected_to : Nat
  transferred : Nat
  source : netfs_io_source
  stream_nr : Nat
  avail : Bool
  active : Bool

/-- Calls made on the external collaborators and stores to `wreq->issued_to`,
in program order. -/
inductive netfs_event where
  | issue_write (stream_nr : Nat) (subreq : netfs_io_subrequest)
  | write_subrequest_terminated (subreq : netfs_io_subrequest) (error : Int)
  | issued_to (v : Nat)
  | folio_start_writeback (f : folio)
  | folio_unlock (f : folio)
  | folio_end_writeback (f : folio)
  | folio_zero_segment (f : folio) (a b : Nat)
  | folio_redirty_for_writepage (f : folio)
  | folio_written_back (f : folio)
  | folio_get (f : folio)
  | put_group_many (n : Nat)
  | rolling_buffer_append (f : folio)
  | rolling_buffer_advance (n : Nat)
  | begin_writeback
  | wake_collector
  | wait_for_paused_write
  | inode_dio_begin
deriving DecidableEq, Repr

/-- Modelled from the spec: the rolling buffer, "an append-only, forward-only
iterator abstraction over a growing queue of memory pages".  `iter` is the
shared read cursor and `folios` the pages appended so far.  `space` stands for
the allocator: `some n` when the next `n` calls of `rolling_buffer_make_space`
succeed and the one after fails ("only on allocation exhaustion"), `none` when
every call succeeds. -/
structure rolling_buffer where
  iter : iov_iter
  folios : List folio
  space : Option Nat
deriving DecidableEq, Repr, Inhabited

structure netfs_io_request where
  origin : netfs_io_origin
  start : Nat
  len : Nat
  i_size : Nat
  /-- The value `i_size_read(wreq->inode)` returns. -/
  inode_i_size : Nat
  wsize : Nat
  issued_to : Nat
  cleaned_to : Nat
  group : netfs_group_ptr
  nr_group_rel : Nat
  subreq_counter : Nat
  error : Int
  NETFS_RREQ_ALL_QUEUED : Bool
  NETFS_RREQ_UPLOAD_TO_SERVER : Bool
  NETFS_RREQ_PAUSE : Bool
  NETFS_RREQ_FAILED : Bool
  NETFS_RREQ_OFFLOAD_COLLECTION : Bool
  io_streams0 : netfs_io_stream
  io_streams1 : netfs_io_stream
  buffer : rolling_buffer
  events : List netfs_event

/-- The stream `&wreq->io_streams[s]`. -/
def netfs_io_request.stream (wreq : netfs_io_request) (s : Nat) : netfs_io_stream :=
  if s = 0 then wreq.io_streams0 else wreq.io_streams1

/-- Store through the pointer `&wreq->io_streams[s]`. -/
def netfs_io_request.set_stream (wreq : netfs_io_request) (s : Nat)
    (st : netfs_io_stream) : netfs_io_request :=
  if s = 0 then { wreq with io_streams0 := st } else { wreq with io_streams1 := st }

/-- Record a call on an external collaborator. -/
def netfs_io_request.emit (wreq : netfs_io_request) (e : netfs_event) : netfs_io_request :=
  { wreq with events := wreq.events ++ [e] }

/-- The subrequest a pointer into `stream->subrequests` points at. -/
def netfs_io_stream.deref (st : netfs_io_stream) (i : Nat) : netfs_io_subrequest :=
  st.subrequests.getD i default

/-- Store `sub` through a pointer into `stream->subrequests`. -/
def netfs_io_stream.store (st : netfs_io_stream) (i : Nat)
    (sub : netfs_io_subrequest) : netfs_io_stream :=
  { st with subrequests := st.subrequests.set i sub }

/-! ## Subrequest builder -/

/-- Modelled from the spec: `netfs_alloc_subrequest` (fs/netfs/objects.c), which
"allocates a subrequest": a zeroed subrequest carrying the next value of the
request's subrequest counter as its `debug_index`. -/
def netfs_alloc_subrequest (wreq : netfs_io_request) : netfs_io_request × netfs_io_subrequest :=
  ({ wreq with subreq_counter := wreq.subreq_counter + 1 },
   { start := 0, len := 0, transferred := 0, nr_segs := 0, error := 0,
     debug_index := wreq.subreq_counter + 1, retry_count := 0,
     source := netfs_io_source.NETFS_SOURCE_UNKNOWN, stream_nr := 0,
     io_iter := { pos := 0, count := 0 },
     NETFS_SREQ_FAILED := false, NETFS_SREQ_IN_PROGRESS := false,
     NETFS_SREQ_MADE_PROGRESS := false })

/-- The function `netfs_prepare_write_failed`: mark a subrequest to note that
preparation for write failed. -/
def netfs_prepare_write_failed (subreq : netfs_io_subrequest) : netfs_io_subrequest :=
  { subreq with NETFS_SREQ_FAILED := true }

/-- The start of `netfs_prepare_write`: the subrequest it allocates and
initialises (`source`, `start`, `stream_nr`, and `io_iter`, a copy of the
request's buffer iterator). -/
def netfs_prepare_write_alloc (wreq : netfs_io_request) (stream : netfs_io_stream)
    (start : Nat) : netfs_io_subrequest :=
  { (netfs_alloc_subrequest wreq).2 with
    source := stream.source, start := start, stream_nr := stream.stream_nr,
    io_iter := wreq.buffer.iter }

/-- The limits `netfs_prepare_write` leaves in the stream: `UINT_MAX` and
`INT_MAX`, `wreq->wsize` as the length limit of the upload stream, and then
whatever the stream's `prepare_write` hook, if it has one, makes of them. -/
def netfs_prepare_write_limits (wsize : Nat) (source : netfs_io_source)
    (hook : Option prepare_write_hook) (subreq : netfs_io_subrequest) : prepare_write_result :=
  let sreq_max_len : Nat := match source with
    | netfs_io_source.NETFS_UPLOAD_TO_SERVER => wsize
    | _ => UINT_MAX
  let sreq_max_segs : Nat := INT_MAX
  match hook with
  | some prepare_write => prepare_write subreq sreq_max_len sreq_max_segs
  | none => { sreq_max_len := sreq_max_len, sreq_max_segs := sreq_max_segs,
              failed := false, error := subreq.error }

/-- The subrequest as `netfs_prepare_write` queues it: after the hook has run
(and possibly noted a failure) and `NETFS_SREQ_IN_PROGRESS` has been set. -/
def netfs_prepare_write_subreq (wreq : netfs_io_request) (stream : netfs_io_stream)
    (start : Nat) : netfs_io_subrequest :=
  let subreq : netfs_io_subrequest := netfs_prepare_write_alloc wreq stream start
  let r : prepare_write_result :=
    netfs_prepare_write_limits wreq.wsize stream.source stream.prepare_write subreq
  let subreq : netfs_io_subrequest :=
    if r.failed then netfs_prepare_write_failed { subreq with error := r.error } else subreq
  { subreq with NETFS_SREQ_IN_PROGRESS := true }

/-- The function `netfs_prepare_write`: allocate a subrequest starting at
`start`, set the stream's limits, run the backend hook, append the subrequest to
the tail of the stream's list and make it the stream's construct.  (The call of
`rolling_buffer_make_space` for a used-up slot of the folio queue is not
modelled: the abstract buffer has no slots.) -/
def netfs_prepare_write (wreq : netfs_io_request) (s : Nat) (start : Nat) : netfs_io_request :=
  let stream : netfs_io_stream := wreq.stream s
  let subreq : netfs_io_subrequest := netfs_prepare_write_subreq wreq stream start
  let r : prepare_write_result :=
    netfs_prepare_write_limits wreq.wsize stream.source stream.prepare_write
      (netfs_prepare_write_alloc wreq stream start)
  let wreq : netfs_io_request := (netfs_alloc_subrequest wreq).1
  -- list_add_tail(); if (list_is_first()) { front = subreq; if (!active) {...} }
  let first : Bool := stream.subrequests.isEmpty
  let stream : netfs_io_stream := { stream with
    sreq_max_len := r.sreq_max_len, sreq_max_segs := r.sreq_max_segs,
    subrequests := stream.subrequests ++ [subreq],
    front := if first then some 0 else stream.front,
    collected_to := if first && !stream.active then start else stream.collected_to,
    active := if first then true else stream.active,
    construct := some stream.subrequests.length }
  wreq.set_stream s stream

/-- The function `netfs_do_issue_write`: hand the subrequest to the backend, or
report it terminated with its error if preparation failed. -/
def netfs_do_issue_write (wreq : netfs_io_request) (s : Nat)
    (subreq : netfs_io_subrequest) : netfs_io_request :=
  if subreq.NETFS_SREQ_FAILED then
    wreq.emit (netfs_event.write_subrequest_terminated subreq subreq.error)
  else
    wreq.emit (netfs_event.issue_write s subreq)

/-- The assignment `subreq->io_iter.count = subreq->len` of `netfs_issue_write`:
the subrequest's iterator is cut to the subrequest's length. -/
def netfs_frozen (q : netfs_io_subrequest) : netfs_io_subrequest :=
  { q with io_iter := { q.io_iter with count := q.len } }

/-- The function `netfs_issue_write`: dispatch the stream's construct, if any. -/
def netfs_issue_write (wreq : netfs_io_request) (s : Nat) : netfs_io_request :=
  let stream : netfs_io_stream := wreq.stream s
  match stream.construct with
  | none => wreq
  | some i =>
    let subreq : netfs_io_subrequest := netfs_frozen (stream.deref i)
    let wreq : netfs_io_request :=
      wreq.set_stream s { stream.store i subreq with construct := none }
    netfs_do_issue_write wreq s subreq

/-- The first half of `netfs_advance_write` on an available stream: dispatch a
construct that is discontiguous with `start`, then make sure the stream has a
construct by preparing one if it has none. -/
def netfs_advance_write_construct (wreq : netfs_io_request) (s : Nat) (start : Nat) :
    netfs_io_request :=
  let stream : netfs_io_stream := wreq.stream s
  -- if (subreq && start != subreq->start + subreq->len) netfs_issue_write()
  let wreq : netfs_io_request := match stream.construct with
    | some i =>
      if start ≠ wrap_add U64 (stream.deref i).start (stream.deref i).len
      then netfs_issue_write wreq s else wreq
    | none => wreq
  -- if (!stream->construct) netfs_prepare_write()
  match (wreq.stream s).construct with
  | none => netfs_prepare_write wreq s start
  | some _ => wreq

/-- The function `netfs_advance_write`: add up to `len` bytes at `start` to the
stream's construct, dispatching it when it is full, discontiguous or at EOF.
Returns the new request state and the number of bytes consumed. -/
def netfs_advance_write (wreq : netfs_io_request) (s : Nat) (start len : Nat)
    (to_eof : Bool) : netfs_io_request × Nat :=
  if !(wreq.stream s).avail then (wreq, len)
  else
    let wreq : netfs_io_request := netfs_advance_write_construct wreq s start
    let stream : netfs_io_stream := wreq.stream s
    let i : Nat := stream.construct.getD 0
    let subreq : netfs_io_subrequest := stream.deref i
    let part : Nat := umin (wrap_sub U64 stream.sreq_max_len subreq.len) len
    let subreq : netfs_io_subrequest := { subreq with
      len := wrap_add U64 subreq.len part,
      nr_segs := wrap_add U32 subreq.nr_segs 1 }
    let stream : netfs_io_stream := { stream.store i subreq with
      submit_extendable_to := wrap_sub U32 stream.submit_extendable_to part }
    let wreq : netfs_io_request := wreq.set_stream s stream
    let wreq : netfs_io_request :=
      if stream.sreq_max_len ≤ subreq.len ∨ stream.sreq_max_segs ≤ subreq.nr_segs ∨ to_eof = true
      then netfs_issue_write wreq s else wreq
    (wreq, part)

/-! ## Page write planner -/

/-- The store `atomic64_set(&wreq->issued_to, v)`. -/
def atomic64_set_issued_to (wreq : netfs_io_request) (v : Nat) : netfs_io_request :=
  { wreq with issued_to := v, events := wreq.events ++ [netfs_event.issued_to v] }

/-- Modelled from the spec: `rolling_buffer_advance`, which "moves the shared read
cursor forward by n bytes". -/
def rolling_buffer_advance (wreq : netfs_io_request) (n : Nat) : netfs_io_request :=
  { wreq with
    buffer := { wreq.buffer with iter := { wreq.buffer.iter with pos := wreq.buffer.iter.pos + n } },
    events := wreq.events ++ [netfs_event.rolling_buffer_advance n] }

/-- Modelled from the spec: `rolling_buffer_make_space`, which "ensures the tail
has room for a new page node" and fails "only on allocation exhaustion".
Returns the buffer and the return value. -/
def rolling_buffer_make_space (b : rolling_buffer) : rolling_buffer × Int :=
  match b.space with
  | none => (b, 0)
  | some 0 => (b, -ENOMEM)
  | some (n + 1) => ({ b with space := some n }, 0)

/-- Modelled from the spec: `rolling_buffer_append`, which "adds a page to the
tail". -/
def rolling_buffer_append (wreq : netfs_io_request) (f : folio) : netfs_io_request :=
  { wreq with
    buffer := { wreq.buffer with folios := wreq.buffer.folios ++ [f] },
    events := wreq.events ++ [netfs_event.rolling_buffer_append f] }

/-- The values of the locals `foff`, `flen`, `to_eof`, `streamw` of
`netfs_write_folio` once the folio's extent has been worked out. -/
structure folio_extent where
  foff : Nat
  flen : Nat
  to_eof : Bool
  streamw : Bool
deriving DecidableEq, Repr

/-- The part of `netfs_write_folio` that works out which bytes of the folio are
to be written: the streaming-write range, the clamp to `i_size`, zero-filling
of the tail of the last page, and `flen -= foff`. -/
def netfs_write_folio_extent (wreq : netfs_io_request) (folio : folio) :
    netfs_io_request × folio_extent :=
  let fsize : Nat := folio.size
  let fpos : Nat := folio.pos
  let i_size : Nat := wreq.inode_i_size
  let foff : Nat := match folio.finfo with
    | some finfo => finfo.dirty_offset
    | none => 0
  let flen : Nat := match folio.finfo with
    | some finfo => wrap_add U64 finfo.dirty_offset finfo.dirty_len
    | none => fsize
  let streamw : Bool := folio.finfo.isSome
  if wreq.origin = netfs_io_origin.NETFS_WRITETHROUGH then
    let flen : Nat := if flen > i_size - fpos then i_size - fpos else flen
    (wreq, { foff := foff, flen := wrap_sub U64 flen foff, to_eof := false, streamw := streamw })
  else if flen > i_size - fpos then
    let flen : Nat := i_size - fpos
    let wreq : netfs_io_request :=
      if !streamw then wreq.emit (netfs_event.folio_zero_segment folio flen fsize) else wreq
    (wreq, { foff := foff, flen := wrap_sub U64 flen foff, to_eof := true, streamw := streamw })
  else if flen = i_size - fpos then
    (wreq, { foff := foff, flen := wrap_sub U64 flen foff, to_eof := true, streamw := streamw })
  else
    (wreq, { foff := foff, flen := wrap_sub U64 flen foff, to_eof := false, streamw := streamw })

/-- The body of the loop that sets each stream's submission point for a folio
in `netfs_write_folio`. -/
def netfs_set_submit (stream : netfs_io_stream) (foff flen : Nat) (streamw : Bool)
    (fgroup : netfs_group_ptr) : netfs_io_stream :=
  if !stream.avail ||
     (stream.source = netfs_io_source.NETFS_WRITE_TO_CACHE && streamw) ||
     (stream.source = netfs_io_source.NETFS_UPLOAD_TO_SERVER &&
      fgroup = netfs_group_ptr.NETFS_FOLIO_COPY_TO_CACHE)
  then { stream with submit_off := UINT_MAX, submit_len := 0 }
  else { stream with submit_off := foff % U32, submit_len := flen % U32 }

/-- The inner loop "Always add to the lowest-submitted stream first": the value
of `choose_s`, or `none` for `-1`. -/
def netfs_choose_stream (wreq : netfs_io_request) : Option Nat :=
  let lowest_off : Nat := ULONG_MAX
  let pick0 : Bool :=
    decide (0 < wreq.io_streams0.submit_len ∧ wreq.io_streams0.submit_off < lowest_off)
  let lowest_off : Nat := if pick0 then wreq.io_streams0.submit_off else lowest_off
  let pick1 : Bool :=
    decide (0 < wreq.io_streams1.submit_len ∧ wreq.io_streams1.submit_off < lowest_off)
  if pick1 then some 1 else if pick0 then some 0 else none

/-- The first part of one pass of the body of the `for (;;)` loop of
`netfs_write_folio` for the chosen stream `s`: advance the buffer's iterator to
the stream's submission point, store `issued_to`, set
`stream->submit_extendable_to`. -/
def netfs_write_folio_step_pre (fpos fsize : Nat) (wreq : netfs_io_request)
    (iter_off : Nat) (s : Nat) : netfs_io_request :=
  let submit_off : Nat := (wreq.stream s).submit_off
  let wreq : netfs_io_request :=
    if submit_off > iter_off then rolling_buffer_advance wreq (submit_off - iter_off) else wreq
  let wreq : netfs_io_request := atomic64_set_issued_to wreq (fpos + submit_off)
  wreq.set_stream s
    { wreq.stream s with submit_extendable_to := wrap_sub U32 fsize submit_off }

/-- The last part of one pass of that loop: the stream after
`stream->submit_off += part` and the update of `stream->submit_len`.  (`part`
is an `ssize_t` there: the comparison `part > stream->submit_len` is signed.) -/
def netfs_submit_advance (stream : netfs_io_stream) (part : Nat) : netfs_io_stream :=
  { stream with
    submit_off := wrap_add U32 stream.submit_off part,
    submit_len := if part ≤ LONG_MAX ∧ part > stream.submit_len then 0
                  else wrap_sub U32 stream.submit_len part }

/-- One pass of the body of the `for (;;)` loop of `netfs_write_folio` (and of
`netfs_write_folio_single`, whose loop is the same text) for the chosen stream
`s`; returns the new request state and the new `iter_off`. -/
def netfs_write_folio_step (fpos fsize : Nat) (to_eof : Bool) (wreq : netfs_io_request)
    (iter_off : Nat) (s : Nat) : netfs_io_request × Nat :=
  let submit_off : Nat := (wreq.stream s).submit_off
  let submit_len : Nat := (wreq.stream s).submit_len
  let r : netfs_io_request × Nat :=
    netfs_advance_write (netfs_write_folio_step_pre fpos fsize wreq iter_off s) s
      (fpos + submit_off) submit_len to_eof
  ((r.1.set_stream s (netfs_submit_advance (r.1.stream s) r.2)),
   if submit_off > iter_off then submit_off else iter_off)

/-- The `for (;;)` loop of `netfs_write_folio` and `netfs_write_folio_single`:
`none` when `fuel` passes of the loop were not enough to leave it. -/
def netfs_write_folio_loop (fpos fsize : Nat) (to_eof : Bool) :
    Nat → netfs_io_request → Nat → Option (netfs_io_request × Nat)
  | 0, _, _ => none
  | fuel + 1, wreq, iter_off =>
    match netfs_choose_stream wreq with
    | none => some (wreq, iter_off)
    | some s =>
      let r := netfs_write_folio_step fpos fsize to_eof wreq iter_off s
      netfs_write_folio_loop fpos fsize to_eof fuel r.1 r.2

/-- The end of `netfs_write_folio` after the loop: move the buffer cursor to the
end of the folio, store `issued_to`, and flush the streams if the folio was not
written to its end. -/
def netfs_write_folio_finish (wreq : netfs_io_request) (folio : folio) (x : folio_extent)
    (iter_off : Nat) : netfs_io_request :=
  let wreq : netfs_io_request :=
    if folio.size > iter_off then rolling_buffer_advance wreq (folio.size - iter_off) else wreq
  let wreq : netfs_io_request := atomic64_set_issued_to wreq (folio.pos + folio.size)
  if wrap_add U64 x.foff x.flen < folio.size then
    netfs_issue_write (netfs_issue_write wreq 0) 1
  else wreq

/-- The part of `netfs_write_folio` from "Attach the folio to the rolling buffer"
to the end: set the submission points, run the submission loop, finish. -/
def netfs_write_folio_submit (fuel : Nat) (wreq : netfs_io_request) (folio : folio)
    (x : folio_extent) : Option (netfs_io_request × Int) :=
  let wreq : netfs_io_request := rolling_buffer_append wreq folio
  let wreq : netfs_io_request :=
    { wreq with
      io_streams0 := netfs_set_submit wreq.io_streams0 x.foff x.flen x.streamw folio.group,
      io_streams1 := netfs_set_submit wreq.io_streams1 x.foff x.flen x.streamw folio.group }
  match netfs_write_folio_loop folio.pos folio.size x.to_eof fuel wreq 0 with
  | none => none
  | some r => some (netfs_write_folio_finish r.1 folio x r.2, 0)

/-- The part of `netfs_write_folio` after the group of the folio has been
accepted: flush for a streaming write, flip the page to the writeback state,
cancel when no destination is available, otherwise submit. -/
def netfs_write_folio_accepted (fuel : Nat) (wreq : netfs_io_request) (folio : folio)
    (x : folio_extent) : Option (netfs_io_request × Int) :=
  let wreq : netfs_io_request := if x.foff > 0 then netfs_issue_write wreq 0 else wreq
  let wreq : netfs_io_request := if x.streamw then netfs_issue_write wreq 1 else wreq
  let wreq : netfs_io_request :=
    if wreq.origin = netfs_io_origin.NETFS_WRITEBACK
    then wreq.emit (netfs_event.folio_start_writeback folio) else wreq
  let wreq : netfs_io_request := wreq.emit (netfs_event.folio_unlock folio)
  if folio.group = netfs_group_ptr.NETFS_FOLIO_COPY_TO_CACHE then
    if !wreq.io_streams1.avail then
      let wreq : netfs_io_request := netfs_issue_write wreq 0
      some (wreq.emit (netfs_event.folio_written_back folio), 0)
    else netfs_write_folio_submit fuel wreq folio x
  else if !wreq.io_streams0.avail && !wreq.io_streams1.avail then
    some (wreq.emit (netfs_event.folio_written_back folio), 0)
  else netfs_write_folio_submit fuel wreq folio x

/-- The part of `netfs_write_folio` after the rolling buffer has been given
space: a folio beyond EOF is marked written back; otherwise the folio's extent is
worked out and the folio is submitted if its group is the request's or the
copy-to-cache cohort, and redirtied if not. -/
def netfs_write_folio_planned (fuel : Nat) (wreq : netfs_io_request) (folio : folio) :
    Option (netfs_io_request × Int) :=
  if folio.pos ≥ wreq.inode_i_size then
    -- mmap beyond eof
    let wreq : netfs_io_request := wreq.emit (netfs_event.folio_start_writeback folio)
    let wreq : netfs_io_request := wreq.emit (netfs_event.folio_unlock folio)
    let wreq : netfs_io_request := wreq.emit (netfs_event.folio_written_back folio)
    let wreq : netfs_io_request :=
      wreq.emit (netfs_event.put_group_many (wreq.nr_group_rel + folio.gcount))
    some ({ wreq with nr_group_rel := 0 }, 0)
  else
    let wreq : netfs_io_request :=
      if folio.pos + folio.size > wreq.i_size then { wreq with i_size := wreq.inode_i_size }
      else wreq
    let r : netfs_io_request × folio_extent := netfs_write_folio_extent wreq folio
    let wreq : netfs_io_request := r.1
    let x : folio_extent := r.2
    if folio.group = netfs_group_ptr.NETFS_FOLIO_COPY_TO_CACHE then
      netfs_write_folio_accepted fuel (netfs_issue_write wreq 0) folio x
    else if folio.group ≠ wreq.group then
      -- We can't write this page to the server yet.
      let wreq : netfs_io_request := wreq.emit (netfs_event.folio_redirty_for_writepage folio)
      let wreq : netfs_io_request := wreq.emit (netfs_event.folio_unlock folio)
      some (netfs_issue_write (netfs_issue_write wreq 0) 1, 0)
    else netfs_write_folio_accepted fuel wreq folio x

/-- The function `netfs_write_folio`: write some of a pending folio data back to
the server.  Returns the new request state and the return value, or `none` when
`fuel` passes of the submission loop were not enough. -/
def netfs_write_folio (fuel : Nat) (wreq : netfs_io_request) (folio : folio) :
    Option (netfs_io_request × Int) :=
  if (rolling_buffer_make_space wreq.buffer).2 < 0 then some (wreq, -ENOMEM)
  else
    netfs_write_folio_planned fuel
      { wreq with buffer := (rolling_buffer_make_space wreq.buffer).1 } folio

/-- The body of the loop over the streams in `netfs_end_issue_write`; the
second component is `needs_poke`. -/
def netfs_end_issue_write_stream (r : netfs_io_request × Bool) (s : Nat) :
    netfs_io_request × Bool :=
  let stream : netfs_io_stream := r.1.stream s
  if !stream.active then r
  else (netfs_issue_write r.1 s, if !stream.subrequests.isEmpty then false else r.2)

/-- The function `netfs_end_issue_write`: end the issuing of writes, letting the
collector know we are done. -/
def netfs_end_issue_write (wreq : netfs_io_request) : netfs_io_request :=
  let wreq : netfs_io_request := { wreq with NETFS_RREQ_ALL_QUEUED := true }
  let r : netfs_io_request × Bool := netfs_end_issue_write_stream (wreq, true) 0
  let r : netfs_io_request × Bool := netfs_end_issue_write_stream r 1
  if r.2 then r.1.emit netfs_event.wake_collector else r.1

/-! ## Creating a write request -/

/-- What `netfs_create_write_req` reads from the inode and its filesystem: the
file size, the backend's `prepare_write` hook, the write size and the group the
filesystem's `init_request` leaves in the request, the state of the cache, and
whether an allocation fails. -/
structure netfs_inode where
  /-- The value `i_size_read(inode)` returns. -/
  i_size : Nat
  /-- The hook `ictx->ops->prepare_write`. -/
  prepare_write : Option prepare_write_hook
  wsize : Nat
  group : netfs_group_ptr
  /-- The value `netfs_is_cache_enabled(ictx)` returns. -/
  cache_enabled : Bool
  /-- Whether `fscache_begin_write_operation` leaves valid cache resources. -/
  cache_begins : Bool
  /-- The hook `cache_resources.ops->prepare_write_subreq`. -/
  cache_prepare_write : Option prepare_write_hook
  /-- Whether `netfs_alloc_request` fails, and with which error. -/
  alloc_error : Option Int
  /-- Whether `rolling_buffer_init` fails. -/
  buffer_nomem : Bool
  /-- How many calls of `rolling_buffer_make_space` succeed before one fails
  (`none`: all of them). -/
  buffer_space : Option Nat

/-- A zeroed `struct netfs_io_stream` with an empty list of subrequests. -/
def netfs_io_stream.zero : netfs_io_stream :=
  { construct := none, sreq_max_len := 0, sreq_max_segs := 0, submit_off := 0, submit_len := 0,
    submit_extendable_to := 0, prepare_write := none, subrequests := [], front := none,
    collected_to := 0, transferred := 0, source := netfs_io_source.NETFS_SOURCE_UNKNOWN,
    stream_nr := 0, avail := false, active := false }

/-- Modelled from the spec: `netfs_alloc_request` (fs/netfs/objects.c), which
creates the "aggregate object representing one write-back operation": a zeroed
request with the given `start`, `len` and `origin`, the file size snapshot
`i_size`, empty streams, and the write size and group its filesystem gives it. -/
def netfs_alloc_request (ictx : netfs_inode) (start len : Nat) (origin : netfs_io_origin) :
    Except Int netfs_io_request :=
  match ictx.alloc_error with
  | some e => Except.error e
  | none => Except.ok
    { origin := origin, start := start, len := len, i_size := ictx.i_size,
      inode_i_size := ictx.i_size, wsize := ictx.wsize, issued_to := 0, cleaned_to := 0,
      group := ictx.group, nr_group_rel := 0, subreq_counter := 0, error := 0,
      NETFS_RREQ_ALL_QUEUED := false, NETFS_RREQ_UPLOAD_TO_SERVER := false,
      NETFS_RREQ_PAUSE := false, NETFS_RREQ_FAILED := false,
      NETFS_RREQ_OFFLOAD_COLLECTION := false,
      io_streams0 := netfs_io_stream.zero, io_streams1 := netfs_io_stream.zero,
      buffer := { iter := { pos := 0, count := 0 }, folios := [], space := ictx.buffer_space },
      events := [] }

/-- The function `netfs_create_write_req`: create a write request and set it up
appropriately for the origin type. -/
def netfs_create_write_req (ictx : netfs_inode) (start : Nat) (origin : netfs_io_origin) :
    Except Int netfs_io_request :=
  let is_cacheable : Bool :=
    origin = netfs_io_origin.NETFS_WRITEBACK ||
    origin = netfs_io_origin.NETFS_WRITEBACK_SINGLE ||
    origin = netfs_io_origin.NETFS_WRITETHROUGH ||
    origin = netfs_io_origin.NETFS_PGPRIV2_COPY_TO_CACHE
  match netfs_alloc_request ictx start 0 origin with
  | Except.error e => Except.error e
  | Except.ok wreq =>
    -- fscache_begin_write_operation(); fscache_resources_valid()
    let cache_valid : Bool := is_cacheable && ictx.cache_enabled && ictx.cache_begins
    if ictx.buffer_nomem then Except.error (-ENOMEM)
    else
      let wreq : netfs_io_request := { wreq with cleaned_to := wreq.start }
      let stream0 : netfs_io_stream := { wreq.io_streams0 with
        stream_nr := 0, source := netfs_io_source.NETFS_UPLOAD_TO_SERVER,
        prepare_write := ictx.prepare_write, collected_to := start, transferred := LONG_MAX }
      let stream1 : netfs_io_stream := { wreq.io_streams1 with
        stream_nr := 1, source := netfs_io_source.NETFS_WRITE_TO_CACHE,
        collected_to := start, transferred := LONG_MAX }
      let stream1 : netfs_io_stream :=
        if cache_valid then
          { stream1 with avail := true, active := true,
                         prepare_write := ictx.cache_prepare_write }
        else stream1
      Except.ok { wreq with io_streams0 := stream0, io_streams1 := stream1 }

/-! ## Writeback drivers -/

/-- The function `netfs_write_folio_single`: write some of a pending folio data
back to the server and/or the cache.  Returns the new request state and the
return value, or `none` when `fuel` passes of the submission loop were not
enough.  (The reset of `iov_offset` after the loop is below the abstraction of
the buffer's iterator.) -/
def netfs_write_folio_single (fuel : Nat) (wreq : netfs_io_request) (folio : folio) :
    Option (netfs_io_request × Int) :=
  let fsize : Nat := folio.size
  let fpos : Nat := folio.pos
  -- `wreq->i_size - fpos` is computed in `unsigned long long`
  let room : Nat := wrap_sub U64 wreq.i_size fpos
  let flen : Nat := if fsize > room then room else fsize
  let to_eof : Bool := decide (fsize > room) || decide (fsize = room)
  let wreq : netfs_io_request :=
    if fsize > room then wreq.emit (netfs_event.folio_zero_segment folio flen fsize) else wreq
  if !wreq.io_streams0.avail && !wreq.io_streams1.avail then some (wreq, 0)
  else
    -- Attach the folio to the rolling buffer.
    let wreq : netfs_io_request := wreq.emit (netfs_event.folio_get folio)
    let wreq : netfs_io_request := rolling_buffer_append wreq folio
    let submit : netfs_io_stream → netfs_io_stream := fun stream =>
      if !stream.avail then { stream with submit_off := UINT_MAX, submit_len := 0 }
      else { stream with submit_off := 0, submit_len := flen % U32 }
    let wreq : netfs_io_request :=
      { wreq with io_streams0 := submit wreq.io_streams0, io_streams1 := submit wreq.io_streams1 }
    match netfs_write_folio_loop fpos fsize to_eof fuel wreq 0 with
    | none => none
    | some r =>
      let wreq : netfs_io_request := r.1
      let iter_off : Nat := r.2
      let wreq : netfs_io_request :=
        if fsize > iter_off then rolling_buffer_advance wreq (fsize - iter_off) else wreq
      some (atomic64_set_issued_to wreq (fpos + fsize), 0)

/-- Modelled from the spec: the backend's `begin_writeback` hook, "fired exactly
once per request, lazily, the first time a page destined for upload is
encountered".  The hook is recorded as an event; `upload_avail` says whether the
backend marks the upload stream available in it. -/
def netfs_begin_writeback (upload_avail : Bool) (wreq : netfs_io_request) : netfs_io_request :=
  let wreq : netfs_io_request := wreq.emit netfs_event.begin_writeback
  { wreq with io_streams0 := { wreq.io_streams0 with avail := upload_avail } }

/-- The function `netfs_kill_dirty_pages`: the calls it makes on each folio it is
given. -/
def netfs_kill_dirty_pages (folios : List folio) : List netfs_event :=
  folios.flatMap (fun f =>
    [netfs_event.folio_start_writeback f, netfs_event.folio_unlock f,
     netfs_event.folio_end_writeback f])

/-- The body of the `do ... while` loop of `netfs_writepages` for the folios
that `writeback_iter` yields, in order: fire `begin_writeback` before the first
folio that is not of the copy-to-cache cohort, plan the folio, stop at an
error.  Returns the request and the value of `error`. -/
def netfs_writepages_loop (upload_avail : Bool) (fuel : Nat) :
    netfs_io_request → List folio → Option (netfs_io_request × Int)
  | wreq, [] => some (wreq, 0)
  | wreq, f :: fs =>
    let wreq : netfs_io_request :=
      if f.group ≠ netfs_group_ptr.NETFS_FOLIO_COPY_TO_CACHE ∧
         !wreq.NETFS_RREQ_UPLOAD_TO_SERVER
      then netfs_begin_writeback upload_avail { wreq with NETFS_RREQ_UPLOAD_TO_SERVER := true }
      else wreq
    match netfs_write_folio fuel wreq f with
    | none => none
    | some r => if r.2 < 0 then some r
                else match fs with
                  | [] => some r
                  | _ :: _ => netfs_writepages_loop upload_avail fuel r.1 fs

/-- What a driver leaves behind: the request when one was created, the return
value, and the calls made on folios outside any request. -/
structure driver_result where
  wreq : Option netfs_io_request
  ret : Int
  killed : List netfs_event

/-- The function `netfs_writepages`: write some of the pending data back to the
server, for the folios that `writeback_iter` yields.  (The writeback lock is
taken to be free.) -/
def netfs_writepages (ictx : netfs_inode) (upload_avail : Bool) (fuel : Nat)
    (folios : List folio) : Option driver_result :=
  match folios with
  | [] => some { wreq := none, ret := 0, killed := [] }
  | f :: fs =>
    match netfs_create_write_req ictx f.pos netfs_io_origin.NETFS_WRITEBACK with
    | Except.error e =>
      some { wreq := none, ret := e, killed := netfs_kill_dirty_pages (f :: fs) }
    | Except.ok wreq =>
      let wreq : netfs_io_request := { wreq with NETFS_RREQ_OFFLOAD_COLLECTION := true }
      match netfs_writepages_loop upload_avail fuel wreq (f :: fs) with
      | none => none
      | some r =>
        let wreq : netfs_io_request := netfs_end_issue_write r.1
        let wreq : netfs_io_request := wreq.emit netfs_event.wake_collector
        some { wreq := some wreq, ret := r.2, killed := [] }

/-- The function `netfs_begin_writethrough`: begin a write operation for writing
through the pagecache; `ki_pos` is the position of the write. -/
def netfs_begin_writethrough (ictx : netfs_inode) (ki_pos : Nat) : Except Int netfs_io_request :=
  match netfs_create_write_req ictx ki_pos netfs_io_origin.NETFS_WRITETHROUGH with
  | Except.error e => Except.error e
  | Except.ok wreq => Except.ok { wreq with io_streams0 := { wreq.io_streams0 with avail := true } }

/-- The function `netfs_advance_writethrough`: data has been copied into the
pagecache that needs appending to the request.  The second component is the
caller's `*writethrough_cache`. -/
def netfs_advance_writethrough (fuel : Nat) (wreq : netfs_io_request)
    (writethrough_cache : Option folio) (folio : folio) (copied : Nat) (to_page_end : Bool) :
    Option (netfs_io_request × Option Netfs.folio × Int) :=
  let wreq : netfs_io_request :=
    match writethrough_cache with
    | none => wreq.emit (netfs_event.folio_start_writeback folio)
    | some _ => wreq
  let writethrough_cache : Option Netfs.folio :=
    match writethrough_cache with
    | none => some folio
    | some c => some c
  let wreq : netfs_io_request := { wreq with len := wrap_add U64 wreq.len copied }
  if !to_page_end then some (wreq, writethrough_cache, 0)
  else
    match netfs_write_folio fuel wreq folio with
    | none => none
    | some r => some (r.1, none, r.2)

/-- The function `netfs_end_writethrough` up to the point where it waits for
the result: write the pending folio, if any, and end the issuing of writes. -/
def netfs_end_writethrough (fuel : Nat) (wreq : netfs_io_request)
    (writethrough_cache : Option folio) : Option netfs_io_request :=
  match writethrough_cache with
  | none => some (netfs_end_issue_write wreq)
  | some folio =>
    match netfs_write_folio fuel wreq folio with
    | none => none
    | some r => some (netfs_end_issue_write r.1)

/-- What `netfs_unbuffered_write` sees of the collector, which runs
concurrently: whether the collector has set `NETFS_RREQ_PAUSE`, and
`NETFS_RREQ_FAILED`, by the time pass `k` of the loop tests the flag. -/
structure collector_view where
  pause : Nat → Bool
  failed : Nat → Bool

/-- The two tests at the end of a pass of the loop of `netfs_unbuffered_write`,
up to the `break`: the flags as the collector has left them by pass `k`, and
the wait while the request is paused. -/
def netfs_unbuffered_write_flags (view : collector_view) (k : Nat) (wreq : netfs_io_request) :
    netfs_io_request :=
  -- the collector may have set the flags by now
  let wreq : netfs_io_request := { wreq with
    NETFS_RREQ_PAUSE := wreq.NETFS_RREQ_PAUSE || view.pause k,
    NETFS_RREQ_FAILED := wreq.NETFS_RREQ_FAILED || view.failed k }
  if wreq.NETFS_RREQ_PAUSE then
    -- netfs_wait_for_paused_write() returns once the collector has cleared the flag
    { wreq.emit netfs_event.wait_for_paused_write with NETFS_RREQ_PAUSE := false }
  else wreq

/-- The `while (len)` loop of `netfs_unbuffered_write`, from pass `k` on: `none`
when `fuel` passes were not enough. -/
def netfs_unbuffered_write_loop (view : collector_view) :
    Nat → Nat → netfs_io_request → Nat → Nat → Option netfs_io_request
  | 0, _, _, _, _ => none
  | fuel + 1, k, wreq, start, len =>
    if len = 0 then some wreq
    else
      let r : netfs_io_request × Nat := netfs_advance_write wreq 0 start len false
      let wreq : netfs_io_request := rolling_buffer_advance r.1 r.2
      let wreq : netfs_io_request := netfs_unbuffered_write_flags view k wreq
      if wreq.NETFS_RREQ_FAILED then some wreq
      else netfs_unbuffered_write_loop view fuel (k + 1) wreq (start + r.2)
        (wrap_sub U64 len r.2)

/-- The function `netfs_unbuffered_write`: write data to the server without
going through the pagecache and without writing it to the local cache.  Returns
the request and the return value. -/
def netfs_unbuffered_write (view : collector_view) (fuel : Nat) (wreq : netfs_io_request)
    (len : Nat) : Option (netfs_io_request × Int) :=
  let wreq : netfs_io_request :=
    if wreq.origin = netfs_io_origin.NETFS_DIO_WRITE then wreq.emit netfs_event.inode_dio_begin
    else wreq
  match netfs_unbuffered_write_loop view fuel 0 wreq wreq.start len with
  | none => none
  | some wreq => some (netfs_end_issue_write wreq, 0)

/-- The loop of `netfs_writeback_single` over the folios of the iterator, with
`size` bytes left to write.  Returns the request and the value of `ret`. -/
def netfs_writeback_single_loop (fuel : Nat) :
    netfs_io_request → List folio → Nat → Int → Option (netfs_io_request × Int)
  | wreq, [], _, ret => some (wreq, ret)
  | wreq, f :: fs, size, _ =>
    let part : Nat := umin f.size size
    match netfs_write_folio_single fuel wreq f with
    | none => none
    | some r =>
      if r.2 < 0 then some r
      else if wrap_sub U64 size part = 0 then some r
      else netfs_writeback_single_loop fuel r.1 fs (wrap_sub U64 size part) r.2

/-- The function `netfs_writeback_single`: write back a monolithic payload,
given as the folios of the iterator and its byte count.  (The writeback lock is
taken to be free; `ret0` stands for the value of the uninitialised `ret` when
the iterator has no folio.) -/
def netfs_writeback_single (ictx : netfs_inode) (upload_avail : Bool) (fuel : Nat)
    (folios : List folio) (size : Nat) (ret0 : Int) : Option driver_result :=
  match netfs_create_write_req ictx 0 netfs_io_origin.NETFS_WRITEBACK_SINGLE with
  | Except.error e => some { wreq := none, ret := e, killed := [] }
  | Except.ok wreq =>
    let wreq : netfs_io_request := { wreq with NETFS_RREQ_OFFLOAD_COLLECTION := true }
    -- if (__test_and_set_bit(NETFS_RREQ_UPLOAD_TO_SERVER, &wreq->flags)) begin_writeback()
    let was_set : Bool := wreq.NETFS_RREQ_UPLOAD_TO_SERVER
    let wreq : netfs_io_request := { wreq with NETFS_RREQ_UPLOAD_TO_SERVER := true }
    let wreq : netfs_io_request := if was_set then netfs_begin_writeback upload_avail wreq else wreq
    match netfs_writeback_single_loop fuel wreq folios size ret0 with
    | none => none
    | some r =>
      let wreq : netfs_io_request := netfs_issue_write (netfs_issue_write r.1 0) 1
      let wreq : netfs_io_request := { wreq with NETFS_RREQ_ALL_QUEUED := true }
      let wreq : netfs_io_request := wreq.emit netfs_event.wake_collector
      some { wreq := some wreq, ret := r.2, killed := [] }

/-! ## Example states -/

/-- A writeback request over a file of 100000 bytes, as `netfs_create_write_req`
sets it up for a filesystem with a write size of 4096 bytes and no `prepare_write`
hooks, with the cache enabled and the upload stream made available. -/
def example_request : netfs_io_request :=
  { origin := netfs_io_origin.NETFS_WRITEBACK, start := 0, len := 0, i_size := 100000,
    inode_i_size := 100000, wsize := 4096, issued_to := 0, cleaned_to := 0,
    group := netfs_group_ptr.NULL, nr_group_rel := 0, subreq_counter := 0, error := 0,
    NETFS_RREQ_ALL_QUEUED := false, NETFS_RREQ_UPLOAD_TO_SERVER := false,
    NETFS_RREQ_PAUSE := false, NETFS_RREQ_FAILED := false,
    NETFS_RREQ_OFFLOAD_COLLECTION := false,
    io_streams0 := { netfs_io_stream.zero with
      stream_nr := 0, source := netfs_io_source.NETFS_UPLOAD_TO_SERVER,
      transferred := LONG_MAX, avail := true },
    io_streams1 := { netfs_io_stream.zero with
      stream_nr := 1, source := netfs_io_source.NETFS_WRITE_TO_CACHE,
      transferred := LONG_MAX, avail := true, active := true },
    buffer := { iter := { pos := 0, count := 0 }, folios := [], space := none },
    events := [] }

/-- The example request with the cache stream unavailable. -/
def example_request_nocache : netfs_io_request :=
  { example_request with
    io_streams1 := { example_request.io_streams1 with avail := false, active := false } }

/-- The example request after 1000 bytes at offset 0 have been added to the
upload stream: the upload stream has an open construct covering `[0, 1000)`. -/
def example_request_open : netfs_io_request :=
  (netfs_advance_write example_request 0 0 1000 false).1

/-- The first page of the file of the example request: fully dirty, of the
request's group. -/
def example_folio0 : folio :=
  { pos := 0, size := 4096, group := netfs_group_ptr.NULL, finfo := none, gcount := 0 }

/-- The second page of the file of the example request. -/
def example_folio1 : folio :=
  { pos := 4096, size := 4096, group := netfs_group_ptr.NULL, finfo := none, gcount := 0 }

/-- Position in `stream->subrequests` of the subrequest that receives the bytes
of a call `netfs_advance_write(wreq, stream, start, ...)`: the construct if it
ends at `start`, otherwise a fresh subrequest at the tail. -/
def netfs_receiver (st : netfs_io_stream) (start : Nat) : Nat :=
  match st.construct with
  | some i =>
    if start ≠ wrap_add U64 (st.deref i).start (st.deref i).len then st.subrequests.length else i
  | none => st.subrequests.length

/-- The length already held by the receiving subrequest: 0 for a fresh one. -/
def netfs_held_len (st : netfs_io_stream) (start : Nat) : Nat :=
  match st.construct with
  | some i =>
    if start ≠ wrap_add U64 (st.deref i).start (st.deref i).len then 0 else (st.deref i).len
  | none => 0

/-- The segment count already held by the receiving subrequest: 0 for a fresh one. -/
def netfs_held_segs (st : netfs_io_stream) (start : Nat) : Nat :=
  match st.construct with
  | some i =>
    if start ≠ wrap_add U64 (st.deref i).start (st.deref i).len then 0 else (st.deref i).nr_segs
  | none => 0

/-- A construct pointer is sound: it points into the list, at a subrequest that
still has room for data and for a segment. -/
def construct_ok (st : netfs_io_stream) : Option Nat → Prop
  | none => True
  | some i => i < st.subrequests.length ∧ (st.deref i).len < st.sreq_max_len ∧
      (st.deref i).nr_segs < st.sreq_max_segs

instance (st : netfs_io_stream) : (o : Option Nat) → Decidable (construct_ok st o)
  | none => isTrue trivial
  | some i => by unfold construct_ok; infer_instance

/-- State invariant of a stream between two calls of the builder: the limits fit
their C types, every subrequest's fields fit theirs, and a construct, if there
is one, is on the list and still has room for data and for a segment. -/
def stream_ok (st : netfs_io_stream) : Prop :=
  st.sreq_max_len < U64 ∧ st.sreq_max_segs < U32 ∧
  (∀ q ∈ st.subrequests, q.start + q.len < U64 ∧ q.nr_segs < U32) ∧
  construct_ok st st.construct

instance (st : netfs_io_stream) : Decidable (stream_ok st) := by
  unfold stream_ok
  infer_instance

/-- The limits `netfs_prepare_write` can store in the stream fit their C types
(`sreq_max_len` is a `size_t`, `sreq_max_segs` an `unsigned int`). -/
def limits_in_range (wsize : Nat) (st : netfs_io_stream) : Prop :=
  ∀ q, (netfs_prepare_write_limits wsize st.source st.prepare_write q).sreq_max_len < U64 ∧
       (netfs_prepare_write_limits wsize st.source st.prepare_write q).sreq_max_segs < U32

/-- Every subrequest prepared on the stream gets a length limit of at least 1. -/
def limits_pos (wsize : Nat) (st : netfs_io_stream) : Prop :=
  ∀ q, 1 ≤ (netfs_prepare_write_limits wsize st.source st.prepare_write q).sreq_max_len

/-- What the subrequest builder never changes in a request: everything except
the two streams, the subrequest counter and the record of events. -/
structure builder_frame (w w' : netfs_io_request) : Prop where
  origin : w'.origin = w.origin
  start : w'.start = w.start
  len : w'.len = w.len
  i_size : w'.i_size = w.i_size
  inode_i_size : w'.inode_i_size = w.inode_i_size
  wsize : w'.wsize = w.wsize
  issued_to : w'.issued_to = w.issued_to
  cleaned_to : w'.cleaned_to = w.cleaned_to
  group : w'.group = w.group
  nr_group_rel : w'.nr_group_rel = w.nr_group_rel
  error : w'.error = w.error
  all_queued : w'.NETFS_RREQ_ALL_QUEUED = w.NETFS_RREQ_ALL_QUEUED
  upload_to_server : w'.NETFS_RREQ_UPLOAD_TO_SERVER = w.NETFS_RREQ_UPLOAD_TO_SERVER
  pause : w'.NETFS_RREQ_PAUSE = w.NETFS_RREQ_PAUSE
  failed : w'.NETFS_RREQ_FAILED = w.NETFS_RREQ_FAILED
  offload : w'.NETFS_RREQ_OFFLOAD_COLLECTION = w.NETFS_RREQ_OFFLOAD_COLLECTION
  buffer : w'.buffer = w.buffer

/-- What no operation of the write path changes in a stream: its identity, its
destination, its hook and whether it is available. -/
structure stream_static (st st' : netfs_io_stream) : Prop where
  source : st'.source = st.source
  stream_nr : st'.stream_nr = st.stream_nr
  prepare_write : st'.prepare_write = st.prepare_write
  avail : st'.avail = st.avail

/-! ### The builder seen from one stream

The functions below describe what `netfs_issue_write`, `netfs_prepare_write`
and `netfs_advance_write` do to the stream they are called on; the theorems
`issue_stream`, `prepare_stream` and `advance_stream` show that they describe
the functions above. -/

/-- The stream after `netfs_issue_write`. -/
def netfs_io_stream.issued (st : netfs_io_stream) : netfs_io_stream :=
  match st.construct with
  | none => st
  | some i => { st.store i (netfs_frozen (st.deref i)) with construct := none }

/-- The stream after `netfs_prepare_write(wreq, stream, start)`. -/
def netfs_io_stream.prepared (st : netfs_io_stream) (wreq : netfs_io_request)
    (start : Nat) : netfs_io_stream :=
  let r : prepare_write_result :=
    netfs_prepare_write_limits wreq.wsize st.source st.prepare_write
      (netfs_prepare_write_alloc wreq st start)
  { st with
    sreq_max_len := r.sreq_max_len, sreq_max_segs := r.sreq_max_segs,
    subrequests := st.subrequests ++ [netfs_prepare_write_subreq wreq st start],
    front := if st.subrequests.isEmpty then some 0 else st.front,
    collected_to := if st.subrequests.isEmpty && !st.active then start else st.collected_to,
    active := if st.subrequests.isEmpty then true else st.active,
    construct := some st.subrequests.length }

/-- Whether `netfs_advance_write(wreq, stream, start, ...)` prepares a fresh
subrequest: the stream has no construct, or one that does not end at `start`. -/
def netfs_io_stream.fresh (st : netfs_io_stream) (start : Nat) : Bool :=
  match st.construct with
  | some i => decide (start ≠ wrap_add U64 (st.deref i).start (st.deref i).len)
  | none => true

/-- The stream after the first half of `netfs_advance_write`. -/
def netfs_io_stream.opened (st : netfs_io_stream) (wreq : netfs_io_request)
    (start : Nat) : netfs_io_stream :=
  if st.fresh start then st.issued.prepared wreq start else st

/-- The value of `part` in `netfs_advance_write` for a stream that has been
given its construct. -/
def netfs_io_stream.part (st : netfs_io_stream) (len : Nat) : Nat :=
  umin (wrap_sub U64 st.sreq_max_len (st.deref (st.construct.getD 0)).len) len

/-- The construct after `subreq->len += part; subreq->nr_segs++`. -/
def netfs_io_stream.grown_subreq (st : netfs_io_stream) (len : Nat) : netfs_io_subrequest :=
  { st.deref (st.construct.getD 0) with
    len := wrap_add U64 (st.deref (st.construct.getD 0)).len (st.part len),
    nr_segs := wrap_add U32 (st.deref (st.construct.getD 0)).nr_segs 1 }

/-- The condition under which `netfs_advance_write` dispatches the construct it
has just grown. -/
def netfs_io_stream.full (st : netfs_io_stream) (len : Nat) (to_eof : Bool) : Prop :=
  st.sreq_max_len ≤ (st.grown_subreq len).len ∨
    st.sreq_max_segs ≤ (st.grown_subreq len).nr_segs ∨ to_eof = true

instance (st : netfs_io_stream) (len : Nat) (to_eof : Bool) : Decidable (st.full len to_eof) := by
  unfold netfs_io_stream.full
  infer_instance

/-- The stream after `subreq->len += part; subreq->nr_segs++;
stream->submit_extendable_to -= part`. -/
def netfs_io_stream.grow (st : netfs_io_stream) (len : Nat) : netfs_io_stream :=
  { st.store (st.construct.getD 0) (st.grown_subreq len) with
    submit_extendable_to := wrap_sub U32 st.submit_extendable_to (st.part len) }

/-- The stream after the second half of `netfs_advance_write`, for a stream that
has been given its construct. -/
def netfs_io_stream.grown (st : netfs_io_stream) (len : Nat) (to_eof : Bool) :
    netfs_io_stream :=
  if st.full len to_eof then (st.grow len).issued else st.grow len

/-- A stream in the middle of `netfs_advance_write(wreq, stream, start, ...)`,
after it has been given its construct `j`: the construct is on the list, ends
at `start`, is within the length limit, and the limits and the subrequests'
fields fit their C types. -/
structure stream_open (st : netfs_io_stream) (j start : Nat) : Prop where
  construct : st.construct = some j
  lt : j < st.subrequests.length
  ends : (st.deref j).start + (st.deref j).len = start
  len_le : (st.deref j).len ≤ st.sreq_max_len
  segs_lt : (st.deref j).nr_segs + 1 < U32
  max_len : st.sreq_max_len < U64
  max_segs : st.sreq_max_segs < U32
  range : ∀ q ∈ st.subrequests, q.start + q.len < U64 ∧ q.nr_segs < U32

/-- The event by which `netfs_do_issue_write` dispatches a subrequest: a call of
the backend's `issue_write`, or the report that a subrequest whose preparation
failed has terminated. -/
def netfs_dispatch (s : Nat) (q : netfs_io_subrequest) : netfs_event :=
  if q.NETFS_SREQ_FAILED then netfs_event.write_subrequest_terminated q q.error
  else netfs_event.issue_write s q

/-- The events of the first half of `netfs_advance_write`: the dispatch of a
construct that does not end at `start`. -/
def netfs_io_stream.flushed (st : netfs_io_stream) (s start : Nat) : List netfs_event :=
  match st.construct with
  | some i =>
    if start ≠ wrap_add U64 (st.deref i).start (st.deref i).len
    then [netfs_dispatch s (netfs_frozen (st.deref i))] else []
  | none => []

/-! ### Sequences of calls -/

/-- The arguments of one call of `netfs_advance_write`. -/
structure advance_call where
  start : Nat
  len : Nat
  to_eof : Bool
deriving DecidableEq, Repr

/-- A sequence of calls of `netfs_advance_write` on the stream `s`. -/
def netfs_advance_writes (wreq : netfs_io_request) (s : Nat) :
    List advance_call → netfs_io_request
  | [] => wreq
  | c :: cs => netfs_advance_writes (netfs_advance_write wreq s c.start c.len c.to_eof).1 s cs

/-- The limits `(sreq_max_len, sreq_max_segs)` in force after each subrequest
that a sequence of calls of `netfs_advance_write` prepares on the stream `s`, in
the order of preparation: a call prepares a subrequest when the stream is
available and has no construct ending at `start`, and the limits are read from
the stream when that call returns. -/
def netfs_prepared_limits (wreq : netfs_io_request) (s : Nat) :
    List advance_call → List (Nat × Nat)
  | [] => []
  | c :: cs =>
    let wreq' : netfs_io_request := (netfs_advance_write wreq s c.start c.len c.to_eof).1
    (if (wreq.stream s).avail && (wreq.stream s).fresh c.start
     then [((wreq'.stream s).sreq_max_len, (wreq'.stream s).sreq_max_segs)] else []) ++
      netfs_prepared_limits wreq' s cs

/-- The example request with a backend whose `prepare_write` hook sets a segment
limit of 0 on the upload stream. -/
def example_request_no_segs : netfs_io_request :=
  { example_request with
    io_streams0 := { example_request.io_streams0 with
      prepare_write := some (fun _ sreq_max_len _ =>
        { sreq_max_len := sreq_max_len, sreq_max_segs := 0, failed := false, error := 0 }) } }

/-! ### The planner -/

/-- The sum of the `len` fields of the subrequests on a stream's list. -/
def netfs_io_stream.total_len (st : netfs_io_stream) : Nat :=
  (st.subrequests.map (fun q => q.len)).sum

/-- State invariant of a request between two calls of the builder: both streams
satisfy `stream_ok`, and the limits they can be given fit their C types. -/
def planner_ok (w : netfs_io_request) : Prop :=
  ∀ t, stream_ok (w.stream t) ∧ limits_in_range w.wsize (w.stream t)

/-- Every subrequest prepared on either stream gets a length limit of at least 1. -/
def planner_pos (w : netfs_io_request) : Prop :=
  ∀ t, limits_pos w.wsize (w.stream t)

/-- The submission points of both streams as the planner keeps them while it
works on a folio: they fit an `unsigned int`, and only an available stream has
bytes left to submit. -/
def submit_ready (w : netfs_io_request) : Prop :=
  ∀ t, (w.stream t).submit_len < U32 ∧ (w.stream t).submit_off < U32 ∧
    (0 < (w.stream t).submit_len → (w.stream t).avail = true)

/-- What the planner never changes in a request. -/
structure planner_frame (w w' : netfs_io_request) : Prop where
  origin : w'.origin = w.origin
  start : w'.start = w.start
  len : w'.len = w.len
  inode_i_size : w'.inode_i_size = w.inode_i_size
  wsize : w'.wsize = w.wsize
  cleaned_to : w'.cleaned_to = w.cleaned_to
  group : w'.group = w.group
  error : w'.error = w.error
  all_queued : w'.NETFS_RREQ_ALL_QUEUED = w.NETFS_RREQ_ALL_QUEUED
  upload_to_server : w'.NETFS_RREQ_UPLOAD_TO_SERVER = w.NETFS_RREQ_UPLOAD_TO_SERVER
  pause : w'.NETFS_RREQ_PAUSE = w.NETFS_RREQ_PAUSE
  failed : w'.NETFS_RREQ_FAILED = w.NETFS_RREQ_FAILED
  offload : w'.NETFS_RREQ_OFFLOAD_COLLECTION = w.NETFS_RREQ_OFFLOAD_COLLECTION
  space : w'.buffer.space = w.buffer.space
  static : ∀ t, stream_static (w.stream t) (w'.stream t)

/-- The folio `f` is routed to the stream `s` by `netfs_write_folio`: it is not
beyond EOF, its group is accepted, it is not cancelled for want of a
destination, and the stream `s` is available and not skipped for this folio. -/
def netfs_routed (w : netfs_io_request) (f : folio) (s : Nat) : Prop :=
  f.pos < w.inode_i_size ∧
  (f.group = netfs_group_ptr.NETFS_FOLIO_COPY_TO_CACHE ∨ f.group = w.group) ∧
  (f.group = netfs_group_ptr.NETFS_FOLIO_COPY_TO_CACHE → w.io_streams1.avail = true) ∧
  (w.stream s).avail = true ∧
  ¬((w.stream s).source = netfs_io_source.NETFS_WRITE_TO_CACHE ∧ f.finfo.isSome = true) ∧
  ¬((w.stream s).source = netfs_io_source.NETFS_UPLOAD_TO_SERVER ∧
    f.group = netfs_group_ptr.NETFS_FOLIO_COPY_TO_CACHE)

instance (w : netfs_io_request) (f : folio) (s : Nat) : Decidable (netfs_routed w f s) := by
  unfold netfs_routed
  infer_instance

/-- Specification side, written from the words of the specification and not
from the code: the routed size of a folio, the number of its bytes that are to
be written.  These are the bytes of its dirty range, the whole folio or
`[dirty_offset, dirty_offset + dirty_len)` when it carries a streaming-write
record, that lie below EOF.  A range that starts at or beyond EOF has none. -/
def netfs_routed_bytes (w : netfs_io_request) (f : folio) : Nat :=
  let lo : Nat := match f.finfo with
    | some fi => fi.dirty_offset
    | none => 0
  let hi : Nat := match f.finfo with
    | some fi => fi.dirty_offset + fi.dirty_len
    | none => f.size
  min hi (w.inode_i_size - f.pos) - lo

/-- A sequence of calls of `netfs_write_folio`, one for each folio, stopped by
a call that returns an error, as in the loop of `netfs_writepages`.  Returns the
last request state and return value. -/
def netfs_write_folios (fuel : Nat) :
    netfs_io_request → List folio → Option (netfs_io_request × Int)
  | wreq, [] => some (wreq, 0)
  | wreq, f :: fs =>
    match netfs_write_folio fuel wreq f with
    | none => none
    | some r => if r.2 < 0 then some r else netfs_write_folios fuel r.1 fs

/-- The folio has a destination in `netfs_write_folio`: the cache stream is
available if the folio is of the copy-to-cache cohort, and some stream is
available in any case. -/
def netfs_destined (w : netfs_io_request) (f : folio) : Prop :=
  (f.group = netfs_group_ptr.NETFS_FOLIO_COPY_TO_CACHE → w.io_streams1.avail = true) ∧
  (w.io_streams0.avail = true ∨ w.io_streams1.avail = true)

instance (w : netfs_io_request) (f : folio) : Decidable (netfs_destined w f) := by
  unfold netfs_destined
  infer_instance

/-- The call `netfs_write_folio(wreq, folio)` submits the folio (it reaches the
submission loop): the rolling buffer gets its space, the folio is not beyond
EOF, it is of the copy-to-cache cohort or of the request's group, and it has a
destination. -/
def netfs_submitted (w : netfs_io_request) (f : folio) : Prop :=
  w.buffer.space ≠ some 0 ∧ f.pos < w.inode_i_size ∧
  (f.group = netfs_group_ptr.NETFS_FOLIO_COPY_TO_CACHE ∨ f.group = w.group) ∧
  netfs_destined w f

instance (w : netfs_io_request) (f : folio) : Decidable (netfs_submitted w f) := by
  unfold netfs_submitted
  infer_instance

/-- The inode of the example request: a file of 100000 bytes on a filesystem
with a write size of 4096 bytes and no `prepare_write` hooks, with the cache
enabled. -/
def example_inode : netfs_inode :=
  { i_size := 100000, prepare_write := none, wsize := 4096, group := netfs_group_ptr.NULL,
    cache_enabled := true, cache_begins := true, cache_prepare_write := none,
    alloc_error := none, buffer_nomem := false, buffer_space := none }

/-- The values stored to `wreq->issued_to`, in the order of the stores. -/
def netfs_io_request.issued_to_stores (w : netfs_io_request) : List Nat :=
  w.events.filterMap (fun e => match e with
    | netfs_event.issued_to v => some v
    | _ => none)

/-- The byte ranges of the subrequests of a stream, as `(start, len)`, in the
order of the list. -/
def netfs_io_stream.extents (st : netfs_io_stream) : List (Nat × Nat) :=
  st.subrequests.map (fun q => (q.start, q.len))

/-- The subrequests dispatched on a stream, as `(start, len)`, in the order of
the calls of the `issue_write` hook. -/
def netfs_io_request.dispatched (w : netfs_io_request) (s : Nat) : List (Nat × Nat) :=
  w.events.filterMap (fun e => match e with
    | netfs_event.issue_write t q => if t = s then some (q.start, q.len) else none
    | _ => none)

/-- A writeback request over a file truncated to 50 bytes, with only the upload
stream available and a write size of `wsize` bytes. -/
def example_request_truncated (wsize : Nat) : netfs_io_request :=
  { example_request_nocache with i_size := 50, inode_i_size := 50, wsize := wsize }

/-- A streaming-write folio at position 0 whose dirty bytes `[100, 150)` lie
beyond the end of the truncated file. -/
def example_folio_streamw : folio :=
  { pos := 0, size := 4096, group := netfs_group_ptr.NULL,
    finfo := some { dirty_offset := 100, dirty_len := 50 }, gcount := 0 }

/-- The last page of the file of the example request: the file ends at byte
1696 of the page. -/
def example_folio_last : folio :=
  { pos := 98304, size := 4096, group := netfs_group_ptr.NULL, finfo := none, gcount := 0 }

/-- The two-page scenario: both example folios are planned with
`netfs_write_folio` and the request is finalised with `netfs_end_issue_write`. -/
def example_two_pages : Option netfs_io_request :=
  match netfs_write_folio 8 example_request example_folio0 with
  | none => none
  | some r =>
    match netfs_write_folio 8 r.1 example_folio1 with
    | none => none
    | some r => some (netfs_end_issue_write r.1)

/-- The stream `s` after one pass of the `for (;;)` loop of `netfs_write_folio`
that chooses `s`, in terms of the stream before it; `wreq` is the request at the
call of `netfs_advance_write`. -/
def netfs_io_stream.paged (st : netfs_io_stream) (wreq : netfs_io_request) (fpos fsize : Nat)
    (to_eof : Bool) : netfs_io_stream :=
  let pre : netfs_io_stream :=
    { st with submit_extendable_to := wrap_sub U32 fsize st.submit_off }
  netfs_submit_advance
    ((pre.opened wreq (fpos + st.submit_off)).grown st.submit_len to_eof)
    ((pre.opened wreq (fpos + st.submit_off)).part st.submit_len)

/-- The two-page scenario: both streams are available, without a `prepare_write`
hook and without an open construct, so that the upload stream's limit is the
write size, 4096, and the cache stream's `UINT_MAX`; `f0` and `f1` are two
contiguous 4096-byte folios of the request's group, not written by streaming,
that lie wholly below EOF; the rolling buffer has room for both. -/
structure two_page_scenario (w : netfs_io_request) (f0 f1 : folio) : Prop where
  upload_avail : w.io_streams0.avail = true
  upload_source : w.io_streams0.source = netfs_io_source.NETFS_UPLOAD_TO_SERVER
  upload_hook : w.io_streams0.prepare_write = none
  upload_construct : w.io_streams0.construct = none
  upload_ok : stream_ok w.io_streams0
  cache_avail : w.io_streams1.avail = true
  cache_source : w.io_streams1.source = netfs_io_source.NETFS_WRITE_TO_CACHE
  cache_hook : w.io_streams1.prepare_write = none
  cache_construct : w.io_streams1.construct = none
  cache_ok : stream_ok w.io_streams1
  cache_active : w.io_streams1.subrequests.isEmpty = false → w.io_streams1.active = true
  wsize : w.wsize = 4096
  group : w.group ≠ netfs_group_ptr.NETFS_FOLIO_COPY_TO_CACHE
  space : ∀ n, w.buffer.space = some n → 2 ≤ n
  size0 : f0.size = 4096
  size1 : f1.size = 4096
  contiguous : f1.pos = f0.pos + 4096
  group0 : f0.group = w.group
  group1 : f1.group = w.group
  finfo0 : f0.finfo = none
  finfo1 : f1.finfo = none
  below : f0.pos + 8192 ≤ w.inode_i_size
  range : w.inode_i_size ≤ LONG_MAX

/-! ### Events and paths of the page planner -/

/-- The external calls the subrequest builder and the page planner make: the
dispatch of a subrequest, the stores to `issued_to`, the calls on the folio and
on the rolling buffer.  The backend's `begin_writeback`, the wake of the
collector, the waits and `folio_end_writeback` are made by the drivers only. -/
def netfs_event.from_planner : netfs_event → Bool
  | netfs_event.issue_write _ _ => true
  | netfs_event.write_subrequest_terminated _ _ => true
  | netfs_event.issued_to _ => true
  | netfs_event.folio_start_writeback _ => true
  | netfs_event.folio_unlock _ => true
  | netfs_event.folio_zero_segment _ _ _ => true
  | netfs_event.folio_redirty_for_writepage _ => true
  | netfs_event.folio_written_back _ => true
  | netfs_event.folio_get _ => true
  | netfs_event.put_group_many _ => true
  | netfs_event.rolling_buffer_append _ => true
  | netfs_event.rolling_buffer_advance _ => true
  | _ => false

/-- The request `w'` has the events of `w` followed by calls that the builder
and the planner make. -/
def planner_appends (w w' : netfs_io_request) : Prop :=
  ∃ l : List netfs_event, w'.events = w.events ++ l ∧ ∀ e ∈ l, e.from_planner = true

/-- The events of `netfs_issue_write` on a stream: the dispatch of its
construct, if it has one. -/
def netfs_io_stream.issue_events (st : netfs_io_stream) (s : Nat) : List netfs_event :=
  match st.construct with
  | some i => [netfs_dispatch s (netfs_frozen (st.deref i))]
  | none => []

/-- The request and the extent of the folio after the first part of
`netfs_write_folio` for a folio that is not beyond EOF: the rolling buffer has
been given space, `wreq->i_size` has been brought up to date, and the extent of
the folio has been worked out. -/
def netfs_write_folio_entry (w : netfs_io_request) (f : folio) :
    netfs_io_request × folio_extent :=
  let w : netfs_io_request := { w with buffer := (rolling_buffer_make_space w.buffer).1 }
  let w : netfs_io_request :=
    if f.pos + f.size > w.i_size then { w with i_size := w.inode_i_size } else w
  netfs_write_folio_extent w f

/-- The request after the flushes that `netfs_write_folio` makes for a folio
whose group it accepts, and the flip of the folio to the writeback state: the
upload stream is flushed for a folio of the copy-to-cache cohort and for a
range that does not start at offset 0, the cache stream for a streaming write. -/
def netfs_write_folio_flushed (w : netfs_io_request) (f : folio) : netfs_io_request :=
  let e : netfs_io_request × folio_extent := netfs_write_folio_entry w f
  let w : netfs_io_request :=
    if f.group = netfs_group_ptr.NETFS_FOLIO_COPY_TO_CACHE then netfs_issue_write e.1 0 else e.1
  let w : netfs_io_request := if e.2.foff > 0 then netfs_issue_write w 0 else w
  let w : netfs_io_request := if e.2.streamw then netfs_issue_write w 1 else w
  let w : netfs_io_request :=
    if w.origin = netfs_io_origin.NETFS_WRITEBACK
    then w.emit (netfs_event.folio_start_writeback f) else w
  w.emit (netfs_event.folio_unlock f)

/-- The request as the submission loop of `netfs_write_folio` finds it: the
folio has been attached to the rolling buffer and both streams have been given
their submission points. -/
def netfs_write_folio_ready (w : netfs_io_request) (f : folio) : netfs_io_request :=
  let x : folio_extent := (netfs_write_folio_entry w f).2
  let w : netfs_io_request := rolling_buffer_append (netfs_write_folio_flushed w f) f
  { w with
    io_streams0 := netfs_set_submit w.io_streams0 x.foff x.flen x.streamw f.group,
    io_streams1 := netfs_set_submit w.io_streams1 x.foff x.flen x.streamw f.group }

/-- A stream that has a subrequest on its list or an open construct has been
activated: `netfs_prepare_write`, the only place where a subrequest is added to
the list and made the construct, sets `stream->active` when it adds the first
one. -/
def stream_activated (st : netfs_io_stream) : Prop :=
  (st.subrequests.isEmpty = false ∨ st.construct.isSome = true) → st.active = true

instance (st : netfs_io_stream) : Decidable (stream_activated st) := by
  unfold stream_activated
  infer_instance

/-- The example request when the allocator has no page left for the rolling
buffer. -/
def example_request_nomem : netfs_io_request :=
  { example_request with buffer := { example_request.buffer with space := some 0 } }

/-- A folio of the file of the example request that lies beyond EOF. -/
def example_folio_beyond : folio :=
  { pos := 102400, size := 4096, group := netfs_group_ptr.NULL, finfo := none, gcount := 1 }

/-- The byte at file position `b` is held by a subrequest of the stream. -/
def netfs_io_stream.covers (st : netfs_io_stream) (b : Nat) : Prop :=
  ∃ e ∈ st.extents, e.1 ≤ b ∧ b < e.1 + e.2

instance (st : netfs_io_stream) (b : Nat) : Decidable (st.covers b) := by
  unfold netfs_io_stream.covers
  infer_instance

/-- The byte at file position `b` is among those of the folio at `fpos` that the
submission loop of the planner has still to submit to the stream. -/
def netfs_io_stream.pending (st : netfs_io_stream) (fpos b : Nat) : Prop :=
  fpos + st.submit_off ≤ b ∧ b < fpos + st.submit_off + st.submit_len

instance (st : netfs_io_stream) (fpos b : Nat) : Decidable (st.pending fpos b) := by
  unfold netfs_io_stream.pending
  infer_instance

/-- The first page of the file of the example request when it belongs to
another writeback group than the request's. -/
def example_folio_other : folio :=
  { pos := 0, size := 4096, group := netfs_group_ptr.group 1, finfo := none, gcount := 0 }

/-- The example request when the backend has left the upload stream
unavailable. -/
def example_request_noupload : netfs_io_request :=
  { example_request with
    io_streams0 := { example_request.io_streams0 with avail := false } }

/-- The first page of the file of the example request when it is of the
copy-to-cache cohort. -/
def example_folio_copy : folio :=
  { pos := 0, size := 4096, group := netfs_group_ptr.NETFS_FOLIO_COPY_TO_CACHE, finfo := none,
    gcount := 0 }

/-- The example request with an open upload construct when the allocator has no
page left for the rolling buffer. -/
def example_request_open_nomem : netfs_io_request :=
  { example_request_open with buffer := { example_request_open.buffer with space := some 0 } }

/-- The number of calls of the backend's `begin_writeback` hook a request has
made. -/
def netfs_io_request.hook_calls (w : netfs_io_request) : Nat :=
  w.events.count netfs_event.begin_writeback

/-- The subrequests handed to `netfs_do_issue_write`, as `(start, len)`, in the
order of the calls. -/
def netfs_io_request.issued_ranges (w : netfs_io_request) : List (Nat × Nat) :=
  w.events.filterMap (fun e => match e with
    | netfs_event.issue_write _ q => some (q.start, q.len)
    | netfs_event.write_subrequest_terminated q _ => some (q.start, q.len)
    | _ => none)

/-- The range of the construct of a stream, if it has one. -/
def netfs_io_stream.open_range (st : netfs_io_stream) : List (Nat × Nat) :=
  match st.construct with
  | some i => [((st.deref i).start, (st.deref i).len)]
  | none => []

/-- The ranges an unbuffered write of `len` bytes at `start` is cut into when
every subrequest takes up to `W` bytes, as `(start, len)`: one for each pass of
the loop, from pass `k` on, up to the pass after which `NETFS_RREQ_FAILED` is
seen. -/
def netfs_unbuffered_chunks (failed : Nat → Bool) (W : Nat) :
    Nat → Nat → Nat → Nat → List (Nat × Nat)
  | 0, _, _, _ => []
  | fuel + 1, k, start, len =>
    if len = 0 then []
    else (start, min W len) ::
      (if failed k then []
       else netfs_unbuffered_chunks failed W fuel (k + 1) (start + min W len) (len - min W len))

/-- A request that is not a direct-I/O write with an upload stream for an
unbuffered write at offset 8192, with a write size of 4096 bytes. -/
def example_request_unbuffered : netfs_io_request :=
  { example_request_nocache with start := 8192, origin := netfs_io_origin.NETFS_UNBUFFERED_WRITE }

/-- A collector that sets neither flag. -/
def example_view_quiet : collector_view :=
  { pause := fun _ => false, failed := fun _ => false }

/-- A collector that sets `NETFS_RREQ_FAILED` during the second pass. -/
def example_view_failing : collector_view :=
  { pause := fun _ => false, failed := fun k => decide (k = 1) }

/-- What is required of the upload stream at the start of a pass of the loop of
`netfs_unbuffered_write`: it is available, has no construct, satisfies the
invariant, and every subrequest prepared on it gets the length limit `W`. -/
structure unbuffered_ready (w : netfs_io_request) (W : Nat) : Prop where
  avail : w.io_streams0.avail = true
  ok : stream_ok w.io_streams0
  lim : limits_in_range w.wsize w.io_streams0
  fixed : ∀ q, (netfs_prepare_write_limits w.wsize w.io_streams0.source
    w.io_streams0.prepare_write q).sreq_max_len = W

/-- Modelled from the spec: `iov_iter_advance` (lib/iov_iter.c), by which the
retry path moves the freshly supplied source past "the unfinished tail": the
iterator goes forward by `size` bytes, or to its end if it holds fewer. -/
def iov_iter_advance (i : iov_iter) (size : Nat) : iov_iter :=
  { pos := i.pos + min size i.count, count := i.count - min size i.count }

/-- Modelled from the spec: `iov_iter_truncate` (include/linux/uio.h), by which
a subrequest's iterator is "truncated to its final length": the iterator covers
at most `count` bytes. -/
def iov_iter_truncate (i : iov_iter) (count : Nat) : iov_iter :=
  { i with count := min i.count count }

/-- The function `netfs_reissue_write`: give the subrequest at position `i` of
the stream's list a fresh iterator over its unfinished tail, count the retry,
and dispatch it again.  Returns the request and the source iterator.  (The
counter `retry_count` is not reduced to the width of its declaration, which is
in include/linux/netfs.h.) -/
def netfs_reissue_write (wreq : netfs_io_request) (s i : Nat) (source : iov_iter) :
    netfs_io_request × iov_iter :=
  let stream : netfs_io_stream := wreq.stream s
  let subreq : netfs_io_subrequest := stream.deref i
  let size : Nat := wrap_sub U64 subreq.len subreq.transferred
  let subreq : netfs_io_subrequest := { subreq with io_iter := iov_iter_truncate source size }
  let source : iov_iter := iov_iter_advance source size
  let subreq : netfs_io_subrequest := { subreq with
    retry_count := subreq.retry_count + 1,
    NETFS_SREQ_MADE_PROGRESS := false, NETFS_SREQ_IN_PROGRESS := true }
  let wreq : netfs_io_request := wreq.set_stream s (stream.store i subreq)
  (netfs_do_issue_write wreq s subreq, source)

/-- The example request with a backend whose `prepare_write` hook notes a
failure with error -5 on every subrequest of the upload stream. -/
def example_request_failing : netfs_io_request :=
  { example_request with
    io_streams0 := { example_request.io_streams0 with
      prepare_write := some (fun _ sreq_max_len sreq_max_segs =>
        { sreq_max_len := sreq_max_len, sreq_max_segs := sreq_max_segs,
          failed := true, error := -5 }) } }

/-- The calls of the backend's `issue_write` a request has made, as
`(stream_nr, start, len)`. -/
def netfs_io_request.issue_calls (w : netfs_io_request) : List (Nat × Nat × Nat) :=
  w.events.filterMap (fun e => match e with
    | netfs_event.issue_write t q => some (t, q.start, q.len)
    | _ => none)

/-- The reports of a terminated subrequest a request has made on the write
path, as `(start, len, error)`. -/
def netfs_io_request.terminations (w : netfs_io_request) : List (Nat × Nat × Int) :=
  w.events.filterMap (fun e => match e with
    | netfs_event.write_subrequest_terminated q err => some (q.start, q.len, err)
    | _ => none)

/-- The example request, without cache, on a filesystem whose write size is 0:
every subrequest prepared on the upload stream gets a length limit of 0. -/
def example_request_stalled : netfs_io_request :=
  { example_request_nocache with wsize := 0 }

/-! ### The meaning of `active` -/

/-- The flag `active` of a stream agrees with its list: a stream with a
subrequest on its list or with a construct is active, and an active stream has
a subrequest on its list unless it was marked at creation (`marked`: the stream
is the cache stream of a request created with valid cache resources, which
`netfs_create_write_req` marks available and active together). -/
def active_sound (marked : Bool) (st : netfs_io_stream) : Prop :=
  stream_activated st ∧
  (st.active = true → st.subrequests.isEmpty = false ∨ marked = true)

instance (marked : Bool) (st : netfs_io_stream) : Decidable (active_sound marked st) := by
  unfold active_sound
  infer_instance

/-- The states of a write request that can be reached from
`netfs_create_write_req` through the functions of `write_issue.c` (and the
backend's `begin_writeback` hook, which two of them call). -/
inductive netfs_reachable : netfs_io_request → Prop
  | create_write_req (ictx : netfs_inode) (start : Nat) (origin : netfs_io_origin)
      (w : netfs_io_request) :
      netfs_create_write_req ictx start origin = Except.ok w → netfs_reachable w
  | begin_writethrough (ictx : netfs_inode) (ki_pos : Nat) (w : netfs_io_request) :
      netfs_begin_writethrough ictx ki_pos = Except.ok w → netfs_reachable w
  | begin_writeback (upload_avail : Bool) (w : netfs_io_request) :
      netfs_reachable w →
      netfs_reachable (netfs_begin_writeback upload_avail
        { w with NETFS_RREQ_UPLOAD_TO_SERVER := true })
  | prepare_write (w : netfs_io_request) (s start : Nat) :
      netfs_reachable w → netfs_reachable (netfs_prepare_write w s start)
  | issue_write (w : netfs_io_request) (s : Nat) :
      netfs_reachable w → netfs_reachable (netfs_issue_write w s)
  | reissue_write (w : netfs_io_request) (s i : Nat) (source : iov_iter) :
      netfs_reachable w → netfs_reachable (netfs_reissue_write w s i source).1
  | advance_write (w : netfs_io_request) (s start len : Nat) (to_eof : Bool) :
      netfs_reachable w → netfs_reachable (netfs_advance_write w s start len to_eof).1
  | write_folio (fuel : Nat) (w : netfs_io_request) (f : folio) (r : netfs_io_request × Int) :
      netfs_reachable w → netfs_write_folio fuel w f = some r → netfs_reachable r.1
  | write_folio_single (fuel : Nat) (w : netfs_io_request) (f : folio)
      (r : netfs_io_request × Int) :
      netfs_reachable w → netfs_write_folio_single fuel w f = some r → netfs_reachable r.1
  | end_issue_write (w : netfs_io_request) :
      netfs_reachable w → netfs_reachable (netfs_end_issue_write w)
  | writepages (ictx : netfs_inode) (upload_avail : Bool) (fuel : Nat) (folios : List folio)
      (r : driver_result) (w : netfs_io_request) :
      netfs_writepages ictx upload_avail fuel folios = some r → r.wreq = some w →
      netfs_reachable w
  | advance_writethrough (fuel : Nat) (w : netfs_io_request) (c : Option folio) (f : folio)
      (copied : Nat) (to_page_end : Bool) (r : netfs_io_request × Option folio × Int) :
      netfs_reachable w →
      netfs_advance_writethrough fuel w c f copied to_page_end = some r → netfs_reachable r.1
  | end_writethrough (fuel : Nat) (w : netfs_io_request) (c : Option folio)
      (r : netfs_io_request) :
      netfs_reachable w → netfs_end_writethrough fuel w c = some r → netfs_reachable r
  | unbuffered_write (view : collector_view) (fuel : Nat) (w : netfs_io_request) (len : Nat)
      (r : netfs_io_request × Int) :
      netfs_reachable w → netfs_unbuffered_write view fuel w len = some r → netfs_reachable r.1
  | writeback_single (ictx : netfs_inode) (upload_avail : Bool) (fuel : Nat)
      (folios : List folio) (size : Nat) (ret0 : Int) (r : driver_result)
      (w : netfs_io_request) :
      netfs_writeback_single ictx upload_avail fuel folios size ret0 = some r →
      r.wreq = some w → netfs_reachable w

/-- What the operations on a request keep of a stream: the agreement of `active`
with the list, whatever the mark, and whether the stream is available. -/
def stream_keeps (st st' : netfs_io_stream) : Prop :=
  (∀ b, active_sound b st → active_sound b st') ∧ st'.avail = st.avail

/-- The relation `stream_keeps` on both streams of a request. -/
def request_keeps (w w' : netfs_io_request) : Prop :=
  ∀ t, stream_keeps (w.stream t) (w'.stream t)

/-- The flags `active` of both streams of a request agree with their lists: the
upload stream is never marked at creation, and the cache stream is marked
exactly when it is available. -/
def netfs_active_sound (w : netfs_io_request) : Prop :=
  active_sound false w.io_streams0 ∧ active_sound w.io_streams1.avail w.io_streams1

instance (w : netfs_io_request) : Decidable (netfs_active_sound w) := by
  unfold netfs_active_sound
  infer_instance

/-! ### The plan of a request -/

/-- The calls by which a subrequest is dispatched. -/
def netfs_event.is_dispatch : netfs_event → Bool
  | netfs_event.issue_write _ _ => true
  | netfs_event.write_subrequest_terminated _ _ => true
  | _ => false

/-- The dispatches a request has made, in the order of the calls. -/
def netfs_io_request.dispatches (w : netfs_io_request) : List netfs_event :=
  w.events.filter netfs_event.is_dispatch

/-- Two requests agree on what the subrequest builder and the submission loop
read and write: the two streams, the cursor of the rolling buffer, the write
size and the subrequest counter. -/
structure plan_eq (a b : netfs_io_request) : Prop where
  streams : ∀ t, a.stream t = b.stream t
  iter : a.buffer.iter = b.buffer.iter
  wsize : a.wsize = b.wsize
  subreq_counter : a.subreq_counter = b.subreq_counter

/-- Two runs, from `a` to `a'` and from `b` to `b'`, end in agreement and have
made the same dispatches in the same order. -/
def plan_sync (a b a' b' : netfs_io_request) : Prop :=
  plan_eq a' b' ∧
  ∃ D : List netfs_event, a'.dispatches = a.dispatches ++ D ∧ b'.dispatches = b.dispatches ++ D

/-- The request as the submission loop of `netfs_write_folio_single` finds it
when a stream is available: the tail of the last page has been zero-filled, the
folio has been attached to the rolling buffer and both streams have been given
their submission points. -/
def netfs_write_folio_single_ready (wreq : netfs_io_request) (folio : folio) :
    netfs_io_request :=
  let fsize : Nat := folio.size
  let room : Nat := wrap_sub U64 wreq.i_size folio.pos
  let flen : Nat := if fsize > room then room else fsize
  let wreq : netfs_io_request :=
    if fsize > room then wreq.emit (netfs_event.folio_zero_segment folio flen fsize) else wreq
  let wreq : netfs_io_request := wreq.emit (netfs_event.folio_get folio)
  let wreq : netfs_io_request := rolling_buffer_append wreq folio
  let submit : netfs_io_stream → netfs_io_stream := fun stream =>
    if !stream.avail then { stream with submit_off := UINT_MAX, submit_len := 0 }
    else { stream with submit_off := 0, submit_len := flen % U32 }
  { wreq with io_streams0 := submit wreq.io_streams0, io_streams1 := submit wreq.io_streams1 }

/-- The end of `netfs_write_folio_single` after the loop: move the buffer cursor
to the end of the folio and store `issued_to`. -/
def netfs_write_folio_single_finish (wreq : netfs_io_request) (folio : folio)
    (iter_off : Nat) : netfs_io_request :=
  let wreq : netfs_io_request :=
    if folio.size > iter_off then rolling_buffer_advance wreq (folio.size - iter_off) else wreq
  atomic64_set_issued_to wreq (folio.pos + folio.size)

/-- The amounts by which `rolling_buffer_advance` has moved the cursor of the
rolling buffer, in the order of the calls. -/
def netfs_io_request.cursor_advances (w : netfs_io_request) : List Nat :=
  w.events.filterMap (fun e => match e with
    | netfs_event.rolling_buffer_advance n => some n
    | _ => none)

/-- The start byte of each subrequest of a stream with the position at which
its iterator, the snapshot of the buffer cursor taken by `netfs_prepare_write`,
starts. -/
def netfs_io_stream.snapshots (st : netfs_io_stream) : List (Nat × Nat) :=
  st.subrequests.map (fun q => (q.start, q.io_iter.pos))

/-! # Theorems -/

/-! ## Frame lemmas for the accessors of a request -/

@[simp] theorem stream_set_stream (w : netfs_io_request) (s : Nat) (st : netfs_io_stream) :
    (w.set_stream s st).stream s = st := by
  unfold netfs_io_request.set_stream netfs_io_request.stream
  by_cases h : s = 0 <;> simp [h]

theorem stream_set_stream_ne (w : netfs_io_request) (s t : Nat) (st : netfs_io_stream)
    (h : ¬(s = 0 ↔ t = 0)) : (w.set_stream s st).stream t = w.stream t := by
  unfold netfs_io_request.set_stream netfs_io_request.stream
  by_cases hs : s = 0 <;> by_cases ht : t = 0 <;> simp_all

@[simp] theorem stream_set_stream_01 (w : netfs_io_request) (st : netfs_io_stream) :
    (w.set_stream 0 st).stream 1 = w.stream 1 :=
  stream_set_stream_ne w 0 1 st (by decide)

@[simp] theorem stream_set_stream_10 (w : netfs_io_request) (st : netfs_io_stream) :
    (w.set_stream 1 st).stream 0 = w.stream 0 :=
  stream_set_stream_ne w 1 0 st (by decide)

@[simp] theorem stream_emit (w : netfs_io_request) (e : netfs_event) (s : Nat) :
    (w.emit e).stream s = w.stream s := rfl

@[simp] theorem stream_zero (w : netfs_io_request) : w.stream 0 = w.io_streams0 := rfl

@[simp] theorem stream_one (w : netfs_io_request) : w.stream 1 = w.io_streams1 := rfl

@[simp] theorem set_stream_zero (w : netfs_io_request) (st : netfs_io_stream) :
    w.set_stream 0 st = { w with io_streams0 := st } := rfl

@[simp] theorem set_stream_one (w : netfs_io_request) (st : netfs_io_stream) :
    w.set_stream 1 st = { w with io_streams1 := st } := rfl

@[simp] theorem emit_origin (w : netfs_io_request) (e : netfs_event) :
    (w.emit e).origin = w.origin := rfl

@[simp] theorem set_stream_origin (w : netfs_io_request) (s : Nat) (st : netfs_io_stream) :
    (w.set_stream s st).origin = w.origin := by
  unfold netfs_io_request.set_stream
  split <;> rfl

@[simp] theorem emit_start (w : netfs_io_request) (e : netfs_event) :
    (w.emit e).start = w.start := rfl

@[simp] theorem set_stream_start (w : netfs_io_request) (s : Nat) (st : netfs_io_stream) :
    (w.set_stream s st).start = w.start := by
  unfold netfs_io_request.set_stream
  split <;> rfl

@[simp] theorem emit_len (w : netfs_io_request) (e : netfs_event) :
    (w.emit e).len = w.len := rfl

@[simp] theorem set_stream_len (w : netfs_io_request) (s : Nat) (st : netfs_io_stream) :
    (w.set_stream s st).len = w.len := by
  unfold netfs_io_request.set_stream
  split <;> rfl

@[simp] theorem emit_i_size (w : netfs_io_request) (e : netfs_event) :
    (w.emit e).i_size = w.i_size := rfl

@[simp] theorem set_stream_i_size (w : netfs_io_request) (s : Nat) (st : netfs_io_stream) :
    (w.set_stream s st).i_size = w.i_size := by
  unfold netfs_io_request.set_stream
  split <;> rfl

@[simp] theorem emit_inode_i_size (w : netfs_io_request) (e : netfs_event) :
    (w.emit e).inode_i_size = w.inode_i_size := rfl

@[simp] theorem set_stream_inode_i_size (w : netfs_io_request) (s : Nat) (st : netfs_io_stream) :
    (w.set_stream s st).inode_i_size = w.inode_i_size := by
  unfold netfs_io_request.set_stream
  split <;> rfl

@[simp] theorem emit_wsize (w : netfs_io_request) (e : netfs_event) :
    (w.emit e).wsize = w.wsize := rfl

@[simp] theorem set_stream_wsize (w : netfs_io_request) (s : Nat) (st : netfs_io_stream) :
    (w.set_stream s st).wsize = w.wsize := by
  unfold netfs_io_request.set_stream
  split <;> rfl

@[simp] theorem emit_issued_to (w : netfs_io_request) (e : netfs_event) :
    (w.emit e).issued_to = w.issued_to := rfl

@[simp] theorem set_stream_issued_to (w : netfs_io_request) (s : Nat) (st : netfs_io_stream) :
    (w.set_stream s st).issued_to = w.issued_to := by
  unfold netfs_io_request.set_stream
  split <;> rfl

@[simp] theorem emit_cleaned_to (w : netfs_io_request) (e : netfs_event) :
    (w.emit e).cleaned_to = w.cleaned_to := rfl

@[simp] theorem set_stream_cleaned_to (w : netfs_io_request) (s : Nat) (st : netfs_io_stream) :
    (w.set_stream s st).cleaned_to = w.cleaned_to := by
  unfold netfs_io_request.set_stream
  split <;> rfl

@[simp] theorem emit_group (w : netfs_io_request) (e : netfs_event) :
    (w.emit e).group = w.group := rfl

@[simp] theorem set_stream_group (w : netfs_io_request) (s : Nat) (st : netfs_io_stream) :
    (w.set_stream s st).group = w.group := by
  unfold netfs_io_request.set_stream
  split <;> rfl

@[simp] theorem emit_nr_group_rel (w : netfs_io_request) (e : netfs_event) :
    (w.emit e).nr_group_rel = w.nr_group_rel := rfl

@[simp] theorem set_stream_nr_group_rel (w : netfs_io_request) (s : Nat) (st : netfs_io_stream) :
    (w.set_stream s st).nr_group_rel = w.nr_group_rel := by
  unfold netfs_io_request.set_stream
  split <;> rfl

@[simp] theorem emit_subreq_counter (w : netfs_io_request) (e : netfs_event) :
    (w.emit e).subreq_counter = w.subreq_counter := rfl

@[simp] theorem set_stream_subreq_counter (w : netfs_io_request) (s : Nat) (st : netfs_io_stream) :
    (w.set_stream s st).subreq_counter = w.subreq_counter := by
  unfold netfs_io_request.set_stream
  split <;> rfl

@[simp] theorem emit_error (w : netfs_io_request) (e : netfs_event) :
    (w.emit e).error = w.error := rfl

@[simp] theorem set_stream_error (w : netfs_io_request) (s : Nat) (st : netfs_io_stream) :
    (w.set_stream s st).error = w.error := by
  unfold netfs_io_request.set_stream
  split <;> rfl

@[simp] theorem emit_NETFS_RREQ_ALL_QUEUED (w : netfs_io_request) (e : netfs_event) :
    (w.emit e).NETFS_RREQ_ALL_QUEUED = w.NETFS_RREQ_ALL_QUEUED := rfl

@[simp] theorem set_stream_NETFS_RREQ_ALL_QUEUED (w : netfs_io_request) (s : Nat) (st : netfs_io_stream) :
    (w.set_stream s st).NETFS_RREQ_ALL_QUEUED = w.NETFS_RREQ_ALL_QUEUED := by
  unfold netfs_io_request.set_stream
  split <;> rfl

@[simp] theorem emit_NETFS_RREQ_UPLOAD_TO_SERVER (w : netfs_io_request) (e : netfs_event) :
    (w.emit e).NETFS_RREQ_UPLOAD_TO_SERVER = w.NETFS_RREQ_UPLOAD_TO_SERVER := rfl

@[simp] theorem set_stream_NETFS_RREQ_UPLOAD_TO_SERVER (w : netfs_io_request) (s : Nat) (st : netfs_io_stream) :
    (w.set_stream s st).NETFS_RREQ_UPLOAD_TO_SERVER = w.NETFS_RREQ_UPLOAD_TO_SERVER := by
  unfold netfs_io_request.set_stream
  split <;> rfl

@[simp] theorem emit_NETFS_RREQ_PAUSE (w : netfs_io_request) (e : netfs_event) :
    (w.emit e).NETFS_RREQ_PAUSE = w.NETFS_RREQ_PAUSE := rfl

@[simp] theorem set_stream_NETFS_RREQ_PAUSE (w : netfs_io_request) (s : Nat) (st : netfs_io_stream) :
    (w.set_stream s st).NETFS_RREQ_PAUSE = w.NETFS_RREQ_PAUSE := by
  unfold netfs_io_request.set_stream
  split <;> rfl

@[simp] theorem emit_NETFS_RREQ_FAILED (w : netfs_io_request) (e : netfs_event) :
    (w.emit e).NETFS_RREQ_FAILED = w.NETFS_RREQ_FAILED := rfl

@[simp] theorem set_stream_NETFS_RREQ_FAILED (w : netfs_io_request) (s : Nat) (st : netfs_io_stream) :
    (w.set_stream s st).NETFS_RREQ_FAILED = w.NETFS_RREQ_FAILED := by
  unfold netfs_io_request.set_stream
  split <;> rfl

@[simp] theorem emit_NETFS_RREQ_OFFLOAD_COLLECTION (w : netfs_io_request) (e : netfs_event) :
    (w.emit e).NETFS_RREQ_OFFLOAD_COLLECTION = w.NETFS_RREQ_OFFLOAD_COLLECTION := rfl

@[simp] theorem set_stream_NETFS_RREQ_OFFLOAD_COLLECTION (w : netfs_io_request) (s : Nat) (st : netfs_io_stream) :
    (w.set_stream s st).NETFS_RREQ_OFFLOAD_COLLECTION = w.NETFS_RREQ_OFFLOAD_COLLECTION := by
  unfold netfs_io_request.set_stream
  split <;> rfl

@[simp] theorem emit_buffer (w : netfs_io_request) (e : netfs_event) :
    (w.emit e).buffer = w.buffer := rfl

@[simp] theorem set_stream_buffer (w : netfs_io_request) (s : Nat) (st : netfs_io_stream) :
    (w.set_stream s st).buffer = w.buffer := by
  unfold netfs_io_request.set_stream
  split <;> rfl

@[simp] theorem set_stream_events (w : netfs_io_request) (s : Nat) (st : netfs_io_stream) :
    (w.set_stream s st).events = w.events := by
  unfold netfs_io_request.set_stream
  split <;> rfl

@[simp] theorem emit_events (w : netfs_io_request) (e : netfs_event) :
    (w.emit e).events = w.events ++ [e] := rfl

theorem builder_frame_refl (w : netfs_io_request) : builder_frame w w :=
  ⟨rfl, rfl, rfl, rfl, rfl, rfl, rfl, rfl, rfl, rfl, rfl, rfl, rfl, rfl, rfl, rfl, rfl⟩

theorem builder_frame_trans {a b c : netfs_io_request} (h1 : builder_frame a b)
    (h2 : builder_frame b c) : builder_frame a c :=
  ⟨h2.origin.trans h1.origin, h2.start.trans h1.start, h2.len.trans h1.len,
   h2.i_size.trans h1.i_size, h2.inode_i_size.trans h1.inode_i_size,
   h2.wsize.trans h1.wsize, h2.issued_to.trans h1.issued_to,
   h2.cleaned_to.trans h1.cleaned_to, h2.group.trans h1.group,
   h2.nr_group_rel.trans h1.nr_group_rel, h2.error.trans h1.error,
   h2.all_queued.trans h1.all_queued, h2.upload_to_server.trans h1.upload_to_server,
   h2.pause.trans h1.pause, h2.failed.trans h1.failed, h2.offload.trans h1.offload,
   h2.buffer.trans h1.buffer⟩

theorem stream_static_refl (st : netfs_io_stream) : stream_static st st :=
  ⟨rfl, rfl, rfl, rfl⟩

theorem stream_static_trans {a b c : netfs_io_stream} (h1 : stream_static a b)
    (h2 : stream_static b c) : stream_static a c :=
  ⟨h2.source.trans h1.source, h2.stream_nr.trans h1.stream_nr,
   h2.prepare_write.trans h1.prepare_write, h2.avail.trans h1.avail⟩

theorem builder_frame_set_stream (w : netfs_io_request) (s : Nat) (st : netfs_io_stream) :
    builder_frame w (w.set_stream s st) := by
  constructor <;> simp

theorem builder_frame_emit (w : netfs_io_request) (e : netfs_event) :
    builder_frame w (w.emit e) := by
  constructor <;> rfl

@[simp] theorem prepare_subreq_len (w : netfs_io_request) (st : netfs_io_stream) (start : Nat) :
    (netfs_prepare_write_subreq w st start).len = 0 := by
  simp only [netfs_prepare_write_subreq, netfs_prepare_write_failed, netfs_prepare_write_alloc,
    netfs_alloc_subrequest]
  split <;> rfl

@[simp] theorem prepare_subreq_nr_segs (w : netfs_io_request) (st : netfs_io_stream)
    (start : Nat) : (netfs_prepare_write_subreq w st start).nr_segs = 0 := by
  simp only [netfs_prepare_write_subreq, netfs_prepare_write_failed, netfs_prepare_write_alloc,
    netfs_alloc_subrequest]
  split <;> rfl

@[simp] theorem prepare_subreq_start (w : netfs_io_request) (st : netfs_io_stream)
    (start : Nat) : (netfs_prepare_write_subreq w st start).start = start := by
  simp only [netfs_prepare_write_subreq, netfs_prepare_write_failed, netfs_prepare_write_alloc,
    netfs_alloc_subrequest]
  split <;> rfl

/-! ## The builder seen from one stream: properties -/

theorem sum_map_set {α : Type} (f : α → Nat) (l : List α) (i : Nat) (x d : α)
    (h : i < l.length) :
    ((l.set i x).map f).sum + f (l.getD i d) = (l.map f).sum + f x := by
  induction l generalizing i with
  | nil => simp at h
  | cons a t ih =>
    cases i with
    | zero => simp; omega
    | succ n =>
      have := ih n (by simpa using h)
      simp at this ⊢
      omega

theorem map_set_getD {α β : Type} (f : α → β) (g : α → α) (hf : ∀ q, f (g q) = f q)
    (l : List α) (i : Nat) (d : α) :
    (l.set i (g (l.getD i d))).map f = l.map f := by
  induction l generalizing i with
  | nil => simp
  | cons a t ih =>
    cases i with
    | zero => simp [hf]
    | succ n => simpa using ih n

@[simp] theorem frozen_len (q : netfs_io_subrequest) : (netfs_frozen q).len = q.len := rfl
@[simp] theorem frozen_start (q : netfs_io_subrequest) : (netfs_frozen q).start = q.start := rfl
@[simp] theorem frozen_nr_segs (q : netfs_io_subrequest) :
    (netfs_frozen q).nr_segs = q.nr_segs := rfl

@[simp] theorem store_subrequests (st : netfs_io_stream) (i : Nat) (q : netfs_io_subrequest) :
    (st.store i q).subrequests = st.subrequests.set i q := rfl

theorem deref_lt (st : netfs_io_stream) (i : Nat) (h : i < st.subrequests.length) :
    st.deref i = st.subrequests[i] := by
  unfold netfs_io_stream.deref
  exact List.getD_eq_getElem _ _ h

theorem deref_mem (st : netfs_io_stream) (i : Nat) (h : i < st.subrequests.length) :
    st.deref i ∈ st.subrequests := by
  rw [deref_lt st i h]
  exact List.getElem_mem h

/-! ### `issued` -/

theorem issued_none (st : netfs_io_stream) (h : st.construct = none) : st.issued = st := by
  simp [netfs_io_stream.issued, h]

@[simp] theorem issued_construct (st : netfs_io_stream) : st.issued.construct = none := by
  unfold netfs_io_stream.issued
  cases h : st.construct <;> simp [h]

theorem issued_map {β : Type} (f : netfs_io_subrequest → β)
    (hf : ∀ q, f (netfs_frozen q) = f q) (st : netfs_io_stream) :
    st.issued.subrequests.map f = st.subrequests.map f := by
  unfold netfs_io_stream.issued
  cases h : st.construct with
  | none => rfl
  | some i => exact map_set_getD f netfs_frozen hf _ _ _

@[simp] theorem issued_length (st : netfs_io_stream) :
    st.issued.subrequests.length = st.subrequests.length := by
  have := congrArg List.length (issued_map (fun _ => ()) (fun _ => rfl) st)
  simpa using this

theorem issued_static (st : netfs_io_stream) : stream_static st st.issued := by
  unfold netfs_io_stream.issued
  cases h : st.construct <;> constructor <;> rfl

@[simp] theorem issued_sreq_max_len (st : netfs_io_stream) :
    st.issued.sreq_max_len = st.sreq_max_len := by
  unfold netfs_io_stream.issued
  cases h : st.construct <;> rfl

@[simp] theorem issued_sreq_max_segs (st : netfs_io_stream) :
    st.issued.sreq_max_segs = st.sreq_max_segs := by
  unfold netfs_io_stream.issued
  cases h : st.construct <;> rfl

theorem issued_range (st : netfs_io_stream)
    (h : ∀ q ∈ st.subrequests, q.start + q.len < U64 ∧ q.nr_segs < U32) :
    ∀ q ∈ st.issued.subrequests, q.start + q.len < U64 ∧ q.nr_segs < U32 := by
  have hm := issued_map (fun q => (q.start, q.len, q.nr_segs)) (fun _ => rfl) st
  intro q hq
  have : (q.start, q.len, q.nr_segs) ∈ st.issued.subrequests.map
      (fun q => (q.start, q.len, q.nr_segs)) := List.mem_map_of_mem _ hq
  rw [hm] at this
  obtain ⟨p, hp, he⟩ := List.mem_map.mp this
  have := h p hp
  simp only [Prod.mk.injEq] at he
  obtain ⟨h1, h2, h3⟩ := he
  rw [← h1, ← h2, ← h3]
  exact this

theorem issued_ok (st : netfs_io_stream) (h : stream_ok st) : stream_ok st.issued := by
  obtain ⟨h1, h2, h3, _⟩ := h
  refine ⟨by simpa using h1, by simpa using h2, issued_range st h3, ?_⟩
  rw [issued_construct]
  trivial

/-! ### `prepared` and `opened` -/

theorem limits_in_range_static {st st' : netfs_io_stream} (wsize : Nat)
    (h : stream_static st st') (hl : limits_in_range wsize st) : limits_in_range wsize st' := by
  unfold limits_in_range at *
  rw [h.source, h.prepare_write]
  exact hl

theorem limits_pos_static {st st' : netfs_io_stream} (wsize : Nat)
    (h : stream_static st st') (hl : limits_pos wsize st) : limits_pos wsize st' := by
  unfold limits_pos at *
  rw [h.source, h.prepare_write]
  exact hl

theorem prepared_static (st : netfs_io_stream) (w : netfs_io_request) (start : Nat) :
    stream_static st (st.prepared w start) := by
  constructor <;> rfl

theorem opened_static (st : netfs_io_stream) (w : netfs_io_request) (start : Nat) :
    stream_static st (st.opened w start) := by
  unfold netfs_io_stream.opened
  split
  · exact stream_static_trans (issued_static st) (prepared_static _ w start)
  · exact stream_static_refl st

theorem fresh_receiver (st : netfs_io_stream) (start : Nat) (h : st.fresh start = true) :
    netfs_receiver st start = st.subrequests.length ∧ netfs_held_len st start = 0 ∧
      netfs_held_segs st start = 0 := by
  unfold netfs_io_stream.fresh at h
  unfold netfs_receiver netfs_held_len netfs_held_segs
  cases hc : st.construct with
  | none => simp
  | some i =>
    rw [hc] at h
    have h' := of_decide_eq_true h
    simp [h']

theorem contiguous_receiver (st : netfs_io_stream) (start : Nat) (h : st.fresh start = false) :
    ∃ i, st.construct = some i ∧ start = wrap_add U64 (st.deref i).start (st.deref i).len ∧
      netfs_receiver st start = i ∧ netfs_held_len st start = (st.deref i).len ∧
      netfs_held_segs st start = (st.deref i).nr_segs := by
  unfold netfs_io_stream.fresh at h
  unfold netfs_receiver netfs_held_len netfs_held_segs
  cases hc : st.construct with
  | none => rw [hc] at h; simp at h
  | some i =>
    rw [hc] at h
    have h' : start = wrap_add U64 (st.deref i).start (st.deref i).len := by
      simpa using h
    exact ⟨i, rfl, h', by simp [← h'], by simp [← h'], by simp [← h']⟩

theorem opened_fresh (st : netfs_io_stream) (w : netfs_io_request) (start : Nat)
    (h : st.fresh start = true) : st.opened w start = st.issued.prepared w start := by
  simp [netfs_io_stream.opened, h]

theorem opened_contiguous (st : netfs_io_stream) (w : netfs_io_request) (start : Nat)
    (h : st.fresh start = false) : st.opened w start = st := by
  simp [netfs_io_stream.opened, h]

theorem opened_construct (st : netfs_io_stream) (w : netfs_io_request) (start : Nat) :
    (st.opened w start).construct = some (netfs_receiver st start) := by
  cases hf : st.fresh start with
  | true =>
    rw [opened_fresh st w start hf, (fresh_receiver st start hf).1]
    simp [netfs_io_stream.prepared]
  | false =>
    obtain ⟨i, hc, _, hr, _, _⟩ := contiguous_receiver st start hf
    rw [opened_contiguous st w start hf, hr, hc]

theorem prepared_deref (st : netfs_io_stream) (w : netfs_io_request) (start : Nat) :
    (st.prepared w start).deref st.subrequests.length =
      netfs_prepare_write_subreq w st start := by
  simp [netfs_io_stream.deref, netfs_io_stream.prepared]

theorem opened_open (st : netfs_io_stream) (w : netfs_io_request) (start : Nat)
    (hok : stream_ok st) (hlim : limits_in_range w.wsize st) (hstart : start < U64) :
    stream_open (st.opened w start) (netfs_receiver st start) start := by
  obtain ⟨h1, h2, h3, h4⟩ := hok
  cases hf : st.fresh start with
  | true =>
    obtain ⟨hr, _, _⟩ := fresh_receiver st start hf
    rw [opened_fresh st w start hf, hr]
    have hlim' := limits_in_range_static w.wsize (issued_static st) hlim
    have hd := prepared_deref st.issued w start
    rw [issued_length] at hd
    refine ⟨by simp [netfs_io_stream.prepared], by simp [netfs_io_stream.prepared], ?_, ?_, ?_,
      (hlim' _).1, (hlim' _).2, ?_⟩
    · rw [hd]; simp
    · rw [hd]; simp
    · rw [hd]; simp [U32]
    · intro q hq
      simp only [netfs_io_stream.prepared, List.mem_append, List.mem_singleton] at hq
      rcases hq with hq | hq
      · exact issued_range st h3 q hq
      · subst hq
        simp [hstart, U32]
  | false =>
    obtain ⟨i, hc, he, hr, _, _⟩ := contiguous_receiver st start hf
    rw [opened_contiguous st w start hf, hr]
    rw [hc] at h4
    change _ ∧ _ ∧ _ at h4
    have hm := h3 _ (deref_mem st i h4.1)
    have he' : (st.deref i).start + (st.deref i).len = start := by
      rw [he]
      unfold wrap_add
      exact (Nat.mod_eq_of_lt hm.1).symm
    have h5 := h4.2.2
    exact ⟨hc, h4.1, he', Nat.le_of_lt h4.2.1, by omega, h1, h2, h3⟩

theorem opened_held (st : netfs_io_stream) (w : netfs_io_request) (start : Nat) :
    ((st.opened w start).deref (netfs_receiver st start)).len = netfs_held_len st start ∧
    ((st.opened w start).deref (netfs_receiver st start)).nr_segs = netfs_held_segs st start := by
  cases hf : st.fresh start with
  | true =>
    obtain ⟨hr, hl, hs⟩ := fresh_receiver st start hf
    have hd := prepared_deref st.issued w start
    rw [issued_length] at hd
    rw [opened_fresh st w start hf, hr, hl, hs, hd]
    simp
  | false =>
    obtain ⟨i, _, _, hr, hl, hs⟩ := contiguous_receiver st start hf
    rw [opened_contiguous st w start hf, hr, hl, hs]
    exact ⟨rfl, rfl⟩

/-! ### `grown` -/

theorem open_part {st : netfs_io_stream} {j start : Nat} (h : stream_open st j start)
    (len : Nat) : st.part len = min (st.sreq_max_len - (st.deref j).len) len := by
  have h1 := h.len_le
  have h2 := h.max_len
  unfold netfs_io_stream.part umin wrap_sub
  rw [h.construct]
  simp only [Option.getD_some]
  unfold U64 at *
  split <;> omega

theorem open_part_le {st : netfs_io_stream} {j start : Nat} (h : stream_open st j start)
    (len : Nat) : st.part len ≤ len := by
  rw [open_part h]
  exact Nat.min_le_right _ _

theorem open_grown_len {st : netfs_io_stream} {j start : Nat} (h : stream_open st j start)
    (len : Nat) : (st.grown_subreq len).len = (st.deref j).len + st.part len := by
  have h1 := h.len_le
  have h2 := h.max_len
  have h3 := open_part h len
  unfold netfs_io_stream.grown_subreq wrap_add
  rw [h.construct]
  simp only [Option.getD_some]
  apply Nat.mod_eq_of_lt
  unfold U64 at *
  omega

theorem open_grown_segs {st : netfs_io_stream} {j start : Nat} (h : stream_open st j start)
    (len : Nat) : (st.grown_subreq len).nr_segs = (st.deref j).nr_segs + 1 := by
  unfold netfs_io_stream.grown_subreq wrap_add
  rw [h.construct]
  simp only [Option.getD_some]
  exact Nat.mod_eq_of_lt h.segs_lt

theorem open_grown_start {st : netfs_io_stream} {j start : Nat} (h : stream_open st j start)
    (len : Nat) : (st.grown_subreq len).start = (st.deref j).start := by
  unfold netfs_io_stream.grown_subreq
  rw [h.construct]
  rfl

theorem grown_subrequests {st : netfs_io_stream} {j start : Nat} (h : stream_open st j start)
    (len : Nat) (to_eof : Bool) :
    (st.grown len to_eof).subrequests =
      st.subrequests.set j
        (if st.full len to_eof then netfs_frozen (st.grown_subreq len) else st.grown_subreq len) := by
  unfold netfs_io_stream.grown
  by_cases hc : st.full len to_eof
  · rw [if_pos hc, if_pos hc]
    unfold netfs_io_stream.issued netfs_io_stream.grow
    simp [h.construct, netfs_io_stream.deref, netfs_io_stream.store, h.lt]
  · rw [if_neg hc, if_neg hc]
    unfold netfs_io_stream.grow
    simp [h.construct]

theorem grown_construct {st : netfs_io_stream} {j start : Nat} (h : stream_open st j start)
    (len : Nat) (to_eof : Bool) :
    (st.grown len to_eof).construct = if st.full len to_eof then none else some j := by
  unfold netfs_io_stream.grown
  by_cases hc : st.full len to_eof
  · rw [if_pos hc, if_pos hc]; simp
  · rw [if_neg hc, if_neg hc]; exact h.construct

theorem grow_static (st : netfs_io_stream) (len : Nat) : stream_static st (st.grow len) :=
  ⟨rfl, rfl, rfl, rfl⟩

theorem grown_static (st : netfs_io_stream) (len : Nat) (to_eof : Bool) :
    stream_static st (st.grown len to_eof) := by
  unfold netfs_io_stream.grown
  split
  · exact stream_static_trans (grow_static st len) (issued_static _)
  · exact grow_static st len

@[simp] theorem grown_sreq_max_len (st : netfs_io_stream) (len : Nat) (to_eof : Bool) :
    (st.grown len to_eof).sreq_max_len = st.sreq_max_len := by
  unfold netfs_io_stream.grown
  split
  · rw [issued_sreq_max_len]; rfl
  · rfl

@[simp] theorem grown_sreq_max_segs (st : netfs_io_stream) (len : Nat) (to_eof : Bool) :
    (st.grown len to_eof).sreq_max_segs = st.sreq_max_segs := by
  unfold netfs_io_stream.grown
  split
  · rw [issued_sreq_max_segs]; rfl
  · rfl

theorem grown_sum {st : netfs_io_stream} {j start : Nat} (h : stream_open st j start)
    (len : Nat) (to_eof : Bool) :
    ((st.grown len to_eof).subrequests.map (fun q => q.len)).sum =
      (st.subrequests.map (fun q => q.len)).sum + st.part len := by
  rw [grown_subrequests h]
  have hs := sum_map_set (fun q : netfs_io_subrequest => q.len) st.subrequests j
    (if st.full len to_eof then netfs_frozen (st.grown_subreq len) else st.grown_subreq len)
    default h.lt
  have hl : (if st.full len to_eof then netfs_frozen (st.grown_subreq len)
      else st.grown_subreq len).len = (st.deref j).len + st.part len := by
    split <;> simp [open_grown_len h]
  simp only [hl] at hs
  unfold netfs_io_stream.deref at hs
  omega

theorem grown_deref {st : netfs_io_stream} {j start : Nat} (h : stream_open st j start)
    (len : Nat) (to_eof : Bool) :
    (st.grown len to_eof).deref j =
      if st.full len to_eof then netfs_frozen (st.grown_subreq len) else st.grown_subreq len := by
  unfold netfs_io_stream.deref
  rw [grown_subrequests h]
  simp [h.lt]

theorem grown_other {st : netfs_io_stream} {j start : Nat} (h : stream_open st j start)
    (len : Nat) (to_eof : Bool) (k : Nat) (hk : k ≠ j) :
    (st.grown len to_eof).subrequests[k]? = st.subrequests[k]? := by
  rw [grown_subrequests h]
  simp [List.getElem?_set, Ne.symm hk]

@[simp] theorem grown_length {st : netfs_io_stream} {j start : Nat} (h : stream_open st j start)
    (len : Nat) (to_eof : Bool) :
    (st.grown len to_eof).subrequests.length = st.subrequests.length := by
  rw [grown_subrequests h]
  simp

theorem grown_ok {st : netfs_io_stream} {j start : Nat} (h : stream_open st j start)
    (len : Nat) (to_eof : Bool) (hlen : start + len < U64) :
    stream_ok (st.grown len to_eof) := by
  have hd := grown_deref h len to_eof
  have hgl := open_grown_len h len
  have hgs := open_grown_segs h len
  have hgst := open_grown_start h len
  have hpl := open_part_le h len
  have hends := h.ends
  refine ⟨by simpa using h.max_len, by simpa using h.max_segs, ?_, ?_⟩
  · intro q hq
    rw [grown_subrequests h] at hq
    rcases List.mem_or_eq_of_mem_set hq with hq | hq
    · exact h.range q hq
    · have hsl := h.segs_lt
      subst hq
      split <;> simp only [frozen_start, frozen_len, frozen_nr_segs, hgl, hgs, hgst] <;>
        constructor <;> omega
  · rw [grown_construct h]
    by_cases hc : st.full len to_eof
    · rw [if_pos hc]
      trivial
    · rw [if_neg hc]
      show _ ∧ _ ∧ _
      rw [hd, if_neg hc, grown_length h, grown_sreq_max_len, grown_sreq_max_segs]
      unfold netfs_io_stream.full at hc
      refine ⟨h.lt, ?_, ?_⟩ <;> omega

theorem advanced_ok (st : netfs_io_stream) (w : netfs_io_request) (start len : Nat)
    (to_eof : Bool) (hok : stream_ok st) (hlim : limits_in_range w.wsize st)
    (hlen : start + len < U64) : stream_ok ((st.opened w start).grown len to_eof) :=
  grown_ok (opened_open st w start hok hlim (by omega)) len to_eof hlen

theorem advanced_static (st : netfs_io_stream) (w : netfs_io_request) (start len : Nat)
    (to_eof : Bool) : stream_static st ((st.opened w start).grown len to_eof) :=
  stream_static_trans (opened_static st w start) (grown_static _ len to_eof)

/-! ### What an advance does to the entries of the list -/

theorem deref_of_getElem? {st : netfs_io_stream} {k : Nat} {q : netfs_io_subrequest}
    (h : st.subrequests[k]? = some q) : st.deref k = q := by
  unfold netfs_io_stream.deref
  simp [h]

theorem getElem?_deref {st : netfs_io_stream} {k : Nat} (h : k < st.subrequests.length) :
    st.subrequests[k]? = some (st.deref k) := by
  rw [deref_lt st k h]
  exact List.getElem?_eq_getElem h

theorem issued_entry (st : netfs_io_stream) (k : Nat) (q : netfs_io_subrequest)
    (h : st.subrequests[k]? = some q) :
    ∃ q', st.issued.subrequests[k]? = some q' ∧ q'.start = q.start ∧ q'.len = q.len ∧
      q'.nr_segs = q.nr_segs := by
  unfold netfs_io_stream.issued
  cases hc : st.construct with
  | none => exact ⟨q, h, rfl, rfl, rfl⟩
  | some i =>
    by_cases hk : i = k
    · subst hk
      have hlt : i < st.subrequests.length := by
        by_contra hn
        rw [List.getElem?_eq_none (by omega)] at h
        exact Option.noConfusion h
      refine ⟨netfs_frozen (st.deref i), by simp [hlt], ?_⟩
      rw [deref_of_getElem? h]
      exact ⟨rfl, rfl, rfl⟩
    · exact ⟨q, by simp [List.getElem?_set, hk, h], rfl, rfl, rfl⟩

theorem opened_entry (st : netfs_io_stream) (w : netfs_io_request) (start k : Nat)
    (q : netfs_io_subrequest) (h : st.subrequests[k]? = some q) :
    ∃ q', (st.opened w start).subrequests[k]? = some q' ∧ q'.start = q.start ∧
      q'.len = q.len ∧ q'.nr_segs = q.nr_segs := by
  cases hf : st.fresh start with
  | true =>
    rw [opened_fresh st w start hf]
    obtain ⟨q', h1, h2⟩ := issued_entry st k q h
    refine ⟨q', ?_, h2⟩
    have hlt : k < st.issued.subrequests.length := by
      by_contra hn
      rw [List.getElem?_eq_none (by omega)] at h1
      exact Option.noConfusion h1
    simp only [netfs_io_stream.prepared]
    rw [List.getElem?_append_left hlt]
    exact h1
  | false =>
    rw [opened_contiguous st w start hf]
    exact ⟨q, h, rfl, rfl, rfl⟩

theorem opened_length (st : netfs_io_stream) (w : netfs_io_request) (start : Nat) :
    (st.opened w start).subrequests.length =
      st.subrequests.length + (if st.fresh start then 1 else 0) := by
  cases hf : st.fresh start with
  | true =>
    rw [opened_fresh st w start hf]
    simp [netfs_io_stream.prepared]
  | false =>
    rw [opened_contiguous st w start hf]
    simp

theorem grown_entry {st : netfs_io_stream} {j start : Nat} (ho : stream_open st j start)
    (len : Nat) (to_eof : Bool) (k : Nat) (q : netfs_io_subrequest)
    (h : st.subrequests[k]? = some q) :
    ∃ q', (st.grown len to_eof).subrequests[k]? = some q' ∧ q'.start = q.start ∧
      q'.len = q.len + (if k = j then st.part len else 0) ∧
      q'.nr_segs = q.nr_segs + (if k = j then 1 else 0) := by
  by_cases hk : k = j
  · subst hk
    have hd := grown_deref ho len to_eof
    have hq := deref_of_getElem? h
    refine ⟨(st.grown len to_eof).deref k, getElem?_deref (by rw [grown_length ho]; exact ho.lt),
      ?_⟩
    rw [hd, if_pos rfl, if_pos rfl, ← hq]
    split <;>
      simp only [frozen_start, frozen_len, frozen_nr_segs, open_grown_len ho,
        open_grown_segs ho, open_grown_start ho, and_self]
  · refine ⟨q, ?_, rfl, by simp [hk], by simp [hk]⟩
    rw [grown_other ho len to_eof k hk]
    exact h

/-! ### Totals and progress -/

theorem stream_ok_congr {st st' : netfs_io_stream} (h1 : st'.subrequests = st.subrequests)
    (h2 : st'.construct = st.construct) (h3 : st'.sreq_max_len = st.sreq_max_len)
    (h4 : st'.sreq_max_segs = st.sreq_max_segs) (hok : stream_ok st) : stream_ok st' := by
  obtain ⟨a, b, c, d⟩ := hok
  refine ⟨by rw [h3]; exact a, by rw [h4]; exact b, by rw [h1]; exact c, ?_⟩
  rw [h2]
  cases hc : st.construct with
  | none => trivial
  | some i =>
    rw [hc] at d
    change _ ∧ _ ∧ _ at d
    show _ ∧ _ ∧ _
    unfold netfs_io_stream.deref at *
    rw [h1, h3, h4]
    exact d

theorem opened_total (st : netfs_io_stream) (w : netfs_io_request) (start : Nat) :
    (st.opened w start).total_len = st.total_len := by
  unfold netfs_io_stream.total_len
  cases hf : st.fresh start with
  | true =>
    rw [opened_fresh st w start hf]
    simp only [netfs_io_stream.prepared, List.map_append, List.sum_append,
      issued_map (fun q => q.len) (fun _ => rfl)]
    simp
  | false => rw [opened_contiguous st w start hf]

theorem advanced_total (st : netfs_io_stream) (w : netfs_io_request) (start len : Nat)
    (to_eof : Bool) (hok : stream_ok st) (hlim : limits_in_range w.wsize st)
    (hstart : start < U64) :
    ((st.opened w start).grown len to_eof).total_len =
      st.total_len + (st.opened w start).part len := by
  have ho := opened_open st w start hok hlim hstart
  have := grown_sum ho len to_eof
  unfold netfs_io_stream.total_len at *
  rw [this]
  have := opened_total st w start
  unfold netfs_io_stream.total_len at this
  rw [this]

theorem opened_room (st : netfs_io_stream) (w : netfs_io_request) (start : Nat)
    (hok : stream_ok st) (hpos : limits_pos w.wsize st) :
    ((st.opened w start).deref (netfs_receiver st start)).len < (st.opened w start).sreq_max_len := by
  cases hf : st.fresh start with
  | true =>
    obtain ⟨hr, _, _⟩ := fresh_receiver st start hf
    have hd := prepared_deref st.issued w start
    rw [issued_length] at hd
    rw [opened_fresh st w start hf, hr, hd]
    have := limits_pos_static w.wsize (issued_static st) hpos
    simp only [prepare_subreq_len, netfs_io_stream.prepared]
    exact this _
  | false =>
    obtain ⟨i, hc, _, hr, _, _⟩ := contiguous_receiver st start hf
    obtain ⟨_, _, _, hcon⟩ := hok
    rw [hc] at hcon
    change _ ∧ _ ∧ _ at hcon
    rw [opened_contiguous st w start hf, hr]
    exact hcon.2.1

theorem advanced_part_pos (st : netfs_io_stream) (w : netfs_io_request) (start len : Nat)
    (hok : stream_ok st) (hlim : limits_in_range w.wsize st) (hpos : limits_pos w.wsize st)
    (hstart : start < U64) (hlen : 0 < len) :
    0 < (st.opened w start).part len ∧ (st.opened w start).part len ≤ len := by
  have ho := opened_open st w start hok hlim hstart
  have hr := opened_room st w start hok hpos
  rw [open_part ho]
  constructor
  · exact Nat.lt_min.mpr ⟨by omega, hlen⟩
  · exact Nat.min_le_right _ _

theorem issued_submit (st : netfs_io_stream) :
    st.issued.submit_off = st.submit_off ∧ st.issued.submit_len = st.submit_len := by
  unfold netfs_io_stream.issued
  cases h : st.construct <;> exact ⟨rfl, rfl⟩

theorem opened_submit (st : netfs_io_stream) (w : netfs_io_request) (start : Nat) :
    (st.opened w start).submit_off = st.submit_off ∧
    (st.opened w start).submit_len = st.submit_len := by
  unfold netfs_io_stream.opened
  split
  · exact issued_submit st
  · exact ⟨rfl, rfl⟩

theorem grown_submit (st : netfs_io_stream) (len : Nat) (to_eof : Bool) :
    (st.grown len to_eof).submit_off = st.submit_off ∧
    (st.grown len to_eof).submit_len = st.submit_len := by
  unfold netfs_io_stream.grown
  split
  · exact issued_submit (st.grow len)
  · exact ⟨rfl, rfl⟩

theorem advanced_submit (st : netfs_io_stream) (w : netfs_io_request) (start len : Nat)
    (to_eof : Bool) :
    ((st.opened w start).grown len to_eof).submit_off = st.submit_off ∧
    ((st.opened w start).grown len to_eof).submit_len = st.submit_len :=
  ⟨(grown_submit _ len to_eof).1.trans (opened_submit st w start).1,
   (grown_submit _ len to_eof).2.trans (opened_submit st w start).2⟩

/-! ## The subrequest builder, one function at a time -/

/-! ### `netfs_do_issue_write` and `netfs_issue_write` -/

@[simp] theorem do_issue_stream (w : netfs_io_request) (s t : Nat) (q : netfs_io_subrequest) :
    (netfs_do_issue_write w s q).stream t = w.stream t := by
  unfold netfs_do_issue_write
  split <;> rfl

theorem do_issue_frame (w : netfs_io_request) (s : Nat) (q : netfs_io_subrequest) :
    builder_frame w (netfs_do_issue_write w s q) := by
  unfold netfs_do_issue_write
  split <;> exact builder_frame_emit _ _

@[simp] theorem do_issue_counter (w : netfs_io_request) (s : Nat) (q : netfs_io_subrequest) :
    (netfs_do_issue_write w s q).subreq_counter = w.subreq_counter := by
  unfold netfs_do_issue_write
  split <;> rfl

theorem do_issue_events (w : netfs_io_request) (s : Nat) (q : netfs_io_subrequest) :
    (netfs_do_issue_write w s q).events = w.events ++ [netfs_dispatch s q] := by
  unfold netfs_do_issue_write netfs_dispatch
  split <;> simp [*]

theorem issue_none (w : netfs_io_request) (s : Nat) (h : (w.stream s).construct = none) :
    netfs_issue_write w s = w := by
  unfold netfs_issue_write
  simp [h]

theorem issue_stream_eq (w : netfs_io_request) (s i : Nat)
    (h : (w.stream s).construct = some i) :
    (netfs_issue_write w s).stream s =
      { (w.stream s).store i (netfs_frozen ((w.stream s).deref i)) with construct := none } := by
  unfold netfs_issue_write
  simp [h]

theorem issue_stream_ne (w : netfs_io_request) (s t : Nat) (h : ¬(s = 0 ↔ t = 0)) :
    (netfs_issue_write w s).stream t = w.stream t := by
  unfold netfs_issue_write
  cases hc : (w.stream s).construct <;> simp [hc, stream_set_stream_ne _ _ _ _ h]

theorem issue_frame (w : netfs_io_request) (s : Nat) :
    builder_frame w (netfs_issue_write w s) := by
  unfold netfs_issue_write
  cases hc : (w.stream s).construct with
  | none =>
    simp only [hc]
    exact builder_frame_refl w
  | some i =>
    simp only [hc]
    exact builder_frame_trans (builder_frame_set_stream _ _ _) (do_issue_frame _ _ _)

@[simp] theorem issue_counter (w : netfs_io_request) (s : Nat) :
    (netfs_issue_write w s).subreq_counter = w.subreq_counter := by
  unfold netfs_issue_write
  cases hc : (w.stream s).construct <;> simp [hc]

@[simp] theorem issue_construct (w : netfs_io_request) (s : Nat) :
    ((netfs_issue_write w s).stream s).construct = none := by
  cases h : (w.stream s).construct with
  | none => rw [issue_none w s h]; exact h
  | some i => rw [issue_stream_eq w s i h]

theorem issue_events (w : netfs_io_request) (s i : Nat) (h : (w.stream s).construct = some i) :
    (netfs_issue_write w s).events =
      w.events ++ [netfs_dispatch s (netfs_frozen ((w.stream s).deref i))] := by
  unfold netfs_issue_write
  simp [h, do_issue_events]

theorem issue_stream (w : netfs_io_request) (s : Nat) :
    (netfs_issue_write w s).stream s = (w.stream s).issued := by
  unfold netfs_issue_write netfs_io_stream.issued
  cases hc : (w.stream s).construct <;> simp [hc]

/-! ### `netfs_prepare_write` -/

theorem prepare_stream (w : netfs_io_request) (s start : Nat) :
    (netfs_prepare_write w s start).stream s = (w.stream s).prepared w start := by
  simp [netfs_prepare_write, netfs_io_stream.prepared]

theorem prepare_stream_ne (w : netfs_io_request) (s t start : Nat) (h : ¬(s = 0 ↔ t = 0)) :
    (netfs_prepare_write w s start).stream t = w.stream t := by
  simp only [netfs_prepare_write]
  rw [stream_set_stream_ne _ _ _ _ h]
  rfl

theorem prepare_frame (w : netfs_io_request) (s start : Nat) :
    builder_frame w (netfs_prepare_write w s start) := by
  simp only [netfs_prepare_write]
  refine builder_frame_trans ?_ (builder_frame_set_stream _ _ _)
  constructor <;> rfl

@[simp] theorem prepare_counter (w : netfs_io_request) (s start : Nat) :
    (netfs_prepare_write w s start).subreq_counter = w.subreq_counter + 1 := by
  simp [netfs_prepare_write, netfs_alloc_subrequest]

@[simp] theorem prepare_events (w : netfs_io_request) (s start : Nat) :
    (netfs_prepare_write w s start).events = w.events := by
  simp [netfs_prepare_write, netfs_alloc_subrequest]

theorem prepare_alloc_congr (st : netfs_io_stream) (w w' : netfs_io_request) (start : Nat)
    (hc : w'.subreq_counter = w.subreq_counter) (hb : w'.buffer = w.buffer) :
    netfs_prepare_write_alloc w' st start = netfs_prepare_write_alloc w st start := by
  simp [netfs_prepare_write_alloc, netfs_alloc_subrequest, hc, hb]

theorem prepared_congr (st : netfs_io_stream) (w w' : netfs_io_request) (start : Nat)
    (hc : w'.subreq_counter = w.subreq_counter) (hb : w'.buffer = w.buffer)
    (hw : w'.wsize = w.wsize) :
    st.prepared w' start = st.prepared w start := by
  simp only [netfs_io_stream.prepared, netfs_prepare_write_subreq,
    prepare_alloc_congr st w w' start hc hb, hw]

/-! ### `netfs_advance_write` -/

theorem advance_construct_stream (w : netfs_io_request) (s start : Nat) :
    (netfs_advance_write_construct w s start).stream s = (w.stream s).opened w start := by
  unfold netfs_advance_write_construct netfs_io_stream.opened netfs_io_stream.fresh
  cases hc : (w.stream s).construct with
  | none =>
    simp only [hc]
    rw [prepare_stream]
    simp [netfs_io_stream.issued, hc]
  | some i =>
    by_cases hne : start ≠ wrap_add U64 ((w.stream s).deref i).start ((w.stream s).deref i).len
    · simp only [hc, if_pos hne, issue_construct]
      rw [prepare_stream, issue_stream, if_pos (by simpa using hne)]
      exact prepared_congr _ _ _ _ (issue_counter w s) (issue_frame w s).buffer
        (issue_frame w s).wsize
    · have he : start = wrap_add U64 ((w.stream s).deref i).start ((w.stream s).deref i).len :=
        not_not.mp hne
      simp [hc, ← he]

theorem advance_construct_cases (P : netfs_io_request → Prop) (w : netfs_io_request)
    (s start : Nat) (h0 : P w) (h1 : P (netfs_prepare_write w s start))
    (h2 : P (netfs_prepare_write (netfs_issue_write w s) s start)) :
    P (netfs_advance_write_construct w s start) := by
  unfold netfs_advance_write_construct
  cases hc : (w.stream s).construct with
  | none => simp only [hc]; exact h1
  | some i =>
    by_cases hne : start ≠ wrap_add U64 ((w.stream s).deref i).start ((w.stream s).deref i).len
    · simp only [hc, if_pos hne, issue_construct]; exact h2
    · simp only [hc, if_neg hne]; exact h0

theorem advance_construct_stream_ne (w : netfs_io_request) (s t start : Nat)
    (h : ¬(s = 0 ↔ t = 0)) :
    (netfs_advance_write_construct w s start).stream t = w.stream t := by
  apply advance_construct_cases (fun x => x.stream t = w.stream t)
  · rfl
  · exact prepare_stream_ne w s t start h
  · show (netfs_prepare_write (netfs_issue_write w s) s start).stream t = w.stream t
    rw [prepare_stream_ne _ _ _ _ h, issue_stream_ne _ _ _ h]

theorem advance_construct_frame (w : netfs_io_request) (s start : Nat) :
    builder_frame w (netfs_advance_write_construct w s start) := by
  apply advance_construct_cases (fun x => builder_frame w x)
  · exact builder_frame_refl w
  · exact prepare_frame w s start
  · exact builder_frame_trans (issue_frame w s) (prepare_frame _ s start)

theorem advance_eq (w : netfs_io_request) (s start len : Nat) (to_eof : Bool)
    (hav : (w.stream s).avail = true) :
    netfs_advance_write w s start len to_eof =
      (let w1 := netfs_advance_write_construct w s start
       let st := w1.stream s
       let w2 := w1.set_stream s
         { st.store (st.construct.getD 0) (st.grown_subreq len) with
           submit_extendable_to := wrap_sub U32 st.submit_extendable_to (st.part len) }
       (if st.sreq_max_len ≤ (st.grown_subreq len).len ∨
           st.sreq_max_segs ≤ (st.grown_subreq len).nr_segs ∨ to_eof = true
        then netfs_issue_write w2 s else w2, st.part len)) := by
  unfold netfs_advance_write
  rw [if_neg (by simp [hav])]
  rfl

theorem advance_stream (w : netfs_io_request) (s start len : Nat) (to_eof : Bool)
    (hav : (w.stream s).avail = true) :
    (netfs_advance_write w s start len to_eof).1.stream s =
      ((w.stream s).opened w start).grown len to_eof := by
  rw [advance_eq w s start len to_eof hav]
  simp only [advance_construct_stream]
  unfold netfs_io_stream.grown netfs_io_stream.full netfs_io_stream.grow
  split
  · rw [issue_stream, stream_set_stream]
  · rw [stream_set_stream]

theorem advance_part (w : netfs_io_request) (s start len : Nat) (to_eof : Bool)
    (hav : (w.stream s).avail = true) :
    (netfs_advance_write w s start len to_eof).2 = ((w.stream s).opened w start).part len := by
  rw [advance_eq w s start len to_eof hav]
  simp only [advance_construct_stream]

theorem advance_unavailable (w : netfs_io_request) (s start len : Nat) (to_eof : Bool)
    (hav : (w.stream s).avail = false) :
    netfs_advance_write w s start len to_eof = (w, len) := by
  unfold netfs_advance_write
  simp [hav]

theorem advance_stream_ne (w : netfs_io_request) (s t start len : Nat) (to_eof : Bool)
    (h : ¬(s = 0 ↔ t = 0)) :
    (netfs_advance_write w s start len to_eof).1.stream t = w.stream t := by
  cases hav : (w.stream s).avail with
  | false => rw [advance_unavailable w s start len to_eof hav]
  | true =>
    rw [advance_eq w s start len to_eof hav]
    simp only []
    split
    · rw [issue_stream_ne _ _ _ h, stream_set_stream_ne _ _ _ _ h,
        advance_construct_stream_ne _ _ _ _ h]
    · rw [stream_set_stream_ne _ _ _ _ h, advance_construct_stream_ne _ _ _ _ h]

theorem advance_frame (w : netfs_io_request) (s start len : Nat) (to_eof : Bool) :
    builder_frame w (netfs_advance_write w s start len to_eof).1 := by
  cases hav : (w.stream s).avail with
  | false => rw [advance_unavailable w s start len to_eof hav]; exact builder_frame_refl w
  | true =>
    rw [advance_eq w s start len to_eof hav]
    simp only []
    split
    · exact builder_frame_trans (advance_construct_frame w s start)
        (builder_frame_trans (builder_frame_set_stream _ _ _) (issue_frame _ _))
    · exact builder_frame_trans (advance_construct_frame w s start)
        (builder_frame_set_stream _ _ _)

theorem advance_construct_events (w : netfs_io_request) (s start : Nat) :
    (netfs_advance_write_construct w s start).events =
      w.events ++ (w.stream s).flushed s start := by
  unfold netfs_advance_write_construct netfs_io_stream.flushed
  cases hc : (w.stream s).construct with
  | none => simp [hc]
  | some i =>
    by_cases hne : start ≠ wrap_add U64 ((w.stream s).deref i).start ((w.stream s).deref i).len
    · simp only [hc, if_pos hne, issue_construct, prepare_events]
      exact issue_events w s i hc
    · simp only [hc, if_neg hne]
      simp

theorem advance_events (w : netfs_io_request) (s start len : Nat) (to_eof : Bool)
    (hav : (w.stream s).avail = true) :
    (netfs_advance_write w s start len to_eof).1.events =
      w.events ++ (w.stream s).flushed s start ++
        (let o := (w.stream s).opened w start
         if o.full len to_eof
         then [netfs_dispatch s (netfs_frozen ((o.grow len).deref (netfs_receiver (w.stream s) start)))]
         else []) := by
  rw [advance_eq w s start len to_eof hav]
  simp only [advance_construct_stream]
  have hcon : (((w.stream s).opened w start).grow len).construct =
      some (netfs_receiver (w.stream s) start) := opened_construct _ w start
  by_cases hc : ((w.stream s).opened w start).full len to_eof
  · have hc' := hc
    unfold netfs_io_stream.full at hc'
    rw [if_pos hc', if_pos hc]
    rw [issue_events _ s _ (by rw [stream_set_stream]; exact hcon)]
    simp [advance_construct_events, netfs_io_stream.grow]
  · have hc' := hc
    unfold netfs_io_stream.full at hc'
    rw [if_neg hc', if_neg hc]
    simp [advance_construct_events]

theorem advance_ok (w : netfs_io_request) (s start len : Nat) (to_eof : Bool)
    (hok : stream_ok (w.stream s)) (hlim : limits_in_range w.wsize (w.stream s))
    (hlen : start + len < U64) :
    stream_ok ((netfs_advance_write w s start len to_eof).1.stream s) := by
  cases hav : (w.stream s).avail with
  | false => rw [advance_unavailable w s start len to_eof hav]; exact hok
  | true =>
    rw [advance_stream w s start len to_eof hav]
    exact advanced_ok _ w start len to_eof hok hlim hlen

theorem advance_static (w : netfs_io_request) (s start len : Nat) (to_eof : Bool) :
    stream_static (w.stream s) ((netfs_advance_write w s start len to_eof).1.stream s) := by
  cases hav : (w.stream s).avail with
  | false => rw [advance_unavailable w s start len to_eof hav]; exact stream_static_refl _
  | true =>
    rw [advance_stream w s start len to_eof hav]
    exact advanced_static _ w start len to_eof

theorem advance_limits (w : netfs_io_request) (s start len : Nat) (to_eof : Bool)
    (hlim : limits_in_range w.wsize (w.stream s)) :
    limits_in_range (netfs_advance_write w s start len to_eof).1.wsize
      ((netfs_advance_write w s start len to_eof).1.stream s) := by
  rw [(advance_frame w s start len to_eof).wsize]
  exact limits_in_range_static _ (advance_static w s start len to_eof) hlim

/-! ## One call of `netfs_advance_write` -/

theorem example_request_ok : stream_ok (example_request.stream 0) := by
  decide

theorem example_request_limits :
    limits_in_range example_request.wsize (example_request.stream 0) := by
  intro q
  simp [netfs_prepare_write_limits, example_request, netfs_io_stream.zero, U64, U32, INT_MAX]

theorem example_request_open_ok : stream_ok (example_request_open.stream 0) :=
  advance_ok example_request 0 0 1000 false example_request_ok example_request_limits (by decide)

theorem example_request_open_limits :
    limits_in_range example_request_open.wsize (example_request_open.stream 0) :=
  advance_limits example_request 0 0 1000 false example_request_limits

/-- C3: on an available stream `netfs_advance_write` returns
`part = min (sreq_max_len - c) len`, where `sreq_max_len` is the limit in force
after the call and `c` the length already held by the subrequest the bytes are
added to (0 for a fresh one); the result is at most `len`, the length of that
subrequest grows by exactly the result and its `nr_segs` by exactly 1. -/
theorem netfs_advance_write_returns_part (w : netfs_io_request) (s start len : Nat)
    (to_eof : Bool) (hav : (w.stream s).avail = true) (hok : stream_ok (w.stream s))
    (hlim : limits_in_range w.wsize (w.stream s)) (hstart : start < U64) :
    (netfs_advance_write w s start len to_eof).2 =
      min (((netfs_advance_write w s start len to_eof).1.stream s).sreq_max_len -
        netfs_held_len (w.stream s) start) len ∧
    (netfs_advance_write w s start len to_eof).2 ≤ len ∧
    (((netfs_advance_write w s start len to_eof).1.stream s).deref
        (netfs_receiver (w.stream s) start)).len =
      netfs_held_len (w.stream s) start + (netfs_advance_write w s start len to_eof).2 ∧
    (((netfs_advance_write w s start len to_eof).1.stream s).deref
        (netfs_receiver (w.stream s) start)).nr_segs =
      netfs_held_segs (w.stream s) start + 1 := by
  have ho := opened_open (w.stream s) w start hok hlim hstart
  obtain ⟨hl, hs⟩ := opened_held (w.stream s) w start
  rw [advance_stream w s start len to_eof hav, advance_part w s start len to_eof hav,
    grown_deref ho, grown_sreq_max_len, open_part ho, hl]
  refine ⟨rfl, Nat.min_le_right _ _, ?_, ?_⟩
  · rw [← hl, ← open_part ho]
    split <;> simp [open_grown_len ho]
  · rw [← hs]
    split <;> simp [open_grown_segs ho]

theorem netfs_advance_write_returns_part_witness :
    (netfs_advance_write example_request_open 0 1000 5000 false).2 =
      min (((netfs_advance_write example_request_open 0 1000 5000 false).1.stream 0).sreq_max_len -
        netfs_held_len (example_request_open.stream 0) 1000) 5000 ∧
    (netfs_advance_write example_request_open 0 1000 5000 false).2 ≤ 5000 ∧
    (((netfs_advance_write example_request_open 0 1000 5000 false).1.stream 0).deref
        (netfs_receiver (example_request_open.stream 0) 1000)).len =
      netfs_held_len (example_request_open.stream 0) 1000 +
        (netfs_advance_write example_request_open 0 1000 5000 false).2 ∧
    (((netfs_advance_write example_request_open 0 1000 5000 false).1.stream 0).deref
        (netfs_receiver (example_request_open.stream 0) 1000)).nr_segs =
      netfs_held_segs (example_request_open.stream 0) 1000 + 1 :=
  netfs_advance_write_returns_part example_request_open 0 1000 5000 false (by decide)
    example_request_open_ok example_request_open_limits (by decide)

/-- C4: on a stream with `avail = false`, `netfs_advance_write` returns exactly
`len` and leaves the whole request as it was: no subrequest is created and no
field of any stream changes. -/
theorem netfs_advance_write_unavailable_stream (w : netfs_io_request) (s start len : Nat)
    (to_eof : Bool) (hav : (w.stream s).avail = false) :
    netfs_advance_write w s start len to_eof = (w, len) :=
  advance_unavailable w s start len to_eof hav

theorem netfs_advance_write_unavailable_stream_witness :
    (example_request_nocache.stream 1).avail = false ∧
    netfs_advance_write example_request_nocache 1 0 4096 true = (example_request_nocache, 4096) :=
  ⟨rfl, netfs_advance_write_unavailable_stream example_request_nocache 1 0 4096 true rfl⟩

theorem advance_entry (w : netfs_io_request) (s start len : Nat) (to_eof : Bool)
    (hav : (w.stream s).avail = true) (hok : stream_ok (w.stream s))
    (hlim : limits_in_range w.wsize (w.stream s)) (hstart : start < U64)
    (k : Nat) (q : netfs_io_subrequest) (h : (w.stream s).subrequests[k]? = some q) :
    ∃ q', ((netfs_advance_write w s start len to_eof).1.stream s).subrequests[k]? = some q' ∧
      q'.start = q.start ∧
      q'.len = q.len + (if k = netfs_receiver (w.stream s) start
        then (netfs_advance_write w s start len to_eof).2 else 0) ∧
      q'.nr_segs = q.nr_segs + (if k = netfs_receiver (w.stream s) start then 1 else 0) := by
  have ho := opened_open (w.stream s) w start hok hlim hstart
  rw [advance_stream w s start len to_eof hav, advance_part w s start len to_eof hav]
  obtain ⟨q1, h1, hs1, hl1, hn1⟩ := opened_entry (w.stream s) w start k q h
  obtain ⟨q2, h2, hs2, hl2, hn2⟩ := grown_entry ho len to_eof k q1 h1
  exact ⟨q2, h2, by rw [hs2, hs1], by rw [hl2, hl1], by rw [hn2, hn1]⟩

theorem advance_length (w : netfs_io_request) (s start len : Nat) (to_eof : Bool)
    (hav : (w.stream s).avail = true) (hok : stream_ok (w.stream s))
    (hlim : limits_in_range w.wsize (w.stream s)) (hstart : start < U64) :
    ((netfs_advance_write w s start len to_eof).1.stream s).subrequests.length =
      (w.stream s).subrequests.length + (if (w.stream s).fresh start then 1 else 0) := by
  have ho := opened_open (w.stream s) w start hok hlim hstart
  rw [advance_stream w s start len to_eof hav, grown_length ho, opened_length]

/-- C6: when `netfs_advance_write(start, len)` finds a construct that does not
end at `start`, that construct is dispatched with its `len` unchanged and a new
subrequest beginning at `start` is appended; in every case the subrequest that
receives the bytes ends exactly at `start + part` afterwards. -/
theorem netfs_advance_write_contiguity (w : netfs_io_request) (s start len : Nat)
    (to_eof : Bool) (hav : (w.stream s).avail = true) (hok : stream_ok (w.stream s))
    (hlim : limits_in_range w.wsize (w.stream s)) (hstart : start < U64) :
    (∀ i, (w.stream s).construct = some i →
      ((w.stream s).deref i).start + ((w.stream s).deref i).len ≠ start →
      (∃ rest, (netfs_advance_write w s start len to_eof).1.events =
        w.events ++ netfs_dispatch s (netfs_frozen ((w.stream s).deref i)) :: rest) ∧
      (((netfs_advance_write w s start len to_eof).1.stream s).deref i).len =
        ((w.stream s).deref i).len ∧
      ((netfs_advance_write w s start len to_eof).1.stream s).subrequests.length =
        (w.stream s).subrequests.length + 1 ∧
      (((netfs_advance_write w s start len to_eof).1.stream s).deref
        (w.stream s).subrequests.length).start = start) ∧
    (((netfs_advance_write w s start len to_eof).1.stream s).deref
        (netfs_receiver (w.stream s) start)).start +
      (((netfs_advance_write w s start len to_eof).1.stream s).deref
        (netfs_receiver (w.stream s) start)).len =
      start + (netfs_advance_write w s start len to_eof).2 := by
  have ho := opened_open (w.stream s) w start hok hlim hstart
  have hends := ho.ends
  constructor
  · intro i hc hne
    obtain ⟨_, _, hrange, hcon⟩ := hok
    rw [hc] at hcon
    change _ ∧ _ ∧ _ at hcon
    have hr := (hrange _ (deref_mem _ i hcon.1)).1
    have hne' : start ≠ wrap_add U64 ((w.stream s).deref i).start ((w.stream s).deref i).len := by
      unfold wrap_add
      rw [Nat.mod_eq_of_lt hr]
      exact fun h => hne h.symm
    have hf : (w.stream s).fresh start = true := by
      simp [netfs_io_stream.fresh, hc, hne']
    have hrecv := (fresh_receiver _ start hf).1
    refine ⟨?_, ?_, ?_, ?_⟩
    · rw [advance_events w s start len to_eof hav]
      simp only [netfs_io_stream.flushed, hc, if_pos hne']
      exact ⟨_, by rw [List.append_assoc]; rfl⟩
    · obtain ⟨q', h1, _, h3, _⟩ := advance_entry w s start len to_eof hav
        ⟨by assumption, by assumption, hrange, by rw [hc]; exact hcon⟩ hlim hstart i _
        (getElem?_deref hcon.1)
      rw [deref_of_getElem? h1, h3, hrecv, if_neg (by omega)]
      rfl
    · rw [advance_length w s start len to_eof hav
        ⟨by assumption, by assumption, hrange, by rw [hc]; exact hcon⟩ hlim hstart, hf]
      rfl
    · rw [advance_stream w s start len to_eof hav, ← hrecv, grown_deref ho]
      have hst : ((w.stream s).opened w start).deref (netfs_receiver (w.stream s) start) =
          netfs_prepare_write_subreq w (w.stream s).issued start := by
        rw [opened_fresh _ w start hf, hrecv]
        have := prepared_deref (w.stream s).issued w start
        rw [issued_length] at this
        exact this
      split <;> simp [open_grown_start ho, hst]
  · rw [advance_stream w s start len to_eof hav, advance_part w s start len to_eof hav,
      grown_deref ho]
    split <;> simp only [frozen_start, frozen_len, open_grown_len ho, open_grown_start ho] <;>
      omega

theorem netfs_advance_write_contiguity_witness :
    (∀ i, (example_request_open.stream 0).construct = some i →
      ((example_request_open.stream 0).deref i).start +
        ((example_request_open.stream 0).deref i).len ≠ 8192 →
      (∃ rest, (netfs_advance_write example_request_open 0 8192 100 false).1.events =
        example_request_open.events ++
          netfs_dispatch 0 (netfs_frozen ((example_request_open.stream 0).deref i)) :: rest) ∧
      (((netfs_advance_write example_request_open 0 8192 100 false).1.stream 0).deref i).len =
        ((example_request_open.stream 0).deref i).len ∧
      ((netfs_advance_write example_request_open 0 8192 100 false).1.stream 0).subrequests.length =
        (example_request_open.stream 0).subrequests.length + 1 ∧
      (((netfs_advance_write example_request_open 0 8192 100 false).1.stream 0).deref
        (example_request_open.stream 0).subrequests.length).start = 8192) ∧
    (((netfs_advance_write example_request_open 0 8192 100 false).1.stream 0).deref
        (netfs_receiver (example_request_open.stream 0) 8192)).start +
      (((netfs_advance_write example_request_open 0 8192 100 false).1.stream 0).deref
        (netfs_receiver (example_request_open.stream 0) 8192)).len =
      8192 + (netfs_advance_write example_request_open 0 8192 100 false).2 :=
  netfs_advance_write_contiguity example_request_open 0 8192 100 false (by decide)
    example_request_open_ok example_request_open_limits (by decide)

/-! ## Sequences of calls of `netfs_advance_write` -/

theorem advance_construct_after (w : netfs_io_request) (s start len : Nat) (to_eof : Bool)
    (hav : (w.stream s).avail = true) (hok : stream_ok (w.stream s))
    (hlim : limits_in_range w.wsize (w.stream s)) (hstart : start < U64) :
    ((netfs_advance_write w s start len to_eof).1.stream s).construct = none ∨
    ((netfs_advance_write w s start len to_eof).1.stream s).construct =
      some (netfs_receiver (w.stream s) start) := by
  have ho := opened_open (w.stream s) w start hok hlim hstart
  rw [advance_stream w s start len to_eof hav, grown_construct ho]
  split
  · exact Or.inl rfl
  · exact Or.inr rfl

theorem advance_receiver_bound (w : netfs_io_request) (s start len : Nat) (to_eof : Bool)
    (hav : (w.stream s).avail = true) (hok : stream_ok (w.stream s))
    (hlim : limits_in_range w.wsize (w.stream s)) (hstart : start < U64) :
    ∃ q, ((netfs_advance_write w s start len to_eof).1.stream s).subrequests[
        netfs_receiver (w.stream s) start]? = some q ∧
      q.len ≤ ((netfs_advance_write w s start len to_eof).1.stream s).sreq_max_len ∧
      q.nr_segs ≤ max ((netfs_advance_write w s start len to_eof).1.stream s).sreq_max_segs 1 := by
  have ho := opened_open (w.stream s) w start hok hlim hstart
  obtain ⟨hl, hs⟩ := opened_held (w.stream s) w start
  have hp := open_part ho len
  have hll := ho.len_le
  rw [advance_stream w s start len to_eof hav]
  refine ⟨_, getElem?_deref (by rw [grown_length ho]; exact ho.lt), ?_, ?_⟩
  · rw [grown_deref ho, grown_sreq_max_len]
    split <;> simp only [frozen_len, open_grown_len ho] <;> omega
  · rw [grown_deref ho, grown_sreq_max_segs]
    have hseg : (((w.stream s).opened w start).deref (netfs_receiver (w.stream s) start)).nr_segs + 1
        ≤ max ((w.stream s).opened w start).sreq_max_segs 1 := by
      rw [hs]
      cases hf : (w.stream s).fresh start with
      | true =>
        rw [(fresh_receiver _ start hf).2.2]
        exact Nat.le_max_right _ _
      | false =>
        obtain ⟨i, hc, _, _, _, hsi⟩ := contiguous_receiver _ start hf
        obtain ⟨_, _, _, hcon⟩ := hok
        rw [hc] at hcon
        change _ ∧ _ ∧ _ at hcon
        rw [hsi, opened_contiguous _ w start hf]
        have := hcon.2.2
        omega
    split <;> simp only [frozen_nr_segs, open_grown_segs ho] <;> exact hseg

theorem advance_limits_contiguous (w : netfs_io_request) (s start len : Nat) (to_eof : Bool)
    (hav : (w.stream s).avail = true) (hf : (w.stream s).fresh start = false) :
    ((netfs_advance_write w s start len to_eof).1.stream s).sreq_max_len =
      (w.stream s).sreq_max_len ∧
    ((netfs_advance_write w s start len to_eof).1.stream s).sreq_max_segs =
      (w.stream s).sreq_max_segs := by
  rw [advance_stream w s start len to_eof hav, grown_sreq_max_len, grown_sreq_max_segs,
    opened_contiguous _ w start hf]
  exact ⟨rfl, rfl⟩

theorem advance_writes_cons (w : netfs_io_request) (s : Nat) (c : advance_call)
    (cs : List advance_call) :
    netfs_advance_writes w s (c :: cs) =
      netfs_advance_writes (netfs_advance_write w s c.start c.len c.to_eof).1 s cs := rfl

theorem prepared_limits_cons (w : netfs_io_request) (s : Nat) (c : advance_call)
    (cs : List advance_call) :
    netfs_prepared_limits w s (c :: cs) =
      (if (w.stream s).avail && (w.stream s).fresh c.start
       then [(((netfs_advance_write w s c.start c.len c.to_eof).1.stream s).sreq_max_len,
              ((netfs_advance_write w s c.start c.len c.to_eof).1.stream s).sreq_max_segs)]
       else []) ++
        netfs_prepared_limits (netfs_advance_write w s c.start c.len c.to_eof).1 s cs := rfl

theorem getElem?_lt {α : Type} {l : List α} {k : Nat} {x : α} (h : l[k]? = some x) :
    k < l.length := by
  by_contra hn
  rw [List.getElem?_eq_none (by omega)] at h
  exact Option.noConfusion h

theorem advance_writes_limits (s : Nat) (cs : List advance_call) :
    ∀ w : netfs_io_request, stream_ok (w.stream s) → limits_in_range w.wsize (w.stream s) →
    (∀ c ∈ cs, c.start + c.len < U64) →
    ((netfs_advance_writes w s cs).stream s).subrequests.length =
      (w.stream s).subrequests.length + (netfs_prepared_limits w s cs).length ∧
    (∀ (k : Nat) (q : netfs_io_subrequest), (w.stream s).subrequests[k]? = some q →
      (w.stream s).construct ≠ some k →
      ∃ q', ((netfs_advance_writes w s cs).stream s).subrequests[k]? = some q' ∧
        q'.len = q.len ∧ q'.nr_segs = q.nr_segs) ∧
    (∀ i : Nat, (w.stream s).construct = some i →
      ∃ q', ((netfs_advance_writes w s cs).stream s).subrequests[i]? = some q' ∧
        q'.len ≤ (w.stream s).sreq_max_len ∧ q'.nr_segs ≤ max (w.stream s).sreq_max_segs 1) ∧
    (∀ (k : Nat) (lim : Nat × Nat), (netfs_prepared_limits w s cs)[k]? = some lim →
      ∃ q', ((netfs_advance_writes w s cs).stream s).subrequests[
          (w.stream s).subrequests.length + k]? = some q' ∧
        q'.len ≤ lim.1 ∧ q'.nr_segs ≤ max lim.2 1) := by
  induction cs with
  | nil =>
    intro w hok _ _
    refine ⟨rfl, fun k q h _ => ⟨q, h, rfl, rfl⟩, ?_, ?_⟩
    · intro i hc
      obtain ⟨_, _, _, hcon⟩ := hok
      rw [hc] at hcon
      change _ ∧ _ ∧ _ at hcon
      refine ⟨(w.stream s).deref i, getElem?_deref hcon.1, Nat.le_of_lt hcon.2.1, ?_⟩
      have := hcon.2.2
      omega
    · intro k lim h
      simp [netfs_prepared_limits] at h
  | cons c cs ih =>
    intro w hok hlim hcs
    have hc0 : c.start + c.len < U64 := hcs c (List.mem_cons_self _ _)
    have hstart : c.start < U64 := by omega
    have ok1 := advance_ok w s c.start c.len c.to_eof hok hlim hc0
    have lim1 := advance_limits w s c.start c.len c.to_eof hlim
    obtain ⟨ihA, ihB, ihC, ihD⟩ := ih (netfs_advance_write w s c.start c.len c.to_eof).1 ok1 lim1
      (fun c' hc' => hcs c' (List.mem_cons_of_mem _ hc'))
    rw [advance_writes_cons, prepared_limits_cons]
    cases hav : (w.stream s).avail with
    | false =>
      have hw : (netfs_advance_write w s c.start c.len c.to_eof).1 = w := by
        rw [advance_unavailable w s c.start c.len c.to_eof hav]
      rw [hw] at ihA ihB ihC ihD ⊢
      simp only [Bool.false_and, Bool.false_eq_true, if_false, List.nil_append]
      exact ⟨ihA, ihB, ihC, ihD⟩
    | true =>
      have hlen := advance_length w s c.start c.len c.to_eof hav hok hlim hstart
      have hcon1 := advance_construct_after w s c.start c.len c.to_eof hav hok hlim hstart
      obtain ⟨qr, hqr, hqrl, hqrs⟩ :=
        advance_receiver_bound w s c.start c.len c.to_eof hav hok hlim hstart
      have hentry := advance_entry w s c.start c.len c.to_eof hav hok hlim hstart
      obtain ⟨hml, hms, hrange, hcon⟩ := hok
      cases hf : (w.stream s).fresh c.start with
      | false =>
        obtain ⟨i, hci, _, hri, _, _⟩ := contiguous_receiver _ c.start hf
        obtain ⟨hsl, hss⟩ := advance_limits_contiguous w s c.start c.len c.to_eof hav hf
        rw [hf] at hlen
        simp only [Bool.false_eq_true, if_false, Nat.add_zero] at hlen
        rw [hri] at hcon1 hqr hentry
        simp only [Bool.and_false, Bool.false_eq_true, if_false, List.nil_append]
        refine ⟨by rw [ihA, hlen], ?_, ?_, ?_⟩
        · intro k q hk hne
          have hki : k ≠ i := fun h => hne (by rw [hci, h])
          obtain ⟨q1, h1, _, hl1, hn1⟩ := hentry k q hk
          simp only [hki, if_false, Nat.add_zero] at hl1 hn1
          obtain ⟨q2, h2, hl2, hn2⟩ := ihB k q1 h1 (by
            rcases hcon1 with h | h <;> rw [h]
            · exact fun h => Option.noConfusion h
            · exact fun h => hki (Option.some.inj h).symm)
          exact ⟨q2, h2, by rw [hl2, hl1], by rw [hn2, hn1]⟩
        · intro i' hci'
          have hii : i' = i := by
            rw [hci] at hci'
            exact (Option.some.inj hci').symm
          subst hii
          rcases hcon1 with h | h
          · obtain ⟨q2, h2, hl2, hn2⟩ := ihB i' qr hqr (by rw [h]; exact fun h => Option.noConfusion h)
            exact ⟨q2, h2, by rw [hl2, ← hsl]; exact hqrl, by rw [hn2, ← hss]; exact hqrs⟩
          · obtain ⟨q2, h2, hl2, hn2⟩ := ihC i' h
            exact ⟨q2, h2, by rw [← hsl]; exact hl2, by rw [← hss]; exact hn2⟩
        · intro k lim hk
          obtain ⟨q2, h2, hb⟩ := ihD k lim hk
          rw [hlen] at h2
          exact ⟨q2, h2, hb⟩
      | true =>
        obtain ⟨hrn, _, _⟩ := fresh_receiver _ c.start hf
        rw [hf] at hlen
        simp only [if_true] at hlen
        rw [hrn] at hcon1 hqr hentry
        simp only [Bool.and_self, if_true, List.singleton_append, List.length_cons]
        have hnot : ∀ k, k < (w.stream s).subrequests.length →
            ((netfs_advance_write w s c.start c.len c.to_eof).1.stream s).construct ≠ some k := by
          intro k hk
          rcases hcon1 with h | h <;> rw [h]
          · exact fun h => Option.noConfusion h
          · exact fun h => by have := Option.some.inj h; omega
        have hkeep : ∀ (k : Nat) (q : netfs_io_subrequest), (w.stream s).subrequests[k]? = some q →
            ∃ q', ((netfs_advance_writes (netfs_advance_write w s c.start c.len c.to_eof).1 s
                cs).stream s).subrequests[k]? = some q' ∧
              q'.len = q.len ∧ q'.nr_segs = q.nr_segs := by
          intro k q hk
          have hklt := getElem?_lt hk
          obtain ⟨q1, h1, _, hl1, hn1⟩ := hentry k q hk
          have hkn : k ≠ (w.stream s).subrequests.length := by omega
          simp only [hkn, if_false, Nat.add_zero] at hl1 hn1
          obtain ⟨q2, h2, hl2, hn2⟩ := ihB k q1 h1 (hnot k hklt)
          exact ⟨q2, h2, by rw [hl2, hl1], by rw [hn2, hn1]⟩
        refine ⟨by rw [ihA, hlen]; omega, fun k q hk _ => hkeep k q hk, ?_, ?_⟩
        · intro i hci
          rw [hci] at hcon
          change _ ∧ _ ∧ _ at hcon
          obtain ⟨q2, h2, hl2, hn2⟩ := hkeep i _ (getElem?_deref hcon.1)
          have := hcon.2.1
          have := hcon.2.2
          exact ⟨q2, h2, by omega, by omega⟩
        · intro k lim hk
          cases k with
          | zero =>
            simp only [List.getElem?_cons_zero, Option.some.injEq] at hk
            subst hk
            rcases hcon1 with h | h
            · obtain ⟨q2, h2, hl2, hn2⟩ := ihB _ qr hqr
                (by rw [h]; exact fun h => Option.noConfusion h)
              exact ⟨q2, h2, by rw [hl2]; exact hqrl, by rw [hn2]; exact hqrs⟩
            · exact ihC _ h
          | succ k' =>
            simp only [List.getElem?_cons_succ] at hk
            obtain ⟨q2, h2, hb⟩ := ihD k' lim hk
            rw [hlen] at h2
            refine ⟨q2, ?_, hb⟩
            rw [← h2]
            congr 1
            omega

/-! ## The submission loop of the planner -/

theorem stream_eq_of_iff (w : netfs_io_request) (s t : Nat) (h : s = 0 ↔ t = 0) :
    w.stream t = w.stream s := by
  unfold netfs_io_request.stream
  by_cases hs : s = 0
  · rw [if_pos hs, if_pos (h.mp hs)]
  · rw [if_neg hs, if_neg (fun ht => hs (h.mpr ht))]

theorem planner_frame_refl (w : netfs_io_request) : planner_frame w w :=
  ⟨rfl, rfl, rfl, rfl, rfl, rfl, rfl, rfl, rfl, rfl, rfl, rfl, rfl, rfl,
   fun _ => stream_static_refl _⟩

theorem planner_frame_trans {a b c : netfs_io_request} (h1 : planner_frame a b)
    (h2 : planner_frame b c) : planner_frame a c :=
  ⟨h2.origin.trans h1.origin, h2.start.trans h1.start, h2.len.trans h1.len,
   h2.inode_i_size.trans h1.inode_i_size, h2.wsize.trans h1.wsize,
   h2.cleaned_to.trans h1.cleaned_to, h2.group.trans h1.group, h2.error.trans h1.error,
   h2.all_queued.trans h1.all_queued, h2.upload_to_server.trans h1.upload_to_server,
   h2.pause.trans h1.pause, h2.failed.trans h1.failed, h2.offload.trans h1.offload,
   h2.space.trans h1.space, fun t => stream_static_trans (h1.static t) (h2.static t)⟩

/-- A step of the builder on stream `s` that keeps the other stream is a step of
the planner. -/
theorem planner_frame_of_builder {w w' : netfs_io_request} (s : Nat)
    (hb : builder_frame w w') (hs : stream_static (w.stream s) (w'.stream s))
    (hne : ∀ t, ¬(s = 0 ↔ t = 0) → w'.stream t = w.stream t) : planner_frame w w' := by
  refine ⟨hb.origin, hb.start, hb.len, hb.inode_i_size, hb.wsize, hb.cleaned_to, hb.group,
    hb.error, hb.all_queued, hb.upload_to_server, hb.pause, hb.failed, hb.offload,
    by rw [hb.buffer], ?_⟩
  intro t
  by_cases h : s = 0 ↔ t = 0
  · rw [stream_eq_of_iff w s t h, stream_eq_of_iff w' s t h]
    exact hs
  · rw [hne t h]
    exact stream_static_refl _

theorem issue_planner_frame (w : netfs_io_request) (s : Nat) :
    planner_frame w (netfs_issue_write w s) :=
  planner_frame_of_builder s (issue_frame w s)
    (by rw [issue_stream]; exact issued_static _) (fun t h => issue_stream_ne w s t h)

theorem advance_planner_frame (w : netfs_io_request) (s start len : Nat) (to_eof : Bool) :
    planner_frame w (netfs_advance_write w s start len to_eof).1 :=
  planner_frame_of_builder s (advance_frame w s start len to_eof)
    (advance_static w s start len to_eof) (fun t h => advance_stream_ne w s t start len to_eof h)

theorem planner_ok_of_frame {w w' : netfs_io_request} (s : Nat) (hf : planner_frame w w')
    (hok : planner_ok w) (hs : stream_ok (w'.stream s))
    (hne : ∀ t, ¬(s = 0 ↔ t = 0) → w'.stream t = w.stream t) : planner_ok w' := by
  intro t
  refine ⟨?_, ?_⟩
  · by_cases h : s = 0 ↔ t = 0
    · rw [stream_eq_of_iff w' s t h]; exact hs
    · rw [hne t h]; exact (hok t).1
  · rw [hf.wsize]
    exact limits_in_range_static _ (hf.static t) (hok t).2

theorem planner_pos_of_frame {w w' : netfs_io_request} (hf : planner_frame w w')
    (hpos : planner_pos w) : planner_pos w' := by
  intro t
  rw [hf.wsize]
  exact limits_pos_static _ (hf.static t) (hpos t)

theorem issue_planner_ok (w : netfs_io_request) (s : Nat) (hok : planner_ok w) :
    planner_ok (netfs_issue_write w s) :=
  planner_ok_of_frame s (issue_planner_frame w s) hok
    (by rw [issue_stream]; exact issued_ok _ (hok s).1) (fun t h => issue_stream_ne w s t h)

theorem issue_total_len (w : netfs_io_request) (s t : Nat) :
    ((netfs_issue_write w s).stream t).total_len = (w.stream t).total_len := by
  by_cases h : s = 0 ↔ t = 0
  · rw [stream_eq_of_iff _ s t h, stream_eq_of_iff w s t h, issue_stream]
    unfold netfs_io_stream.total_len
    rw [issued_map (fun q => q.len) (fun _ => rfl)]
  · rw [issue_stream_ne w s t h]

@[simp] theorem stream_rolling_buffer_advance (w : netfs_io_request) (n t : Nat) :
    (rolling_buffer_advance w n).stream t = w.stream t := rfl

@[simp] theorem stream_rolling_buffer_append (w : netfs_io_request) (f : folio) (t : Nat) :
    (rolling_buffer_append w f).stream t = w.stream t := rfl

@[simp] theorem stream_atomic64_set_issued_to (w : netfs_io_request) (v t : Nat) :
    (atomic64_set_issued_to w v).stream t = w.stream t := rfl

theorem rolling_buffer_advance_frame (w : netfs_io_request) (n : Nat) :
    planner_frame w (rolling_buffer_advance w n) :=
  ⟨rfl, rfl, rfl, rfl, rfl, rfl, rfl, rfl, rfl, rfl, rfl, rfl, rfl, rfl,
   fun _ => stream_static_refl _⟩

theorem rolling_buffer_append_frame (w : netfs_io_request) (f : folio) :
    planner_frame w (rolling_buffer_append w f) :=
  ⟨rfl, rfl, rfl, rfl, rfl, rfl, rfl, rfl, rfl, rfl, rfl, rfl, rfl, rfl,
   fun _ => stream_static_refl _⟩

theorem atomic64_set_issued_to_frame (w : netfs_io_request) (v : Nat) :
    planner_frame w (atomic64_set_issued_to w v) :=
  ⟨rfl, rfl, rfl, rfl, rfl, rfl, rfl, rfl, rfl, rfl, rfl, rfl, rfl, rfl,
   fun _ => stream_static_refl _⟩

theorem emit_planner_frame (w : netfs_io_request) (e : netfs_event) :
    planner_frame w (w.emit e) :=
  ⟨rfl, rfl, rfl, rfl, rfl, rfl, rfl, rfl, rfl, rfl, rfl, rfl, rfl, rfl,
   fun _ => stream_static_refl _⟩

/-- The request just before the call of `netfs_advance_write` in one pass of the
submission loop. -/
theorem step_eq (fpos fsize : Nat) (to_eof : Bool) (w : netfs_io_request) (iter_off s : Nat) :
    netfs_write_folio_step fpos fsize to_eof w iter_off s =
      ((netfs_advance_write (netfs_write_folio_step_pre fpos fsize w iter_off s) s
          (fpos + (w.stream s).submit_off) (w.stream s).submit_len to_eof).1.set_stream s
        (netfs_submit_advance
          ((netfs_advance_write (netfs_write_folio_step_pre fpos fsize w iter_off s) s
            (fpos + (w.stream s).submit_off) (w.stream s).submit_len to_eof).1.stream s)
          (netfs_advance_write (netfs_write_folio_step_pre fpos fsize w iter_off s) s
            (fpos + (w.stream s).submit_off) (w.stream s).submit_len to_eof).2),
       if (w.stream s).submit_off > iter_off then (w.stream s).submit_off else iter_off) := rfl

theorem step_pre_stream (fpos fsize : Nat) (w : netfs_io_request) (iter_off s : Nat) :
    (netfs_write_folio_step_pre fpos fsize w iter_off s).stream s =
      { w.stream s with submit_extendable_to := wrap_sub U32 fsize (w.stream s).submit_off } := by
  unfold netfs_write_folio_step_pre
  simp only [stream_set_stream]
  split <;> rfl

theorem step_pre_stream_ne (fpos fsize : Nat) (w : netfs_io_request) (iter_off s t : Nat)
    (h : ¬(s = 0 ↔ t = 0)) :
    (netfs_write_folio_step_pre fpos fsize w iter_off s).stream t = w.stream t := by
  unfold netfs_write_folio_step_pre
  simp only []
  rw [stream_set_stream_ne _ _ _ _ h]
  split <;> rfl

theorem step_pre_frame (fpos fsize : Nat) (w : netfs_io_request) (iter_off s : Nat) :
    planner_frame w (netfs_write_folio_step_pre fpos fsize w iter_off s) := by
  have h1 : planner_frame w
      (if (w.stream s).submit_off > iter_off
       then rolling_buffer_advance w ((w.stream s).submit_off - iter_off) else w) := by
    split
    · exact rolling_buffer_advance_frame _ _
    · exact planner_frame_refl _
  have h2 := planner_frame_trans h1 (atomic64_set_issued_to_frame _ (fpos + (w.stream s).submit_off))
  refine planner_frame_trans h2 ?_
  unfold netfs_write_folio_step_pre
  simp only []
  refine ⟨by simp, by simp, by simp, by simp, by simp, by simp, by simp, by simp, by simp, by simp,
    by simp, by simp, by simp, by simp, ?_⟩
  intro t
  by_cases h : s = 0 ↔ t = 0
  · rw [stream_eq_of_iff _ s t h, stream_eq_of_iff _ s t h, stream_set_stream]
    exact ⟨rfl, rfl, rfl, rfl⟩
  · rw [stream_set_stream_ne _ _ _ _ h]
    exact stream_static_refl _

theorem step_spec (fpos fsize : Nat) (to_eof : Bool) (w : netfs_io_request) (iter_off s : Nat)
    (hfpos : fpos ≤ LONG_MAX) (hok : planner_ok w) (hpos : planner_pos w)
    (hrd : submit_ready w) (hlen : 0 < (w.stream s).submit_len) :
    planner_frame w (netfs_write_folio_step fpos fsize to_eof w iter_off s).1 ∧
    planner_ok (netfs_write_folio_step fpos fsize to_eof w iter_off s).1 ∧
    submit_ready (netfs_write_folio_step fpos fsize to_eof w iter_off s).1 ∧
    ((netfs_write_folio_step fpos fsize to_eof w iter_off s).1.stream s).total_len +
      ((netfs_write_folio_step fpos fsize to_eof w iter_off s).1.stream s).submit_len =
      (w.stream s).total_len + (w.stream s).submit_len ∧
    ((netfs_write_folio_step fpos fsize to_eof w iter_off s).1.stream s).submit_len <
      (w.stream s).submit_len ∧
    (∀ t, ¬(s = 0 ↔ t = 0) →
      (netfs_write_folio_step fpos fsize to_eof w iter_off s).1.stream t = w.stream t) := by
  obtain ⟨hsl, hso, hsa⟩ := hrd s
  have hav := hsa hlen
  have hpre_s := step_pre_stream fpos fsize w iter_off s
  have hpre_ne := step_pre_stream_ne fpos fsize w iter_off s
  have hpre_f := step_pre_frame fpos fsize w iter_off s
  have hpre_ok_s : stream_ok ((netfs_write_folio_step_pre fpos fsize w iter_off s).stream s) := by
    rw [hpre_s]
    exact stream_ok_congr rfl rfl rfl rfl (hok s).1
  have hpre_ok := planner_ok_of_frame s hpre_f hok hpre_ok_s hpre_ne
  have hpre_pos := planner_pos_of_frame hpre_f hpos
  have hpre_av : ((netfs_write_folio_step_pre fpos fsize w iter_off s).stream s).avail = true := by
    rw [hpre_s]; exact hav
  have hstart : fpos + (w.stream s).submit_off < U64 := by
    unfold LONG_MAX at hfpos
    unfold U32 at hso
    unfold U64
    omega
  have hstartlen : fpos + (w.stream s).submit_off + (w.stream s).submit_len < U64 := by
    unfold LONG_MAX at hfpos
    unfold U32 at hso hsl
    unfold U64
    omega
  rw [step_eq]
  simp only []
  generalize hpre : netfs_write_folio_step_pre fpos fsize w iter_off s = pre at *
  have hadv_f := advance_planner_frame pre s (fpos + (w.stream s).submit_off)
    (w.stream s).submit_len to_eof
  have hadv_ok := advance_ok pre s (fpos + (w.stream s).submit_off) (w.stream s).submit_len to_eof
    (hpre_ok s).1 (hpre_ok s).2 hstartlen
  have hadv_ne := fun t h => advance_stream_ne pre s t (fpos + (w.stream s).submit_off)
    (w.stream s).submit_len to_eof h
  have hadv_s := advance_stream pre s (fpos + (w.stream s).submit_off) (w.stream s).submit_len
    to_eof hpre_av
  have hadv_p := advance_part pre s (fpos + (w.stream s).submit_off) (w.stream s).submit_len
    to_eof hpre_av
  obtain ⟨hp0, hp1⟩ := advanced_part_pos (pre.stream s) pre (fpos + (w.stream s).submit_off)
    (w.stream s).submit_len (hpre_ok s).1 (hpre_ok s).2 (hpre_pos s) hstart hlen
  have htot := advanced_total (pre.stream s) pre (fpos + (w.stream s).submit_off)
    (w.stream s).submit_len to_eof (hpre_ok s).1 (hpre_ok s).2 hstart
  obtain ⟨hsub_o, hsub_l⟩ := advanced_submit (pre.stream s) pre (fpos + (w.stream s).submit_off)
    (w.stream s).submit_len to_eof
  rw [← hadv_s] at htot hsub_o hsub_l
  rw [← hadv_p] at hp0 hp1 htot
  generalize netfs_advance_write pre s (fpos + (w.stream s).submit_off)
    (w.stream s).submit_len to_eof = r at *
  have hpre_tot : (pre.stream s).total_len = (w.stream s).total_len := by rw [hpre_s]; rfl
  have hpre_sl : (pre.stream s).submit_len = (w.stream s).submit_len := by rw [hpre_s]
  have hpre_so : (pre.stream s).submit_off = (w.stream s).submit_off := by rw [hpre_s]
  have hnew_len : (netfs_submit_advance (r.1.stream s) r.2).submit_len =
      (w.stream s).submit_len - r.2 := by
    unfold netfs_submit_advance
    simp only []
    rw [hsub_l, hpre_sl, if_neg (by omega)]
    unfold wrap_sub
    unfold U32 at *
    omega
  have hfin_f : planner_frame r.1 (r.1.set_stream s (netfs_submit_advance (r.1.stream s) r.2)) := by
    refine ⟨by simp, by simp, by simp, by simp, by simp, by simp, by simp, by simp, by simp,
      by simp, by simp, by simp, by simp, by simp, ?_⟩
    intro t
    by_cases h : s = 0 ↔ t = 0
    · rw [stream_eq_of_iff _ s t h, stream_eq_of_iff _ s t h, stream_set_stream]
      exact ⟨rfl, rfl, rfl, rfl⟩
    · rw [stream_set_stream_ne _ _ _ _ h]
      exact stream_static_refl _
  have hframe := planner_frame_trans (planner_frame_trans hpre_f hadv_f) hfin_f
  have hne : ∀ t, ¬(s = 0 ↔ t = 0) →
      (r.1.set_stream s (netfs_submit_advance (r.1.stream s) r.2)).stream t = w.stream t := by
    intro t h
    rw [stream_set_stream_ne _ _ _ _ h, hadv_ne t h, hpre_ne t h]
  refine ⟨hframe, ?_, ?_, ?_, ?_, hne⟩
  · refine planner_ok_of_frame s hframe hok ?_ hne
    rw [stream_set_stream]
    exact stream_ok_congr rfl rfl rfl rfl hadv_ok
  · intro t
    by_cases h : s = 0 ↔ t = 0
    · rw [stream_eq_of_iff _ s t h, stream_set_stream, hnew_len]
      refine ⟨by omega, ?_, ?_⟩
      · unfold netfs_submit_advance wrap_add
        simp only []
        exact Nat.mod_lt _ (by decide)
      · intro _
        have := (hframe.static s).avail
        rw [stream_set_stream] at this
        rw [this]
        exact hav
    · rw [hne t h]
      exact hrd t
  · rw [stream_set_stream, hnew_len]
    have : (netfs_submit_advance (r.1.stream s) r.2).total_len = (r.1.stream s).total_len := rfl
    rw [this, htot, hpre_tot]
    omega
  · rw [stream_set_stream, hnew_len]
    omega

theorem choose_stream_eq (w : netfs_io_request) :
    netfs_choose_stream w =
      if 0 < w.io_streams0.submit_len ∧ w.io_streams0.submit_off < ULONG_MAX then
        (if 0 < w.io_streams1.submit_len ∧ w.io_streams1.submit_off < w.io_streams0.submit_off
         then some 1 else some 0)
      else
        (if 0 < w.io_streams1.submit_len ∧ w.io_streams1.submit_off < ULONG_MAX
         then some 1 else none) := by
  unfold netfs_choose_stream
  by_cases p0 : 0 < w.io_streams0.submit_len ∧ w.io_streams0.submit_off < ULONG_MAX
  · simp only [p0, and_self, decide_True, if_true]
    by_cases p1 : 0 < w.io_streams1.submit_len ∧
        w.io_streams1.submit_off < w.io_streams0.submit_off
    · simp [p1]
    · simp only [p1, decide_False, if_false]
      simp
  · simp only [p0, decide_False, if_false]
    by_cases p1 : 0 < w.io_streams1.submit_len ∧ w.io_streams1.submit_off < ULONG_MAX
    · simp [p1]
    · rw [if_neg (by simp [p1]), if_neg p1]
      rfl

theorem choose_stream_some (w : netfs_io_request) (s : Nat) (h : netfs_choose_stream w = some s) :
    (s = 0 ∨ s = 1) ∧ 0 < (w.stream s).submit_len := by
  rw [choose_stream_eq] at h
  by_cases p0 : 0 < w.io_streams0.submit_len ∧ w.io_streams0.submit_off < ULONG_MAX
  · rw [if_pos p0] at h
    by_cases p1 : 0 < w.io_streams1.submit_len ∧
        w.io_streams1.submit_off < w.io_streams0.submit_off
    · rw [if_pos p1] at h
      have := Option.some.inj h
      subst this
      exact ⟨Or.inr rfl, p1.1⟩
    · rw [if_neg p1] at h
      have := Option.some.inj h
      subst this
      exact ⟨Or.inl rfl, p0.1⟩
  · rw [if_neg p0] at h
    by_cases p1 : 0 < w.io_streams1.submit_len ∧ w.io_streams1.submit_off < ULONG_MAX
    · rw [if_pos p1] at h
      have := Option.some.inj h
      subst this
      exact ⟨Or.inr rfl, p1.1⟩
    · rw [if_neg p1] at h
      exact Option.noConfusion h

theorem choose_stream_none (w : netfs_io_request) (hrd : submit_ready w)
    (h : netfs_choose_stream w = none) :
    (w.stream 0).submit_len = 0 ∧ (w.stream 1).submit_len = 0 := by
  have h0 := (hrd 0).2.1
  have h1 := (hrd 1).2.1
  simp only [stream_zero, stream_one] at *
  rw [choose_stream_eq] at h
  by_cases p0 : 0 < w.io_streams0.submit_len ∧ w.io_streams0.submit_off < ULONG_MAX
  · rw [if_pos p0] at h
    split at h <;> exact Option.noConfusion h
  · rw [if_neg p0] at h
    by_cases p1 : 0 < w.io_streams1.submit_len ∧ w.io_streams1.submit_off < ULONG_MAX
    · rw [if_pos p1] at h
      exact Option.noConfusion h
    · unfold ULONG_MAX at p0 p1
      unfold U32 at h0 h1
      constructor
      · by_contra hn
        exact p0 ⟨by omega, by omega⟩
      · by_contra hn
        exact p1 ⟨by omega, by omega⟩

theorem loop_total (fpos fsize : Nat) (to_eof : Bool) (hfpos : fpos ≤ LONG_MAX) :
    ∀ (fuel : Nat) (w : netfs_io_request) (iter_off : Nat), planner_ok w → planner_pos w →
    submit_ready w → (w.stream 0).submit_len + (w.stream 1).submit_len < fuel →
    ∃ w' io, netfs_write_folio_loop fpos fsize to_eof fuel w iter_off = some (w', io) ∧
      planner_frame w w' ∧ planner_ok w' ∧
      (∀ t, (w'.stream t).total_len = (w.stream t).total_len + (w.stream t).submit_len) := by
  intro fuel
  induction fuel with
  | zero => intro w _ _ _ _ h; omega
  | succ n ih =>
    intro w iter_off hok hpos hrd hfuel
    unfold netfs_write_folio_loop
    cases hch : netfs_choose_stream w with
    | none =>
      obtain ⟨hz0, hz1⟩ := choose_stream_none w hrd hch
      refine ⟨w, iter_off, rfl, planner_frame_refl w, hok, ?_⟩
      intro t
      by_cases ht : t = 0
      · subst ht; rw [hz0]; rfl
      · have : w.stream t = w.stream 1 := stream_eq_of_iff w 1 t (by simp [ht])
        rw [this, hz1]; rfl
    | some s =>
      obtain ⟨hs01, hlen⟩ := choose_stream_some w s hch
      obtain ⟨hf, hok1, hrd1, htot, hdec, hne⟩ :=
        step_spec fpos fsize to_eof w iter_off s hfpos hok hpos hrd hlen
      have hpos1 := planner_pos_of_frame hf hpos
      have hmeasure : ((netfs_write_folio_step fpos fsize to_eof w iter_off s).1.stream 0).submit_len +
          ((netfs_write_folio_step fpos fsize to_eof w iter_off s).1.stream 1).submit_len < n := by
        rcases hs01 with h | h
        · subst h
          rw [hne 1 (by decide)]
          omega
        · subst h
          rw [hne 0 (by decide)]
          omega
      obtain ⟨w', io, hrun, hf', hok', htot'⟩ :=
        ih (netfs_write_folio_step fpos fsize to_eof w iter_off s).1
          (netfs_write_folio_step fpos fsize to_eof w iter_off s).2 hok1 hpos1 hrd1 hmeasure
      refine ⟨w', io, hrun, planner_frame_trans hf hf', hok', ?_⟩
      intro t
      rw [htot' t]
      by_cases h : s = 0 ↔ t = 0
      · rw [stream_eq_of_iff _ s t h, stream_eq_of_iff w s t h]
        exact htot
      · rw [hne t h]

/-! ## `netfs_write_folio` -/

theorem planner_ok_of_same {w w' : netfs_io_request} (hf : planner_frame w w')
    (hs : ∀ t, w'.stream t = w.stream t) (hok : planner_ok w) : planner_ok w' := by
  intro t
  rw [hs t, hf.wsize]
  exact hok t

theorem set_submit_ok (st : netfs_io_stream) (foff flen : Nat) (streamw : Bool)
    (g : netfs_group_ptr) (hok : stream_ok st) :
    stream_ok (netfs_set_submit st foff flen streamw g) := by
  unfold netfs_set_submit
  split <;> exact stream_ok_congr rfl rfl rfl rfl hok

theorem set_submit_static (st : netfs_io_stream) (foff flen : Nat) (streamw : Bool)
    (g : netfs_group_ptr) : stream_static st (netfs_set_submit st foff flen streamw g) := by
  unfold netfs_set_submit
  split <;> exact ⟨rfl, rfl, rfl, rfl⟩

theorem set_submit_total (st : netfs_io_stream) (foff flen : Nat) (streamw : Bool)
    (g : netfs_group_ptr) : (netfs_set_submit st foff flen streamw g).total_len = st.total_len := by
  unfold netfs_set_submit
  split <;> rfl

theorem set_submit_ready (st : netfs_io_stream) (foff flen : Nat) (streamw : Bool)
    (g : netfs_group_ptr) :
    (netfs_set_submit st foff flen streamw g).submit_len < U32 ∧
    (netfs_set_submit st foff flen streamw g).submit_off < U32 ∧
    (0 < (netfs_set_submit st foff flen streamw g).submit_len →
      (netfs_set_submit st foff flen streamw g).avail = true) := by
  unfold netfs_set_submit
  split
  · refine ⟨?_, ?_, fun h => absurd h (Nat.lt_irrefl 0)⟩
    · show 0 < U32
      decide
    · show UINT_MAX < U32
      decide
  · rename_i h
    refine ⟨Nat.mod_lt _ (by decide), Nat.mod_lt _ (by decide), fun _ => ?_⟩
    simp only [Bool.or_eq_true, Bool.not_eq_true', not_or] at h
    simpa using h.1.1

/-- The submission points `netfs_write_folio` gives both streams for a folio. -/
theorem set_submit_both_stream (w : netfs_io_request) (x : folio_extent) (g : netfs_group_ptr)
    (t : Nat) :
    ({ w with
        io_streams0 := netfs_set_submit w.io_streams0 x.foff x.flen x.streamw g,
        io_streams1 := netfs_set_submit w.io_streams1 x.foff x.flen x.streamw g } :
      netfs_io_request).stream t = netfs_set_submit (w.stream t) x.foff x.flen x.streamw g := by
  unfold netfs_io_request.stream
  split <;> rfl

theorem finish_frame (w : netfs_io_request) (f : folio) (x : folio_extent) (io : Nat) :
    planner_frame w (netfs_write_folio_finish w f x io) ∧
    (planner_ok w → planner_ok (netfs_write_folio_finish w f x io)) ∧
    ∀ t, ((netfs_write_folio_finish w f x io).stream t).total_len = (w.stream t).total_len := by
  unfold netfs_write_folio_finish
  simp only []
  have h1 : planner_frame w
      (if f.size > io then rolling_buffer_advance w (f.size - io) else w) := by
    split
    · exact rolling_buffer_advance_frame _ _
    · exact planner_frame_refl _
  have h1s : ∀ t, (if f.size > io then rolling_buffer_advance w (f.size - io) else w).stream t =
      w.stream t := by
    intro t; split <;> rfl
  generalize (if f.size > io then rolling_buffer_advance w (f.size - io) else w) = w1 at *
  have h2 := planner_frame_trans h1 (atomic64_set_issued_to_frame w1 (f.pos + f.size))
  have h2s : ∀ t, (atomic64_set_issued_to w1 (f.pos + f.size)).stream t = w.stream t :=
    fun t => h1s t
  generalize atomic64_set_issued_to w1 (f.pos + f.size) = w2 at *
  split
  · refine ⟨planner_frame_trans h2 (planner_frame_trans (issue_planner_frame w2 0)
      (issue_planner_frame _ 1)), ?_, ?_⟩
    · intro hok
      exact issue_planner_ok _ 1 (issue_planner_ok _ 0 (planner_ok_of_same h2 h2s hok))
    · intro t
      rw [issue_total_len, issue_total_len, h2s]
  · exact ⟨h2, planner_ok_of_same h2 h2s, fun t => by rw [h2s]⟩

theorem submit_total (fuel : Nat) (w : netfs_io_request) (f : folio) (x : folio_extent)
    (hfpos : f.pos ≤ LONG_MAX) (hok : planner_ok w) (hpos : planner_pos w)
    (hfuel : 2 * U32 ≤ fuel) :
    ∃ w', netfs_write_folio_submit fuel w f x = some (w', 0) ∧ planner_frame w w' ∧
      planner_ok w' ∧
      ∀ t, (w'.stream t).total_len = (w.stream t).total_len +
        (netfs_set_submit (w.stream t) x.foff x.flen x.streamw f.group).submit_len := by
  unfold netfs_write_folio_submit
  simp only []
  have ha := rolling_buffer_append_frame w f
  have has : ∀ t, (rolling_buffer_append w f).stream t = w.stream t := fun _ => rfl
  have haok := planner_ok_of_same ha has hok
  have hapos := planner_pos_of_frame ha hpos
  generalize rolling_buffer_append w f = wa at *
  have hst := set_submit_both_stream wa x f.group
  have hbf : planner_frame wa
      { wa with
        io_streams0 := netfs_set_submit wa.io_streams0 x.foff x.flen x.streamw f.group,
        io_streams1 := netfs_set_submit wa.io_streams1 x.foff x.flen x.streamw f.group } := by
    refine ⟨rfl, rfl, rfl, rfl, rfl, rfl, rfl, rfl, rfl, rfl, rfl, rfl, rfl, rfl, ?_⟩
    intro t
    rw [hst t]
    exact set_submit_static _ _ _ _ _
  have hbok : planner_ok
      { wa with
        io_streams0 := netfs_set_submit wa.io_streams0 x.foff x.flen x.streamw f.group,
        io_streams1 := netfs_set_submit wa.io_streams1 x.foff x.flen x.streamw f.group } := by
    intro t
    rw [hst t]
    refine ⟨set_submit_ok _ _ _ _ _ (haok t).1, ?_⟩
    exact limits_in_range_static _ (set_submit_static _ _ _ _ _) (haok t).2
  have hbpos := planner_pos_of_frame hbf hapos
  have hbrd : submit_ready
      { wa with
        io_streams0 := netfs_set_submit wa.io_streams0 x.foff x.flen x.streamw f.group,
        io_streams1 := netfs_set_submit wa.io_streams1 x.foff x.flen x.streamw f.group } := by
    intro t
    rw [hst t]
    exact set_submit_ready _ _ _ _ _
  generalize hwb : ({ wa with
        io_streams0 := netfs_set_submit wa.io_streams0 x.foff x.flen x.streamw f.group,
        io_streams1 := netfs_set_submit wa.io_streams1 x.foff x.flen x.streamw f.group } :
      netfs_io_request) = wb at *
  have hmeasure : (wb.stream 0).submit_len + (wb.stream 1).submit_len < fuel := by
    have h0 := (hbrd 0).1
    have h1 := (hbrd 1).1
    omega
  obtain ⟨w9, io, hrun, hlf, hlok, hltot⟩ :=
    loop_total f.pos f.size x.to_eof hfpos fuel wb 0 hbok hbpos hbrd hmeasure
  rw [hrun]
  obtain ⟨hff, hfok, hftot⟩ := finish_frame w9 f x io
  refine ⟨_, rfl, planner_frame_trans ha (planner_frame_trans hbf (planner_frame_trans hlf hff)),
    hfok hlok, ?_⟩
  intro t
  rw [hftot t, hltot t, hst t, set_submit_total, has t]

theorem set_submit_len_static {st st' : netfs_io_stream} (h : stream_static st st')
    (foff flen : Nat) (streamw : Bool) (g : netfs_group_ptr) :
    (netfs_set_submit st' foff flen streamw g).submit_len =
      (netfs_set_submit st foff flen streamw g).submit_len := by
  unfold netfs_set_submit
  rw [h.avail, h.source]
  split <;> rfl

theorem cond_issue_frame (c : Prop) [Decidable c] (w : netfs_io_request) (s : Nat) :
    planner_frame w (if c then netfs_issue_write w s else w) ∧
    (planner_ok w → planner_ok (if c then netfs_issue_write w s else w)) ∧
    ∀ t, ((if c then netfs_issue_write w s else w).stream t).total_len =
      (w.stream t).total_len := by
  split
  · exact ⟨issue_planner_frame w s, issue_planner_ok w s, fun t => issue_total_len w s t⟩
  · exact ⟨planner_frame_refl w, id, fun _ => rfl⟩

theorem cond_emit_frame (c : Prop) [Decidable c] (w : netfs_io_request) (e : netfs_event) :
    planner_frame w (if c then w.emit e else w) ∧
    ∀ t, (if c then w.emit e else w).stream t = w.stream t := by
  split
  · exact ⟨emit_planner_frame w e, fun _ => rfl⟩
  · exact ⟨planner_frame_refl w, fun _ => rfl⟩

theorem accepted_total (fuel : Nat) (w : netfs_io_request) (f : folio) (x : folio_extent)
    (hfpos : f.pos ≤ LONG_MAX) (hok : planner_ok w) (hpos : planner_pos w)
    (hfuel : 2 * U32 ≤ fuel)
    (hctc : f.group = netfs_group_ptr.NETFS_FOLIO_COPY_TO_CACHE → w.io_streams1.avail = true)
    (hany : w.io_streams0.avail = true ∨ w.io_streams1.avail = true) :
    ∃ w', netfs_write_folio_accepted fuel w f x = some (w', 0) ∧ planner_frame w w' ∧
      planner_ok w' ∧
      ∀ t, (w'.stream t).total_len = (w.stream t).total_len +
        (netfs_set_submit (w.stream t) x.foff x.flen x.streamw f.group).submit_len := by
  unfold netfs_write_folio_accepted
  simp only []
  obtain ⟨f3, ok3, tot3⟩ := cond_issue_frame (x.foff > 0) w 0
  have ok3' := ok3 hok
  generalize (if x.foff > 0 then netfs_issue_write w 0 else w) = w3 at *
  obtain ⟨f4, ok4, tot4⟩ := cond_issue_frame (x.streamw = true) w3 1
  have ok4' := ok4 ok3'
  generalize (if x.streamw = true then netfs_issue_write w3 1 else w3) = w4 at *
  obtain ⟨f5, s5⟩ := cond_emit_frame (w4.origin = netfs_io_origin.NETFS_WRITEBACK) w4
    (netfs_event.folio_start_writeback f)
  have ok5 := planner_ok_of_same f5 s5 ok4'
  generalize (if w4.origin = netfs_io_origin.NETFS_WRITEBACK
    then w4.emit (netfs_event.folio_start_writeback f) else w4) = w5 at *
  have f6 := emit_planner_frame w5 (netfs_event.folio_unlock f)
  have s6 : ∀ t, (w5.emit (netfs_event.folio_unlock f)).stream t = w5.stream t := fun _ => rfl
  have ok6 := planner_ok_of_same f6 s6 ok5
  generalize w5.emit (netfs_event.folio_unlock f) = w6 at *
  have hfr := planner_frame_trans (planner_frame_trans (planner_frame_trans f3 f4) f5) f6
  have hav0 : w6.io_streams0.avail = w.io_streams0.avail := (hfr.static 0).avail
  have hav1 : w6.io_streams1.avail = w.io_streams1.avail := (hfr.static 1).avail
  have hpos6 := planner_pos_of_frame hfr hpos
  obtain ⟨w', hrun, hf', hok', htot'⟩ := submit_total fuel w6 f x hfpos ok6 hpos6 hfuel
  have hres : ∀ t, (w'.stream t).total_len = (w.stream t).total_len +
      (netfs_set_submit (w.stream t) x.foff x.flen x.streamw f.group).submit_len := by
    intro t
    rw [htot' t, set_submit_len_static (hfr.static t)]
    have : (w6.stream t).total_len = (w.stream t).total_len := by
      rw [s6 t, s5 t, tot4 t, tot3 t]
    rw [this]
  by_cases hg : f.group = netfs_group_ptr.NETFS_FOLIO_COPY_TO_CACHE
  · rw [if_pos hg, if_neg (by rw [hav1, hctc hg]; decide)]
    exact ⟨w', hrun, planner_frame_trans hfr hf', hok', hres⟩
  · rw [if_neg hg, if_neg]
    · exact ⟨w', hrun, planner_frame_trans hfr hf', hok', hres⟩
    · rw [hav0, hav1]
      rcases hany with h | h <;> simp [h]

theorem extent_frame (w : netfs_io_request) (f : folio) :
    planner_frame w (netfs_write_folio_extent w f).1 ∧
    ∀ t, (netfs_write_folio_extent w f).1.stream t = w.stream t := by
  unfold netfs_write_folio_extent
  simp only []
  split
  · exact ⟨planner_frame_refl w, fun _ => rfl⟩
  · split
    · simp only []
      split
      · exact ⟨emit_planner_frame _ _, fun _ => rfl⟩
      · exact ⟨planner_frame_refl w, fun _ => rfl⟩
    · split <;> exact ⟨planner_frame_refl w, fun _ => rfl⟩

theorem extent_congr (w w' : netfs_io_request) (f : folio) (ho : w'.origin = w.origin)
    (hi : w'.inode_i_size = w.inode_i_size) :
    (netfs_write_folio_extent w' f).2 = (netfs_write_folio_extent w f).2 := by
  unfold netfs_write_folio_extent
  simp only [ho, hi]
  split
  · rfl
  · split
    · rfl
    · split <;> rfl

theorem planned_total (fuel : Nat) (w : netfs_io_request) (f : folio)
    (hfpos : f.pos ≤ LONG_MAX) (hok : planner_ok w) (hpos : planner_pos w)
    (hfuel : 2 * U32 ≤ fuel) (heof : f.pos < w.inode_i_size)
    (hgrp : f.group = netfs_group_ptr.NETFS_FOLIO_COPY_TO_CACHE ∨ f.group = w.group)
    (hctc : f.group = netfs_group_ptr.NETFS_FOLIO_COPY_TO_CACHE → w.io_streams1.avail = true)
    (hany : w.io_streams0.avail = true ∨ w.io_streams1.avail = true) :
    ∃ w', netfs_write_folio_planned fuel w f = some (w', 0) ∧ planner_frame w w' ∧
      planner_ok w' ∧
      ∀ t, (w'.stream t).total_len = (w.stream t).total_len +
        (netfs_set_submit (w.stream t) (netfs_write_folio_extent w f).2.foff
          (netfs_write_folio_extent w f).2.flen (netfs_write_folio_extent w f).2.streamw
          f.group).submit_len := by
  unfold netfs_write_folio_planned
  rw [if_neg (by omega)]
  simp only []
  have f1 : planner_frame w
      (if f.pos + f.size > w.i_size then { w with i_size := w.inode_i_size } else w) := by
    split
    · exact ⟨rfl, rfl, rfl, rfl, rfl, rfl, rfl, rfl, rfl, rfl, rfl, rfl, rfl, rfl,
        fun _ => stream_static_refl _⟩
    · exact planner_frame_refl w
  have s1 : ∀ t, (if f.pos + f.size > w.i_size then { w with i_size := w.inode_i_size }
      else w).stream t = w.stream t := by
    intro t; split <;> rfl
  have ok1 := planner_ok_of_same f1 s1 hok
  generalize (if f.pos + f.size > w.i_size then { w with i_size := w.inode_i_size } else w) = w1 at *
  have hx := extent_congr w w1 f f1.origin f1.inode_i_size
  obtain ⟨f2, s2⟩ := extent_frame w1 f
  have ok2 := planner_ok_of_same f2 s2 ok1
  rw [hx]
  generalize (netfs_write_folio_extent w f).2 = x at *
  generalize (netfs_write_folio_extent w1 f).1 = w2 at *
  have f12 := planner_frame_trans f1 f2
  have pos2 := planner_pos_of_frame f12 hpos
  have s12 : ∀ t, w2.stream t = w.stream t := fun t => by rw [s2 t, s1 t]
  by_cases hg : f.group = netfs_group_ptr.NETFS_FOLIO_COPY_TO_CACHE
  · rw [if_pos hg]
    have f3 := issue_planner_frame w2 0
    have ok3 := issue_planner_ok w2 0 ok2
    have f123 := planner_frame_trans f12 f3
    obtain ⟨w', hrun, hf', hok', htot'⟩ := accepted_total fuel (netfs_issue_write w2 0) f x hfpos
      ok3 (planner_pos_of_frame f3 pos2) hfuel
      (fun h => by rw [← stream_one, (f123.static 1).avail]; exact hctc h)
      (by
        rw [← stream_zero, ← stream_one, (f123.static 0).avail, (f123.static 1).avail]
        exact hany)
    refine ⟨w', hrun, planner_frame_trans f123 hf', hok', ?_⟩
    intro t
    rw [htot' t, issue_total_len, s12 t, set_submit_len_static (f123.static t)]
  · rw [if_neg hg]
    have hgw : f.group = w2.group := by
      rw [f12.group]
      rcases hgrp with h | h
      · exact absurd h hg
      · exact h
    rw [if_neg (by simp [hgw])]
    obtain ⟨w', hrun, hf', hok', htot'⟩ := accepted_total fuel w2 f x hfpos ok2 pos2 hfuel
      (fun h => absurd h hg)
      (by
        rw [← stream_zero, ← stream_one, (f12.static 0).avail, (f12.static 1).avail]
        exact hany)
    refine ⟨w', hrun, planner_frame_trans f12 hf', hok', ?_⟩
    intro t
    rw [htot' t, s12 t]

theorem make_space_ok (b : rolling_buffer) (h : b.space ≠ some 0) :
    ¬((rolling_buffer_make_space b).2 < 0) := by
  unfold rolling_buffer_make_space
  cases hs : b.space with
  | none => simp
  | some n =>
    cases n with
    | zero => exact absurd hs h
    | succ m => simp

theorem routed_any {w : netfs_io_request} {f : folio} {s : Nat} (h : netfs_routed w f s) :
    w.io_streams0.avail = true ∨ w.io_streams1.avail = true := by
  have hav := h.2.2.2.1
  unfold netfs_io_request.stream at hav
  split at hav
  · exact Or.inl hav
  · exact Or.inr hav

theorem routed_submit_len {w : netfs_io_request} {f : folio} {s : Nat}
    (h : netfs_routed w f s) (foff flen : Nat) :
    (netfs_set_submit (w.stream s) foff flen f.finfo.isSome f.group).submit_len = flen % U32 := by
  obtain ⟨_, _, _, hav, h1, h2⟩ := h
  unfold netfs_set_submit
  rw [if_neg]
  simp only [hav, Bool.not_true, Bool.false_or, Bool.or_eq_true, Bool.and_eq_true,
    decide_eq_true_eq, not_or]
  exact ⟨h1, h2⟩

theorem extent_streamw (w : netfs_io_request) (f : folio) :
    (netfs_write_folio_extent w f).2.streamw = f.finfo.isSome := by
  unfold netfs_write_folio_extent
  simp only []
  split
  · rfl
  · split
    · rfl
    · split <;> rfl

/-- One routed folio: `netfs_write_folio` returns 0 and the lengths on every
stream the folio is routed to grow by what the code stores in `submit_len`, the
local `flen` (a `size_t`) cut to the width of `unsigned int`. -/
theorem write_folio_routed (fuel : Nat) (w : netfs_io_request) (f : folio) (s : Nat)
    (hfpos : f.pos ≤ LONG_MAX) (hok : planner_ok w) (hpos : planner_pos w)
    (hfuel : 2 * U32 ≤ fuel) (hspace : w.buffer.space ≠ some 0) (hr : netfs_routed w f s) :
    ∃ w', netfs_write_folio fuel w f = some (w', 0) ∧
      planner_frame { w with buffer := (rolling_buffer_make_space w.buffer).1 } w' ∧
      planner_ok w' ∧
      (w'.stream s).total_len =
        (w.stream s).total_len + (netfs_write_folio_extent w f).2.flen % U32 := by
  unfold netfs_write_folio
  rw [if_neg (make_space_ok _ hspace)]
  obtain ⟨w', hrun, hf, hok', htot⟩ := planned_total fuel
    { w with buffer := (rolling_buffer_make_space w.buffer).1 } f hfpos
    (fun t => hok t) (fun t => hpos t) hfuel hr.1 hr.2.1 hr.2.2.1 (routed_any hr)
  refine ⟨w', hrun, hf, hok', ?_⟩
  have hs := htot s
  rw [extent_streamw] at hs
  have hr' : netfs_routed { w with buffer := (rolling_buffer_make_space w.buffer).1 } f s := hr
  rw [routed_submit_len hr',
    extent_congr w { w with buffer := (rolling_buffer_make_space w.buffer).1 } f rfl rfl] at hs
  exact hs

theorem routed_of_frame {w w' : netfs_io_request} (hf : planner_frame w w') (f : folio) (s : Nat)
    (h : netfs_routed w f s) : netfs_routed w' f s := by
  unfold netfs_routed at *
  rw [hf.inode_i_size, hf.group, (hf.static s).avail, (hf.static s).source]
  have h1 : w'.io_streams1.avail = w.io_streams1.avail := (hf.static 1).avail
  rw [h1]
  exact h

theorem routed_len_of_frame {w w' : netfs_io_request} (hf : planner_frame w w') (f : folio) :
    (netfs_write_folio_extent w' f).2.flen % U32 = (netfs_write_folio_extent w f).2.flen % U32 := by
  rw [extent_congr w w' f hf.origin hf.inode_i_size]

theorem make_space_space (b : rolling_buffer) (n : Nat)
    (h : (rolling_buffer_make_space b).1.space = some n) : b.space = some (n + 1) ∨
      (b.space = some 0 ∧ n = 0) := by
  unfold rolling_buffer_make_space at h
  cases hs : b.space with
  | none => rw [hs] at h; simp [hs] at h
  | some m =>
    rw [hs] at h
    cases m with
    | zero =>
      simp only [] at h
      rw [hs] at h
      exact Or.inr ⟨rfl, (Option.some.inj h).symm⟩
    | succ k =>
      simp only [Option.some.injEq] at h
      exact Or.inl (by rw [h])

theorem write_folios_routed (fuel : Nat) (s : Nat) (fs : List folio) :
    ∀ w : netfs_io_request, planner_ok w → planner_pos w → 2 * U32 ≤ fuel →
    (∀ n, w.buffer.space = some n → fs.length ≤ n) →
    (∀ f ∈ fs, netfs_routed w f s ∧ f.pos ≤ LONG_MAX) →
    ∃ w', netfs_write_folios fuel w fs = some (w', 0) ∧ planner_ok w' ∧
      (w'.stream s).total_len =
        (w.stream s).total_len +
          (fs.map (fun f => (netfs_write_folio_extent w f).2.flen % U32)).sum := by
  induction fs with
  | nil =>
    intro w hok _ _ _ _
    exact ⟨w, rfl, hok, by simp⟩
  | cons f fs ih =>
    intro w hok hpos hfuel hspace hr
    have hsp0 : w.buffer.space ≠ some 0 := by
      intro h
      have := hspace 0 h
      simp at this
    obtain ⟨hrf, hfpos⟩ := hr f (List.mem_cons_self _ _)
    obtain ⟨w1, hrun, hf, hok1, htot⟩ := write_folio_routed fuel w f s hfpos hok hpos hfuel hsp0 hrf
    have hpos1 : planner_pos w1 := planner_pos_of_frame hf (fun t => hpos t)
    have hspace1 : ∀ n, w1.buffer.space = some n → fs.length ≤ n := by
      intro n hn
      rw [hf.space] at hn
      rcases make_space_space _ n hn with h | h
      · have := hspace (n + 1) h
        simp only [List.length_cons] at this
        omega
      · exact absurd h.1 hsp0
    have hr1 : ∀ g ∈ fs, netfs_routed w1 g s ∧ g.pos ≤ LONG_MAX := by
      intro g hg
      obtain ⟨h1, h2⟩ := hr g (List.mem_cons_of_mem _ hg)
      exact ⟨routed_of_frame hf g s h1, h2⟩
    obtain ⟨w', hrun', hok', htot'⟩ := ih w1 hok1 hpos1 hfuel hspace1 hr1
    refine ⟨w', ?_, hok', ?_⟩
    · unfold netfs_write_folios
      rw [hrun]
      simp only []
      rw [if_neg (by decide)]
      exact hrun'
    · rw [htot', htot]
      have : (fs.map (fun g => (netfs_write_folio_extent w1 g).2.flen % U32)) =
          (fs.map (fun g => (netfs_write_folio_extent w g).2.flen % U32)) := by
        apply List.map_congr_left
        intro g _
        show (netfs_write_folio_extent w1 g).2.flen % U32 =
          (netfs_write_folio_extent w g).2.flen % U32
        rw [extent_congr w w1 g hf.origin hf.inode_i_size]
      rw [this]
      simp only [List.map_cons, List.sum_cons]
      omega

/-! ## Limits of the subrequests -/

theorem example_request_planner_ok : planner_ok example_request := by
  intro t
  unfold netfs_io_request.stream
  split
  · exact ⟨by decide, fun q => by
      simp [netfs_prepare_write_limits, example_request, netfs_io_stream.zero, U64, U32, INT_MAX]⟩
  · exact ⟨by decide, fun q => by
      simp [netfs_prepare_write_limits, example_request, netfs_io_stream.zero, U64, U32, INT_MAX,
        UINT_MAX]⟩

theorem example_request_planner_pos : planner_pos example_request := by
  intro t
  unfold netfs_io_request.stream
  split
  · intro q
    simp [netfs_prepare_write_limits, example_request, netfs_io_stream.zero]
  · intro q
    simp [netfs_prepare_write_limits, example_request, netfs_io_stream.zero, UINT_MAX]

/-- C2 (as amended): for every sequence of calls of `netfs_advance_write` on a
stream, every subrequest prepared by the calls ends with `len <= sreq_max_len`
and `nr_segs <= max sreq_max_segs 1`, for the limits in force after it was
prepared; the construct open at the start obeys the limits of the stream at the
start, and every other subrequest keeps its `len` and `nr_segs`.  No exception
is needed for a subrequest issued because of `to_eof`. -/
theorem netfs_advance_write_within_limits (w : netfs_io_request) (s : Nat)
    (cs : List advance_call) (hok : stream_ok (w.stream s))
    (hlim : limits_in_range w.wsize (w.stream s)) (hcs : ∀ c ∈ cs, c.start + c.len < U64) :
    ((netfs_advance_writes w s cs).stream s).subrequests.length =
      (w.stream s).subrequests.length + (netfs_prepared_limits w s cs).length ∧
    (∀ (k : Nat) (lim : Nat × Nat), (netfs_prepared_limits w s cs)[k]? = some lim →
      ∃ q', ((netfs_advance_writes w s cs).stream s).subrequests[
          (w.stream s).subrequests.length + k]? = some q' ∧
        q'.len ≤ lim.1 ∧ q'.nr_segs ≤ max lim.2 1) ∧
    (∀ i : Nat, (w.stream s).construct = some i →
      ∃ q', ((netfs_advance_writes w s cs).stream s).subrequests[i]? = some q' ∧
        q'.len ≤ (w.stream s).sreq_max_len ∧ q'.nr_segs ≤ max (w.stream s).sreq_max_segs 1) ∧
    (∀ (k : Nat) (q : netfs_io_subrequest), (w.stream s).subrequests[k]? = some q →
      (w.stream s).construct ≠ some k →
      ∃ q', ((netfs_advance_writes w s cs).stream s).subrequests[k]? = some q' ∧
        q'.len = q.len ∧ q'.nr_segs = q.nr_segs) := by
  obtain ⟨hA, hB, hC, hD⟩ := advance_writes_limits s cs w hok hlim hcs
  exact ⟨hA, hD, hC, hB⟩

theorem netfs_advance_write_within_limits_witness :
    ((netfs_advance_writes example_request 0
        [⟨0, 3000, false⟩, ⟨3000, 3000, false⟩, ⟨10000, 100, true⟩]).stream 0).subrequests.length =
      (example_request.stream 0).subrequests.length +
        (netfs_prepared_limits example_request 0
          [⟨0, 3000, false⟩, ⟨3000, 3000, false⟩, ⟨10000, 100, true⟩]).length ∧
    (∀ (k : Nat) (lim : Nat × Nat),
      (netfs_prepared_limits example_request 0
        [⟨0, 3000, false⟩, ⟨3000, 3000, false⟩, ⟨10000, 100, true⟩])[k]? = some lim →
      ∃ q', ((netfs_advance_writes example_request 0
          [⟨0, 3000, false⟩, ⟨3000, 3000, false⟩, ⟨10000, 100, true⟩]).stream 0).subrequests[
          (example_request.stream 0).subrequests.length + k]? = some q' ∧
        q'.len ≤ lim.1 ∧ q'.nr_segs ≤ max lim.2 1) ∧
    (∀ i : Nat, (example_request.stream 0).construct = some i →
      ∃ q', ((netfs_advance_writes example_request 0
          [⟨0, 3000, false⟩, ⟨3000, 3000, false⟩, ⟨10000, 100, true⟩]).stream 0).subrequests[i]?
          = some q' ∧
        q'.len ≤ (example_request.stream 0).sreq_max_len ∧
        q'.nr_segs ≤ max (example_request.stream 0).sreq_max_segs 1) ∧
    (∀ (k : Nat) (q : netfs_io_subrequest), (example_request.stream 0).subrequests[k]? = some q →
      (example_request.stream 0).construct ≠ some k →
      ∃ q', ((netfs_advance_writes example_request 0
          [⟨0, 3000, false⟩, ⟨3000, 3000, false⟩, ⟨10000, 100, true⟩]).stream 0).subrequests[k]?
          = some q' ∧
        q'.len = q.len ∧ q'.nr_segs = q.nr_segs) :=
  netfs_advance_write_within_limits example_request 0
    [⟨0, 3000, false⟩, ⟨3000, 3000, false⟩, ⟨10000, 100, true⟩]
    example_request_ok example_request_limits (by decide)

/-- C2 (counterexample): with a backend whose `prepare_write` hook sets
`sreq_max_segs` to 0, one call `netfs_advance_write(0, 10)` prepares a subrequest
under the limits `(4096, 0)` and leaves it with `nr_segs = 1`, above the segment
limit in force. -/
theorem netfs_advance_write_within_limits_counterexample :
    netfs_prepared_limits example_request_no_segs 0 [⟨0, 10, false⟩] = [(4096, 0)] ∧
    ((netfs_advance_writes example_request_no_segs 0 [⟨0, 10, false⟩]).stream 0).subrequests.map
      (fun q => (q.len, q.nr_segs)) = [(10, 1)] := by
  decide

/-! ## Ordering of the subrequests and of the stores to `issued_to` -/

/-- C7: a streaming-write folio whose dirty bytes `[100, 150)` lie beyond the
end of a file truncated to 50 bytes, planned by `netfs_write_folio` on a
request with a write size of 4294967196: the routed length `50 - 100` wraps,
and the upload stream gets, and dispatches, a subrequest starting at 100 and
then one starting at 0, so the start offsets are not increasing. -/
theorem netfs_write_folio_subrequest_order_broken :
    (netfs_write_folio 8 (example_request_truncated 4294967196) example_folio_streamw).map
      (fun r => (r.2, (r.1.stream 0).extents, r.1.dispatched 0)) =
    some (0, [(100, 4294967196), (0, 50)], [(100, 4294967196), (0, 50)]) := by
  decide

/-- C8: the same folio planned on a request with a write size of 2147483647:
the values stored to `issued_to` are 100, 2147483747 and then 4096, which is
less than the value stored before it. -/
theorem netfs_write_folio_issued_to_decreases :
    (netfs_write_folio 8 (example_request_truncated 2147483647) example_folio_streamw).map
      (fun r => (r.2, r.1.issued_to_stores)) =
    some (0, [100, 2147483747, 4096]) := by
  decide

/-! ## The watermark `issued_to` -/

theorem submit_advance_frame (w : netfs_io_request) (s part : Nat) :
    planner_frame w (w.set_stream s (netfs_submit_advance (w.stream s) part)) := by
  refine ⟨by simp, by simp, by simp, by simp, by simp, by simp, by simp, by simp, by simp,
    by simp, by simp, by simp, by simp, by simp, ?_⟩
  intro t
  by_cases h : s = 0 ↔ t = 0
  · rw [stream_eq_of_iff _ s t h, stream_eq_of_iff _ s t h, stream_set_stream]
    exact ⟨rfl, rfl, rfl, rfl⟩
  · rw [stream_set_stream_ne _ _ _ _ h]
    exact stream_static_refl _

theorem step_frame (fpos fsize : Nat) (to_eof : Bool) (w : netfs_io_request) (iter_off s : Nat) :
    planner_frame w (netfs_write_folio_step fpos fsize to_eof w iter_off s).1 := by
  rw [step_eq]
  exact planner_frame_trans (step_pre_frame fpos fsize w iter_off s)
    (planner_frame_trans (advance_planner_frame _ s _ _ to_eof) (submit_advance_frame _ s _))

theorem loop_frame (fpos fsize : Nat) (to_eof : Bool) :
    ∀ (fuel : Nat) (w : netfs_io_request) (iter_off : Nat) (r : netfs_io_request × Nat),
    netfs_write_folio_loop fpos fsize to_eof fuel w iter_off = some r → planner_frame w r.1 := by
  intro fuel
  induction fuel with
  | zero => intro w io r h; exact Option.noConfusion h
  | succ n ih =>
    intro w io r h
    unfold netfs_write_folio_loop at h
    cases hch : netfs_choose_stream w with
    | none =>
      rw [hch] at h
      have := Option.some.inj h
      subst this
      exact planner_frame_refl w
    | some s =>
      rw [hch] at h
      exact planner_frame_trans (step_frame fpos fsize to_eof w io s) (ih _ _ r h)

theorem cond_issue_issued_to (c : Prop) [Decidable c] (w : netfs_io_request) (s : Nat) :
    (if c then netfs_issue_write w s else w).issued_to = w.issued_to := by
  split
  · exact (issue_frame w s).issued_to
  · rfl

theorem finish_issued_to (w : netfs_io_request) (f : folio) (x : folio_extent) (io : Nat) :
    (netfs_write_folio_finish w f x io).issued_to = f.pos + f.size := by
  unfold netfs_write_folio_finish
  simp only []
  split
  · rw [(issue_frame _ 1).issued_to, (issue_frame _ 0).issued_to]
    rfl
  · rfl

theorem submit_issued_to (fuel : Nat) (w : netfs_io_request) (f : folio) (x : folio_extent)
    (r : netfs_io_request × Int) (h : netfs_write_folio_submit fuel w f x = some r) :
    planner_frame w r.1 ∧ r.1.issued_to = f.pos + f.size := by
  unfold netfs_write_folio_submit at h
  simp only [] at h
  have f1 := rolling_buffer_append_frame w f
  have s1 : ∀ t, (rolling_buffer_append w f).stream t = w.stream t := fun _ => rfl
  generalize rolling_buffer_append w f = w1 at *
  have f2 : planner_frame w1 { w1 with
      io_streams0 := netfs_set_submit w1.io_streams0 x.foff x.flen x.streamw f.group,
      io_streams1 := netfs_set_submit w1.io_streams1 x.foff x.flen x.streamw f.group } := by
    refine ⟨rfl, rfl, rfl, rfl, rfl, rfl, rfl, rfl, rfl, rfl, rfl, rfl, rfl, rfl, ?_⟩
    intro t
    rw [set_submit_both_stream]
    exact set_submit_static _ _ _ _ _
  generalize ({ w1 with
      io_streams0 := netfs_set_submit w1.io_streams0 x.foff x.flen x.streamw f.group,
      io_streams1 := netfs_set_submit w1.io_streams1 x.foff x.flen x.streamw f.group } :
      netfs_io_request) = w2 at *
  cases hl : netfs_write_folio_loop f.pos f.size x.to_eof fuel w2 0 with
  | none => rw [hl] at h; exact Option.noConfusion h
  | some q =>
    rw [hl] at h
    have := Option.some.inj h
    subst this
    exact ⟨planner_frame_trans f1 (planner_frame_trans f2
      (planner_frame_trans (loop_frame _ _ _ _ _ _ _ hl) (finish_frame q.1 f x q.2).1)),
      finish_issued_to _ _ _ _⟩

theorem accepted_issued_to (fuel : Nat) (w : netfs_io_request) (f : folio) (x : folio_extent)
    (r : netfs_io_request × Int) (h : netfs_write_folio_accepted fuel w f x = some r) :
    planner_frame w r.1 ∧
    r.1.issued_to = (if netfs_destined w f then f.pos + f.size else w.issued_to) := by
  unfold netfs_write_folio_accepted at h
  simp only [] at h
  obtain ⟨f3, -, -⟩ := cond_issue_frame (x.foff > 0) w 0
  have i3 := cond_issue_issued_to (x.foff > 0) w 0
  generalize (if x.foff > 0 then netfs_issue_write w 0 else w) = w3 at *
  obtain ⟨f4, -, -⟩ := cond_issue_frame (x.streamw = true) w3 1
  have i4 := cond_issue_issued_to (x.streamw = true) w3 1
  generalize (if x.streamw = true then netfs_issue_write w3 1 else w3) = w4 at *
  obtain ⟨f5, -⟩ := cond_emit_frame (w4.origin = netfs_io_origin.NETFS_WRITEBACK) w4
    (netfs_event.folio_start_writeback f)
  have i5 : (if w4.origin = netfs_io_origin.NETFS_WRITEBACK
      then w4.emit (netfs_event.folio_start_writeback f) else w4).issued_to = w4.issued_to := by
    split <;> rfl
  generalize (if w4.origin = netfs_io_origin.NETFS_WRITEBACK
    then w4.emit (netfs_event.folio_start_writeback f) else w4) = w5 at *
  have f6 := emit_planner_frame w5 (netfs_event.folio_unlock f)
  have i6 : (w5.emit (netfs_event.folio_unlock f)).issued_to = w5.issued_to := rfl
  generalize w5.emit (netfs_event.folio_unlock f) = w6 at *
  have hfr := planner_frame_trans (planner_frame_trans (planner_frame_trans f3 f4) f5) f6
  have hi : w6.issued_to = w.issued_to := by rw [i6, i5, i4, i3]
  have hav0 : w6.io_streams0.avail = w.io_streams0.avail := (hfr.static 0).avail
  have hav1 : w6.io_streams1.avail = w.io_streams1.avail := (hfr.static 1).avail
  rw [hav0, hav1] at h
  by_cases hg : f.group = netfs_group_ptr.NETFS_FOLIO_COPY_TO_CACHE
  · rw [if_pos hg] at h
    by_cases ha : w.io_streams1.avail = true
    · rw [if_neg (by rw [ha]; decide)] at h
      obtain ⟨hf, hi'⟩ := submit_issued_to fuel w6 f x r h
      rw [if_pos ⟨fun _ => ha, Or.inr ha⟩]
      exact ⟨planner_frame_trans hfr hf, hi'⟩
    · rw [if_pos (by simpa using ha)] at h
      have := Option.some.inj h
      subst this
      rw [if_neg (fun hd => ha (hd.1 hg))]
      exact ⟨planner_frame_trans hfr (planner_frame_trans (issue_planner_frame w6 0)
        (emit_planner_frame _ _)), by
        show (netfs_issue_write w6 0).issued_to = _
        rw [(issue_frame w6 0).issued_to, hi]⟩
  · rw [if_neg hg] at h
    by_cases ha : w.io_streams0.avail = true ∨ w.io_streams1.avail = true
    · rw [if_neg (by rcases ha with h' | h' <;> simp [h'])] at h
      obtain ⟨hf, hi'⟩ := submit_issued_to fuel w6 f x r h
      rw [if_pos ⟨fun hg' => absurd hg' hg, ha⟩]
      exact ⟨planner_frame_trans hfr hf, hi'⟩
    · rw [if_pos (by
        have h0 : w.io_streams0.avail = false := by
          cases hh : w.io_streams0.avail
          · rfl
          · exact absurd (Or.inl hh) ha
        have h1 : w.io_streams1.avail = false := by
          cases hh : w.io_streams1.avail
          · rfl
          · exact absurd (Or.inr hh) ha
        rw [h0, h1]; rfl)] at h
      have := Option.some.inj h
      subst this
      rw [if_neg (fun hd => ha hd.2)]
      exact ⟨planner_frame_trans hfr (emit_planner_frame _ _), hi⟩

theorem nr_group_rel_frame (w : netfs_io_request) (n : Nat) :
    planner_frame w { w with nr_group_rel := n } :=
  ⟨rfl, rfl, rfl, rfl, rfl, rfl, rfl, rfl, rfl, rfl, rfl, rfl, rfl, rfl,
    fun _ => stream_static_refl _⟩

theorem make_space_nomem (b : rolling_buffer) (h : b.space = some 0) :
    (rolling_buffer_make_space b).2 < 0 := by
  unfold rolling_buffer_make_space
  rw [h]
  show (-ENOMEM : Int) < 0
  decide

theorem planned_issued_to (fuel : Nat) (w : netfs_io_request) (f : folio)
    (r : netfs_io_request × Int) (h : netfs_write_folio_planned fuel w f = some r) :
    planner_frame w r.1 ∧
    r.1.issued_to =
      (if f.pos < w.inode_i_size ∧
          (f.group = netfs_group_ptr.NETFS_FOLIO_COPY_TO_CACHE ∨ f.group = w.group) ∧
          netfs_destined w f
       then f.pos + f.size else w.issued_to) := by
  unfold netfs_write_folio_planned at h
  by_cases he : f.pos ≥ w.inode_i_size
  · rw [if_pos he] at h
    have := Option.some.inj h
    subst this
    rw [if_neg (fun hc => absurd hc.1 (by omega))]
    exact ⟨planner_frame_trans (emit_planner_frame _ _) (planner_frame_trans
      (emit_planner_frame _ _) (planner_frame_trans (emit_planner_frame _ _)
        (planner_frame_trans (emit_planner_frame _ _) (nr_group_rel_frame _ 0)))), rfl⟩
  · rw [if_neg he] at h
    simp only [] at h
    have f1 : planner_frame w
        (if f.pos + f.size > w.i_size then { w with i_size := w.inode_i_size } else w) := by
      split
      · exact ⟨rfl, rfl, rfl, rfl, rfl, rfl, rfl, rfl, rfl, rfl, rfl, rfl, rfl, rfl,
          fun _ => stream_static_refl _⟩
      · exact planner_frame_refl w
    have i1 : (if f.pos + f.size > w.i_size then { w with i_size := w.inode_i_size }
        else w).issued_to = w.issued_to := by
      split <;> rfl
    have s1 : ∀ t, (if f.pos + f.size > w.i_size then { w with i_size := w.inode_i_size }
        else w).stream t = w.stream t := by
      intro t; split <;> rfl
    generalize (if f.pos + f.size > w.i_size then { w with i_size := w.inode_i_size }
        else w) = w1 at *
    obtain ⟨f2, s2⟩ := extent_frame w1 f
    have i2 : (netfs_write_folio_extent w1 f).1.issued_to = w1.issued_to := by
      unfold netfs_write_folio_extent
      simp only []
      split
      · rfl
      · split
        · simp only []
          split <;> rfl
        · split <;> rfl
    generalize netfs_write_folio_extent w1 f = e at *
    have hfr := planner_frame_trans f1 f2
    have hi : e.1.issued_to = w.issued_to := by rw [i2, i1]
    have hd : ∀ w2 : netfs_io_request, planner_frame w w2 →
        (netfs_destined w2 f ↔ netfs_destined w f) := by
      intro w2 hf2
      unfold netfs_destined
      have h0 : w2.io_streams0.avail = w.io_streams0.avail := (hf2.static 0).avail
      have h1 : w2.io_streams1.avail = w.io_streams1.avail := (hf2.static 1).avail
      rw [h0, h1]
    rw [hfr.group] at h
    by_cases hg : f.group = netfs_group_ptr.NETFS_FOLIO_COPY_TO_CACHE
    · rw [if_pos hg] at h
      have hf3 := planner_frame_trans hfr (issue_planner_frame e.1 0)
      obtain ⟨hf, hi'⟩ := accepted_issued_to fuel _ f e.2 r h
      refine ⟨planner_frame_trans hf3 hf, ?_⟩
      rw [hi', (issue_frame e.1 0).issued_to, hi]
      by_cases hdd : netfs_destined w f
      · rw [if_pos ((hd _ hf3).2 hdd), if_pos ⟨by omega, Or.inl hg, hdd⟩]
      · rw [if_neg (fun hc => hdd ((hd _ hf3).1 hc)), if_neg (fun hc => hdd hc.2.2)]
    · rw [if_neg hg] at h
      by_cases hgg : f.group ≠ w.group
      · rw [if_pos hgg] at h
        have := Option.some.inj h
        subst this
        rw [if_neg (fun hc => by
          rcases hc.2.1 with h' | h'
          · exact hg h'
          · exact hgg h')]
        refine ⟨planner_frame_trans hfr (planner_frame_trans (emit_planner_frame _ _)
          (planner_frame_trans (emit_planner_frame _ _)
            (planner_frame_trans (issue_planner_frame _ 0) (issue_planner_frame _ 1)))), ?_⟩
        show (netfs_issue_write (netfs_issue_write _ 0) 1).issued_to = _
        rw [(issue_frame _ 1).issued_to, (issue_frame _ 0).issued_to]
        exact hi
      · rw [if_neg hgg] at h
        obtain ⟨hf, hi'⟩ := accepted_issued_to fuel _ f e.2 r h
        refine ⟨planner_frame_trans hfr hf, ?_⟩
        rw [hi', hi]
        have hgw : f.group = w.group := by
          by_contra hc
          exact hgg hc
        by_cases hdd : netfs_destined w f
        · rw [if_pos ((hd _ hfr).2 hdd), if_pos ⟨by omega, Or.inr hgw, hdd⟩]
        · rw [if_neg (fun hc => hdd ((hd _ hfr).1 hc)), if_neg (fun hc => hdd hc.2.2)]

theorem write_folio_issued_to (fuel : Nat) (w : netfs_io_request) (f : folio)
    (r : netfs_io_request × Int) (h : netfs_write_folio fuel w f = some r) :
    r.1.start = w.start ∧ r.1.len = w.len ∧
    r.1.NETFS_RREQ_ALL_QUEUED = w.NETFS_RREQ_ALL_QUEUED ∧
    r.1.issued_to = (if netfs_submitted w f then f.pos + f.size else w.issued_to) := by
  unfold netfs_write_folio at h
  by_cases hs : w.buffer.space = some 0
  · rw [if_pos (make_space_nomem _ hs)] at h
    have := Option.some.inj h
    subst this
    rw [if_neg (fun hc => hc.1 hs)]
    exact ⟨rfl, rfl, rfl, rfl⟩
  · rw [if_neg (make_space_ok _ hs)] at h
    obtain ⟨hf, hi⟩ := planned_issued_to fuel _ f r h
    refine ⟨hf.start, hf.len, hf.all_queued, ?_⟩
    have hi' : r.1.issued_to = (if f.pos < w.inode_i_size ∧
        (f.group = netfs_group_ptr.NETFS_FOLIO_COPY_TO_CACHE ∨ f.group = w.group) ∧
        netfs_destined w f then f.pos + f.size else w.issued_to) := hi
    rw [hi']
    by_cases hc : netfs_submitted w f
    · rw [if_pos hc, if_pos hc.2]
    · rw [if_neg hc, if_neg (fun hc' => hc ⟨hs, hc'⟩)]

theorem end_issue_write_stream_frame (r : netfs_io_request × Bool) (s : Nat) :
    builder_frame r.1 (netfs_end_issue_write_stream r s).1 := by
  unfold netfs_end_issue_write_stream
  simp only []
  split
  · exact builder_frame_refl _
  · exact issue_frame _ _

theorem end_issue_write_frame (w : netfs_io_request) :
    (netfs_end_issue_write w).NETFS_RREQ_ALL_QUEUED = true ∧
    (netfs_end_issue_write w).issued_to = w.issued_to ∧
    (netfs_end_issue_write w).start = w.start ∧ (netfs_end_issue_write w).len = w.len := by
  unfold netfs_end_issue_write
  simp only []
  have h1 := end_issue_write_stream_frame ({ w with NETFS_RREQ_ALL_QUEUED := true }, true) 0
  have h2 := end_issue_write_stream_frame
    (netfs_end_issue_write_stream ({ w with NETFS_RREQ_ALL_QUEUED := true }, true) 0) 1
  have h := builder_frame_trans h1 h2
  generalize netfs_end_issue_write_stream
    (netfs_end_issue_write_stream ({ w with NETFS_RREQ_ALL_QUEUED := true }, true) 0) 1 = r at *
  split
  · exact ⟨h.all_queued, h.issued_to, h.start, h.len⟩
  · exact ⟨h.all_queued, h.issued_to, h.start, h.len⟩

theorem write_folio_single_issued_to (fuel : Nat) (w : netfs_io_request) (f : folio)
    (r : netfs_io_request × Int) (h : netfs_write_folio_single fuel w f = some r) :
    r.1.start = w.start ∧ r.1.len = w.len ∧
    r.1.NETFS_RREQ_ALL_QUEUED = w.NETFS_RREQ_ALL_QUEUED ∧
    r.1.issued_to = (if w.io_streams0.avail = true ∨ w.io_streams1.avail = true
      then f.pos + f.size else w.issued_to) := by
  unfold netfs_write_folio_single at h
  simp only [] at h
  obtain ⟨f1, s1⟩ := cond_emit_frame (f.size > wrap_sub U64 w.i_size f.pos) w
    (netfs_event.folio_zero_segment f (if f.size > wrap_sub U64 w.i_size f.pos
      then wrap_sub U64 w.i_size f.pos else f.size) f.size)
  have i1 : (if f.size > wrap_sub U64 w.i_size f.pos then
      w.emit (netfs_event.folio_zero_segment f (if f.size > wrap_sub U64 w.i_size f.pos
        then wrap_sub U64 w.i_size f.pos else f.size) f.size) else w).issued_to = w.issued_to := by
    split <;> rfl
  generalize (if f.size > wrap_sub U64 w.i_size f.pos then
      w.emit (netfs_event.folio_zero_segment f (if f.size > wrap_sub U64 w.i_size f.pos
        then wrap_sub U64 w.i_size f.pos else f.size) f.size) else w) = w1 at *
  have hav0 : w1.io_streams0.avail = w.io_streams0.avail := (f1.static 0).avail
  have hav1 : w1.io_streams1.avail = w.io_streams1.avail := (f1.static 1).avail
  rw [hav0, hav1] at h
  by_cases ha : w.io_streams0.avail = true ∨ w.io_streams1.avail = true
  · rw [if_neg (by rcases ha with h' | h' <;> simp [h'])] at h
    rw [if_pos ha]
    split at h
    · exact Option.noConfusion h
    · rename_i q hl
      have := Option.some.inj h
      subst this
      have hf := loop_frame _ _ _ _ _ _ _ hl
      have h2 : planner_frame q.1
          (if f.size > q.2 then rolling_buffer_advance q.1 (f.size - q.2) else q.1) := by
        split
        · exact rolling_buffer_advance_frame _ _
        · exact planner_frame_refl _
      have hs : q.1.start = w1.start := hf.start
      have hn : q.1.len = w1.len := hf.len
      have hq : q.1.NETFS_RREQ_ALL_QUEUED = w1.NETFS_RREQ_ALL_QUEUED := hf.all_queued
      exact ⟨h2.start.trans (hs.trans f1.start), h2.len.trans (hn.trans f1.len),
        h2.all_queued.trans (hq.trans f1.all_queued), rfl⟩
  · rw [if_pos (by
      have h0 : w.io_streams0.avail = false := by
        cases hh : w.io_streams0.avail
        · rfl
        · exact absurd (Or.inl hh) ha
      have h1 : w.io_streams1.avail = false := by
        cases hh : w.io_streams1.avail
        · rfl
        · exact absurd (Or.inr hh) ha
      rw [h0, h1]; rfl)] at h
    have := Option.some.inj h
    subst this
    rw [if_neg ha]
    exact ⟨f1.start, f1.len, f1.all_queued, i1⟩

theorem create_write_req_fields (ictx : netfs_inode) (start : Nat) (origin : netfs_io_origin)
    (w : netfs_io_request) (h : netfs_create_write_req ictx start origin = Except.ok w) :
    w.start = start ∧ w.len = 0 ∧ w.issued_to = 0 ∧ w.NETFS_RREQ_ALL_QUEUED = false := by
  unfold netfs_create_write_req netfs_alloc_request at h
  simp only [] at h
  cases ha : ictx.alloc_error with
  | some e => rw [ha] at h; exact Except.noConfusion h
  | none =>
    rw [ha] at h
    simp only [] at h
    cases hb : ictx.buffer_nomem with
    | true => rw [hb] at h; exact Except.noConfusion h
    | false =>
      rw [hb] at h
      have := Except.ok.inj h
      subst this
      exact ⟨rfl, rfl, rfl, rfl⟩

theorem writepages_loop_issued_to (upload_avail : Bool) (fuel : Nat) :
    ∀ (fs : List folio) (w : netfs_io_request) (r : netfs_io_request × Int),
    netfs_writepages_loop upload_avail fuel w fs = some r →
    r.1.start = w.start ∧ r.1.len = w.len ∧
    r.1.NETFS_RREQ_ALL_QUEUED = w.NETFS_RREQ_ALL_QUEUED ∧
    (r.1.issued_to = w.issued_to ∨ ∃ f ∈ fs, r.1.issued_to = f.pos + f.size) := by
  intro fs
  induction fs with
  | nil =>
    intro w r h
    have := Option.some.inj h
    subst this
    exact ⟨rfl, rfl, rfl, Or.inl rfl⟩
  | cons f fs ih =>
    intro w r h
    unfold netfs_writepages_loop at h
    simp only [] at h
    have hb : (if f.group ≠ netfs_group_ptr.NETFS_FOLIO_COPY_TO_CACHE ∧
          (!w.NETFS_RREQ_UPLOAD_TO_SERVER) = true
        then netfs_begin_writeback upload_avail { w with NETFS_RREQ_UPLOAD_TO_SERVER := true }
        else w).start = w.start ∧
        (if f.group ≠ netfs_group_ptr.NETFS_FOLIO_COPY_TO_CACHE ∧
          (!w.NETFS_RREQ_UPLOAD_TO_SERVER) = true
        then netfs_begin_writeback upload_avail { w with NETFS_RREQ_UPLOAD_TO_SERVER := true }
        else w).len = w.len ∧
        (if f.group ≠ netfs_group_ptr.NETFS_FOLIO_COPY_TO_CACHE ∧
          (!w.NETFS_RREQ_UPLOAD_TO_SERVER) = true
        then netfs_begin_writeback upload_avail { w with NETFS_RREQ_UPLOAD_TO_SERVER := true }
        else w).NETFS_RREQ_ALL_QUEUED = w.NETFS_RREQ_ALL_QUEUED ∧
        (if f.group ≠ netfs_group_ptr.NETFS_FOLIO_COPY_TO_CACHE ∧
          (!w.NETFS_RREQ_UPLOAD_TO_SERVER) = true
        then netfs_begin_writeback upload_avail { w with NETFS_RREQ_UPLOAD_TO_SERVER := true }
        else w).issued_to = w.issued_to := by
      split
      · exact ⟨rfl, rfl, rfl, rfl⟩
      · exact ⟨rfl, rfl, rfl, rfl⟩
    generalize (if f.group ≠ netfs_group_ptr.NETFS_FOLIO_COPY_TO_CACHE ∧
          (!w.NETFS_RREQ_UPLOAD_TO_SERVER) = true
        then netfs_begin_writeback upload_avail { w with NETFS_RREQ_UPLOAD_TO_SERVER := true }
        else w) = w1 at *
    obtain ⟨hb1, hb2, hb3, hb4⟩ := hb
    cases hw : netfs_write_folio fuel w1 f with
    | none => rw [hw] at h; exact Option.noConfusion h
    | some q =>
      rw [hw] at h
      simp only [] at h
      obtain ⟨hq1, hq2, hq3, hq4⟩ := write_folio_issued_to fuel w1 f q hw
      have hqi : q.1.issued_to = w.issued_to ∨ q.1.issued_to = f.pos + f.size := by
        rw [hq4]
        split
        · exact Or.inr rfl
        · exact Or.inl hb4
      have hdone : r = q → r.1.start = w.start ∧ r.1.len = w.len ∧
          r.1.NETFS_RREQ_ALL_QUEUED = w.NETFS_RREQ_ALL_QUEUED ∧
          (r.1.issued_to = w.issued_to ∨ ∃ g ∈ f :: fs, r.1.issued_to = g.pos + g.size) := by
        intro hr
        subst hr
        refine ⟨hq1.trans hb1, hq2.trans hb2, hq3.trans hb3, ?_⟩
        rcases hqi with h' | h'
        · exact Or.inl h'
        · exact Or.inr ⟨f, List.mem_cons_self _ _, h'⟩
      by_cases hneg : q.2 < 0
      · rw [if_pos hneg] at h
        exact hdone (Option.some.inj h).symm
      · rw [if_neg hneg] at h
        cases fs with
        | nil =>
          simp only [] at h
          exact hdone (Option.some.inj h).symm
        | cons g gs =>
          simp only [] at h
          obtain ⟨h1, h2, h3, h4⟩ := ih q.1 r h
          refine ⟨h1.trans (hq1.trans hb1), h2.trans (hq2.trans hb2),
            h3.trans (hq3.trans hb3), ?_⟩
          rcases h4 with h' | ⟨g', hg', h'⟩
          · rw [h']
            rcases hqi with h'' | h''
            · exact Or.inl h''
            · exact Or.inr ⟨f, List.mem_cons_self _ _, h''⟩
          · exact Or.inr ⟨g', List.mem_cons_of_mem _ hg', h'⟩

theorem writeback_single_loop_issued_to (fuel : Nat) :
    ∀ (fs : List folio) (w : netfs_io_request) (size : Nat) (ret : Int)
      (r : netfs_io_request × Int),
    netfs_writeback_single_loop fuel w fs size ret = some r →
    r.1.start = w.start ∧ r.1.len = w.len ∧
    r.1.NETFS_RREQ_ALL_QUEUED = w.NETFS_RREQ_ALL_QUEUED ∧
    (r.1.issued_to = w.issued_to ∨ ∃ f ∈ fs, r.1.issued_to = f.pos + f.size) := by
  intro fs
  induction fs with
  | nil =>
    intro w size ret r h
    have := Option.some.inj h
    subst this
    exact ⟨rfl, rfl, rfl, Or.inl rfl⟩
  | cons f fs ih =>
    intro w size ret r h
    unfold netfs_writeback_single_loop at h
    simp only [] at h
    cases hw : netfs_write_folio_single fuel w f with
    | none => rw [hw] at h; exact Option.noConfusion h
    | some q =>
      rw [hw] at h
      simp only [] at h
      obtain ⟨hq1, hq2, hq3, hq4⟩ := write_folio_single_issued_to fuel w f q hw
      have hqi : q.1.issued_to = w.issued_to ∨ q.1.issued_to = f.pos + f.size := by
        rw [hq4]
        split
        · exact Or.inr rfl
        · exact Or.inl rfl
      have hdone : r = q → r.1.start = w.start ∧ r.1.len = w.len ∧
          r.1.NETFS_RREQ_ALL_QUEUED = w.NETFS_RREQ_ALL_QUEUED ∧
          (r.1.issued_to = w.issued_to ∨ ∃ g ∈ f :: fs, r.1.issued_to = g.pos + g.size) := by
        intro hr
        subst hr
        refine ⟨hq1, hq2, hq3, ?_⟩
        rcases hqi with h' | h'
        · exact Or.inl h'
        · exact Or.inr ⟨f, List.mem_cons_self _ _, h'⟩
      by_cases hneg : q.2 < 0
      · rw [if_pos hneg] at h
        exact hdone (Option.some.inj h).symm
      · rw [if_neg hneg] at h
        by_cases hz : wrap_sub U64 size (umin f.size size) = 0
        · rw [if_pos hz] at h
          exact hdone (Option.some.inj h).symm
        · rw [if_neg hz] at h
          obtain ⟨h1, h2, h3, h4⟩ := ih q.1 _ _ r h
          refine ⟨h1.trans hq1, h2.trans hq2, h3.trans hq3, ?_⟩
          rcases h4 with h' | ⟨g', hg', h'⟩
          · rw [h']
            rcases hqi with h'' | h''
            · exact Or.inl h''
            · exact Or.inr ⟨f, List.mem_cons_self _ _, h''⟩
          · exact Or.inr ⟨g', List.mem_cons_of_mem _ hg', h'⟩

theorem unbuffered_write_flags_frame (view : collector_view) (k : Nat) (w : netfs_io_request) :
    (netfs_unbuffered_write_flags view k w).start = w.start ∧
    (netfs_unbuffered_write_flags view k w).len = w.len ∧
    (netfs_unbuffered_write_flags view k w).NETFS_RREQ_ALL_QUEUED = w.NETFS_RREQ_ALL_QUEUED ∧
    (netfs_unbuffered_write_flags view k w).issued_to = w.issued_to := by
  unfold netfs_unbuffered_write_flags
  simp only []
  split
  · exact ⟨rfl, rfl, rfl, rfl⟩
  · exact ⟨rfl, rfl, rfl, rfl⟩

theorem unbuffered_write_loop_frame (view : collector_view) :
    ∀ (fuel k : Nat) (w : netfs_io_request) (start len : Nat) (r : netfs_io_request),
    netfs_unbuffered_write_loop view fuel k w start len = some r →
    r.start = w.start ∧ r.len = w.len ∧
    r.NETFS_RREQ_ALL_QUEUED = w.NETFS_RREQ_ALL_QUEUED ∧ r.issued_to = w.issued_to := by
  intro fuel
  induction fuel with
  | zero => intro k w start len r h; exact Option.noConfusion h
  | succ n ih =>
    intro k w start len r h
    unfold netfs_unbuffered_write_loop at h
    by_cases hl : len = 0
    · rw [if_pos hl] at h
      have := Option.some.inj h
      subst this
      exact ⟨rfl, rfl, rfl, rfl⟩
    · rw [if_neg hl] at h
      simp only [] at h
      have hf := advance_frame w 0 start len false
      generalize netfs_advance_write w 0 start len false = a at *
      have hw2 : (netfs_unbuffered_write_flags view k (rolling_buffer_advance a.1 a.2)).start =
            w.start ∧
          (netfs_unbuffered_write_flags view k (rolling_buffer_advance a.1 a.2)).len = w.len ∧
          (netfs_unbuffered_write_flags view k
            (rolling_buffer_advance a.1 a.2)).NETFS_RREQ_ALL_QUEUED = w.NETFS_RREQ_ALL_QUEUED ∧
          (netfs_unbuffered_write_flags view k (rolling_buffer_advance a.1 a.2)).issued_to =
            w.issued_to := by
        obtain ⟨h1, h2, h3, h4⟩ :=
          unbuffered_write_flags_frame view k (rolling_buffer_advance a.1 a.2)
        exact ⟨h1.trans hf.start, h2.trans hf.len, h3.trans hf.all_queued,
          h4.trans hf.issued_to⟩
      generalize netfs_unbuffered_write_flags view k (rolling_buffer_advance a.1 a.2) = w2 at *
      by_cases hfl : w2.NETFS_RREQ_FAILED = true
      · rw [if_pos hfl] at h
        have := Option.some.inj h
        subst this
        exact hw2
      · rw [if_neg hfl] at h
        obtain ⟨h1, h2, h3, h4⟩ := ih _ _ _ _ r h
        exact ⟨h1.trans hw2.1, h2.trans hw2.2.1, h3.trans hw2.2.2.1, h4.trans hw2.2.2.2⟩

theorem writepages_issued_to (ictx : netfs_inode) (upload_avail : Bool) (fuel : Nat)
    (fs : List folio) (r : driver_result) (w' : netfs_io_request)
    (h : netfs_writepages ictx upload_avail fuel fs = some r) (hw : r.wreq = some w') :
    w'.NETFS_RREQ_ALL_QUEUED = true ∧ w'.len = 0 ∧ (∀ f ∈ fs.head?, w'.start = f.pos) ∧
    (w'.issued_to = 0 ∨ ∃ f ∈ fs, w'.issued_to = f.pos + f.size) := by
  unfold netfs_writepages at h
  cases fs with
  | nil =>
    simp only [] at h
    have := Option.some.inj h
    subst this
    exact Option.noConfusion hw
  | cons f fs =>
    simp only [] at h
    cases hc : netfs_create_write_req ictx f.pos netfs_io_origin.NETFS_WRITEBACK with
    | error e =>
      rw [hc] at h
      have := Option.some.inj h
      subst this
      exact Option.noConfusion hw
    | ok w =>
      rw [hc] at h
      simp only [] at h
      obtain ⟨c1, c2, c3, c4⟩ := create_write_req_fields _ _ _ _ hc
      cases hl : netfs_writepages_loop upload_avail fuel
          { w with NETFS_RREQ_OFFLOAD_COLLECTION := true } (f :: fs) with
      | none => rw [hl] at h; exact Option.noConfusion h
      | some q =>
        rw [hl] at h
        have := Option.some.inj h
        subst this
        have := Option.some.inj hw
        subst this
        obtain ⟨l1, l2, l3, l4⟩ := writepages_loop_issued_to upload_avail fuel _ _ _ hl
        obtain ⟨e1, e2, e3, e4⟩ := end_issue_write_frame q.1
        refine ⟨e1, (e4.trans l2).trans c2, ?_, ?_⟩
        · intro g hg
          have : g = f := (Option.some.inj hg).symm
          subst this
          exact (e3.trans l1).trans c1
        · rcases l4 with h' | h'
          · exact Or.inl ((e2.trans h').trans c3)
          · obtain ⟨g, hg, h''⟩ := h'
            exact Or.inr ⟨g, hg, e2.trans h''⟩

theorem writeback_single_issued_to (ictx : netfs_inode) (upload_avail : Bool) (fuel : Nat)
    (fs : List folio) (size : Nat) (ret0 : Int) (r : driver_result) (w' : netfs_io_request)
    (h : netfs_writeback_single ictx upload_avail fuel fs size ret0 = some r)
    (hw : r.wreq = some w') :
    w'.NETFS_RREQ_ALL_QUEUED = true ∧ w'.len = 0 ∧ w'.start = 0 ∧
    (w'.issued_to = 0 ∨ ∃ f ∈ fs, w'.issued_to = f.pos + f.size) := by
  unfold netfs_writeback_single at h
  cases hc : netfs_create_write_req ictx 0 netfs_io_origin.NETFS_WRITEBACK_SINGLE with
  | error e =>
    rw [hc] at h
    have := Option.some.inj h
    subst this
    exact Option.noConfusion hw
  | ok w =>
    rw [hc] at h
    simp only [] at h
    obtain ⟨c1, c2, c3, c4⟩ := create_write_req_fields _ _ _ _ hc
    have hb : ∀ w1 : netfs_io_request,
        w1 = (if w.NETFS_RREQ_UPLOAD_TO_SERVER = true then
          netfs_begin_writeback upload_avail
            { w with NETFS_RREQ_OFFLOAD_COLLECTION := true, NETFS_RREQ_UPLOAD_TO_SERVER := true }
          else { w with NETFS_RREQ_OFFLOAD_COLLECTION := true,
                        NETFS_RREQ_UPLOAD_TO_SERVER := true }) →
        w1.start = 0 ∧ w1.len = 0 ∧ w1.issued_to = 0 := by
      intro w1 h1
      subst h1
      split
      · exact ⟨c1, c2, c3⟩
      · exact ⟨c1, c2, c3⟩
    have hb' := hb _ rfl
    generalize (if w.NETFS_RREQ_UPLOAD_TO_SERVER = true then
          netfs_begin_writeback upload_avail
            { w with NETFS_RREQ_OFFLOAD_COLLECTION := true, NETFS_RREQ_UPLOAD_TO_SERVER := true }
          else { w with NETFS_RREQ_OFFLOAD_COLLECTION := true,
                        NETFS_RREQ_UPLOAD_TO_SERVER := true }) = w1 at *
    cases hl : netfs_writeback_single_loop fuel w1 fs size ret0 with
    | none => rw [hl] at h; exact Option.noConfusion h
    | some q =>
      rw [hl] at h
      have := Option.some.inj h
      subst this
      have := Option.some.inj hw
      subst this
      obtain ⟨l1, l2, l3, l4⟩ := writeback_single_loop_issued_to fuel _ _ _ _ _ hl
      have hi := builder_frame_trans (issue_frame q.1 0) (issue_frame _ 1)
      refine ⟨rfl, (hi.len.trans l2).trans hb'.2.1, (hi.start.trans l1).trans hb'.1, ?_⟩
      rcases l4 with h' | h'
      · exact Or.inl ((hi.issued_to.trans h').trans hb'.2.2)
      · obtain ⟨g, hg, h''⟩ := h'
        exact Or.inr ⟨g, hg, hi.issued_to.trans h''⟩

theorem unbuffered_write_issued_to (view : collector_view) (fuel : Nat) (w : netfs_io_request)
    (len : Nat) (r : netfs_io_request × Int) (h : netfs_unbuffered_write view fuel w len = some r) :
    r.1.NETFS_RREQ_ALL_QUEUED = true ∧ r.1.issued_to = w.issued_to ∧ r.1.start = w.start ∧
    r.1.len = w.len := by
  unfold netfs_unbuffered_write at h
  simp only [] at h
  have h0 : (if w.origin = netfs_io_origin.NETFS_DIO_WRITE
      then w.emit netfs_event.inode_dio_begin else w).start = w.start ∧
      (if w.origin = netfs_io_origin.NETFS_DIO_WRITE
      then w.emit netfs_event.inode_dio_begin else w).len = w.len ∧
      (if w.origin = netfs_io_origin.NETFS_DIO_WRITE
      then w.emit netfs_event.inode_dio_begin else w).issued_to = w.issued_to := by
    split
    · exact ⟨rfl, rfl, rfl⟩
    · exact ⟨rfl, rfl, rfl⟩
  generalize (if w.origin = netfs_io_origin.NETFS_DIO_WRITE
      then w.emit netfs_event.inode_dio_begin else w) = w0 at *
  cases hl : netfs_unbuffered_write_loop view fuel 0 w0 w0.start len with
  | none => rw [hl] at h; exact Option.noConfusion h
  | some q =>
    rw [hl] at h
    have := Option.some.inj h
    subst this
    obtain ⟨l1, l2, l3, l4⟩ := unbuffered_write_loop_frame view fuel 0 w0 _ _ q hl
    obtain ⟨e1, e2, e3, e4⟩ := end_issue_write_frame q
    exact ⟨e1, (e2.trans l4).trans h0.2.2, (e3.trans l1).trans h0.1, (e4.trans l2).trans h0.2.1⟩

theorem begin_writethrough_fields (ictx : netfs_inode) (ki_pos : Nat) (w : netfs_io_request)
    (h : netfs_begin_writethrough ictx ki_pos = Except.ok w) :
    w.start = ki_pos ∧ w.len = 0 ∧ w.issued_to = 0 := by
  unfold netfs_begin_writethrough at h
  cases hc : netfs_create_write_req ictx ki_pos netfs_io_origin.NETFS_WRITETHROUGH with
  | error e => rw [hc] at h; exact Except.noConfusion h
  | ok w0 =>
    rw [hc] at h
    have := Except.ok.inj h
    subst this
    obtain ⟨c1, c2, c3, c4⟩ := create_write_req_fields _ _ _ _ hc
    exact ⟨c1, c2, c3⟩

theorem advance_writethrough_issued_to (fuel : Nat) (w : netfs_io_request) (c : Option folio)
    (f : folio) (copied : Nat) (to_page_end : Bool)
    (r : netfs_io_request × Option folio × Int)
    (h : netfs_advance_writethrough fuel w c f copied to_page_end = some r) :
    r.1.start = w.start ∧ r.1.len = wrap_add U64 w.len copied ∧
    r.1.NETFS_RREQ_ALL_QUEUED = w.NETFS_RREQ_ALL_QUEUED ∧
    r.1.issued_to = (if to_page_end = true ∧ netfs_submitted w f then f.pos + f.size
      else w.issued_to) := by
  have key : ∀ (w0 : netfs_io_request) (wc : Option folio), w0.start = w.start →
      w0.len = w.len → w0.NETFS_RREQ_ALL_QUEUED = w.NETFS_RREQ_ALL_QUEUED →
      w0.issued_to = w.issued_to →
      (netfs_submitted { w0 with len := wrap_add U64 w0.len copied } f ↔ netfs_submitted w f) →
      (if (!to_page_end) = true then
          some (({ w0 with len := wrap_add U64 w0.len copied } : netfs_io_request), wc, (0 : Int))
        else match netfs_write_folio fuel { w0 with len := wrap_add U64 w0.len copied } f with
          | none => none
          | some q => some (q.1, none, q.2)) = some r →
      r.1.start = w.start ∧ r.1.len = wrap_add U64 w.len copied ∧
      r.1.NETFS_RREQ_ALL_QUEUED = w.NETFS_RREQ_ALL_QUEUED ∧
      r.1.issued_to = (if to_page_end = true ∧ netfs_submitted w f then f.pos + f.size
        else w.issued_to) := by
    intro w0 wc a1 a2 a3 a4 a5 h
    cases to_page_end with
    | false =>
      rw [if_pos (by rfl : (!false) = true)] at h
      have := Option.some.inj h
      subst this
      rw [if_neg (fun hc => Bool.noConfusion hc.1)]
      exact ⟨a1, by show wrap_add U64 w0.len copied = _; rw [a2], a3, a4⟩
    | true =>
      rw [if_neg (by decide : ¬((!true) = true))] at h
      cases hw : netfs_write_folio fuel { w0 with len := wrap_add U64 w0.len copied } f with
      | none => rw [hw] at h; exact Option.noConfusion h
      | some q =>
        rw [hw] at h
        have := Option.some.inj h
        subst this
        obtain ⟨q1, q2, q3, q4⟩ := write_folio_issued_to fuel _ f q hw
        refine ⟨q1.trans a1, by
          show q.1.len = _
          rw [q2]
          show wrap_add U64 w0.len copied = _
          rw [a2], q3.trans a3, ?_⟩
        show q.1.issued_to = _
        rw [q4]
        by_cases hs : netfs_submitted w f
        · rw [if_pos (a5.2 hs), if_pos ⟨rfl, hs⟩]
        · rw [if_neg (fun hc => hs (a5.1 hc)), if_neg (fun hc => hs hc.2)]
          exact a4
  unfold netfs_advance_writethrough at h
  cases c with
  | none =>
    exact key (w.emit (netfs_event.folio_start_writeback f)) (some f) rfl rfl rfl rfl Iff.rfl h
  | some c0 => exact key w (some c0) rfl rfl rfl rfl Iff.rfl h

theorem end_writethrough_issued_to (fuel : Nat) (w : netfs_io_request) (c : Option folio)
    (r : netfs_io_request) (h : netfs_end_writethrough fuel w c = some r) :
    r.NETFS_RREQ_ALL_QUEUED = true ∧ r.start = w.start ∧ r.len = w.len ∧
    (c = none → r.issued_to = w.issued_to) ∧
    (∀ f, c = some f →
      r.issued_to = (if netfs_submitted w f then f.pos + f.size else w.issued_to)) := by
  unfold netfs_end_writethrough at h
  cases c with
  | none =>
    simp only [] at h
    have := Option.some.inj h
    subst this
    obtain ⟨e1, e2, e3, e4⟩ := end_issue_write_frame w
    exact ⟨e1, e3, e4, fun _ => e2, fun f hf => Option.noConfusion hf⟩
  | some f =>
    simp only [] at h
    cases hw : netfs_write_folio fuel w f with
    | none => rw [hw] at h; exact Option.noConfusion h
    | some q =>
      rw [hw] at h
      have := Option.some.inj h
      subst this
      obtain ⟨q1, q2, q3, q4⟩ := write_folio_issued_to fuel _ f q hw
      obtain ⟨e1, e2, e3, e4⟩ := end_issue_write_frame q.1
      refine ⟨e1, e3.trans q1, e4.trans q2, fun hc => Option.noConfusion hc, ?_⟩
      intro g hg
      have : g = f := (Option.some.inj hg).symm
      subst this
      exact e2.trans q4

/-- C9: `netfs_writepages` over the last page of the example file, which lies
at 98304 and in which the file ends at byte 1696 (`i_size` is 100000): when
`ALL_QUEUED` is set `issued_to` is 102400, the end of the page, while
`wreq->start + wreq->len` is 98304 and the end of file is 100000. -/
theorem netfs_issued_to_final_counterexample :
    (netfs_writepages example_inode true 8 [example_folio_last]).map
      (fun r => r.wreq.map
        (fun w => (w.NETFS_RREQ_ALL_QUEUED, w.issued_to, w.start + w.len, w.i_size))) =
    some (some (true, 102400, 98304, 100000)) := by
  rfl

/-- C9 (as amended): once `ALL_QUEUED` has been set, `issued_to` holds the last
value the planner stored, and that value is not tied to `wreq->start +
wreq->len`.  A call of `netfs_write_folio` that submits its folio leaves
`issued_to` at the end `fpos + fsize` of the folio, not clamped to the end of
file, and any other call leaves it unchanged; neither changes `start` or `len`.
`netfs_end_issue_write` sets `ALL_QUEUED` and changes none of the three.  So a
request returned by `netfs_writepages` or `netfs_writeback_single` has
`ALL_QUEUED` set, `len` still 0, `start` at the position it was created with,
and `issued_to` at 0 or at the end of one of the folios of the pass; in the
write-through sequence `len` grows by the bytes copied while `issued_to` moves
by whole folios; and `netfs_unbuffered_write` sets `ALL_QUEUED` and leaves
`issued_to`, `start` and `len` as it found them. -/
theorem netfs_issued_to_final :
    (∀ (fuel : Nat) (w : netfs_io_request) (f : folio) (r : netfs_io_request × Int),
      netfs_write_folio fuel w f = some r →
      r.1.start = w.start ∧ r.1.len = w.len ∧
      r.1.NETFS_RREQ_ALL_QUEUED = w.NETFS_RREQ_ALL_QUEUED ∧
      r.1.issued_to = (if netfs_submitted w f then f.pos + f.size else w.issued_to)) ∧
    (∀ w : netfs_io_request,
      (netfs_end_issue_write w).NETFS_RREQ_ALL_QUEUED = true ∧
      (netfs_end_issue_write w).issued_to = w.issued_to ∧
      (netfs_end_issue_write w).start = w.start ∧ (netfs_end_issue_write w).len = w.len) ∧
    (∀ (ictx : netfs_inode) (upload_avail : Bool) (fuel : Nat) (fs : List folio)
        (r : driver_result) (w' : netfs_io_request),
      netfs_writepages ictx upload_avail fuel fs = some r → r.wreq = some w' →
      w'.NETFS_RREQ_ALL_QUEUED = true ∧ w'.len = 0 ∧ (∀ f ∈ fs.head?, w'.start = f.pos) ∧
      (w'.issued_to = 0 ∨ ∃ f ∈ fs, w'.issued_to = f.pos + f.size)) ∧
    (∀ (ictx : netfs_inode) (upload_avail : Bool) (fuel : Nat) (fs : List folio) (size : Nat)
        (ret0 : Int) (r : driver_result) (w' : netfs_io_request),
      netfs_writeback_single ictx upload_avail fuel fs size ret0 = some r → r.wreq = some w' →
      w'.NETFS_RREQ_ALL_QUEUED = true ∧ w'.len = 0 ∧ w'.start = 0 ∧
      (w'.issued_to = 0 ∨ ∃ f ∈ fs, w'.issued_to = f.pos + f.size)) ∧
    (∀ (ictx : netfs_inode) (ki_pos : Nat) (w : netfs_io_request),
      netfs_begin_writethrough ictx ki_pos = Except.ok w →
      w.start = ki_pos ∧ w.len = 0 ∧ w.issued_to = 0) ∧
    (∀ (fuel : Nat) (w : netfs_io_request) (c : Option folio) (f : folio) (copied : Nat)
        (to_page_end : Bool) (r : netfs_io_request × Option folio × Int),
      netfs_advance_writethrough fuel w c f copied to_page_end = some r →
      r.1.start = w.start ∧ r.1.len = wrap_add U64 w.len copied ∧
      r.1.NETFS_RREQ_ALL_QUEUED = w.NETFS_RREQ_ALL_QUEUED ∧
      r.1.issued_to = (if to_page_end = true ∧ netfs_submitted w f then f.pos + f.size
        else w.issued_to)) ∧
    (∀ (fuel : Nat) (w : netfs_io_request) (c : Option folio) (r : netfs_io_request),
      netfs_end_writethrough fuel w c = some r →
      r.NETFS_RREQ_ALL_QUEUED = true ∧ r.start = w.start ∧ r.len = w.len ∧
      (c = none → r.issued_to = w.issued_to) ∧
      (∀ f, c = some f →
        r.issued_to = (if netfs_submitted w f then f.pos + f.size else w.issued_to))) ∧
    (∀ (view : collector_view) (fuel : Nat) (w : netfs_io_request) (len : Nat)
        (r : netfs_io_request × Int),
      netfs_unbuffered_write view fuel w len = some r →
      r.1.NETFS_RREQ_ALL_QUEUED = true ∧ r.1.issued_to = w.issued_to ∧ r.1.start = w.start ∧
      r.1.len = w.len) :=
  ⟨write_folio_issued_to, end_issue_write_frame, writepages_issued_to,
    writeback_single_issued_to, begin_writethrough_fields, advance_writethrough_issued_to,
    end_writethrough_issued_to, unbuffered_write_issued_to⟩

theorem netfs_issued_to_final_witness :
    ∃ (r : driver_result) (w' : netfs_io_request),
      netfs_writepages example_inode true 8 [example_folio0, example_folio1] = some r ∧
      r.wreq = some w' ∧
      (w'.NETFS_RREQ_ALL_QUEUED = true ∧ w'.len = 0 ∧
        (∀ f ∈ [example_folio0, example_folio1].head?, w'.start = f.pos) ∧
        (w'.issued_to = 0 ∨
          ∃ f ∈ [example_folio0, example_folio1], w'.issued_to = f.pos + f.size)) := by
  obtain ⟨r, hr⟩ := Option.isSome_iff_exists.1
    (show (netfs_writepages example_inode true 8 [example_folio0, example_folio1]).isSome = true
      from rfl)
  obtain ⟨w', hw⟩ := Option.isSome_iff_exists.1
    (show ((netfs_writepages example_inode true 8 [example_folio0, example_folio1]).bind
      (fun r => r.wreq)).isSome = true from rfl)
  rw [hr] at hw
  exact ⟨r, w', hr, hw,
    netfs_issued_to_final.2.2.1 example_inode true 8 [example_folio0, example_folio1] r w' hr hw⟩

/-! ## One page, streams that take it in one piece -/

theorem set_append_length {α : Type} (l : List α) (a b : α) :
    (l ++ [a]).set l.length b = l ++ [b] := by
  induction l with
  | nil => rfl
  | cons x xs ih => simp [ih]

theorem extents_set (st : netfs_io_stream) (j : Nat) (q : netfs_io_subrequest) :
    ({ st with subrequests := st.subrequests.set j q } : netfs_io_stream).extents =
      st.extents.set j (q.start, q.len) := by
  unfold netfs_io_stream.extents
  simp [List.map_set]

/-- The stream after `netfs_advance_write` on a stream that has no construct. -/
theorem advanced_fresh (st : netfs_io_stream) (w : netfs_io_request) (start len : Nat)
    (to_eof : Bool) (hc : st.construct = none) (hok : stream_ok st)
    (hlim : limits_in_range w.wsize st) (hstart : start < U64) :
    ((st.opened w start).grown len to_eof).extents =
      st.extents ++ [(start, (st.opened w start).part len)] ∧
    (st.opened w start).part len =
      min (netfs_prepare_write_limits w.wsize st.source st.prepare_write
        (netfs_prepare_write_alloc w st start)).sreq_max_len len ∧
    ((st.opened w start).grown len to_eof).sreq_max_len =
      (netfs_prepare_write_limits w.wsize st.source st.prepare_write
        (netfs_prepare_write_alloc w st start)).sreq_max_len ∧
    ((st.opened w start).grown len to_eof).sreq_max_segs =
      (netfs_prepare_write_limits w.wsize st.source st.prepare_write
        (netfs_prepare_write_alloc w st start)).sreq_max_segs ∧
    ((st.opened w start).grown len to_eof).construct =
      (if (st.opened w start).full len to_eof then none else some st.subrequests.length) ∧
    ((st.opened w start).full len to_eof ↔
      ((netfs_prepare_write_limits w.wsize st.source st.prepare_write
          (netfs_prepare_write_alloc w st start)).sreq_max_len ≤ (st.opened w start).part len ∨
       (netfs_prepare_write_limits w.wsize st.source st.prepare_write
          (netfs_prepare_write_alloc w st start)).sreq_max_segs ≤ 1 ∨ to_eof = true)) ∧
    (((st.opened w start).grown len to_eof).deref st.subrequests.length).start = start ∧
    (((st.opened w start).grown len to_eof).deref st.subrequests.length).len =
      (st.opened w start).part len ∧
    (((st.opened w start).grown len to_eof).deref st.subrequests.length).nr_segs = 1 ∧
    ((st.opened w start).grown len to_eof).subrequests.length = st.subrequests.length + 1 ∧
    ((st.opened w start).grown len to_eof).active =
      (if st.subrequests.isEmpty then true else st.active) := by
  have hf : st.fresh start = true := by
    unfold netfs_io_stream.fresh
    rw [hc]
  obtain ⟨hr, hl, hs⟩ := fresh_receiver st start hf
  have ho := opened_open st w start hok hlim hstart
  rw [hr] at ho
  obtain ⟨hhl, hhs⟩ := opened_held st w start
  rw [hr, hl] at hhl
  rw [hr, hs] at hhs
  have hop : st.opened w start = st.prepared w start := by
    rw [opened_fresh st w start hf, issued_none st hc]
  have hmax : (st.opened w start).sreq_max_len =
      (netfs_prepare_write_limits w.wsize st.source st.prepare_write
        (netfs_prepare_write_alloc w st start)).sreq_max_len := by
    rw [hop]; rfl
  have hsegs : (st.opened w start).sreq_max_segs =
      (netfs_prepare_write_limits w.wsize st.source st.prepare_write
        (netfs_prepare_write_alloc w st start)).sreq_max_segs := by
    rw [hop]; rfl
  have hsub : (st.opened w start).subrequests =
      st.subrequests ++ [netfs_prepare_write_subreq w st start] := by
    rw [hop]; rfl
  have hact : (st.opened w start).active = (if st.subrequests.isEmpty then true else st.active) := by
    rw [hop]; rfl
  have hpart := open_part ho len
  rw [hhl, hmax, Nat.sub_zero] at hpart
  have hgl := open_grown_len ho len
  rw [hhl, Nat.zero_add] at hgl
  have hgs := open_grown_segs ho len
  rw [hhs] at hgs
  have hgst := open_grown_start ho len
  have hst0 : ((st.opened w start).deref st.subrequests.length).start = start := by
    have := ho.ends
    rw [hhl] at this
    omega
  have hderef := grown_deref ho len to_eof
  refine ⟨?_, hpart, by rw [grown_sreq_max_len, hmax], by rw [grown_sreq_max_segs, hsegs],
    grown_construct ho len to_eof, ?_, ?_, ?_, ?_, ?_, ?_⟩
  rotate_left
  · unfold netfs_io_stream.full
    rw [hgl, hgs, hmax, hsegs]
  rotate_right
  · unfold netfs_io_stream.extents
    rw [grown_subrequests ho, List.map_set, hsub, List.map_append, List.map_singleton,
      ← @List.length_map _ _ st.subrequests (fun q => (q.start, q.len)), set_append_length]
    congr 2
    split
    · simp only [frozen_start, frozen_len, hgl, hgst, hst0]
    · simp only [hgl, hgst, hst0]
  · rw [hderef]
    split
    · rw [frozen_start, hgst, hst0]
    · rw [hgst, hst0]
  · rw [hderef]
    split
    · rw [frozen_len, hgl]
    · rw [hgl]
  · rw [hderef]
    split
    · rw [frozen_nr_segs, hgs]
    · rw [hgs]
  · rw [grown_length ho, hsub]
    simp
  · have : ((st.opened w start).grown len to_eof).active = (st.opened w start).active := by
      unfold netfs_io_stream.grown
      split
      · unfold netfs_io_stream.issued
        cases hcc : ((st.opened w start).grow len).construct <;> rfl
      · rfl
    rw [this, hact]

/-- The stream after `netfs_advance_write` on a stream whose construct ends at
`start`. -/
theorem advanced_contiguous (st : netfs_io_stream) (w : netfs_io_request) (start len : Nat)
    (to_eof : Bool) (j : Nat) (hc : st.construct = some j)
    (hends : (st.deref j).start + (st.deref j).len = start) (hok : stream_ok st)
    (hlim : limits_in_range w.wsize st) (hstart : start < U64) :
    ((st.opened w start).grown len to_eof).extents =
      st.extents.set j ((st.deref j).start, (st.deref j).len + (st.opened w start).part len) ∧
    (st.opened w start).part len = min (st.sreq_max_len - (st.deref j).len) len ∧
    ((st.opened w start).grown len to_eof).sreq_max_len = st.sreq_max_len ∧
    ((st.opened w start).grown len to_eof).sreq_max_segs = st.sreq_max_segs ∧
    ((st.opened w start).grown len to_eof).construct =
      (if (st.opened w start).full len to_eof then none else some j) ∧
    ((st.opened w start).grown len to_eof).subrequests.length = st.subrequests.length ∧
    ((st.opened w start).grown len to_eof).active = st.active := by
  have hf : st.fresh start = false := by
    unfold netfs_io_stream.fresh
    rw [hc]
    simp only [decide_eq_false_iff_not, not_not]
    unfold wrap_add
    rw [hends, Nat.mod_eq_of_lt hstart]
  obtain ⟨i, hci, _, hr, hl, hs⟩ := contiguous_receiver st start hf
  have hij : i = j := by
    rw [hc] at hci
    exact (Option.some.inj hci).symm
  subst hij
  have ho := opened_open st w start hok hlim hstart
  rw [hr] at ho
  have hop := opened_contiguous st w start hf
  rw [hop] at ho ⊢
  have hpart := open_part ho len
  have hgl := open_grown_len ho len
  have hgst := open_grown_start ho len
  refine ⟨?_, hpart, grown_sreq_max_len _ _ _, grown_sreq_max_segs _ _ _,
    grown_construct ho len to_eof, grown_length ho len to_eof, ?_⟩
  · unfold netfs_io_stream.extents
    rw [grown_subrequests ho, List.map_set]
    congr 1
    split
    · simp only [frozen_start, frozen_len, hgl, hgst]
    · simp only [hgl, hgst]
  · unfold netfs_io_stream.grown
    split
    · unfold netfs_io_stream.issued
      cases hcc : (st.grow len).construct <;> rfl
    · rfl

theorem step_stream (fpos fsize : Nat) (to_eof : Bool) (w : netfs_io_request) (iter_off s : Nat)
    (hav : (w.stream s).avail = true) :
    (netfs_write_folio_step fpos fsize to_eof w iter_off s).1.stream s =
      (w.stream s).paged (netfs_write_folio_step_pre fpos fsize w iter_off s) fpos fsize to_eof := by
  have hpre := step_pre_stream fpos fsize w iter_off s
  have hav' : ((netfs_write_folio_step_pre fpos fsize w iter_off s).stream s).avail = true := by
    rw [hpre]; exact hav
  rw [step_eq]
  simp only [stream_set_stream]
  rw [advance_stream _ s _ _ to_eof hav', advance_part _ s _ _ to_eof hav', hpre]
  rfl

theorem step_stream_ne (fpos fsize : Nat) (to_eof : Bool) (w : netfs_io_request)
    (iter_off s t : Nat) (h : ¬(s = 0 ↔ t = 0)) :
    (netfs_write_folio_step fpos fsize to_eof w iter_off s).1.stream t = w.stream t := by
  rw [step_eq]
  simp only []
  rw [stream_set_stream_ne _ _ _ _ h, advance_stream_ne _ s t _ _ to_eof h,
    step_pre_stream_ne fpos fsize w iter_off s t h]

theorem paged_submit (st : netfs_io_stream) (wx : netfs_io_request) (fpos fsize : Nat)
    (to_eof : Bool) (hl : st.submit_len < U32)
    (hp : (({ st with submit_extendable_to := wrap_sub U32 fsize st.submit_off } :
      netfs_io_stream).opened wx (fpos + st.submit_off)).part st.submit_len = st.submit_len) :
    (st.paged wx fpos fsize to_eof).submit_len = 0 := by
  unfold netfs_io_stream.paged netfs_submit_advance
  simp only []
  rw [hp, (advanced_submit _ wx _ _ to_eof).2]
  show (if st.submit_len ≤ LONG_MAX ∧ st.submit_len > st.submit_len then 0
    else wrap_sub U32 st.submit_len st.submit_len) = 0
  rw [if_neg (fun h => Nat.lt_irrefl _ h.2)]
  unfold wrap_sub
  rw [Nat.mod_eq_of_lt hl]
  have : st.submit_len + (U32 - st.submit_len) = U32 := by omega
  rw [this]
  exact Nat.mod_self _

/-- The submission loop on a folio that both streams take, each in one piece,
from offset 0: one pass for the upload stream, one for the cache stream. -/
theorem loop_two (fpos fsize : Nat) (to_eof : Bool) (fuel : Nat) (w : netfs_io_request)
    (hav0 : w.io_streams0.avail = true) (hav1 : w.io_streams1.avail = true)
    (ho0 : w.io_streams0.submit_off = 0) (ho1 : w.io_streams1.submit_off = 0)
    (hl0 : 0 < w.io_streams0.submit_len) (hl1 : 0 < w.io_streams1.submit_len)
    (hp0 : ∀ wx : netfs_io_request, wx.wsize = w.wsize →
      (w.io_streams0.paged wx fpos fsize to_eof).submit_len = 0)
    (hp1 : ∀ wx : netfs_io_request, wx.wsize = w.wsize →
      (w.io_streams1.paged wx fpos fsize to_eof).submit_len = 0) :
    ∃ (w' wa wb : netfs_io_request), wa.wsize = w.wsize ∧ wb.wsize = w.wsize ∧
      netfs_write_folio_loop fpos fsize to_eof (fuel + 3) w 0 = some (w', 0) ∧
      planner_frame w w' ∧
      w'.io_streams0 = w.io_streams0.paged wa fpos fsize to_eof ∧
      w'.io_streams1 = w.io_streams1.paged wb fpos fsize to_eof := by
  -- first pass: the upload stream
  have hch0 : netfs_choose_stream w = some 0 := by
    rw [choose_stream_eq, if_pos ⟨hl0, by rw [ho0]; decide⟩,
      if_neg (fun h => by rw [ho0] at h; exact Nat.not_lt_zero _ h.2)]
  have hA0 := step_stream fpos fsize to_eof w 0 0 hav0
  have hA1 := step_stream_ne fpos fsize to_eof w 0 0 1 (by decide)
  have hAf := step_frame fpos fsize to_eof w 0 0
  have hA2 : (netfs_write_folio_step fpos fsize to_eof w 0 0).2 = 0 := by
    rw [step_eq]
    show (if (w.stream 0).submit_off > 0 then (w.stream 0).submit_off else 0) = 0
    rw [if_neg (by show ¬(w.io_streams0.submit_off > 0); rw [ho0]; exact Nat.lt_irrefl 0)]
  have hprew : (netfs_write_folio_step_pre fpos fsize w 0 0).wsize = w.wsize :=
    (step_pre_frame fpos fsize w 0 0).wsize
  generalize netfs_write_folio_step_pre fpos fsize w 0 0 = wa at *
  generalize hA : netfs_write_folio_step fpos fsize to_eof w 0 0 = A at *
  have hA0' : A.1.io_streams0 = w.io_streams0.paged wa fpos fsize to_eof := hA0
  have hA1' : A.1.io_streams1 = w.io_streams1 := hA1
  -- second pass: the cache stream
  have hch1 : netfs_choose_stream A.1 = some 1 := by
    rw [choose_stream_eq, if_neg (fun h => by
      rw [hA0', hp0 wa hprew] at h
      exact Nat.lt_irrefl 0 h.1), if_pos ⟨by rw [hA1']; exact hl1, by rw [hA1', ho1]; decide⟩]
  have hB1 := step_stream fpos fsize to_eof A.1 A.2 1 (by
    show A.1.io_streams1.avail = true
    rw [hA1']; exact hav1)
  have hB0 := step_stream_ne fpos fsize to_eof A.1 A.2 1 0 (by decide)
  have hBf := step_frame fpos fsize to_eof A.1 A.2 1
  have hB2 : (netfs_write_folio_step fpos fsize to_eof A.1 A.2 1).2 = 0 := by
    rw [step_eq]
    show (if (A.1.stream 1).submit_off > A.2 then (A.1.stream 1).submit_off else A.2) = 0
    rw [hA2, if_neg (by
      show ¬(A.1.io_streams1.submit_off > 0)
      rw [hA1', ho1]; exact Nat.lt_irrefl 0)]
  have hprew' : (netfs_write_folio_step_pre fpos fsize A.1 A.2 1).wsize = w.wsize :=
    (step_pre_frame fpos fsize A.1 A.2 1).wsize.trans hAf.wsize
  generalize netfs_write_folio_step_pre fpos fsize A.1 A.2 1 = wb at *
  generalize hB : netfs_write_folio_step fpos fsize to_eof A.1 A.2 1 = B at *
  have hB1' : B.1.io_streams1 = w.io_streams1.paged wb fpos fsize to_eof := by
    have : B.1.io_streams1 = A.1.io_streams1.paged wb fpos fsize to_eof := hB1
    rw [this, hA1']
  have hB0' : B.1.io_streams0 = w.io_streams0.paged wa fpos fsize to_eof := by
    have : B.1.io_streams0 = A.1.io_streams0 := hB0
    rw [this, hA0']
  have hch2 : netfs_choose_stream B.1 = none := by
    rw [choose_stream_eq, if_neg (fun h => by
      rw [hB0', hp0 wa hprew] at h
      exact Nat.lt_irrefl 0 h.1), if_neg (fun h => by
      rw [hB1', hp1 wb hprew'] at h
      exact Nat.lt_irrefl 0 h.1)]
  refine ⟨B.1, wa, wb, hprew, hprew', ?_, planner_frame_trans hAf hBf, hB0', hB1'⟩
  show netfs_write_folio_loop fpos fsize to_eof (fuel + 2 + 1) w 0 = _
  rw [netfs_write_folio_loop, hch0]
  simp only []
  rw [hA]
  show netfs_write_folio_loop fpos fsize to_eof (fuel + 1 + 1) A.1 A.2 = _
  rw [netfs_write_folio_loop, hch1]
  simp only []
  rw [hB]
  show netfs_write_folio_loop fpos fsize to_eof (fuel + 1) B.1 B.2 = _
  rw [netfs_write_folio_loop, hch2, hB2]

theorem set_submit_plain (st : netfs_io_stream) (len : Nat) (g : netfs_group_ptr)
    (hav : st.avail = true) (hg : g ≠ netfs_group_ptr.NETFS_FOLIO_COPY_TO_CACHE)
    (hlen : len < U32) :
    netfs_set_submit st 0 len false g = { st with submit_off := 0, submit_len := len } := by
  unfold netfs_set_submit
  rw [if_neg]
  · show ({ st with submit_off := 0 % U32, submit_len := len % U32 } : netfs_io_stream) = _
    rw [Nat.mod_eq_of_lt hlen]
    rfl
  · simp [hav, hg]

theorem finish_streams (w : netfs_io_request) (f : folio) (x : folio_extent) (io : Nat)
    (h : ¬(wrap_add U64 x.foff x.flen < f.size)) :
    (netfs_write_folio_finish w f x io).io_streams0 = w.io_streams0 ∧
    (netfs_write_folio_finish w f x io).io_streams1 = w.io_streams1 := by
  unfold netfs_write_folio_finish
  simp only []
  rw [if_neg h]
  split
  · exact ⟨rfl, rfl⟩
  · exact ⟨rfl, rfl⟩

/-- The submission of a folio that both streams take whole, each in one piece. -/
theorem submit_page (fuel : Nat) (w : netfs_io_request) (f : folio) (x : folio_extent)
    (hx0 : x.foff = 0) (hxl : x.flen = f.size) (hxs : x.streamw = false)
    (hg : f.group ≠ netfs_group_ptr.NETFS_FOLIO_COPY_TO_CACHE)
    (hav0 : w.io_streams0.avail = true) (hav1 : w.io_streams1.avail = true)
    (hsz : 0 < f.size) (hsz' : f.size < U32)
    (hp0 : ∀ wx : netfs_io_request, wx.wsize = w.wsize →
      (({ w.io_streams0 with submit_off := 0, submit_len := f.size } : netfs_io_stream).paged
        wx f.pos f.size x.to_eof).submit_len = 0)
    (hp1 : ∀ wx : netfs_io_request, wx.wsize = w.wsize →
      (({ w.io_streams1 with submit_off := 0, submit_len := f.size } : netfs_io_stream).paged
        wx f.pos f.size x.to_eof).submit_len = 0) :
    ∃ (w' wa wb : netfs_io_request), wa.wsize = w.wsize ∧ wb.wsize = w.wsize ∧
      netfs_write_folio_submit (fuel + 3) w f x = some (w', 0) ∧ planner_frame w w' ∧
      w'.io_streams0 = ({ w.io_streams0 with submit_off := 0, submit_len := f.size } :
        netfs_io_stream).paged wa f.pos f.size x.to_eof ∧
      w'.io_streams1 = ({ w.io_streams1 with submit_off := 0, submit_len := f.size } :
        netfs_io_stream).paged wb f.pos f.size x.to_eof := by
  unfold netfs_write_folio_submit
  simp only []
  have f1 := rolling_buffer_append_frame w f
  have e0 : (rolling_buffer_append w f).io_streams0 = w.io_streams0 := rfl
  have e1 : (rolling_buffer_append w f).io_streams1 = w.io_streams1 := rfl
  have ew : (rolling_buffer_append w f).wsize = w.wsize := rfl
  generalize rolling_buffer_append w f = w1 at *
  rw [hx0, hxl, hxs, e0, e1, set_submit_plain _ _ _ hav0 hg hsz', set_submit_plain _ _ _ hav1 hg hsz']
  have f2 : planner_frame w1 { w1 with
      io_streams0 := { w.io_streams0 with submit_off := 0, submit_len := f.size },
      io_streams1 := { w.io_streams1 with submit_off := 0, submit_len := f.size } } := by
    refine ⟨rfl, rfl, rfl, rfl, rfl, rfl, rfl, rfl, rfl, rfl, rfl, rfl, rfl, rfl, ?_⟩
    intro t
    by_cases ht : t = 0
    · subst ht
      show stream_static w1.io_streams0 _
      rw [e0]
      exact ⟨rfl, rfl, rfl, rfl⟩
    · have : w1.stream t = w1.io_streams1 := by
        unfold netfs_io_request.stream; rw [if_neg ht]
      rw [this, e1]
      have : ({ w1 with
          io_streams0 := { w.io_streams0 with submit_off := 0, submit_len := f.size },
          io_streams1 := { w.io_streams1 with submit_off := 0, submit_len := f.size } } :
          netfs_io_request).stream t =
          { w.io_streams1 with submit_off := 0, submit_len := f.size } := by
        unfold netfs_io_request.stream; rw [if_neg ht]
      rw [this]
      exact ⟨rfl, rfl, rfl, rfl⟩
  obtain ⟨w3, wa, wb, hwa, hwb, hrun, hf3, h30, h31⟩ := loop_two f.pos f.size x.to_eof fuel
    { w1 with
      io_streams0 := { w.io_streams0 with submit_off := 0, submit_len := f.size },
      io_streams1 := { w.io_streams1 with submit_off := 0, submit_len := f.size } }
    hav0 hav1 rfl rfl hsz hsz
    (fun wx hwx => hp0 wx (hwx.trans ew)) (fun wx hwx => hp1 wx (hwx.trans ew))
  rw [hrun]
  simp only []
  have hfin : ¬(wrap_add U64 0 f.size < f.size) := by
    unfold wrap_add
    rw [Nat.zero_add, Nat.mod_eq_of_lt (by unfold U32 at hsz'; unfold U64; omega)]
    exact Nat.lt_irrefl _
  obtain ⟨g0, g1⟩ := finish_streams w3 f x 0 (by rw [hx0, hxl]; exact hfin)
  exact ⟨_, wa, wb, hwa.trans ew, hwb.trans ew, rfl,
    planner_frame_trans f1 (planner_frame_trans f2
      (planner_frame_trans hf3 (finish_frame w3 f x 0).1)),
    g0.trans h30, g1.trans h31⟩

theorem extent_plain (w : netfs_io_request) (f : folio) (hfin : f.finfo = none)
    (hle : f.size ≤ w.inode_i_size - f.pos) (hsz : f.size < U64) :
    (netfs_write_folio_extent w f).2.foff = 0 ∧ (netfs_write_folio_extent w f).2.flen = f.size ∧
    (netfs_write_folio_extent w f).2.streamw = false ∧
    (f.size < w.inode_i_size - f.pos → (netfs_write_folio_extent w f).2.to_eof = false) := by
  have hw : wrap_sub U64 f.size 0 = f.size := by
    unfold wrap_sub
    rw [Nat.mod_eq_of_lt hsz]
    show (f.size + (U64 - 0)) % U64 = f.size
    rw [Nat.sub_zero, Nat.add_mod_right, Nat.mod_eq_of_lt hsz]
  unfold netfs_write_folio_extent
  simp only [hfin, Option.isSome_none]
  split
  · rw [if_neg (by omega)]
    exact ⟨rfl, hw, rfl, fun _ => rfl⟩
  · rw [if_neg (by omega)]
    split
    · exact ⟨rfl, hw, rfl, fun h => by omega⟩
    · exact ⟨rfl, hw, rfl, fun _ => rfl⟩

theorem extent_streams (w : netfs_io_request) (f : folio) :
    (netfs_write_folio_extent w f).1.io_streams0 = w.io_streams0 ∧
    (netfs_write_folio_extent w f).1.io_streams1 = w.io_streams1 :=
  ⟨(extent_frame w f).2 0, (extent_frame w f).2 1⟩

/-- The function `netfs_write_folio` on a folio of the request's group, not
written by streaming, that lies wholly below EOF and that both streams take
whole, each in one piece: each stream makes one pass of the submission loop. -/
theorem write_folio_page (fuel : Nat) (w : netfs_io_request) (f : folio)
    (hfin : f.finfo = none) (hgrp : f.group = w.group)
    (hg : w.group ≠ netfs_group_ptr.NETFS_FOLIO_COPY_TO_CACHE)
    (heof : f.pos < w.inode_i_size) (hle : f.size ≤ w.inode_i_size - f.pos)
    (hav0 : w.io_streams0.avail = true) (hav1 : w.io_streams1.avail = true)
    (hsz : 0 < f.size) (hsz' : f.size < U32) (hspace : w.buffer.space ≠ some 0)
    (hp0 : ∀ wx : netfs_io_request, wx.wsize = w.wsize →
      (({ w.io_streams0 with submit_off := 0, submit_len := f.size } : netfs_io_stream).paged
        wx f.pos f.size (netfs_write_folio_extent w f).2.to_eof).submit_len = 0)
    (hp1 : ∀ wx : netfs_io_request, wx.wsize = w.wsize →
      (({ w.io_streams1 with submit_off := 0, submit_len := f.size } : netfs_io_stream).paged
        wx f.pos f.size (netfs_write_folio_extent w f).2.to_eof).submit_len = 0) :
    ∃ (w' wa wb : netfs_io_request), wa.wsize = w.wsize ∧ wb.wsize = w.wsize ∧
      netfs_write_folio (fuel + 3) w f = some (w', 0) ∧
      planner_frame { w with buffer := (rolling_buffer_make_space w.buffer).1 } w' ∧
      w'.io_streams0 = ({ w.io_streams0 with submit_off := 0, submit_len := f.size } :
        netfs_io_stream).paged wa f.pos f.size (netfs_write_folio_extent w f).2.to_eof ∧
      w'.io_streams1 = ({ w.io_streams1 with submit_off := 0, submit_len := f.size } :
        netfs_io_stream).paged wb f.pos f.size (netfs_write_folio_extent w f).2.to_eof := by
  have hgf : f.group ≠ netfs_group_ptr.NETFS_FOLIO_COPY_TO_CACHE := by rw [hgrp]; exact hg
  unfold netfs_write_folio
  rw [if_neg (make_space_ok _ hspace)]
  generalize hw0 : ({ w with buffer := (rolling_buffer_make_space w.buffer).1 } :
    netfs_io_request) = w0
  have a0 : w0.io_streams0 = w.io_streams0 := by rw [← hw0]
  have a1 : w0.io_streams1 = w.io_streams1 := by rw [← hw0]
  have aw : w0.wsize = w.wsize := by rw [← hw0]
  have ag : w0.group = w.group := by rw [← hw0]
  have ai : w0.inode_i_size = w.inode_i_size := by rw [← hw0]
  have ao : w0.origin = w.origin := by rw [← hw0]
  unfold netfs_write_folio_planned
  rw [if_neg (by rw [ai]; omega)]
  simp only []
  have f1 : planner_frame w0
      (if f.pos + f.size > w0.i_size then { w0 with i_size := w0.inode_i_size } else w0) := by
    split
    · exact ⟨rfl, rfl, rfl, rfl, rfl, rfl, rfl, rfl, rfl, rfl, rfl, rfl, rfl, rfl,
        fun _ => stream_static_refl _⟩
    · exact planner_frame_refl w0
  have b0 : (if f.pos + f.size > w0.i_size then { w0 with i_size := w0.inode_i_size }
      else w0).io_streams0 = w0.io_streams0 := by split <;> rfl
  have b1 : (if f.pos + f.size > w0.i_size then { w0 with i_size := w0.inode_i_size }
      else w0).io_streams1 = w0.io_streams1 := by split <;> rfl
  generalize (if f.pos + f.size > w0.i_size then { w0 with i_size := w0.inode_i_size }
      else w0) = w1 at *
  have hx := extent_congr w w1 f (f1.origin.trans ao) (f1.inode_i_size.trans ai)
  obtain ⟨x0, xl, xs, _⟩ := extent_plain w f hfin hle (by unfold U32 at hsz'; unfold U64; omega)
  obtain ⟨f2, _⟩ := extent_frame w1 f
  obtain ⟨c0, c1⟩ := extent_streams w1 f
  rw [← hx] at x0 xl xs hp0 hp1 ⊢
  generalize netfs_write_folio_extent w1 f = e at *
  have hfr := planner_frame_trans f1 f2
  rw [if_neg hgf, if_neg (by rw [hfr.group, ag]; exact fun h => h hgrp)]
  -- the accepted folio
  unfold netfs_write_folio_accepted
  simp only []
  rw [if_neg (show ¬(e.2.foff > 0) by rw [x0]; exact Nat.lt_irrefl 0),
    if_neg (show ¬(e.2.streamw = true) by rw [xs]; exact Bool.false_ne_true)]
  obtain ⟨f5, _⟩ := cond_emit_frame (e.1.origin = netfs_io_origin.NETFS_WRITEBACK) e.1
    (netfs_event.folio_start_writeback f)
  have d0 : (if e.1.origin = netfs_io_origin.NETFS_WRITEBACK
      then e.1.emit (netfs_event.folio_start_writeback f) else e.1).io_streams0 =
      e.1.io_streams0 := by split <;> rfl
  have d1 : (if e.1.origin = netfs_io_origin.NETFS_WRITEBACK
      then e.1.emit (netfs_event.folio_start_writeback f) else e.1).io_streams1 =
      e.1.io_streams1 := by split <;> rfl
  generalize (if e.1.origin = netfs_io_origin.NETFS_WRITEBACK
      then e.1.emit (netfs_event.folio_start_writeback f) else e.1) = w5 at *
  have f6 := emit_planner_frame w5 (netfs_event.folio_unlock f)
  have g0 : (w5.emit (netfs_event.folio_unlock f)).io_streams0 = w5.io_streams0 := rfl
  have g1 : (w5.emit (netfs_event.folio_unlock f)).io_streams1 = w5.io_streams1 := rfl
  generalize w5.emit (netfs_event.folio_unlock f) = w6 at *
  have hall := planner_frame_trans (planner_frame_trans hfr f5) f6
  have s0 : w6.io_streams0 = w.io_streams0 := by rw [g0, d0, c0, b0, a0]
  have s1 : w6.io_streams1 = w.io_streams1 := by rw [g1, d1, c1, b1, a1]
  have sw : w6.wsize = w.wsize := hall.wsize.trans aw
  rw [if_neg hgf, if_neg (show ¬((!w6.io_streams0.avail && !w6.io_streams1.avail) = true) by
    rw [s0, s1, hav0, hav1]; decide)]
  obtain ⟨w', wa, wb, hwa, hwb, hrun, hf', h0, h1⟩ := submit_page fuel w6 f e.2 x0 xl xs hgf
    (by rw [s0]; exact hav0) (by rw [s1]; exact hav1) hsz hsz'
    (fun wx hwx => by rw [s0]; exact hp0 wx (hwx.trans sw))
    (fun wx hwx => by rw [s1]; exact hp1 wx (hwx.trans sw))
  rw [s0] at h0
  rw [s1] at h1
  exact ⟨w', wa, wb, hwa.trans sw, hwb.trans sw, hrun, planner_frame_trans hall hf', h0, h1⟩

theorem limits_none (wsize : Nat) (source : netfs_io_source) (q : netfs_io_subrequest) :
    (netfs_prepare_write_limits wsize source none q).sreq_max_len =
      (match source with
        | netfs_io_source.NETFS_UPLOAD_TO_SERVER => wsize
        | _ => UINT_MAX) ∧
    (netfs_prepare_write_limits wsize source none q).sreq_max_segs = INT_MAX :=
  ⟨rfl, rfl⟩

/-- One pass of the submission loop on a stream that has no construct and no
`prepare_write` hook, when the limit `m` of the stream leaves room for the
whole range: one subrequest holding the range is appended. -/
theorem paged_fresh (st : netfs_io_stream) (wx : netfs_io_request) (fpos fsize len m : Nat)
    (te : Bool) (hc : st.construct = none) (hook : st.prepare_write = none)
    (hok : stream_ok st) (ho : st.submit_off = 0) (hl : st.submit_len = len)
    (hlen : len < U32) (hpos : fpos + len < U64)
    (hm : (match st.source with
        | netfs_io_source.NETFS_UPLOAD_TO_SERVER => wx.wsize
        | _ => UINT_MAX) = m) (hml : len ≤ m) (hmr : m < U64) :
    (st.paged wx fpos fsize te).extents = st.extents ++ [(fpos, len)] ∧
    (st.paged wx fpos fsize te).submit_len = 0 ∧
    (st.paged wx fpos fsize te).construct =
      (if m ≤ len ∨ te = true then none else some st.subrequests.length) ∧
    (st.paged wx fpos fsize te).sreq_max_len = m ∧
    (st.paged wx fpos fsize te).sreq_max_segs = INT_MAX ∧
    ((st.paged wx fpos fsize te).deref st.subrequests.length).start = fpos ∧
    ((st.paged wx fpos fsize te).deref st.subrequests.length).len = len ∧
    ((st.paged wx fpos fsize te).deref st.subrequests.length).nr_segs = 1 ∧
    (st.paged wx fpos fsize te).subrequests.length = st.subrequests.length + 1 ∧
    (st.paged wx fpos fsize te).active = (if st.subrequests.isEmpty then true else st.active) ∧
    stream_ok (st.paged wx fpos fsize te) ∧ stream_static st (st.paged wx fpos fsize te) := by
  have hsub0 : ∀ p : Nat, p = len → (st.paged wx fpos fsize te).submit_len =
      (if p ≤ LONG_MAX ∧ p > len then 0 else wrap_sub U32 len p) → 
      (st.paged wx fpos fsize te).submit_len = 0 := by
    intro p hp h
    rw [h, hp, if_neg (fun h => Nat.lt_irrefl _ h.2)]
    unfold wrap_sub
    rw [Nat.mod_eq_of_lt hlen]
    have : len + (U32 - len) = U32 := by omega
    rw [this]
    exact Nat.mod_self _
  have hsubeq : (st.paged wx fpos fsize te).submit_len =
      (if (({ st with submit_extendable_to := wrap_sub U32 fsize st.submit_off } :
          netfs_io_stream).opened wx (fpos + st.submit_off)).part st.submit_len ≤ LONG_MAX ∧
          (({ st with submit_extendable_to := wrap_sub U32 fsize st.submit_off } :
          netfs_io_stream).opened wx (fpos + st.submit_off)).part st.submit_len > len then 0
        else wrap_sub U32 len
          ((({ st with submit_extendable_to := wrap_sub U32 fsize st.submit_off } :
          netfs_io_stream).opened wx (fpos + st.submit_off)).part st.submit_len)) := by
    unfold netfs_io_stream.paged netfs_submit_advance
    simp only []
    rw [(advanced_submit _ wx _ _ te).2]
    show (if _ ≤ LONG_MAX ∧ _ > st.submit_len then 0 else wrap_sub U32 st.submit_len _) = _
    rw [hl]
  have hext : (st.paged wx fpos fsize te).extents =
      ((({ st with submit_extendable_to := wrap_sub U32 fsize st.submit_off } :
        netfs_io_stream).opened wx (fpos + st.submit_off)).grown st.submit_len te).extents := rfl
  have hcon : (st.paged wx fpos fsize te).construct =
      ((({ st with submit_extendable_to := wrap_sub U32 fsize st.submit_off } :
        netfs_io_stream).opened wx (fpos + st.submit_off)).grown st.submit_len te).construct := rfl
  have hmaxl : (st.paged wx fpos fsize te).sreq_max_len =
      ((({ st with submit_extendable_to := wrap_sub U32 fsize st.submit_off } :
        netfs_io_stream).opened wx (fpos + st.submit_off)).grown st.submit_len te).sreq_max_len :=
    rfl
  have hmaxs : (st.paged wx fpos fsize te).sreq_max_segs =
      ((({ st with submit_extendable_to := wrap_sub U32 fsize st.submit_off } :
        netfs_io_stream).opened wx (fpos + st.submit_off)).grown st.submit_len te).sreq_max_segs :=
    rfl
  have hsubs : (st.paged wx fpos fsize te).subrequests =
      ((({ st with submit_extendable_to := wrap_sub U32 fsize st.submit_off } :
        netfs_io_stream).opened wx (fpos + st.submit_off)).grown st.submit_len te).subrequests :=
    rfl
  have hactv : (st.paged wx fpos fsize te).active =
      ((({ st with submit_extendable_to := wrap_sub U32 fsize st.submit_off } :
        netfs_io_stream).opened wx (fpos + st.submit_off)).grown st.submit_len te).active := rfl
  have hder : ∀ k, (st.paged wx fpos fsize te).deref k =
      ((({ st with submit_extendable_to := wrap_sub U32 fsize st.submit_off } :
        netfs_io_stream).opened wx (fpos + st.submit_off)).grown st.submit_len te).deref k :=
    fun _ => rfl
  have hstat : stream_static
      ((({ st with submit_extendable_to := wrap_sub U32 fsize st.submit_off } :
        netfs_io_stream).opened wx (fpos + st.submit_off)).grown st.submit_len te)
      (st.paged wx fpos fsize te) := ⟨rfl, rfl, rfl, rfl⟩
  have hokc : stream_ok
      ((({ st with submit_extendable_to := wrap_sub U32 fsize st.submit_off } :
        netfs_io_stream).opened wx (fpos + st.submit_off)).grown st.submit_len te) →
      stream_ok (st.paged wx fpos fsize te) := stream_ok_congr hsubs hcon hmaxl hmaxs
  have e1 : ({ st with submit_extendable_to := wrap_sub U32 fsize st.submit_off } :
      netfs_io_stream).construct = none := hc
  have e2 : ({ st with submit_extendable_to := wrap_sub U32 fsize st.submit_off } :
      netfs_io_stream).subrequests = st.subrequests := rfl
  have e3 : ({ st with submit_extendable_to := wrap_sub U32 fsize st.submit_off } :
      netfs_io_stream).source = st.source := rfl
  have e4 : ({ st with submit_extendable_to := wrap_sub U32 fsize st.submit_off } :
      netfs_io_stream).prepare_write = none := hook
  have e5 : ({ st with submit_extendable_to := wrap_sub U32 fsize st.submit_off } :
      netfs_io_stream).active = st.active := rfl
  have e6 : ({ st with submit_extendable_to := wrap_sub U32 fsize st.submit_off } :
      netfs_io_stream).extents = st.extents := rfl
  have e7 : stream_static st
      ({ st with submit_extendable_to := wrap_sub U32 fsize st.submit_off } :
        netfs_io_stream) := ⟨rfl, rfl, rfl, rfl⟩
  have e8 : stream_ok ({ st with submit_extendable_to := wrap_sub U32 fsize st.submit_off } :
      netfs_io_stream) := stream_ok_congr rfl rfl rfl rfl hok
  generalize ({ st with submit_extendable_to := wrap_sub U32 fsize st.submit_off } :
      netfs_io_stream) = pre at *
  rw [ho, Nat.add_zero, hl] at hsubeq hext hcon hmaxl hmaxs hsubs hactv hder hstat hokc
  have hlim : limits_in_range wx.wsize pre := by
    intro q
    rw [e3, e4, (limits_none _ _ q).1, (limits_none _ _ q).2, hm]
    exact ⟨hmr, by decide⟩
  obtain ⟨a1, a2, a3, a4, a5, afull, a6, a7, a8, a9, a10⟩ :=
    advanced_fresh pre wx fpos len te e1 e8 hlim (by omega)
  rw [e3, e4, (limits_none _ _ _).2] at a4
  rw [e3, e4, (limits_none _ _ _).1, hm] at a2 a3 afull
  rw [(limits_none _ _ _).2] at afull
  rw [Nat.min_eq_right hml] at a2
  rw [a2] at a1 a7 afull hsubeq
  rw [e2] at a5 a6 a7 a8 a9 a10
  rw [e6] at a1
  refine ⟨hext.trans a1, hsub0 len rfl hsubeq, ?_, hmaxl.trans a3, hmaxs.trans a4,
    by rw [hder]; exact a6, by rw [hder]; exact a7, by rw [hder]; exact a8,
    by rw [hsubs]; exact a9, by rw [hactv, a10, e5], ?_, ?_⟩
  · rw [hcon, a5]
    by_cases hf : m ≤ len ∨ te = true
    · rw [if_pos hf, if_pos (afull.2 (by
        rcases hf with h | h
        · exact Or.inl h
        · exact Or.inr (Or.inr h)))]
    · rw [if_neg hf, if_neg (fun h => hf (by
        rcases afull.1 h with h | h | h
        · exact Or.inl h
        · exact absurd h (by decide)
        · exact Or.inr h))]
  · exact hokc (advanced_ok pre wx fpos len te e8 hlim hpos)
  · exact stream_static_trans e7 (stream_static_trans (advanced_static pre wx fpos len te) hstat)

/-- One pass of the submission loop on a stream whose construct ends where the
range starts and has room for the whole range: the construct grows by the
range. -/
theorem paged_contiguous (st : netfs_io_stream) (wx : netfs_io_request) (fpos fsize len : Nat)
    (te : Bool) (j : Nat) (hc : st.construct = some j)
    (hends : (st.deref j).start + (st.deref j).len = fpos) (hok : stream_ok st)
    (hlim : limits_in_range wx.wsize st) (ho : st.submit_off = 0) (hl : st.submit_len = len)
    (hlen : len < U32) (hpos : fpos + len < U64)
    (hroom : (st.deref j).len + len ≤ st.sreq_max_len) :
    (st.paged wx fpos fsize te).extents =
      st.extents.set j ((st.deref j).start, (st.deref j).len + len) ∧
    (st.paged wx fpos fsize te).submit_len = 0 ∧
    ((st.paged wx fpos fsize te).construct = none ∨
      (st.paged wx fpos fsize te).construct = some j) ∧
    (st.paged wx fpos fsize te).subrequests.length = st.subrequests.length ∧
    (st.paged wx fpos fsize te).active = st.active := by
  have hsub0 : ∀ p : Nat, p = len → (st.paged wx fpos fsize te).submit_len =
      (if p ≤ LONG_MAX ∧ p > len then 0 else wrap_sub U32 len p) →
      (st.paged wx fpos fsize te).submit_len = 0 := by
    intro p hp h
    rw [h, hp, if_neg (fun h => Nat.lt_irrefl _ h.2)]
    unfold wrap_sub
    rw [Nat.mod_eq_of_lt hlen]
    have : len + (U32 - len) = U32 := by omega
    rw [this]
    exact Nat.mod_self _
  have hsubeq : (st.paged wx fpos fsize te).submit_len =
      (if (({ st with submit_extendable_to := wrap_sub U32 fsize st.submit_off } :
          netfs_io_stream).opened wx (fpos + st.submit_off)).part st.submit_len ≤ LONG_MAX ∧
          (({ st with submit_extendable_to := wrap_sub U32 fsize st.submit_off } :
          netfs_io_stream).opened wx (fpos + st.submit_off)).part st.submit_len > len then 0
        else wrap_sub U32 len
          ((({ st with submit_extendable_to := wrap_sub U32 fsize st.submit_off } :
          netfs_io_stream).opened wx (fpos + st.submit_off)).part st.submit_len)) := by
    unfold netfs_io_stream.paged netfs_submit_advance
    simp only []
    rw [(advanced_submit _ wx _ _ te).2]
    show (if _ ≤ LONG_MAX ∧ _ > st.submit_len then 0 else wrap_sub U32 st.submit_len _) = _
    rw [hl]
  have hext : (st.paged wx fpos fsize te).extents =
      ((({ st with submit_extendable_to := wrap_sub U32 fsize st.submit_off } :
        netfs_io_stream).opened wx (fpos + st.submit_off)).grown st.submit_len te).extents := rfl
  have hcon : (st.paged wx fpos fsize te).construct =
      ((({ st with submit_extendable_to := wrap_sub U32 fsize st.submit_off } :
        netfs_io_stream).opened wx (fpos + st.submit_off)).grown st.submit_len te).construct := rfl
  have hsubs : (st.paged wx fpos fsize te).subrequests =
      ((({ st with submit_extendable_to := wrap_sub U32 fsize st.submit_off } :
        netfs_io_stream).opened wx (fpos + st.submit_off)).grown st.submit_len te).subrequests :=
    rfl
  have hactv : (st.paged wx fpos fsize te).active =
      ((({ st with submit_extendable_to := wrap_sub U32 fsize st.submit_off } :
        netfs_io_stream).opened wx (fpos + st.submit_off)).grown st.submit_len te).active := rfl
  have e1 : ({ st with submit_extendable_to := wrap_sub U32 fsize st.submit_off } :
      netfs_io_stream).construct = some j := hc
  have e2 : ({ st with submit_extendable_to := wrap_sub U32 fsize st.submit_off } :
      netfs_io_stream).subrequests = st.subrequests := rfl
  have e3 : ({ st with submit_extendable_to := wrap_sub U32 fsize st.submit_off } :
      netfs_io_stream).sreq_max_len = st.sreq_max_len := rfl
  have e4 : ∀ k, ({ st with submit_extendable_to := wrap_sub U32 fsize st.submit_off } :
      netfs_io_stream).deref k = st.deref k := fun _ => rfl
  have e5 : ({ st with submit_extendable_to := wrap_sub U32 fsize st.submit_off } :
      netfs_io_stream).active = st.active := rfl
  have e6 : ({ st with submit_extendable_to := wrap_sub U32 fsize st.submit_off } :
      netfs_io_stream).extents = st.extents := rfl
  have e7 : limits_in_range wx.wsize
      ({ st with submit_extendable_to := wrap_sub U32 fsize st.submit_off } :
        netfs_io_stream) := hlim
  have e8 : stream_ok ({ st with submit_extendable_to := wrap_sub U32 fsize st.submit_off } :
      netfs_io_stream) := stream_ok_congr rfl rfl rfl rfl hok
  generalize ({ st with submit_extendable_to := wrap_sub U32 fsize st.submit_off } :
      netfs_io_stream) = pre at *
  rw [ho, Nat.add_zero, hl] at hsubeq hext hcon hsubs hactv
  obtain ⟨a1, a2, _, _, a5, a6, a7⟩ :=
    advanced_contiguous pre wx fpos len te j e1 (by rw [e4]; exact hends) e8 e7 (by omega)
  rw [e3, e4] at a2
  rw [Nat.min_eq_right (by omega)] at a2
  rw [a2] at a1 hsubeq
  rw [e4, e6] at a1
  rw [e2] at a6
  refine ⟨hext.trans a1, hsub0 len rfl hsubeq, ?_, by rw [hsubs]; exact a6,
    by rw [hactv, a7, e5]⟩
  rw [hcon, a5]
  split
  · exact Or.inl rfl
  · exact Or.inr rfl

theorem end_issue_write_stream_eq (w : netfs_io_request) (s : Nat) :
    (netfs_end_issue_write w).stream s =
      if (w.stream s).active = true then (w.stream s).issued else w.stream s := by
  have hstep : ∀ (r : netfs_io_request × Bool) (t u : Nat),
      (netfs_end_issue_write_stream r t).1.stream u =
        if (t = 0 ↔ u = 0) then
          (if (r.1.stream u).active = true then (r.1.stream u).issued else r.1.stream u)
        else r.1.stream u := by
    intro r t u
    unfold netfs_end_issue_write_stream
    simp only []
    by_cases htu : t = 0 ↔ u = 0
    · rw [if_pos htu]
      have he : r.1.stream u = r.1.stream t := stream_eq_of_iff r.1 t u htu
      rw [he]
      cases ha : (r.1.stream t).active with
      | false =>
        rw [if_pos (by rfl : (!false) = true), if_neg Bool.false_ne_true]
        exact he
      | true =>
        rw [if_neg (by decide : ¬((!true) = true)), if_pos rfl]
        show (netfs_issue_write r.1 t).stream u = _
        rw [stream_eq_of_iff _ t u htu, issue_stream]
    · rw [if_neg htu]
      split
      · rfl
      · exact issue_stream_ne _ _ _ htu
  unfold netfs_end_issue_write
  simp only []
  have hfin : ∀ r : netfs_io_request × Bool,
      (if r.2 = true then r.1.emit netfs_event.wake_collector else r.1).stream s = r.1.stream s := by
    intro r
    split <;> rfl
  rw [hfin, hstep, hstep]
  by_cases hs : s = 0
  · subst hs
    simp only [if_false, if_true, iff_true, iff_false, one_ne_zero, Nat.succ_ne_zero]
    rfl
  · have h0 : ¬((0 : Nat) = 0 ↔ s = 0) := fun h => hs (h.1 rfl)
    have h1 : ((1 : Nat) = 0 ↔ s = 0) := ⟨fun h => absurd h (by decide), fun h => absurd h hs⟩
    rw [if_pos h1, if_neg h0]
    rfl

/-! ## The two-page scenario -/

theorem two_pages_first (fuel : Nat) (w : netfs_io_request) (f0 f1 : folio)
    (h : two_page_scenario w f0 f1) :
    ∃ w1 : netfs_io_request, netfs_write_folio (fuel + 3) w f0 = some (w1, 0) ∧
      planner_frame { w with buffer := (rolling_buffer_make_space w.buffer).1 } w1 ∧
      w1.io_streams0.extents = w.io_streams0.extents ++ [(f0.pos, 4096)] ∧
      w1.io_streams0.construct = none ∧ stream_ok w1.io_streams0 ∧
      w1.io_streams1.extents = w.io_streams1.extents ++ [(f0.pos, 4096)] ∧
      w1.io_streams1.construct = some w.io_streams1.subrequests.length ∧
      (w1.io_streams1.deref w.io_streams1.subrequests.length).start = f0.pos ∧
      (w1.io_streams1.deref w.io_streams1.subrequests.length).len = 4096 ∧
      w1.io_streams1.sreq_max_len = UINT_MAX ∧
      w1.io_streams1.active = true ∧ stream_ok w1.io_streams1 := by
  have hI := h.below
  have hR := h.range
  have hsz := h.size0
  have hte : (netfs_write_folio_extent w f0).2.to_eof = false :=
    (extent_plain w f0 h.finfo0 (by omega) (by rw [hsz]; decide)).2.2.2 (by omega)
  have hpos : f0.pos + 4096 < U64 := by
    unfold LONG_MAX at hR; unfold U64; omega
  -- the upload stream takes the page in one subrequest of 4096 bytes
  have hu := fun (wx : netfs_io_request) (hwx : wx.wsize = w.wsize) =>
    paged_fresh ({ w.io_streams0 with submit_off := 0, submit_len := f0.size } : netfs_io_stream)
      wx f0.pos f0.size 4096 4096 (netfs_write_folio_extent w f0).2.to_eof h.upload_construct
      h.upload_hook (stream_ok_congr rfl rfl rfl rfl h.upload_ok) rfl hsz (by decide) hpos
      (by
        show (match w.io_streams0.source with
          | netfs_io_source.NETFS_UPLOAD_TO_SERVER => wx.wsize
          | _ => UINT_MAX) = 4096
        rw [h.upload_source, hwx]
        exact h.wsize)
      (Nat.le_refl _) (by decide)
  -- the cache stream takes it in one subrequest, which stays open
  have hc := fun (wx : netfs_io_request) (_ : wx.wsize = w.wsize) =>
    paged_fresh ({ w.io_streams1 with submit_off := 0, submit_len := f0.size } : netfs_io_stream)
      wx f0.pos f0.size 4096 UINT_MAX (netfs_write_folio_extent w f0).2.to_eof h.cache_construct
      h.cache_hook (stream_ok_congr rfl rfl rfl rfl h.cache_ok) rfl hsz (by decide) hpos
      (by
        show (match w.io_streams1.source with
          | netfs_io_source.NETFS_UPLOAD_TO_SERVER => wx.wsize
          | _ => UINT_MAX) = UINT_MAX
        rw [h.cache_source])
      (by decide) (by decide)
  obtain ⟨w1, wa, wb, hwa, hwb, hrun, hf, h0, h1⟩ := write_folio_page fuel w f0 h.finfo0
    h.group0 h.group (by omega) (by omega) h.upload_avail h.cache_avail (by omega)
    (by rw [hsz]; decide)
    (fun hs => by have := h.space 0 hs; omega)
    (fun wx hwx => (hu wx hwx).2.1) (fun wx hwx => (hc wx hwx).2.1)
  obtain ⟨u1, _, u3, _, _, _, _, _, _, _, u11, _⟩ := hu wa hwa
  obtain ⟨c1, _, c3, c4, _, c6, c7, _, _, c10, c11, _⟩ := hc wb hwb
  rw [← h0] at u1 u3 u11
  rw [← h1] at c1 c3 c4 c6 c7 c10 c11
  rw [hte] at c3
  refine ⟨w1, hrun, hf, u1, ?_, u11, c1, ?_, c6, c7, c4, ?_, c11⟩
  · rw [u3]
    exact if_pos (Or.inl (Nat.le_refl _))
  · rw [c3]
    exact if_neg (by decide)
  · rw [c10]
    show (if w.io_streams1.subrequests.isEmpty = true then true else w.io_streams1.active) = true
    cases he : w.io_streams1.subrequests.isEmpty with
    | true => rfl
    | false => exact h.cache_active he

theorem two_pages_second (fuel : Nat) (w : netfs_io_request) (f0 f1 : folio)
    (h : two_page_scenario w f0 f1) :
    ∃ w1 w2 : netfs_io_request, netfs_write_folio (fuel + 3) w f0 = some (w1, 0) ∧
      netfs_write_folio (fuel + 3) w1 f1 = some (w2, 0) ∧
      w2.io_streams0.extents =
        w.io_streams0.extents ++ [(f0.pos, 4096), (f0.pos + 4096, 4096)] ∧
      w2.io_streams0.construct = none ∧
      w2.io_streams1.extents = w.io_streams1.extents ++ [(f0.pos, 8192)] ∧
      w2.io_streams1.active = true := by
  obtain ⟨w1, hrun1, hf, u1, u2, u3, c1, c2, c3, c4, c5, c6, c7⟩ := two_pages_first fuel w f0 f1 h
  have hI := h.below
  have hR := h.range
  have hsz := h.size1
  have hp := h.contiguous
  have hpos : f1.pos + 4096 < U64 := by
    unfold LONG_MAX at hR; unfold U64; omega
  have hwsize : w1.wsize = w.wsize := hf.wsize
  have hisz : w1.inode_i_size = w.inode_i_size := hf.inode_i_size
  have hgrp : w1.group = w.group := hf.group
  have hst0 : stream_static w.io_streams0 w1.io_streams0 := hf.static 0
  have hst1 : stream_static w.io_streams1 w1.io_streams1 := hf.static 1
  have hspace : w1.buffer.space ≠ some 0 := by
    intro hs
    rw [hf.space] at hs
    rcases make_space_space _ 0 hs with h' | h'
    · have := h.space 1 h'
      omega
    · have := h.space 0 h'.1
      omega
  have hu := fun (wx : netfs_io_request) (hwx : wx.wsize = w1.wsize) =>
    paged_fresh ({ w1.io_streams0 with submit_off := 0, submit_len := f1.size } : netfs_io_stream)
      wx f1.pos f1.size 4096 4096 (netfs_write_folio_extent w1 f1).2.to_eof u2
      (hst0.prepare_write.trans h.upload_hook) (stream_ok_congr rfl rfl rfl rfl u3) rfl hsz
      (by decide) hpos
      (by
        show (match w1.io_streams0.source with
          | netfs_io_source.NETFS_UPLOAD_TO_SERVER => wx.wsize
          | _ => UINT_MAX) = 4096
        rw [hst0.source, h.upload_source, hwx, hwsize]
        exact h.wsize)
      (Nat.le_refl _) (by decide)
  have hc := fun (wx : netfs_io_request) (_ : wx.wsize = w1.wsize) =>
    paged_contiguous
      ({ w1.io_streams1 with submit_off := 0, submit_len := f1.size } : netfs_io_stream)
      wx f1.pos f1.size 4096 (netfs_write_folio_extent w1 f1).2.to_eof
      w.io_streams1.subrequests.length c2
      (by
        show (w1.io_streams1.deref w.io_streams1.subrequests.length).start +
          (w1.io_streams1.deref w.io_streams1.subrequests.length).len = f1.pos
        rw [c3, c4, hp])
      (stream_ok_congr rfl rfl rfl rfl c7)
      (by
        intro q
        show (netfs_prepare_write_limits wx.wsize w1.io_streams1.source
            w1.io_streams1.prepare_write q).sreq_max_len < U64 ∧
          (netfs_prepare_write_limits wx.wsize w1.io_streams1.source
            w1.io_streams1.prepare_write q).sreq_max_segs < U32
        rw [hst1.prepare_write, h.cache_hook, hst1.source, h.cache_source,
          (limits_none _ _ q).1, (limits_none _ _ q).2]
        exact ⟨show UINT_MAX < U64 by decide, by decide⟩)
      rfl hsz (by decide) hpos
      (by
        show (w1.io_streams1.deref w.io_streams1.subrequests.length).len + 4096 ≤
          w1.io_streams1.sreq_max_len
        rw [c4, c5]
        decide)
  obtain ⟨w2, wa, wb, hwa, hwb, hrun2, _, h0, h1⟩ := write_folio_page fuel w1 f1 h.finfo1
    (h.group1.trans hgrp.symm) (by rw [hgrp]; exact h.group) (by rw [hisz]; omega)
    (by rw [hisz]; omega) (hst0.avail.trans h.upload_avail) (hst1.avail.trans h.cache_avail)
    (by omega) (by rw [hsz]; decide) hspace
    (fun wx hwx => (hu wx hwx).2.1) (fun wx hwx => (hc wx hwx).2.1)
  obtain ⟨a1, _, a3, _⟩ := hu wa hwa
  obtain ⟨b1, _, _, _, b5⟩ := hc wb hwb
  rw [← h0] at a1 a3
  rw [← h1] at b1 b5
  refine ⟨w1, w2, hrun1, hrun2, ?_, ?_, ?_, ?_⟩
  · have a1' : w2.io_streams0.extents = w1.io_streams0.extents ++ [(f1.pos, 4096)] := a1
    rw [a1', u1, hp, List.append_assoc]
    rfl
  · rw [a3]
    exact if_pos (Or.inl (Nat.le_refl _))
  · have b1' : w2.io_streams1.extents = w1.io_streams1.extents.set
        w.io_streams1.subrequests.length
        ((w1.io_streams1.deref w.io_streams1.subrequests.length).start,
         (w1.io_streams1.deref w.io_streams1.subrequests.length).len + 4096) := b1
    rw [b1', c1, c3, c4]
    have hlen : w.io_streams1.subrequests.length = w.io_streams1.extents.length := by
      unfold netfs_io_stream.extents
      rw [List.length_map]
    rw [hlen, set_append_length]
  · have b5' : w2.io_streams1.active = w1.io_streams1.active := b5
    rw [b5', c6]

theorem issued_extents (st : netfs_io_stream) : st.issued.extents = st.extents :=
  issued_map (fun q => (q.start, q.len)) (fun _ => rfl) st

/-- The two-page scenario on the example request, by evaluation: the upload
stream ends with the subrequests `[0, 4096)` and `[4096, 8192)`, the cache
stream with the one subrequest `[0, 8192)`; the backend's `issue_write` has been
called on each of them, in this order, and no construct is left open. -/
theorem example_two_pages_dispatched :
    example_two_pages.map (fun w =>
      ((w.stream 0).extents, (w.stream 1).extents, w.dispatched 0, w.dispatched 1,
       (w.stream 0).construct, (w.stream 1).construct)) =
    some ([(0, 4096), (4096, 4096)], [(0, 8192)], [(0, 4096), (4096, 4096)], [(0, 8192)],
      none, none) := by
  rfl

/-- C10: the two-page scenario.  With both streams available, no
`prepare_write` hooks and a write size of 4096 (so that the upload stream's
`sreq_max_len` is 4096 and the cache stream's is `UINT_MAX`), no open construct,
and two contiguous 4096-byte folios of the request's group, not written by
streaming, lying wholly below `i_size`: the two calls of `netfs_write_folio`
return 0, and after `netfs_end_issue_write` the upload stream has gained exactly
the two subrequests `[fpos, fpos + 4096)` and `[fpos + 4096, fpos + 8192)`, the
cache stream exactly one subrequest `[fpos, fpos + 8192)`, and neither stream
has a construct left: every subrequest has been issued. -/
theorem netfs_two_page_scenario (fuel : Nat) (w : netfs_io_request) (f0 f1 : folio)
    (h : two_page_scenario w f0 f1) (hfuel : 3 ≤ fuel) :
    ∃ w1 w2 : netfs_io_request, netfs_write_folio fuel w f0 = some (w1, 0) ∧
      netfs_write_folio fuel w1 f1 = some (w2, 0) ∧
      ((netfs_end_issue_write w2).stream 0).extents =
        (w.stream 0).extents ++ [(f0.pos, 4096), (f0.pos + 4096, 4096)] ∧
      ((netfs_end_issue_write w2).stream 1).extents =
        (w.stream 1).extents ++ [(f0.pos, 8192)] ∧
      ((netfs_end_issue_write w2).stream 0).construct = none ∧
      ((netfs_end_issue_write w2).stream 1).construct = none := by
  obtain ⟨k, rfl⟩ : ∃ k, fuel = k + 3 := ⟨fuel - 3, by omega⟩
  obtain ⟨w1, w2, hrun1, hrun2, u1, u2, c1, c2⟩ := two_pages_second k w f0 f1 h
  refine ⟨w1, w2, hrun1, hrun2, ?_, ?_, ?_, ?_⟩
  · rw [end_issue_write_stream_eq]
    split
    · rw [issued_extents]; exact u1
    · exact u1
  · rw [end_issue_write_stream_eq]
    split
    · rw [issued_extents]; exact c1
    · exact c1
  · rw [end_issue_write_stream_eq]
    split
    · exact issued_construct _
    · exact u2
  · rw [end_issue_write_stream_eq, if_pos (show (w2.stream 1).active = true from c2)]
    exact issued_construct _

theorem netfs_two_page_scenario_witness :
    ∃ w1 w2 : netfs_io_request,
      netfs_write_folio 8 example_request example_folio0 = some (w1, 0) ∧
      netfs_write_folio 8 w1 example_folio1 = some (w2, 0) ∧
      ((netfs_end_issue_write w2).stream 0).extents =
        (example_request.stream 0).extents ++
          [(example_folio0.pos, 4096), (example_folio0.pos + 4096, 4096)] ∧
      ((netfs_end_issue_write w2).stream 1).extents =
        (example_request.stream 1).extents ++ [(example_folio0.pos, 8192)] ∧
      ((netfs_end_issue_write w2).stream 0).construct = none ∧
      ((netfs_end_issue_write w2).stream 1).construct = none :=
  netfs_two_page_scenario 8 example_request example_folio0 example_folio1
    { upload_avail := rfl, upload_source := rfl, upload_hook := rfl, upload_construct := rfl,
      upload_ok := by decide, cache_avail := rfl, cache_source := rfl, cache_hook := rfl,
      cache_construct := rfl, cache_ok := by decide, cache_active := by decide, wsize := rfl,
      group := by decide, space := fun _ hn => Option.noConfusion hn, size0 := rfl,
      size1 := rfl, contiguous := rfl, group0 := rfl, group1 := rfl, finfo0 := rfl,
      finfo1 := rfl, below := by decide, range := by decide }
    (by decide)

/-! ## Events appended by the builder and the planner -/

theorem planner_appends_refl (w : netfs_io_request) : planner_appends w w :=
  ⟨[], by simp, fun _ h => absurd h (List.not_mem_nil _)⟩

theorem planner_appends_trans {a b c : netfs_io_request} (h1 : planner_appends a b)
    (h2 : planner_appends b c) : planner_appends a c := by
  obtain ⟨l1, e1, p1⟩ := h1
  obtain ⟨l2, e2, p2⟩ := h2
  refine ⟨l1 ++ l2, by rw [e2, e1, List.append_assoc], ?_⟩
  intro e he
  rcases List.mem_append.1 he with h | h
  · exact p1 e h
  · exact p2 e h

theorem planner_appends_of_events {w w' : netfs_io_request} (l : List netfs_event)
    (h : w'.events = w.events ++ l) (hl : ∀ e ∈ l, e.from_planner = true) :
    planner_appends w w' := ⟨l, h, hl⟩

theorem planner_appends_prefix {w w' : netfs_io_request} (h : planner_appends w w') :
    w.events <+: w'.events := by
  obtain ⟨l, e, _⟩ := h
  exact ⟨l, e.symm⟩

theorem emit_appends (w : netfs_io_request) (e : netfs_event) (he : e.from_planner = true) :
    planner_appends w (w.emit e) :=
  ⟨[e], rfl, fun x hx => by rw [List.mem_singleton.1 hx]; exact he⟩

theorem cond_emit_appends (c : Prop) [Decidable c] (w : netfs_io_request) (e : netfs_event)
    (he : e.from_planner = true) : planner_appends w (if c then w.emit e else w) := by
  split
  · exact emit_appends w e he
  · exact planner_appends_refl w

theorem set_stream_appends (w : netfs_io_request) (s : Nat) (st : netfs_io_stream) :
    planner_appends w (w.set_stream s st) :=
  ⟨[], by rw [set_stream_events, List.append_nil], fun _ h => absurd h (List.not_mem_nil _)⟩

theorem dispatch_from_planner (s : Nat) (q : netfs_io_subrequest) :
    (netfs_dispatch s q).from_planner = true := by
  unfold netfs_dispatch
  split <;> rfl

theorem issue_events_eq (w : netfs_io_request) (s : Nat) :
    (netfs_issue_write w s).events = w.events ++ (w.stream s).issue_events s := by
  unfold netfs_io_stream.issue_events
  cases h : (w.stream s).construct with
  | none => rw [issue_none w s h]; simp
  | some i => rw [issue_events w s i h]

theorem issue_events_from_planner (st : netfs_io_stream) (s : Nat) :
    ∀ e ∈ st.issue_events s, e.from_planner = true := by
  intro e he
  unfold netfs_io_stream.issue_events at he
  cases h : st.construct with
  | none => rw [h] at he; exact absurd he (List.not_mem_nil _)
  | some i =>
    rw [h] at he
    rw [List.mem_singleton.1 he]
    exact dispatch_from_planner _ _

theorem issue_appends (w : netfs_io_request) (s : Nat) :
    planner_appends w (netfs_issue_write w s) :=
  ⟨_, issue_events_eq w s, issue_events_from_planner _ s⟩

theorem cond_issue_appends (c : Prop) [Decidable c] (w : netfs_io_request) (s : Nat) :
    planner_appends w (if c then netfs_issue_write w s else w) := by
  split
  · exact issue_appends w s
  · exact planner_appends_refl w

theorem advance_appends (w : netfs_io_request) (s start len : Nat) (to_eof : Bool) :
    planner_appends w (netfs_advance_write w s start len to_eof).1 := by
  cases hav : (w.stream s).avail with
  | false =>
    rw [advance_unavailable w s start len to_eof hav]
    exact planner_appends_refl w
  | true =>
    refine ⟨_, by rw [advance_events w s start len to_eof hav, List.append_assoc], ?_⟩
    intro e he
    rcases List.mem_append.1 he with h | h
    · unfold netfs_io_stream.flushed at h
      cases hc : (w.stream s).construct with
      | none => rw [hc] at h; exact absurd h (List.not_mem_nil _)
      | some i =>
        rw [hc] at h
        simp only [] at h
        split at h
        · rw [List.mem_singleton.1 h]
          exact dispatch_from_planner _ _
        · exact absurd h (List.not_mem_nil _)
    · simp only [] at h
      split at h
      · rw [List.mem_singleton.1 h]
        exact dispatch_from_planner _ _
      · exact absurd h (List.not_mem_nil _)

theorem rolling_buffer_advance_appends (w : netfs_io_request) (n : Nat) :
    planner_appends w (rolling_buffer_advance w n) :=
  ⟨[netfs_event.rolling_buffer_advance n], rfl,
    fun x hx => by rw [List.mem_singleton.1 hx]; rfl⟩

theorem rolling_buffer_append_appends (w : netfs_io_request) (f : folio) :
    planner_appends w (rolling_buffer_append w f) :=
  ⟨[netfs_event.rolling_buffer_append f], rfl,
    fun x hx => by rw [List.mem_singleton.1 hx]; rfl⟩

theorem atomic64_set_issued_to_appends (w : netfs_io_request) (v : Nat) :
    planner_appends w (atomic64_set_issued_to w v) :=
  ⟨[netfs_event.issued_to v], rfl, fun x hx => by rw [List.mem_singleton.1 hx]; rfl⟩

theorem step_pre_appends (fpos fsize : Nat) (w : netfs_io_request) (iter_off s : Nat) :
    planner_appends w (netfs_write_folio_step_pre fpos fsize w iter_off s) := by
  unfold netfs_write_folio_step_pre
  simp only []
  have h1 : planner_appends w
      (if (w.stream s).submit_off > iter_off
        then rolling_buffer_advance w ((w.stream s).submit_off - iter_off) else w) := by
    split
    · exact rolling_buffer_advance_appends _ _
    · exact planner_appends_refl _
  generalize (if (w.stream s).submit_off > iter_off
        then rolling_buffer_advance w ((w.stream s).submit_off - iter_off) else w) = w1 at *
  exact planner_appends_trans (planner_appends_trans h1 (atomic64_set_issued_to_appends w1
    (fpos + (w.stream s).submit_off))) (set_stream_appends _ _ _)

theorem step_appends (fpos fsize : Nat) (to_eof : Bool) (w : netfs_io_request) (iter_off s : Nat) :
    planner_appends w (netfs_write_folio_step fpos fsize to_eof w iter_off s).1 := by
  rw [step_eq]
  exact planner_appends_trans (planner_appends_trans (step_pre_appends fpos fsize w iter_off s)
    (advance_appends (netfs_write_folio_step_pre fpos fsize w iter_off s) s
      (fpos + (w.stream s).submit_off) (w.stream s).submit_len to_eof))
    (set_stream_appends _ _ _)

theorem loop_appends (fpos fsize : Nat) (to_eof : Bool) :
    ∀ (fuel : Nat) (w : netfs_io_request) (iter_off : Nat) (r : netfs_io_request × Nat),
    netfs_write_folio_loop fpos fsize to_eof fuel w iter_off = some r →
    planner_appends w r.1 := by
  intro fuel
  induction fuel with
  | zero => intro w io r h; exact Option.noConfusion h
  | succ n ih =>
    intro w io r h
    unfold netfs_write_folio_loop at h
    cases hch : netfs_choose_stream w with
    | none =>
      rw [hch] at h
      have := Option.some.inj h
      subst this
      exact planner_appends_refl w
    | some s =>
      rw [hch] at h
      exact planner_appends_trans (step_appends fpos fsize to_eof w io s) (ih _ _ r h)

theorem finish_appends (w : netfs_io_request) (f : folio) (x : folio_extent) (io : Nat) :
    planner_appends w (netfs_write_folio_finish w f x io) := by
  unfold netfs_write_folio_finish
  simp only []
  have h1 : planner_appends w
      (if f.size > io then rolling_buffer_advance w (f.size - io) else w) := by
    split
    · exact rolling_buffer_advance_appends _ _
    · exact planner_appends_refl _
  generalize (if f.size > io then rolling_buffer_advance w (f.size - io) else w) = w1 at *
  have h2 := planner_appends_trans h1 (atomic64_set_issued_to_appends w1 (f.pos + f.size))
  generalize atomic64_set_issued_to w1 (f.pos + f.size) = w2 at *
  split
  · exact planner_appends_trans h2 (planner_appends_trans (issue_appends w2 0)
      (issue_appends _ 1))
  · exact h2

/-! ## The paths through `netfs_write_folio` -/

theorem make_space_frame (w : netfs_io_request) :
    ({ w with buffer := (rolling_buffer_make_space w.buffer).1 } : netfs_io_request).events =
      w.events := rfl

theorem entry_frame (w : netfs_io_request) (f : folio) :
    planner_frame { w with buffer := (rolling_buffer_make_space w.buffer).1 }
      (netfs_write_folio_entry w f).1 := by
  unfold netfs_write_folio_entry
  simp only []
  have f1 : planner_frame { w with buffer := (rolling_buffer_make_space w.buffer).1 }
      (if f.pos + f.size >
          ({ w with buffer := (rolling_buffer_make_space w.buffer).1 } : netfs_io_request).i_size
        then { ({ w with buffer := (rolling_buffer_make_space w.buffer).1 } : netfs_io_request) with
          i_size := w.inode_i_size }
        else { w with buffer := (rolling_buffer_make_space w.buffer).1 }) := by
    split
    · exact ⟨rfl, rfl, rfl, rfl, rfl, rfl, rfl, rfl, rfl, rfl, rfl, rfl, rfl, rfl,
        fun _ => stream_static_refl _⟩
    · exact planner_frame_refl _
  exact planner_frame_trans f1 (extent_frame _ f).1

theorem entry_stream (w : netfs_io_request) (f : folio) (t : Nat) :
    (netfs_write_folio_entry w f).1.stream t = w.stream t := by
  unfold netfs_write_folio_entry
  simp only []
  rw [(extent_frame _ f).2 t]
  split <;> rfl

theorem entry_extent (w : netfs_io_request) (f : folio) :
    (netfs_write_folio_entry w f).2 = (netfs_write_folio_extent w f).2 := by
  unfold netfs_write_folio_entry
  simp only []
  apply extent_congr
  · split <;> rfl
  · split <;> rfl

theorem extent_fields (w : netfs_io_request) (f : folio) :
    (netfs_write_folio_extent w f).1.issued_to = w.issued_to ∧
    (netfs_write_folio_extent w f).1.buffer = w.buffer ∧
    (netfs_write_folio_extent w f).1.nr_group_rel = w.nr_group_rel ∧
    (netfs_write_folio_extent w f).1.i_size = w.i_size ∧
    (netfs_write_folio_extent w f).1.subreq_counter = w.subreq_counter := by
  unfold netfs_write_folio_extent
  simp only []
  split
  · exact ⟨rfl, rfl, rfl, rfl, rfl⟩
  · split
    · simp only []
      split <;> exact ⟨rfl, rfl, rfl, rfl, rfl⟩
    · split <;> exact ⟨rfl, rfl, rfl, rfl, rfl⟩

/-- The events of the extent computation: the zero-fill of the tail of a folio,
not written by streaming, in which the file ends, for a request that is not a
write-through. -/
theorem extent_events (w : netfs_io_request) (f : folio) :
    (netfs_write_folio_extent w f).1.events =
      w.events ++
        (if w.origin ≠ netfs_io_origin.NETFS_WRITETHROUGH ∧ f.finfo = none ∧
            f.size > w.inode_i_size - f.pos
         then [netfs_event.folio_zero_segment f (w.inode_i_size - f.pos) f.size] else []) := by
  unfold netfs_write_folio_extent
  cases hfi : f.finfo with
  | none =>
    by_cases ho : w.origin = netfs_io_origin.NETFS_WRITETHROUGH
    · simp [ho]
    · by_cases hgt : f.size > w.inode_i_size - f.pos
      · simp [ho, hgt, netfs_io_request.emit]
      · by_cases he : f.size = w.inode_i_size - f.pos
        · simp [ho, hgt, he]
        · simp [ho, hgt, he]
  | some fi =>
    by_cases ho : w.origin = netfs_io_origin.NETFS_WRITETHROUGH
    · simp [ho]
    · simp only [Option.isSome_some, if_neg ho]
      split
      · simp
      · split <;> simp

theorem extent_appends (w : netfs_io_request) (f : folio) :
    planner_appends w (netfs_write_folio_extent w f).1 := by
  refine ⟨_, extent_events w f, ?_⟩
  intro e he
  split at he
  · rw [List.mem_singleton.1 he]
    rfl
  · exact absurd he (List.not_mem_nil _)

theorem i_size_update_fields (w : netfs_io_request) (f : folio) :
    (if f.pos + f.size > w.i_size then { w with i_size := w.inode_i_size } else w).events =
      w.events ∧
    (if f.pos + f.size > w.i_size then { w with i_size := w.inode_i_size } else w).issued_to =
      w.issued_to ∧
    (if f.pos + f.size > w.i_size then { w with i_size := w.inode_i_size } else w).buffer =
      w.buffer ∧
    (if f.pos + f.size > w.i_size then { w with i_size := w.inode_i_size } else w).nr_group_rel =
      w.nr_group_rel ∧
    (if f.pos + f.size > w.i_size then { w with i_size := w.inode_i_size } else w).origin =
      w.origin ∧
    (if f.pos + f.size > w.i_size then { w with i_size := w.inode_i_size }
      else w).inode_i_size = w.inode_i_size ∧
    (if f.pos + f.size > w.i_size then { w with i_size := w.inode_i_size }
      else w).subreq_counter = w.subreq_counter := by
  split <;> exact ⟨rfl, rfl, rfl, rfl, rfl, rfl, rfl⟩

theorem entry_fields (w : netfs_io_request) (f : folio) :
    (netfs_write_folio_entry w f).1.issued_to = w.issued_to ∧
    (netfs_write_folio_entry w f).1.buffer = (rolling_buffer_make_space w.buffer).1 ∧
    (netfs_write_folio_entry w f).1.nr_group_rel = w.nr_group_rel ∧
    (netfs_write_folio_entry w f).1.subreq_counter = w.subreq_counter := by
  unfold netfs_write_folio_entry
  simp only []
  obtain ⟨a1, a2, a3, _, a5⟩ := extent_fields
    (if f.pos + f.size >
        ({ w with buffer := (rolling_buffer_make_space w.buffer).1 } : netfs_io_request).i_size
      then { ({ w with buffer := (rolling_buffer_make_space w.buffer).1 } : netfs_io_request) with
        i_size := w.inode_i_size }
      else { w with buffer := (rolling_buffer_make_space w.buffer).1 }) f
  obtain ⟨_, b2, b3, b4, _, _, b7⟩ := i_size_update_fields
    ({ w with buffer := (rolling_buffer_make_space w.buffer).1 } : netfs_io_request) f
  exact ⟨a1.trans b2, a2.trans b3, a3.trans b4, a5.trans b7⟩

/-- The events of the first part of `netfs_write_folio`. -/
theorem entry_events (w : netfs_io_request) (f : folio) :
    (netfs_write_folio_entry w f).1.events =
      w.events ++
        (if w.origin ≠ netfs_io_origin.NETFS_WRITETHROUGH ∧ f.finfo = none ∧
            f.size > w.inode_i_size - f.pos
         then [netfs_event.folio_zero_segment f (w.inode_i_size - f.pos) f.size] else []) := by
  unfold netfs_write_folio_entry
  simp only []
  obtain ⟨b1, _, _, _, b5, b6, _⟩ := i_size_update_fields
    ({ w with buffer := (rolling_buffer_make_space w.buffer).1 } : netfs_io_request) f
  rw [extent_events, b1, b5, b6]

theorem entry_appends (w : netfs_io_request) (f : folio) :
    planner_appends w (netfs_write_folio_entry w f).1 := by
  refine ⟨_, entry_events w f, ?_⟩
  intro e he
  split at he
  · rw [List.mem_singleton.1 he]
    rfl
  · exact absurd he (List.not_mem_nil _)

/-! ### The decomposition of `netfs_write_folio` -/

theorem write_folio_planned_eq (fuel : Nat) (w : netfs_io_request) (f : folio)
    (hspace : w.buffer.space ≠ some 0) (heof : f.pos < w.inode_i_size) :
    netfs_write_folio fuel w f =
      if f.group = netfs_group_ptr.NETFS_FOLIO_COPY_TO_CACHE then
        netfs_write_folio_accepted fuel (netfs_issue_write (netfs_write_folio_entry w f).1 0) f
          (netfs_write_folio_entry w f).2
      else if f.group ≠ (netfs_write_folio_entry w f).1.group then
        some (netfs_issue_write (netfs_issue_write
          (((netfs_write_folio_entry w f).1.emit
            (netfs_event.folio_redirty_for_writepage f)).emit (netfs_event.folio_unlock f)) 0) 1, 0)
      else netfs_write_folio_accepted fuel (netfs_write_folio_entry w f).1 f
          (netfs_write_folio_entry w f).2 := by
  unfold netfs_write_folio
  rw [if_neg (make_space_ok _ hspace)]
  unfold netfs_write_folio_planned
  rw [if_neg (show ¬(f.pos ≥
    ({ w with buffer := (rolling_buffer_make_space w.buffer).1 } : netfs_io_request).inode_i_size)
    from Nat.not_le.2 heof)]
  rfl

theorem accepted_eq (fuel : Nat) (w : netfs_io_request) (f : folio) :
    netfs_write_folio_accepted fuel
        (if f.group = netfs_group_ptr.NETFS_FOLIO_COPY_TO_CACHE
         then netfs_issue_write (netfs_write_folio_entry w f).1 0
         else (netfs_write_folio_entry w f).1) f (netfs_write_folio_entry w f).2 =
      if f.group = netfs_group_ptr.NETFS_FOLIO_COPY_TO_CACHE then
        if (!(netfs_write_folio_flushed w f).io_streams1.avail) = true then
          some ((netfs_issue_write (netfs_write_folio_flushed w f) 0).emit
            (netfs_event.folio_written_back f), (0 : Int))
        else
          match netfs_write_folio_loop f.pos f.size (netfs_write_folio_entry w f).2.to_eof fuel
              (netfs_write_folio_ready w f) 0 with
          | none => none
          | some q =>
            some (netfs_write_folio_finish q.1 f (netfs_write_folio_entry w f).2 q.2, 0)
      else if (!(netfs_write_folio_flushed w f).io_streams0.avail &&
          !(netfs_write_folio_flushed w f).io_streams1.avail) = true then
        some ((netfs_write_folio_flushed w f).emit (netfs_event.folio_written_back f), 0)
      else
        match netfs_write_folio_loop f.pos f.size (netfs_write_folio_entry w f).2.to_eof fuel
            (netfs_write_folio_ready w f) 0 with
        | none => none
        | some q =>
          some (netfs_write_folio_finish q.1 f (netfs_write_folio_entry w f).2 q.2, 0) := rfl

/-- The streams keep their identity, destination, hook and availability up to
the point where `netfs_write_folio` decides what to do with the folio. -/
theorem flushed_frame (w : netfs_io_request) (f : folio) :
    planner_frame { w with buffer := (rolling_buffer_make_space w.buffer).1 }
      (netfs_write_folio_flushed w f) := by
  unfold netfs_write_folio_flushed
  simp only []
  have h0 := entry_frame w f
  generalize (netfs_write_folio_entry w f) = e at *
  have h1 := planner_frame_trans h0
    (cond_issue_frame (f.group = netfs_group_ptr.NETFS_FOLIO_COPY_TO_CACHE) e.1 0).1
  generalize (if f.group = netfs_group_ptr.NETFS_FOLIO_COPY_TO_CACHE
    then netfs_issue_write e.1 0 else e.1) = w1 at *
  have h2 := planner_frame_trans h1 (cond_issue_frame (e.2.foff > 0) w1 0).1
  generalize (if e.2.foff > 0 then netfs_issue_write w1 0 else w1) = w2 at *
  have h3 := planner_frame_trans h2 (cond_issue_frame (e.2.streamw = true) w2 1).1
  generalize (if e.2.streamw = true then netfs_issue_write w2 1 else w2) = w3 at *
  have h4 := planner_frame_trans h3 (cond_emit_frame (w3.origin = netfs_io_origin.NETFS_WRITEBACK)
    w3 (netfs_event.folio_start_writeback f)).1
  generalize (if w3.origin = netfs_io_origin.NETFS_WRITEBACK
    then w3.emit (netfs_event.folio_start_writeback f) else w3) = w4 at *
  exact planner_frame_trans h4 (emit_planner_frame w4 _)

theorem flushed_avail (w : netfs_io_request) (f : folio) :
    (netfs_write_folio_flushed w f).io_streams0.avail = w.io_streams0.avail ∧
    (netfs_write_folio_flushed w f).io_streams1.avail = w.io_streams1.avail :=
  ⟨((flushed_frame w f).static 0).avail, ((flushed_frame w f).static 1).avail⟩

/-- The paths through `netfs_write_folio` for a folio that is not beyond EOF,
when the rolling buffer gets its space. -/
theorem write_folio_eq (fuel : Nat) (w : netfs_io_request) (f : folio)
    (hspace : w.buffer.space ≠ some 0) (heof : f.pos < w.inode_i_size) :
    netfs_write_folio fuel w f =
      if f.group ≠ netfs_group_ptr.NETFS_FOLIO_COPY_TO_CACHE ∧ f.group ≠ w.group then
        some (netfs_issue_write (netfs_issue_write
          (((netfs_write_folio_entry w f).1.emit
            (netfs_event.folio_redirty_for_writepage f)).emit (netfs_event.folio_unlock f)) 0) 1,
          (0 : Int))
      else if f.group = netfs_group_ptr.NETFS_FOLIO_COPY_TO_CACHE ∧ w.io_streams1.avail = false then
        some ((netfs_issue_write (netfs_write_folio_flushed w f) 0).emit
          (netfs_event.folio_written_back f), 0)
      else if f.group ≠ netfs_group_ptr.NETFS_FOLIO_COPY_TO_CACHE ∧
          w.io_streams0.avail = false ∧ w.io_streams1.avail = false then
        some ((netfs_write_folio_flushed w f).emit (netfs_event.folio_written_back f), 0)
      else
        match netfs_write_folio_loop f.pos f.size (netfs_write_folio_entry w f).2.to_eof fuel
            (netfs_write_folio_ready w f) 0 with
        | none => none
        | some q =>
          some (netfs_write_folio_finish q.1 f (netfs_write_folio_entry w f).2 q.2, 0) := by
  rw [write_folio_planned_eq fuel w f hspace heof]
  have hg : (netfs_write_folio_entry w f).1.group = w.group := (entry_frame w f).group
  obtain ⟨ha0, ha1⟩ := flushed_avail w f
  have hacc := accepted_eq fuel w f
  by_cases hc : f.group = netfs_group_ptr.NETFS_FOLIO_COPY_TO_CACHE
  · rw [if_pos hc] at hacc
    rw [if_pos hc, if_neg (fun h => h.1 hc), hacc, if_pos hc, ha1]
    cases hav : w.io_streams1.avail with
    | false =>
      rw [if_pos (by rfl), if_pos ⟨hc, rfl⟩]
    | true =>
      rw [if_neg (by decide), if_neg (fun h => Bool.noConfusion h.2), if_neg (fun h => h.1 hc)]
  · rw [if_neg hc] at hacc
    rw [if_neg hc, hg]
    by_cases hgr : f.group = w.group
    · rw [if_neg (fun h => h hgr), if_neg (fun h => h.2 hgr), if_neg (fun h => hc h.1),
        hacc, if_neg hc, ha0, ha1]
      cases hav0 : w.io_streams0.avail with
      | false =>
        cases hav1 : w.io_streams1.avail with
        | false => rw [if_pos (by rfl), if_pos ⟨hc, rfl, rfl⟩]
        | true =>
          rw [if_neg (by decide), if_neg (fun h => Bool.noConfusion h.2.2)]
      | true =>
        rw [if_neg (by simp), if_neg (fun h => Bool.noConfusion h.2.1)]
    · rw [if_pos hgr, if_pos ⟨hc, hgr⟩]

/-! ### The streams along the paths of `netfs_write_folio` -/

theorem issued_issued (st : netfs_io_stream) : st.issued.issued = st.issued :=
  issued_none _ (issued_construct st)

theorem issue_both_stream (w : netfs_io_request) (t : Nat) :
    (netfs_issue_write (netfs_issue_write w 0) 1).stream t = (w.stream t).issued := by
  by_cases ht : t = 0
  · subst ht
    rw [issue_stream_ne _ 1 0 (by decide), issue_stream]
  · have h1 : ((1 : Nat) = 0 ↔ t = 0) := ⟨fun h => absurd h (by decide), fun h => absurd h ht⟩
    have h0 : ¬((0 : Nat) = 0 ↔ t = 0) := fun h => ht (h.1 rfl)
    rw [stream_eq_of_iff _ 1 t h1, issue_stream, ← stream_eq_of_iff _ 1 t h1,
      issue_stream_ne _ 0 t h0]

theorem issue_both_events (w : netfs_io_request) :
    (netfs_issue_write (netfs_issue_write w 0) 1).events =
      w.events ++ w.io_streams0.issue_events 0 ++ w.io_streams1.issue_events 1 := by
  rw [issue_events_eq, issue_events_eq, issue_stream_ne _ 0 1 (by decide)]
  rfl

theorem issue_twice (w : netfs_io_request) (s : Nat) :
    netfs_issue_write (netfs_issue_write w s) s = netfs_issue_write w s :=
  issue_none _ s (issue_construct w s)

theorem cond_issue_twice (c d : Prop) [Decidable c] [Decidable d] (w : netfs_io_request)
    (s : Nat) :
    (if d then netfs_issue_write (if c then netfs_issue_write w s else w) s
      else (if c then netfs_issue_write w s else w)) =
      if c ∨ d then netfs_issue_write w s else w := by
  by_cases hc : c <;> by_cases hd : d <;> simp [hc, hd, issue_twice]

theorem cond_issue_stream (c : Prop) [Decidable c] (w : netfs_io_request) (s t : Nat) :
    (if c then netfs_issue_write w s else w).stream t =
      if c ∧ (s = 0 ↔ t = 0) then (w.stream t).issued else w.stream t := by
  by_cases hc : c
  · rw [if_pos hc]
    by_cases h : s = 0 ↔ t = 0
    · rw [if_pos ⟨hc, h⟩, stream_eq_of_iff _ s t h, issue_stream, stream_eq_of_iff w s t h]
    · rw [if_neg (fun x => h x.2), issue_stream_ne _ _ _ h]
  · rw [if_neg hc, if_neg (fun x => hc x.1)]

theorem cond_issue_events (c : Prop) [Decidable c] (w : netfs_io_request) (s : Nat) :
    (if c then netfs_issue_write w s else w).events =
      w.events ++ (if c then (w.stream s).issue_events s else []) := by
  split
  · exact issue_events_eq w s
  · rw [List.append_nil]

theorem cond_issue_fields (c : Prop) [Decidable c] (w : netfs_io_request) (s : Nat) :
    builder_frame w (if c then netfs_issue_write w s else w) := by
  split
  · exact issue_frame w s
  · exact builder_frame_refl w

/-- The request at the point where `netfs_write_folio` decides what to do with
the folio, in terms of the request after the extent has been worked out. -/
theorem flushed_eq (w : netfs_io_request) (f : folio) :
    netfs_write_folio_flushed w f =
      ((if (if (netfs_write_folio_entry w f).2.streamw = true
              then netfs_issue_write
                (if f.group = netfs_group_ptr.NETFS_FOLIO_COPY_TO_CACHE ∨
                    (netfs_write_folio_entry w f).2.foff > 0
                 then netfs_issue_write (netfs_write_folio_entry w f).1 0
                 else (netfs_write_folio_entry w f).1) 1
              else
                (if f.group = netfs_group_ptr.NETFS_FOLIO_COPY_TO_CACHE ∨
                    (netfs_write_folio_entry w f).2.foff > 0
                 then netfs_issue_write (netfs_write_folio_entry w f).1 0
                 else (netfs_write_folio_entry w f).1)).origin = netfs_io_origin.NETFS_WRITEBACK
        then (if (netfs_write_folio_entry w f).2.streamw = true
              then netfs_issue_write
                (if f.group = netfs_group_ptr.NETFS_FOLIO_COPY_TO_CACHE ∨
                    (netfs_write_folio_entry w f).2.foff > 0
                 then netfs_issue_write (netfs_write_folio_entry w f).1 0
                 else (netfs_write_folio_entry w f).1) 1
              else
                (if f.group = netfs_group_ptr.NETFS_FOLIO_COPY_TO_CACHE ∨
                    (netfs_write_folio_entry w f).2.foff > 0
                 then netfs_issue_write (netfs_write_folio_entry w f).1 0
                 else (netfs_write_folio_entry w f).1)).emit (netfs_event.folio_start_writeback f)
        else (if (netfs_write_folio_entry w f).2.streamw = true
              then netfs_issue_write
                (if f.group = netfs_group_ptr.NETFS_FOLIO_COPY_TO_CACHE ∨
                    (netfs_write_folio_entry w f).2.foff > 0
                 then netfs_issue_write (netfs_write_folio_entry w f).1 0
                 else (netfs_write_folio_entry w f).1) 1
              else
                (if f.group = netfs_group_ptr.NETFS_FOLIO_COPY_TO_CACHE ∨
                    (netfs_write_folio_entry w f).2.foff > 0
                 then netfs_issue_write (netfs_write_folio_entry w f).1 0
                 else (netfs_write_folio_entry w f).1))).emit (netfs_event.folio_unlock f)) := by
  unfold netfs_write_folio_flushed
  simp only []
  rw [cond_issue_twice]

/-- The streams at the point where `netfs_write_folio` decides what to do with
the folio: the upload stream has been flushed for a folio of the copy-to-cache
cohort and for one whose data does not start at the front of the page, the cache
stream for a folio written by streaming. -/
theorem flushed_stream (w : netfs_io_request) (f : folio) :
    (netfs_write_folio_flushed w f).io_streams0 =
      (if f.group = netfs_group_ptr.NETFS_FOLIO_COPY_TO_CACHE ∨
          (netfs_write_folio_entry w f).2.foff > 0
       then w.io_streams0.issued else w.io_streams0) ∧
    (netfs_write_folio_flushed w f).io_streams1 =
      (if (netfs_write_folio_entry w f).2.streamw = true
       then w.io_streams1.issued else w.io_streams1) := by
  rw [flushed_eq]
  have e0 : (netfs_write_folio_entry w f).1.io_streams0 = w.io_streams0 := entry_stream w f 0
  have e1 : (netfs_write_folio_entry w f).1.io_streams1 = w.io_streams1 := entry_stream w f 1
  generalize netfs_write_folio_entry w f = e at *
  have a0 := cond_issue_stream (f.group = netfs_group_ptr.NETFS_FOLIO_COPY_TO_CACHE ∨ e.2.foff > 0)
    e.1 0 0
  have a1 := cond_issue_stream (f.group = netfs_group_ptr.NETFS_FOLIO_COPY_TO_CACHE ∨ e.2.foff > 0)
    e.1 0 1
  generalize (if f.group = netfs_group_ptr.NETFS_FOLIO_COPY_TO_CACHE ∨ e.2.foff > 0
    then netfs_issue_write e.1 0 else e.1) = w1 at *
  have b0 := cond_issue_stream (e.2.streamw = true) w1 1 0
  have b1 := cond_issue_stream (e.2.streamw = true) w1 1 1
  generalize (if e.2.streamw = true then netfs_issue_write w1 1 else w1) = w2 at *
  have c0 : ((if w2.origin = netfs_io_origin.NETFS_WRITEBACK
      then w2.emit (netfs_event.folio_start_writeback f) else w2).emit
        (netfs_event.folio_unlock f)).io_streams0 = w2.io_streams0 := by
    split <;> rfl
  have c1 : ((if w2.origin = netfs_io_origin.NETFS_WRITEBACK
      then w2.emit (netfs_event.folio_start_writeback f) else w2).emit
        (netfs_event.folio_unlock f)).io_streams1 = w2.io_streams1 := by
    split <;> rfl
  rw [c0, c1]
  simp only [stream_zero, stream_one, iff_true, true_iff, and_true, one_ne_zero, iff_false,
    not_true_eq_false, and_false, if_false, not_false_eq_true, zero_ne_one, false_iff] at a0 a1 b0 b1
  rw [b0, b1, a0, a1, e0, e1]
  exact ⟨rfl, rfl⟩

theorem flushed_builder (w : netfs_io_request) (f : folio) :
    builder_frame (netfs_write_folio_entry w f).1 (netfs_write_folio_flushed w f) := by
  rw [flushed_eq]
  generalize netfs_write_folio_entry w f = e
  have h1 := cond_issue_fields
    (f.group = netfs_group_ptr.NETFS_FOLIO_COPY_TO_CACHE ∨ e.2.foff > 0) e.1 0
  generalize (if f.group = netfs_group_ptr.NETFS_FOLIO_COPY_TO_CACHE ∨ e.2.foff > 0
    then netfs_issue_write e.1 0 else e.1) = w1 at *
  have h2 := builder_frame_trans h1 (cond_issue_fields (e.2.streamw = true) w1 1)
  generalize (if e.2.streamw = true then netfs_issue_write w1 1 else w1) = w2 at *
  refine builder_frame_trans h2 (builder_frame_trans ?_ (builder_frame_emit _ _))
  split
  · exact builder_frame_emit _ _
  · exact builder_frame_refl _

/-- The calls made up to the point where `netfs_write_folio` decides what to do
with the folio: the zero-fill, the flushes, `folio_start_writeback` for a
writeback request, `folio_unlock`. -/
theorem flushed_events (w : netfs_io_request) (f : folio) :
    (netfs_write_folio_flushed w f).events =
      (netfs_write_folio_entry w f).1.events ++
        (if f.group = netfs_group_ptr.NETFS_FOLIO_COPY_TO_CACHE ∨
            (netfs_write_folio_entry w f).2.foff > 0
         then w.io_streams0.issue_events 0 else []) ++
        (if (netfs_write_folio_entry w f).2.streamw = true
         then w.io_streams1.issue_events 1 else []) ++
        (if w.origin = netfs_io_origin.NETFS_WRITEBACK
         then [netfs_event.folio_start_writeback f] else []) ++
        [netfs_event.folio_unlock f] := by
  rw [flushed_eq]
  have e0 : (netfs_write_folio_entry w f).1.io_streams0 = w.io_streams0 := entry_stream w f 0
  have e1 : (netfs_write_folio_entry w f).1.io_streams1 = w.io_streams1 := entry_stream w f 1
  have eo : (netfs_write_folio_entry w f).1.origin = w.origin := (entry_frame w f).origin
  generalize netfs_write_folio_entry w f = e at *
  have a := cond_issue_events
    (f.group = netfs_group_ptr.NETFS_FOLIO_COPY_TO_CACHE ∨ e.2.foff > 0) e.1 0
  have a1 := cond_issue_stream
    (f.group = netfs_group_ptr.NETFS_FOLIO_COPY_TO_CACHE ∨ e.2.foff > 0) e.1 0 1
  have ao := (cond_issue_fields
    (f.group = netfs_group_ptr.NETFS_FOLIO_COPY_TO_CACHE ∨ e.2.foff > 0) e.1 0).origin
  generalize (if f.group = netfs_group_ptr.NETFS_FOLIO_COPY_TO_CACHE ∨ e.2.foff > 0
    then netfs_issue_write e.1 0 else e.1) = w1 at *
  have b := cond_issue_events (e.2.streamw = true) w1 1
  have bo := (cond_issue_fields (e.2.streamw = true) w1 1).origin
  generalize (if e.2.streamw = true then netfs_issue_write w1 1 else w1) = w2 at *
  simp only [stream_zero, stream_one, one_ne_zero, zero_ne_one, iff_false, false_iff,
    not_true_eq_false, and_false, if_false] at a a1 b
  rw [emit_events, bo, ao, eo]
  have c : (if w.origin = netfs_io_origin.NETFS_WRITEBACK
      then w2.emit (netfs_event.folio_start_writeback f) else w2).events =
      w2.events ++ (if w.origin = netfs_io_origin.NETFS_WRITEBACK
         then [netfs_event.folio_start_writeback f] else []) := by
    split
    · rfl
    · rw [List.append_nil]
  rw [c, b, a, a1, e0, e1]

theorem flushed_ok (w : netfs_io_request) (f : folio) (hok : planner_ok w) :
    planner_ok (netfs_write_folio_flushed w f) := by
  obtain ⟨h0, h1⟩ := flushed_stream w f
  have hfr := flushed_frame w f
  have hcase : ∀ t, (netfs_write_folio_flushed w f).stream t = w.stream t ∨
      (netfs_write_folio_flushed w f).stream t = (w.stream t).issued := by
    intro t
    unfold netfs_io_request.stream
    split
    · rw [h0]
      split
      · exact Or.inr rfl
      · exact Or.inl rfl
    · rw [h1]
      split
      · exact Or.inr rfl
      · exact Or.inl rfl
  intro t
  refine ⟨?_, ?_⟩
  · rcases hcase t with h | h
    · rw [h]; exact (hok t).1
    · rw [h]; exact issued_ok _ (hok t).1
  · rw [hfr.wsize]
    exact limits_in_range_static _ (hfr.static t) (hok t).2

/-- The streams at the start of the submission loop. -/
theorem ready_stream (w : netfs_io_request) (f : folio) (t : Nat) :
    (netfs_write_folio_ready w f).stream t =
      netfs_set_submit ((netfs_write_folio_flushed w f).stream t)
        (netfs_write_folio_entry w f).2.foff (netfs_write_folio_entry w f).2.flen
        (netfs_write_folio_entry w f).2.streamw f.group := by
  unfold netfs_write_folio_ready
  simp only []
  rw [set_submit_both_stream]
  generalize netfs_write_folio_flushed w f = wf
  rfl

theorem ready_events (w : netfs_io_request) (f : folio) :
    (netfs_write_folio_ready w f).events =
      (netfs_write_folio_flushed w f).events ++ [netfs_event.rolling_buffer_append f] := by
  unfold netfs_write_folio_ready
  simp only []
  generalize netfs_write_folio_flushed w f = wf
  rfl

theorem ready_frame (w : netfs_io_request) (f : folio) :
    planner_frame (netfs_write_folio_flushed w f) (netfs_write_folio_ready w f) := by
  have hs := ready_stream w f
  unfold netfs_write_folio_ready at *
  simp only [] at *
  generalize netfs_write_folio_flushed w f = wf at *
  generalize netfs_write_folio_entry w f = e at *
  refine ⟨rfl, rfl, rfl, rfl, rfl, rfl, rfl, rfl, rfl, rfl, rfl, rfl, rfl, rfl, ?_⟩
  intro t
  rw [hs]
  exact set_submit_static _ _ _ _ _

theorem ready_ok (w : netfs_io_request) (f : folio) (hok : planner_ok w) :
    planner_ok (netfs_write_folio_ready w f) := by
  intro t
  rw [ready_stream]
  have h := flushed_ok w f hok t
  refine ⟨set_submit_ok _ _ _ _ _ h.1, ?_⟩
  rw [(ready_frame w f).wsize]
  exact limits_in_range_static _ (set_submit_static _ _ _ _ _) h.2

theorem pos_of_frames {w a b : netfs_io_request} (rb : rolling_buffer)
    (h1 : planner_frame { w with buffer := rb } a) (h2 : planner_frame a b)
    (hpos : planner_pos w) : planner_pos b :=
  planner_pos_of_frame (planner_frame_trans h1 h2) (fun t => hpos t)

theorem ready_pos (w : netfs_io_request) (f : folio) (hpos : planner_pos w) :
    planner_pos (netfs_write_folio_ready w f) :=
  pos_of_frames _ (flushed_frame w f) (ready_frame w f) hpos

theorem ready_submit (w : netfs_io_request) (f : folio) :
    submit_ready (netfs_write_folio_ready w f) := by
  intro t
  rw [ready_stream]
  exact set_submit_ready _ _ _ _ _

theorem finish_stream (w : netfs_io_request) (f : folio) (x : folio_extent) (io t : Nat) :
    (netfs_write_folio_finish w f x io).stream t =
      if wrap_add U64 x.foff x.flen < f.size then (w.stream t).issued else w.stream t := by
  unfold netfs_write_folio_finish
  simp only []
  have h1s : ∀ t, (atomic64_set_issued_to
      (if f.size > io then rolling_buffer_advance w (f.size - io) else w)
      (f.pos + f.size)).stream t = w.stream t := by
    intro t; split <;> rfl
  generalize atomic64_set_issued_to
      (if f.size > io then rolling_buffer_advance w (f.size - io) else w)
      (f.pos + f.size) = w2 at *
  split
  · rw [issue_both_stream, h1s]
  · exact h1s t

/-! ## The bytes held by the subrequests of a stream -/

theorem covers_append (l : List (Nat × Nat)) (a p b : Nat) :
    (∃ e ∈ l ++ [(a, p)], e.1 ≤ b ∧ b < e.1 + e.2) ↔
      ((∃ e ∈ l, e.1 ≤ b ∧ b < e.1 + e.2) ∨ (a ≤ b ∧ b < a + p)) := by
  constructor
  · rintro ⟨e, he, h⟩
    rcases List.mem_append.1 he with h1 | h1
    · exact Or.inl ⟨e, h1, h⟩
    · rw [List.mem_singleton.1 h1] at h
      exact Or.inr h
  · rintro (⟨e, he, h⟩ | h)
    · exact ⟨e, List.mem_append_left _ he, h⟩
    · exact ⟨(a, p), List.mem_append_right _ (List.mem_singleton.2 rfl), h⟩

theorem covers_set (l : List (Nat × Nat)) (j a n p b : Nat) (hj : l[j]? = some (a, n)) :
    (∃ e ∈ l.set j (a, n + p), e.1 ≤ b ∧ b < e.1 + e.2) ↔
      ((∃ e ∈ l, e.1 ≤ b ∧ b < e.1 + e.2) ∨ (a + n ≤ b ∧ b < a + n + p)) := by
  induction l generalizing j with
  | nil => simp at hj
  | cons x xs ih =>
    cases j with
    | zero =>
      simp only [List.getElem?_cons_zero, Option.some.injEq] at hj
      subst hj
      simp only [List.set_cons_zero, List.mem_cons, exists_eq_or_imp]
      constructor
      · rintro (h | h)
        · by_cases hb : b < a + n
          · exact Or.inl (Or.inl ⟨h.1, hb⟩)
          · exact Or.inr ⟨by omega, by omega⟩
        · exact Or.inl (Or.inr h)
      · rintro ((h | h) | h)
        · exact Or.inl ⟨h.1, by have := h.2; omega⟩
        · exact Or.inr h
        · exact Or.inl ⟨by omega, by omega⟩
    | succ k =>
      simp only [List.getElem?_cons_succ] at hj
      simp only [List.set_cons_succ, List.mem_cons, exists_eq_or_imp]
      rw [ih k hj]
      constructor
      · rintro (h | h | h)
        · exact Or.inl (Or.inl h)
        · exact Or.inl (Or.inr h)
        · exact Or.inr h
      · rintro ((h | h) | h)
        · exact Or.inl h
        · exact Or.inr (Or.inl h)
        · exact Or.inr (Or.inr h)

theorem opened_issued (st : netfs_io_stream) (w : netfs_io_request) (start : Nat)
    (hf : st.fresh start = true) : st.opened w start = st.issued.opened w start := by
  have hf' : st.issued.fresh start = true := by
    unfold netfs_io_stream.fresh
    rw [issued_construct]
  rw [opened_fresh st w start hf, opened_fresh st.issued w start hf',
    issued_none st.issued (issued_construct st)]

/-- The bytes held by a stream after `netfs_advance_write(wreq, stream, start,
len, to_eof)`: those held before and the `part` bytes from `start`. -/
theorem advanced_covers (st : netfs_io_stream) (w : netfs_io_request) (start len : Nat)
    (to_eof : Bool) (hok : stream_ok st) (hlim : limits_in_range w.wsize st)
    (hstart : start < U64) (b : Nat) :
    ((st.opened w start).grown len to_eof).covers b ↔
      (st.covers b ∨ (start ≤ b ∧ b < start + (st.opened w start).part len)) := by
  unfold netfs_io_stream.covers
  cases hf : st.fresh start with
  | true =>
    have hex := (advanced_fresh st.issued w start len to_eof (issued_construct st)
      (issued_ok st hok) (limits_in_range_static _ (issued_static st) hlim) hstart).1
    rw [← opened_issued st w start hf, issued_extents] at hex
    rw [hex]
    exact covers_append _ _ _ _
  | false =>
    obtain ⟨j, hc, hs, _, _, _⟩ := contiguous_receiver st start hf
    have hj : j < st.subrequests.length := by
      have := hok.2.2.2
      rw [hc] at this
      exact this.1
    have hr := (hok.2.2.1 _ (deref_mem st j hj)).1
    have hends : (st.deref j).start + (st.deref j).len = start := by
      rw [hs]
      unfold wrap_add
      exact (Nat.mod_eq_of_lt hr).symm
    have hex := (advanced_contiguous st w start len to_eof j hc hends hok hlim hstart).1
    rw [hex]
    have hget : st.extents[j]? = some ((st.deref j).start, (st.deref j).len) := by
      unfold netfs_io_stream.extents
      rw [List.getElem?_map, getElem?_deref hj]
      rfl
    rw [covers_set st.extents j _ _ _ b hget, hends]

/-- One pass of the submission loop moves bytes from those still to submit to
those held by the stream's subrequests. -/
theorem paged_covers (st : netfs_io_stream) (wx : netfs_io_request) (fpos fsize : Nat)
    (te : Bool) (hok : stream_ok st) (hlim : limits_in_range wx.wsize st)
    (hpos : limits_pos wx.wsize st) (hfpos : fpos ≤ LONG_MAX) (hlen : 0 < st.submit_len)
    (hsum : st.submit_off + st.submit_len < U32) (b : Nat) :
    (((st.paged wx fpos fsize te).covers b ∨ (st.paged wx fpos fsize te).pending fpos b) ↔
      (st.covers b ∨ st.pending fpos b)) ∧
    (st.paged wx fpos fsize te).submit_off + (st.paged wx fpos fsize te).submit_len =
      st.submit_off + st.submit_len := by
  have hstart : fpos + st.submit_off < U64 := by
    unfold LONG_MAX at hfpos
    unfold U32 at hsum
    unfold U64
    omega
  have hok' : stream_ok ({ st with submit_extendable_to := wrap_sub U32 fsize st.submit_off } :
      netfs_io_stream) := stream_ok_congr rfl rfl rfl rfl hok
  obtain ⟨hp0, hp1⟩ := advanced_part_pos
    ({ st with submit_extendable_to := wrap_sub U32 fsize st.submit_off } : netfs_io_stream)
    wx (fpos + st.submit_off) st.submit_len hok' hlim hpos hstart hlen
  have hcov := advanced_covers
    ({ st with submit_extendable_to := wrap_sub U32 fsize st.submit_off } : netfs_io_stream)
    wx (fpos + st.submit_off) st.submit_len te hok' hlim hstart b
  have hso : ((({ st with submit_extendable_to := wrap_sub U32 fsize st.submit_off } :
      netfs_io_stream).opened wx (fpos + st.submit_off)).grown st.submit_len te).submit_off =
      st.submit_off := (advanced_submit _ wx _ _ te).1
  have hsl : ((({ st with submit_extendable_to := wrap_sub U32 fsize st.submit_off } :
      netfs_io_stream).opened wx (fpos + st.submit_off)).grown st.submit_len te).submit_len =
      st.submit_len := (advanced_submit _ wx _ _ te).2
  have hoff : (st.paged wx fpos fsize te).submit_off = st.submit_off +
      (({ st with submit_extendable_to := wrap_sub U32 fsize st.submit_off } :
        netfs_io_stream).opened wx (fpos + st.submit_off)).part st.submit_len := by
    unfold netfs_io_stream.paged netfs_submit_advance wrap_add
    simp only []
    rw [hso]
    exact Nat.mod_eq_of_lt (by omega)
  have hl : (st.paged wx fpos fsize te).submit_len = st.submit_len -
      (({ st with submit_extendable_to := wrap_sub U32 fsize st.submit_off } :
        netfs_io_stream).opened wx (fpos + st.submit_off)).part st.submit_len := by
    unfold netfs_io_stream.paged netfs_submit_advance
    simp only []
    rw [hsl]
    generalize (({ st with submit_extendable_to := wrap_sub U32 fsize st.submit_off } :
        netfs_io_stream).opened wx (fpos + st.submit_off)).part st.submit_len = p at *
    rw [if_neg (by omega)]
    unfold wrap_sub
    have h1 : st.submit_len % U32 = st.submit_len := Nat.mod_eq_of_lt (by omega)
    have h2 : p % U32 = p := Nat.mod_eq_of_lt (by omega)
    rw [h1, h2]
    have h3 : st.submit_len + (U32 - p) = (st.submit_len - p) + U32 := by omega
    rw [h3, Nat.add_mod_right]
    exact Nat.mod_eq_of_lt (by omega)
  have hc : (st.paged wx fpos fsize te).covers b ↔
      ((({ st with submit_extendable_to := wrap_sub U32 fsize st.submit_off } :
        netfs_io_stream).opened wx (fpos + st.submit_off)).grown st.submit_len te).covers b :=
    Iff.rfl
  have hc0 : ({ st with submit_extendable_to := wrap_sub U32 fsize st.submit_off } :
      netfs_io_stream).covers b ↔ st.covers b := Iff.rfl
  refine ⟨?_, by omega⟩
  rw [hc, hcov, hc0]
  unfold netfs_io_stream.pending
  rw [hoff, hl]
  generalize (({ st with submit_extendable_to := wrap_sub U32 fsize st.submit_off } :
        netfs_io_stream).opened wx (fpos + st.submit_off)).part st.submit_len = p at *
  constructor
  · rintro ((h | h) | h)
    · exact Or.inl h
    · exact Or.inr ⟨h.1, by omega⟩
    · exact Or.inr ⟨by omega, by omega⟩
  · rintro (h | h)
    · exact Or.inl (Or.inl h)
    · by_cases hb : b < fpos + st.submit_off + p
      · exact Or.inl (Or.inr ⟨h.1, hb⟩)
      · exact Or.inr ⟨by omega, by omega⟩

/-! ## Invariants of the submission loop -/

/-- The submission loop returns when it has fuel for every byte to submit, and a
property that every pass keeps holds when it returns, with nothing left to
submit on either stream. -/
theorem loop_inv (fpos fsize : Nat) (to_eof : Bool) (hfpos : fpos ≤ LONG_MAX)
    (P : netfs_io_request → Prop)
    (hstep : ∀ (w : netfs_io_request) (io s : Nat), planner_ok w → planner_pos w →
      submit_ready w → (s = 0 ∨ s = 1) → 0 < (w.stream s).submit_len → P w →
      P (netfs_write_folio_step fpos fsize to_eof w io s).1) :
    ∀ (fuel : Nat) (w : netfs_io_request) (iter_off : Nat), planner_ok w → planner_pos w →
    submit_ready w → P w → (w.stream 0).submit_len + (w.stream 1).submit_len < fuel →
    ∃ w' io, netfs_write_folio_loop fpos fsize to_eof fuel w iter_off = some (w', io) ∧
      P w' ∧ planner_frame w w' ∧ planner_ok w' ∧
      (w'.stream 0).submit_len = 0 ∧ (w'.stream 1).submit_len = 0 := by
  intro fuel
  induction fuel with
  | zero => intro w _ _ _ _ _ h; omega
  | succ n ih =>
    intro w iter_off hok hpos hrd hP hfuel
    unfold netfs_write_folio_loop
    cases hch : netfs_choose_stream w with
    | none =>
      obtain ⟨hz0, hz1⟩ := choose_stream_none w hrd hch
      exact ⟨w, iter_off, rfl, hP, planner_frame_refl w, hok, hz0, hz1⟩
    | some s =>
      obtain ⟨hs01, hlen⟩ := choose_stream_some w s hch
      obtain ⟨hf, hok1, hrd1, htot, hdec, hne⟩ :=
        step_spec fpos fsize to_eof w iter_off s hfpos hok hpos hrd hlen
      have hpos1 := planner_pos_of_frame hf hpos
      have hP1 := hstep w iter_off s hok hpos hrd hs01 hlen hP
      have hmeasure : ((netfs_write_folio_step fpos fsize to_eof w iter_off s).1.stream 0).submit_len +
          ((netfs_write_folio_step fpos fsize to_eof w iter_off s).1.stream 1).submit_len < n := by
        rcases hs01 with h | h
        · subst h
          rw [hne 1 (by decide)]
          omega
        · subst h
          rw [hne 0 (by decide)]
          omega
      obtain ⟨w', io, hrun, hP', hf', hok', hz⟩ :=
        ih (netfs_write_folio_step fpos fsize to_eof w iter_off s).1
          (netfs_write_folio_step fpos fsize to_eof w iter_off s).2 hok1 hpos1 hrd1 hP1 hmeasure
      exact ⟨w', io, hrun, hP', planner_frame_trans hf hf', hok', hz⟩

/-- A stream with nothing to submit is not touched by the submission loop. -/
theorem loop_idle (fpos fsize : Nat) (to_eof : Bool) (hfpos : fpos ≤ LONG_MAX) (t : Nat)
    (fuel : Nat) (w : netfs_io_request) (iter_off : Nat) (hok : planner_ok w)
    (hpos : planner_pos w) (hrd : submit_ready w) (hz : (w.stream t).submit_len = 0)
    (hfuel : (w.stream 0).submit_len + (w.stream 1).submit_len < fuel) :
    ∃ w' io, netfs_write_folio_loop fpos fsize to_eof fuel w iter_off = some (w', io) ∧
      w'.stream t = w.stream t := by
  obtain ⟨w', io, hrun, hP, _⟩ := loop_inv fpos fsize to_eof hfpos
    (fun x => x.stream t = w.stream t)
    (by
      intro x io s _ _ _ _ hlen hx
      have hne : ¬(s = 0 ↔ t = 0) := by
        intro h
        rw [← stream_eq_of_iff x s t h, hx, hz] at hlen
        exact Nat.lt_irrefl _ hlen
      rw [step_stream_ne fpos fsize to_eof x io s t hne]
      exact hx)
    fuel w iter_off hok hpos hrd rfl hfuel
  exact ⟨w', io, hrun, hP⟩

theorem paged_construct_eof (st : netfs_io_stream) (wx : netfs_io_request) (fpos fsize : Nat) :
    (st.paged wx fpos fsize true).construct = none := by
  unfold netfs_io_stream.paged netfs_submit_advance
  simp only []
  unfold netfs_io_stream.grown
  split
  · exact issued_construct _
  · rename_i h
    exact absurd (Or.inr (Or.inr rfl)) h

/-- When the folio holds the end of the file, no stream the loop has submitted
to is left with a construct. -/
theorem loop_eof (fpos fsize : Nat) (hfpos : fpos ≤ LONG_MAX)
    (fuel : Nat) (w : netfs_io_request) (iter_off : Nat) (hok : planner_ok w)
    (hpos : planner_pos w) (hrd : submit_ready w)
    (hc : ∀ t, (w.stream t).submit_len = 0 → (w.stream t).construct = none)
    (hfuel : (w.stream 0).submit_len + (w.stream 1).submit_len < fuel) :
    ∃ w' io, netfs_write_folio_loop fpos fsize true fuel w iter_off = some (w', io) ∧
      ∀ t, (w'.stream t).construct = none := by
  obtain ⟨w', io, hrun, hP, _, _, hz0, hz1⟩ := loop_inv fpos fsize true hfpos
    (fun x => ∀ t, (x.stream t).submit_len = 0 → (x.stream t).construct = none)
    (by
      intro x io s _ _ hrdx _ hlen hx t ht
      by_cases h : s = 0 ↔ t = 0
      · rw [stream_eq_of_iff _ s t h, step_stream fpos fsize true x io s ((hrdx s).2.2 hlen)]
        exact paged_construct_eof _ _ _ _
      · rw [step_stream_ne fpos fsize true x io s t h] at ht ⊢
        exact hx t ht)
    fuel w iter_off hok hpos hrd hc hfuel
  refine ⟨w', io, hrun, ?_⟩
  intro t
  apply hP t
  by_cases ht : t = 0
  · subst ht; exact hz0
  · rw [stream_eq_of_iff w' 1 t (by simp [ht])]; exact hz1

/-- The bytes held by the streams when the submission loop returns: those held
before and those that were to be submitted. -/
theorem loop_covers (fpos fsize : Nat) (to_eof : Bool) (hfpos : fpos ≤ LONG_MAX)
    (fuel : Nat) (w : netfs_io_request) (iter_off : Nat) (hok : planner_ok w)
    (hpos : planner_pos w) (hrd : submit_ready w)
    (hsum : ∀ t, (w.stream t).submit_off + (w.stream t).submit_len < U32)
    (hfuel : (w.stream 0).submit_len + (w.stream 1).submit_len < fuel) :
    ∃ w' io, netfs_write_folio_loop fpos fsize to_eof fuel w iter_off = some (w', io) ∧
      ∀ t b, (w'.stream t).covers b ↔ ((w.stream t).covers b ∨ (w.stream t).pending fpos b) := by
  obtain ⟨w', io, hrun, hP, _, _, hz0, hz1⟩ := loop_inv fpos fsize to_eof hfpos
    (fun x => ∀ t, (x.stream t).submit_off + (x.stream t).submit_len < U32 ∧
      ∀ b, ((x.stream t).covers b ∨ (x.stream t).pending fpos b) ↔
        ((w.stream t).covers b ∨ (w.stream t).pending fpos b))
    (by
      intro x io s hokx hposx hrdx _ hlen hx t
      by_cases h : s = 0 ↔ t = 0
      · rw [stream_eq_of_iff _ s t h, stream_eq_of_iff w s t h,
          step_stream fpos fsize to_eof x io s ((hrdx s).2.2 hlen)]
        have hfr := step_pre_frame fpos fsize x io s
        have hlim : limits_in_range (netfs_write_folio_step_pre fpos fsize x io s).wsize
            (x.stream s) := by
          rw [hfr.wsize]
          exact (hokx s).2
        have hlp : limits_pos (netfs_write_folio_step_pre fpos fsize x io s).wsize
            (x.stream s) := by
          rw [hfr.wsize]
          exact hposx s
        refine ⟨?_, ?_⟩
        · rw [(paged_covers (x.stream s) _ fpos fsize to_eof (hokx s).1 hlim hlp hfpos hlen
            (hx s).1 0).2]
          exact (hx s).1
        · intro b
          rw [(paged_covers (x.stream s) _ fpos fsize to_eof (hokx s).1 hlim hlp hfpos hlen
            (hx s).1 b).1]
          exact (hx s).2 b
      · rw [step_stream_ne fpos fsize to_eof x io s t h]
        exact hx t)
    fuel w iter_off hok hpos hrd (fun t => ⟨hsum t, fun _ => Iff.rfl⟩) hfuel
  refine ⟨w', io, hrun, ?_⟩
  intro t b
  rw [← (hP t).2 b]
  have hz : (w'.stream t).submit_len = 0 := by
    by_cases ht : t = 0
    · subst ht; exact hz0
    · rw [stream_eq_of_iff w' 1 t (by simp [ht])]; exact hz1
  unfold netfs_io_stream.pending
  rw [hz]
  constructor
  · intro h; exact Or.inl h
  · rintro (h | h)
    · exact h
    · omega

/-! ### A folio that reaches the submission loop -/

theorem write_folio_run (fuel : Nat) (w : netfs_io_request) (f : folio)
    (hsub : netfs_submitted w f) :
    netfs_write_folio fuel w f =
      match netfs_write_folio_loop f.pos f.size (netfs_write_folio_entry w f).2.to_eof fuel
          (netfs_write_folio_ready w f) 0 with
      | none => none
      | some q =>
        some (netfs_write_folio_finish q.1 f (netfs_write_folio_entry w f).2 q.2, (0 : Int)) := by
  obtain ⟨hspace, heof, hgrp, hctc, hany⟩ := hsub
  rw [write_folio_eq fuel w f hspace heof]
  rw [if_neg (fun h => by rcases hgrp with h1 | h1; exact h.1 h1; exact h.2 h1)]
  rw [if_neg (fun h => by rw [hctc h.1] at h; exact Bool.noConfusion h.2)]
  rw [if_neg (fun h => by
    rcases hany with h1 | h1
    · rw [h1] at h; exact Bool.noConfusion h.2.1
    · rw [h1] at h; exact Bool.noConfusion h.2.2)]

theorem set_submit_subrequests (st : netfs_io_stream) (foff flen : Nat) (streamw : Bool)
    (g : netfs_group_ptr) :
    (netfs_set_submit st foff flen streamw g).subrequests = st.subrequests ∧
    (netfs_set_submit st foff flen streamw g).construct = st.construct := by
  unfold netfs_set_submit
  split <;> exact ⟨rfl, rfl⟩

theorem flushed_cases (w : netfs_io_request) (f : folio) (t : Nat) :
    (netfs_write_folio_flushed w f).stream t = w.stream t ∨
      (netfs_write_folio_flushed w f).stream t = (w.stream t).issued := by
  obtain ⟨h0, h1⟩ := flushed_stream w f
  unfold netfs_io_request.stream
  split
  · rw [h0]
    split
    · exact Or.inr rfl
    · exact Or.inl rfl
  · rw [h1]
    split
    · exact Or.inr rfl
    · exact Or.inl rfl

theorem ready_extents (w : netfs_io_request) (f : folio) (t : Nat) :
    ((netfs_write_folio_ready w f).stream t).extents = (w.stream t).extents := by
  rw [ready_stream]
  unfold netfs_io_stream.extents
  rw [(set_submit_subrequests _ _ _ _ _).1]
  rcases flushed_cases w f t with h | h
  · rw [h]
  · rw [h]
    exact issued_extents _

theorem ready_total (w : netfs_io_request) (f : folio) (t : Nat) :
    ((netfs_write_folio_ready w f).stream t).total_len = (w.stream t).total_len := by
  have h := ready_extents w f t
  unfold netfs_io_stream.extents at h
  unfold netfs_io_stream.total_len
  have h2 := congrArg (fun l : List (Nat × Nat) => (l.map (fun e => e.2)).sum) h
  simp only [List.map_map] at h2
  exact h2

theorem covers_congr {a b : netfs_io_stream} (h : a.extents = b.extents) (x : Nat) :
    a.covers x ↔ b.covers x := by
  unfold netfs_io_stream.covers
  rw [h]

/-- What `netfs_write_folio` does with a folio that reaches the submission loop,
in terms of the streams `R` at the start of the loop. -/
theorem write_folio_facts (fuel : Nat) (w : netfs_io_request) (f : folio)
    (hfpos : f.pos ≤ LONG_MAX) (hok : planner_ok w) (hpos : planner_pos w)
    (hfuel : 2 * U32 ≤ fuel) (hsub : netfs_submitted w f) :
    ∃ w', netfs_write_folio fuel w f = some (w', 0) ∧
      planner_ok w' ∧
      (∀ t, (w'.stream t).total_len = (w.stream t).total_len +
        ((netfs_write_folio_ready w f).stream t).submit_len) ∧
      ((∀ t, ((netfs_write_folio_ready w f).stream t).submit_off +
          ((netfs_write_folio_ready w f).stream t).submit_len < U32) →
        ∀ t b, (w'.stream t).covers b ↔
          ((w.stream t).covers b ∨ ((netfs_write_folio_ready w f).stream t).pending f.pos b)) ∧
      (∀ t, ((netfs_write_folio_ready w f).stream t).submit_len = 0 →
        w'.stream t =
          if wrap_add U64 (netfs_write_folio_entry w f).2.foff
              (netfs_write_folio_entry w f).2.flen < f.size
          then ((netfs_write_folio_ready w f).stream t).issued
          else (netfs_write_folio_ready w f).stream t) ∧
      (((netfs_write_folio_entry w f).2.to_eof = true ∨
          wrap_add U64 (netfs_write_folio_entry w f).2.foff
            (netfs_write_folio_entry w f).2.flen < f.size) →
        (∀ t, ((netfs_write_folio_ready w f).stream t).submit_len = 0 →
          ((netfs_write_folio_ready w f).stream t).construct = none) →
        ∀ t, (w'.stream t).construct = none) ∧
      planner_appends (netfs_write_folio_ready w f) w' := by
  rw [write_folio_run fuel w f hsub]
  have rok := ready_ok w f hok
  have rpos := ready_pos w f hpos
  have rrd := ready_submit w f
  have rtot := ready_total w f
  have rext := ready_extents w f
  generalize netfs_write_folio_entry w f = e at *
  generalize netfs_write_folio_ready w f = r at *
  have hmeasure : (r.stream 0).submit_len + (r.stream 1).submit_len < fuel := by
    have h0 := (rrd 0).1
    have h1 := (rrd 1).1
    omega
  obtain ⟨w9, io, hrun, _, hlok, hltot⟩ :=
    loop_total f.pos f.size e.2.to_eof hfpos fuel r 0 rok rpos rrd hmeasure
  rw [hrun]
  simp only []
  obtain ⟨_, hfok, hftot⟩ := finish_frame w9 f e.2 io
  refine ⟨_, rfl, hfok hlok, ?_, ?_, ?_, ?_, ?_⟩
  · intro t
    rw [hftot t, hltot t, rtot t]
  · intro hsum t b
    obtain ⟨w8, io8, hrun8, hcov⟩ :=
      loop_covers f.pos f.size e.2.to_eof hfpos fuel r 0 rok rpos rrd hsum hmeasure
    rw [hrun] at hrun8
    have h98 : w9 = w8 := congrArg Prod.fst (Option.some.inj hrun8)
    subst h98
    rw [← covers_congr (rext t) b, ← hcov t b, finish_stream]
    split
    · exact covers_congr (issued_extents _) b
    · exact Iff.rfl
  · intro t hz
    obtain ⟨w8, io8, hrun8, hid⟩ :=
      loop_idle f.pos f.size e.2.to_eof hfpos t fuel r 0 rok rpos rrd hz hmeasure
    rw [hrun] at hrun8
    have h98 : w9 = w8 := congrArg Prod.fst (Option.some.inj hrun8)
    subst h98
    rw [finish_stream, hid]
  · intro hcase hc t
    rw [finish_stream]
    by_cases hlt : wrap_add U64 e.2.foff e.2.flen < f.size
    · rw [if_pos hlt]
      exact issued_construct _
    · rw [if_neg hlt]
      have hte : e.2.to_eof = true := by
        rcases hcase with h | h
        · exact h
        · exact absurd h hlt
      rw [hte] at hrun
      obtain ⟨w8, io8, hrun8, hnone⟩ :=
        loop_eof f.pos f.size hfpos fuel r 0 rok rpos rrd hc hmeasure
      rw [hrun] at hrun8
      have h98 : w9 = w8 := congrArg Prod.fst (Option.some.inj hrun8)
      subst h98
      exact hnone t
  · exact planner_appends_trans (loop_appends f.pos f.size e.2.to_eof fuel r 0 (w9, io) hrun)
      (finish_appends w9 f e.2 io)

/-! ## A folio beyond EOF, `netfs_issue_write`, `netfs_end_issue_write` -/

theorem make_space_folios (b : rolling_buffer) :
    (rolling_buffer_make_space b).1.folios = b.folios ∧
    (rolling_buffer_make_space b).1.iter = b.iter := by
  unfold rolling_buffer_make_space
  split <;> exact ⟨rfl, rfl⟩

/-- C16: for a folio at or beyond EOF, with space available in the rolling
buffer, `netfs_write_folio` returns 0 in a state that differs from the one it
was called in by the allocation of the buffer space, by `nr_group_rel`, which is
0, and by four calls: the folio is put into writeback, unlocked, marked written
back, and the group references are put.  Both streams are as they were (no
subrequest is created, grown or issued), the list of folios of the rolling
buffer and `issued_to` too. -/
theorem netfs_write_folio_beyond_eof (fuel : Nat) (w : netfs_io_request) (f : folio)
    (heof : f.pos ≥ w.inode_i_size) (hspace : w.buffer.space ≠ some 0) :
    netfs_write_folio fuel w f =
      some ({ w with
              buffer := (rolling_buffer_make_space w.buffer).1,
              nr_group_rel := 0,
              events := w.events ++
                [netfs_event.folio_start_writeback f, netfs_event.folio_unlock f,
                 netfs_event.folio_written_back f,
                 netfs_event.put_group_many (w.nr_group_rel + f.gcount)] }, 0) ∧
    (rolling_buffer_make_space w.buffer).1.folios = w.buffer.folios := by
  refine ⟨?_, (make_space_folios w.buffer).1⟩
  unfold netfs_write_folio
  rw [if_neg (make_space_ok _ hspace)]
  unfold netfs_write_folio_planned
  rw [if_pos heof]
  simp [netfs_io_request.emit]

theorem netfs_write_folio_beyond_eof_witness :
    netfs_write_folio 0 example_request example_folio_beyond =
      some ({ example_request with
              buffer := (rolling_buffer_make_space example_request.buffer).1,
              nr_group_rel := 0,
              events := example_request.events ++
                [netfs_event.folio_start_writeback example_folio_beyond,
                 netfs_event.folio_unlock example_folio_beyond,
                 netfs_event.folio_written_back example_folio_beyond,
                 netfs_event.put_group_many
                   (example_request.nr_group_rel + example_folio_beyond.gcount)] }, 0) ∧
    (rolling_buffer_make_space example_request.buffer).1.folios =
      example_request.buffer.folios :=
  netfs_write_folio_beyond_eof 0 example_request example_folio_beyond (by decide) (by decide)

/-- C17: `netfs_issue_write` changes nothing when the stream has no construct.
When the construct is the subrequest at position `i` of the list, the stream
afterwards has no construct and at position `i` the same subrequest with
`io_iter.count` set to its `len`; that subrequest is handed to
`netfs_do_issue_write` once: one call is added to the record, of the backend's
`issue_write` hook or, when the preparation failed, of
`netfs_write_subrequest_terminated`; the other stream is not touched.  A second
call in a row changes nothing. -/
theorem netfs_issue_write_once (w : netfs_io_request) (s : Nat) :
    ((w.stream s).construct = none → netfs_issue_write w s = w) ∧
    (∀ i, (w.stream s).construct = some i →
      (netfs_issue_write w s).stream s =
        { w.stream s with
          subrequests := (w.stream s).subrequests.set i (netfs_frozen ((w.stream s).deref i)),
          construct := none } ∧
      netfs_frozen ((w.stream s).deref i) =
        { (w.stream s).deref i with
          io_iter := { ((w.stream s).deref i).io_iter with
            count := ((w.stream s).deref i).len } } ∧
      (netfs_issue_write w s).events =
        w.events ++
          [if ((w.stream s).deref i).NETFS_SREQ_FAILED = true
           then netfs_event.write_subrequest_terminated (netfs_frozen ((w.stream s).deref i))
             ((w.stream s).deref i).error
           else netfs_event.issue_write s (netfs_frozen ((w.stream s).deref i))]) ∧
    (∀ t, ¬(s = 0 ↔ t = 0) → (netfs_issue_write w s).stream t = w.stream t) ∧
    builder_frame w (netfs_issue_write w s) ∧
    netfs_issue_write (netfs_issue_write w s) s = netfs_issue_write w s := by
  refine ⟨issue_none w s, ?_, fun t ht => issue_stream_ne w s t ht, issue_frame w s,
    issue_none _ s (issue_construct w s)⟩
  intro i hi
  refine ⟨issue_stream_eq w s i hi, rfl, ?_⟩
  rw [issue_events w s i hi]
  unfold netfs_dispatch
  rfl

theorem end_issue_write_stream_events (r : netfs_io_request × Bool) (s : Nat) :
    (netfs_end_issue_write_stream r s).1.events =
      r.1.events ++ (if (r.1.stream s).active = true then (r.1.stream s).issue_events s else []) ∧
    (netfs_end_issue_write_stream r s).2 =
      (r.2 && !((r.1.stream s).active && !(r.1.stream s).subrequests.isEmpty)) := by
  unfold netfs_end_issue_write_stream
  simp only []
  cases ha : (r.1.stream s).active with
  | false => simp
  | true =>
    simp only [Bool.not_true, Bool.false_eq_true, if_false, if_true, issue_events_eq,
      Bool.true_and]
    refine ⟨trivial, ?_⟩
    cases (r.1.stream s).subrequests.isEmpty <;> simp

theorem issue_events_none (st : netfs_io_stream) (s : Nat) (h : st.construct = none) :
    st.issue_events s = [] := by
  unfold netfs_io_stream.issue_events
  rw [h]

theorem end_issue_write_events (w : netfs_io_request) :
    (netfs_end_issue_write w).events =
      w.events ++
        (if w.io_streams0.active = true then w.io_streams0.issue_events 0 else []) ++
        (if w.io_streams1.active = true then w.io_streams1.issue_events 1 else []) ++
        (if (!(w.io_streams0.active && !w.io_streams0.subrequests.isEmpty) &&
             !(w.io_streams1.active && !w.io_streams1.subrequests.isEmpty)) = true
         then [netfs_event.wake_collector] else []) := by
  unfold netfs_end_issue_write
  simp only []
  obtain ⟨e1, p1⟩ :=
    end_issue_write_stream_events ({ w with NETFS_RREQ_ALL_QUEUED := true }, true) 0
  obtain ⟨e2, p2⟩ := end_issue_write_stream_events
    (netfs_end_issue_write_stream ({ w with NETFS_RREQ_ALL_QUEUED := true }, true) 0) 1
  have hs1 : (netfs_end_issue_write_stream
      ({ w with NETFS_RREQ_ALL_QUEUED := true }, true) 0).1.stream 1 = w.io_streams1 := by
    unfold netfs_end_issue_write_stream
    simp only []
    split
    · rfl
    · exact issue_stream_ne _ 0 1 (by decide)
  rw [hs1] at e2 p2
  rw [p1] at p2
  have e1' : (netfs_end_issue_write_stream
      ({ w with NETFS_RREQ_ALL_QUEUED := true }, true) 0).1.events =
      w.events ++ (if w.io_streams0.active = true then w.io_streams0.issue_events 0 else []) := e1
  have p2' : (netfs_end_issue_write_stream (netfs_end_issue_write_stream
      ({ w with NETFS_RREQ_ALL_QUEUED := true }, true) 0) 1).2 =
      (!(w.io_streams0.active && !w.io_streams0.subrequests.isEmpty) &&
             !(w.io_streams1.active && !w.io_streams1.subrequests.isEmpty)) := by
    rw [p2]
    rfl
  rw [e1'] at e2
  generalize netfs_end_issue_write_stream (netfs_end_issue_write_stream
      ({ w with NETFS_RREQ_ALL_QUEUED := true }, true) 0) 1 = r at *
  rw [p2']
  split
  · show r.1.events ++ [netfs_event.wake_collector] = _
    rw [e2]
  · rw [e2, List.append_nil]

/-- C18: after `netfs_end_issue_write`, for a request whose streams were
activated when they got their first subrequest, the `ALL_QUEUED` flag is set,
each stream is as `netfs_issue_write` leaves it, so that no stream has a
construct, the calls made are the dispatch of the construct of the upload
stream, that of the construct of the cache stream, and `netfs_wake_collector`
if and only if no stream has a subrequest on its list. -/
theorem netfs_end_issue_write_finalises (w : netfs_io_request)
    (h0 : stream_activated w.io_streams0) (h1 : stream_activated w.io_streams1) :
    (netfs_end_issue_write w).NETFS_RREQ_ALL_QUEUED = true ∧
    (∀ s, (netfs_end_issue_write w).stream s = (w.stream s).issued) ∧
    (∀ s, ((netfs_end_issue_write w).stream s).construct = none) ∧
    (netfs_end_issue_write w).events =
      w.events ++ w.io_streams0.issue_events 0 ++ w.io_streams1.issue_events 1 ++
        (if w.io_streams0.subrequests.isEmpty = true ∧ w.io_streams1.subrequests.isEmpty = true
         then [netfs_event.wake_collector] else []) ∧
    (netfs_event.wake_collector ∈
        (netfs_end_issue_write w).events.drop w.events.length ↔
      (w.io_streams0.subrequests.isEmpty = true ∧ w.io_streams1.subrequests.isEmpty = true)) := by
  have hact : ∀ st : netfs_io_stream, stream_activated st →
      (if st.active = true then st.issued else st) = st.issued := by
    intro st hst
    split
    · rfl
    · rename_i hna
      cases hc : st.construct with
      | none => exact (issued_none st hc).symm
      | some i => exact absurd (hst (Or.inr (by rw [hc]; rfl))) hna
  have hst : ∀ s, stream_activated (w.stream s) := by
    intro s
    unfold netfs_io_request.stream
    split
    · exact h0
    · exact h1
  have hstream : ∀ s, (netfs_end_issue_write w).stream s = (w.stream s).issued := by
    intro s
    rw [end_issue_write_stream_eq, hact _ (hst s)]
  have hev : ∀ (st : netfs_io_stream) (s : Nat), stream_activated st →
      (if st.active = true then st.issue_events s else []) = st.issue_events s := by
    intro st s hst
    split
    · rfl
    · rename_i hna
      cases hc : st.construct with
      | none => exact (issue_events_none st s hc).symm
      | some i => exact absurd (hst (Or.inr (by rw [hc]; rfl))) hna
  have hpoke : ∀ st : netfs_io_stream, stream_activated st →
      (!(st.active && !st.subrequests.isEmpty)) = st.subrequests.isEmpty := by
    intro st hst
    cases he : st.subrequests.isEmpty with
    | true => simp
    | false => simp [hst (Or.inl he)]
  have hevents : (netfs_end_issue_write w).events =
      w.events ++ w.io_streams0.issue_events 0 ++ w.io_streams1.issue_events 1 ++
        (if w.io_streams0.subrequests.isEmpty = true ∧ w.io_streams1.subrequests.isEmpty = true
         then [netfs_event.wake_collector] else []) := by
    rw [end_issue_write_events, hev _ 0 h0, hev _ 1 h1, hpoke _ h0, hpoke _ h1]
    simp only [Bool.and_eq_true]
  refine ⟨(end_issue_write_frame w).1, hstream, ?_, hevents, ?_⟩
  · intro s
    rw [hstream s]
    unfold netfs_io_stream.issued
    split
    · assumption
    · rfl
  · rw [hevents, List.append_assoc, List.append_assoc, List.drop_left]
    have hno : ∀ (st : netfs_io_stream) (s : Nat),
        netfs_event.wake_collector ∉ st.issue_events s := by
      intro st s hmem
      have := issue_events_from_planner st s _ hmem
      exact absurd this (by decide)
    constructor
    · intro hmem
      rcases List.mem_append.1 hmem with h | h
      · exact absurd h (hno _ _)
      · rcases List.mem_append.1 h with h | h
        · exact absurd h (hno _ _)
        · by_contra hn
          rw [if_neg hn] at h
          exact absurd h (List.not_mem_nil _)
    · intro hboth
      rw [if_pos hboth]
      simp

theorem netfs_end_issue_write_finalises_witness :
    (netfs_end_issue_write example_request_open).NETFS_RREQ_ALL_QUEUED = true ∧
    (∀ s, (netfs_end_issue_write example_request_open).stream s =
      (example_request_open.stream s).issued) ∧
    (∀ s, ((netfs_end_issue_write example_request_open).stream s).construct = none) ∧
    (netfs_end_issue_write example_request_open).events =
      example_request_open.events ++ example_request_open.io_streams0.issue_events 0 ++
        example_request_open.io_streams1.issue_events 1 ++
        (if example_request_open.io_streams0.subrequests.isEmpty = true ∧
            example_request_open.io_streams1.subrequests.isEmpty = true
         then [netfs_event.wake_collector] else []) ∧
    (netfs_event.wake_collector ∈
        (netfs_end_issue_write example_request_open).events.drop
          example_request_open.events.length ↔
      (example_request_open.io_streams0.subrequests.isEmpty = true ∧
        example_request_open.io_streams1.subrequests.isEmpty = true)) :=
  netfs_end_issue_write_finalises example_request_open (by decide) (by decide)

/-! ## A folio of another group -/

theorem issue_events_dispatch (st : netfs_io_stream) (s : Nat) (e : netfs_event)
    (h : e ∈ st.issue_events s) :
    ∃ q, e = netfs_event.issue_write s q ∨ e = netfs_event.write_subrequest_terminated q q.error := by
  unfold netfs_io_stream.issue_events at h
  cases hc : st.construct with
  | none => rw [hc] at h; exact absurd h (List.not_mem_nil _)
  | some i =>
    rw [hc] at h
    rw [List.mem_singleton.1 h]
    unfold netfs_dispatch
    split
    · exact ⟨_, Or.inr rfl⟩
    · exact ⟨_, Or.inl rfl⟩

/-- C14 (as amended): for a folio that is not beyond EOF and whose group is
neither the request's group nor the copy-to-cache cohort, when the rolling
buffer gets its space, `netfs_write_folio` returns 0; the calls it makes are the
zero-fill of the tail of a last page, `folio_redirty_for_writepage`,
`folio_unlock` and the dispatch of the construct of each stream: the folio is
not put into writeback and not appended to the rolling buffer.  Each stream is
as `netfs_issue_write` leaves it: no subrequest changes its range, and no stream
has a construct.  `issued_to` is unchanged. -/
theorem netfs_write_folio_group_mismatch (fuel : Nat) (w : netfs_io_request) (f : folio)
    (hspace : w.buffer.space ≠ some 0) (heof : f.pos < w.inode_i_size)
    (hctc : f.group ≠ netfs_group_ptr.NETFS_FOLIO_COPY_TO_CACHE) (hgrp : f.group ≠ w.group) :
    ∃ w', netfs_write_folio fuel w f = some (w', 0) ∧
      w'.events = w.events ++
        (if w.origin ≠ netfs_io_origin.NETFS_WRITETHROUGH ∧ f.finfo = none ∧
            f.size > w.inode_i_size - f.pos
         then [netfs_event.folio_zero_segment f (w.inode_i_size - f.pos) f.size] else []) ++
        [netfs_event.folio_redirty_for_writepage f, netfs_event.folio_unlock f] ++
        w.io_streams0.issue_events 0 ++ w.io_streams1.issue_events 1 ∧
      netfs_event.folio_start_writeback f ∉ w'.events.drop w.events.length ∧
      netfs_event.rolling_buffer_append f ∉ w'.events.drop w.events.length ∧
      w'.buffer.folios = w.buffer.folios ∧
      (∀ t, w'.stream t = (w.stream t).issued) ∧
      (∀ t, (w'.stream t).extents = (w.stream t).extents) ∧
      w'.issued_to = w.issued_to ∧
      (∀ t, (w'.stream t).construct = none) := by
  rw [write_folio_eq fuel w f hspace heof, if_pos ⟨hctc, hgrp⟩]
  have hev := entry_events w f
  have hst := entry_stream w f
  obtain ⟨hito, hbuf, _, _⟩ := entry_fields w f
  generalize netfs_write_folio_entry w f = e at *
  have hevents : (netfs_issue_write (netfs_issue_write
      ((e.1.emit (netfs_event.folio_redirty_for_writepage f)).emit
        (netfs_event.folio_unlock f)) 0) 1).events =
      w.events ++
        (if w.origin ≠ netfs_io_origin.NETFS_WRITETHROUGH ∧ f.finfo = none ∧
            f.size > w.inode_i_size - f.pos
         then [netfs_event.folio_zero_segment f (w.inode_i_size - f.pos) f.size] else []) ++
        [netfs_event.folio_redirty_for_writepage f, netfs_event.folio_unlock f] ++
        w.io_streams0.issue_events 0 ++ w.io_streams1.issue_events 1 := by
    rw [issue_both_events]
    have h0 : ((e.1.emit (netfs_event.folio_redirty_for_writepage f)).emit
        (netfs_event.folio_unlock f)).io_streams0 = w.io_streams0 := hst 0
    have h1 : ((e.1.emit (netfs_event.folio_redirty_for_writepage f)).emit
        (netfs_event.folio_unlock f)).io_streams1 = w.io_streams1 := hst 1
    rw [h0, h1, emit_events, emit_events, hev]
    simp only [List.append_assoc, List.singleton_append]
  have hstream : ∀ t, (netfs_issue_write (netfs_issue_write
      ((e.1.emit (netfs_event.folio_redirty_for_writepage f)).emit
        (netfs_event.folio_unlock f)) 0) 1).stream t = (w.stream t).issued := by
    intro t
    rw [issue_both_stream]
    exact congrArg netfs_io_stream.issued (hst t)
  have hfr := builder_frame_trans
    (issue_frame ((e.1.emit (netfs_event.folio_redirty_for_writepage f)).emit
        (netfs_event.folio_unlock f)) 0) (issue_frame _ 1)
  have hmem : ∀ x, x ∈ (netfs_issue_write (netfs_issue_write
      ((e.1.emit (netfs_event.folio_redirty_for_writepage f)).emit
        (netfs_event.folio_unlock f)) 0) 1).events.drop w.events.length →
      x = netfs_event.folio_zero_segment f (w.inode_i_size - f.pos) f.size ∨
      x = netfs_event.folio_redirty_for_writepage f ∨ x = netfs_event.folio_unlock f ∨
      ∃ s q, x = netfs_event.issue_write s q ∨
        x = netfs_event.write_subrequest_terminated q q.error := by
    intro x hx
    rw [hevents, List.append_assoc, List.append_assoc, List.append_assoc,
      List.drop_left] at hx
    rcases List.mem_append.1 hx with h | h
    · split at h
      · exact Or.inl (List.mem_singleton.1 h)
      · exact absurd h (List.not_mem_nil _)
    · rcases List.mem_append.1 h with h | h
      · simp only [List.mem_cons, List.mem_singleton, List.not_mem_nil, or_false] at h
        rcases h with h | h
        · exact Or.inr (Or.inl h)
        · exact Or.inr (Or.inr (Or.inl h))
      · rcases List.mem_append.1 h with h | h
        · obtain ⟨q, hq⟩ := issue_events_dispatch _ _ _ h
          exact Or.inr (Or.inr (Or.inr ⟨0, q, hq⟩))
        · obtain ⟨q, hq⟩ := issue_events_dispatch _ _ _ h
          exact Or.inr (Or.inr (Or.inr ⟨1, q, hq⟩))
  refine ⟨_, rfl, hevents, ?_, ?_, ?_, hstream, ?_, ?_, ?_⟩
  · intro hx
    rcases hmem _ hx with h | h | h | ⟨s, q, h | h⟩ <;> exact netfs_event.noConfusion h
  · intro hx
    rcases hmem _ hx with h | h | h | ⟨s, q, h | h⟩ <;> exact netfs_event.noConfusion h
  · rw [hfr.buffer]
    show e.1.buffer.folios = _
    rw [hbuf]
    exact (make_space_folios w.buffer).1
  · intro t
    rw [hstream t]
    exact issued_extents _
  · rw [hfr.issued_to]
    exact hito
  · intro t
    rw [hstream t]
    exact issued_construct _

theorem netfs_write_folio_group_mismatch_witness :
    ∃ w', netfs_write_folio 0 example_request_open example_folio_other = some (w', 0) ∧
      w'.events = example_request_open.events ++
        (if example_request_open.origin ≠ netfs_io_origin.NETFS_WRITETHROUGH ∧
            example_folio_other.finfo = none ∧
            example_folio_other.size > example_request_open.inode_i_size - example_folio_other.pos
         then [netfs_event.folio_zero_segment example_folio_other
           (example_request_open.inode_i_size - example_folio_other.pos)
           example_folio_other.size] else []) ++
        [netfs_event.folio_redirty_for_writepage example_folio_other,
         netfs_event.folio_unlock example_folio_other] ++
        example_request_open.io_streams0.issue_events 0 ++
        example_request_open.io_streams1.issue_events 1 ∧
      netfs_event.folio_start_writeback example_folio_other ∉
        w'.events.drop example_request_open.events.length ∧
      netfs_event.rolling_buffer_append example_folio_other ∉
        w'.events.drop example_request_open.events.length ∧
      w'.buffer.folios = example_request_open.buffer.folios ∧
      (∀ t, w'.stream t = (example_request_open.stream t).issued) ∧
      (∀ t, (w'.stream t).extents = (example_request_open.stream t).extents) ∧
      w'.issued_to = example_request_open.issued_to ∧
      (∀ t, (w'.stream t).construct = none) :=
  netfs_write_folio_group_mismatch 0 example_request_open example_folio_other
    (by decide) (by decide) (by decide) (by decide)

/-- C14 (counterexample): when the allocator has no page left for the rolling
buffer, `netfs_write_folio` returns `-ENOMEM` for a folio of another group that
is not beyond EOF, and the folio is not re-marked dirty: the request is as it
was. -/
theorem netfs_write_folio_group_mismatch_counterexample :
    example_folio_other.pos < example_request_nomem.inode_i_size ∧
    example_folio_other.group ≠ example_request_nomem.group ∧
    example_folio_other.group ≠ netfs_group_ptr.NETFS_FOLIO_COPY_TO_CACHE ∧
    netfs_write_folio 8 example_request_nomem example_folio_other =
      some (example_request_nomem, -ENOMEM) ∧
    (-ENOMEM : Int) ≠ 0 := by
  refine ⟨by decide, by decide, by decide, rfl, by decide⟩

/-! ## Zero-filling the tail of the last page -/

theorem flushed_appends (w : netfs_io_request) (f : folio) :
    planner_appends (netfs_write_folio_entry w f).1 (netfs_write_folio_flushed w f) := by
  refine ⟨_, by rw [flushed_events, List.append_assoc, List.append_assoc, List.append_assoc], ?_⟩
  intro e he
  rcases List.mem_append.1 he with h | h
  · split at h
    · exact issue_events_from_planner _ _ e h
    · exact absurd h (List.not_mem_nil _)
  · rcases List.mem_append.1 h with h | h
    · split at h
      · exact issue_events_from_planner _ _ e h
      · exact absurd h (List.not_mem_nil _)
    · rcases List.mem_append.1 h with h | h
      · split at h
        · rw [List.mem_singleton.1 h]; rfl
        · exact absurd h (List.not_mem_nil _)
      · rw [List.mem_singleton.1 h]; rfl

theorem ready_appends (w : netfs_io_request) (f : folio) :
    planner_appends (netfs_write_folio_flushed w f) (netfs_write_folio_ready w f) :=
  ⟨_, ready_events w f, fun e he => by rw [List.mem_singleton.1 he]; rfl⟩

/-- A call of `netfs_write_folio` on a folio that is not beyond EOF returns 0
when the rolling buffer gets its space, and the calls it makes after it has
worked out the extent of the folio are calls of the planner. -/
theorem write_folio_returns (fuel : Nat) (w : netfs_io_request) (f : folio)
    (hfpos : f.pos ≤ LONG_MAX) (hok : planner_ok w) (hpos : planner_pos w)
    (hfuel : 2 * U32 ≤ fuel) (hspace : w.buffer.space ≠ some 0)
    (heof : f.pos < w.inode_i_size) :
    ∃ w', netfs_write_folio fuel w f = some (w', 0) ∧
      planner_appends (netfs_write_folio_entry w f).1 w' := by
  by_cases hsub : netfs_submitted w f
  · obtain ⟨w', hrun, _, _, _, _, _, happ⟩ :=
      write_folio_facts fuel w f hfpos hok hpos hfuel hsub
    exact ⟨w', hrun, planner_appends_trans (flushed_appends w f)
      (planner_appends_trans (ready_appends w f) happ)⟩
  · rw [write_folio_eq fuel w f hspace heof]
    split
    · exact ⟨_, rfl, planner_appends_trans (planner_appends_trans
        (planner_appends_trans
          (emit_appends _ (netfs_event.folio_redirty_for_writepage f) rfl)
          (emit_appends _ (netfs_event.folio_unlock f) rfl))
        (issue_appends _ 0)) (issue_appends _ 1)⟩
    · split
      · exact ⟨_, rfl, planner_appends_trans (flushed_appends w f)
          (planner_appends_trans (issue_appends _ 0)
            (emit_appends _ (netfs_event.folio_written_back f) rfl))⟩
      · split
        · exact ⟨_, rfl, planner_appends_trans (flushed_appends w f)
            (emit_appends _ (netfs_event.folio_written_back f) rfl)⟩
        · rename_i h1 h2 h3
          exfalso
          apply hsub
          refine ⟨hspace, heof, ?_, ?_, ?_⟩
          · by_contra hn
            exact h1 ⟨fun h => hn (Or.inl h), fun h => hn (Or.inr h)⟩
          · intro hc
            cases hav : w.io_streams1.avail with
            | true => rfl
            | false => exact absurd ⟨hc, hav⟩ h2
          · cases hav0 : w.io_streams0.avail with
            | true => exact Or.inl rfl
            | false =>
              cases hav1 : w.io_streams1.avail with
              | true => exact Or.inr rfl
              | false =>
                exfalso
                by_cases hc : f.group = netfs_group_ptr.NETFS_FOLIO_COPY_TO_CACHE
                · exact h2 ⟨hc, hav1⟩
                · exact h3 ⟨hc, hav0, hav1⟩

/-- The request at the start of the submission loop of
`netfs_write_folio_single`. -/
theorem single_ready_facts (wa : netfs_io_request) (flen : Nat) (oka : planner_ok wa)
    (posa : planner_pos wa) :
    planner_ok ({ wa with
        io_streams0 := (fun stream : netfs_io_stream =>
          if (!stream.avail) = true then { stream with submit_off := UINT_MAX, submit_len := 0 }
          else { stream with submit_off := 0, submit_len := flen % U32 }) wa.io_streams0,
        io_streams1 := (fun stream : netfs_io_stream =>
          if (!stream.avail) = true then { stream with submit_off := UINT_MAX, submit_len := 0 }
          else { stream with submit_off := 0, submit_len := flen % U32 }) wa.io_streams1 } : netfs_io_request) ∧ planner_pos ({ wa with
        io_streams0 := (fun stream : netfs_io_stream =>
          if (!stream.avail) = true then { stream with submit_off := UINT_MAX, submit_len := 0 }
          else { stream with submit_off := 0, submit_len := flen % U32 }) wa.io_streams0,
        io_streams1 := (fun stream : netfs_io_stream =>
          if (!stream.avail) = true then { stream with submit_off := UINT_MAX, submit_len := 0 }
          else { stream with submit_off := 0, submit_len := flen % U32 }) wa.io_streams1 } : netfs_io_request) ∧
    submit_ready ({ wa with
        io_streams0 := (fun stream : netfs_io_stream =>
          if (!stream.avail) = true then { stream with submit_off := UINT_MAX, submit_len := 0 }
          else { stream with submit_off := 0, submit_len := flen % U32 }) wa.io_streams0,
        io_streams1 := (fun stream : netfs_io_stream =>
          if (!stream.avail) = true then { stream with submit_off := UINT_MAX, submit_len := 0 }
          else { stream with submit_off := 0, submit_len := flen % U32 }) wa.io_streams1 } : netfs_io_request) ∧ planner_appends wa ({ wa with
        io_streams0 := (fun stream : netfs_io_stream =>
          if (!stream.avail) = true then { stream with submit_off := UINT_MAX, submit_len := 0 }
          else { stream with submit_off := 0, submit_len := flen % U32 }) wa.io_streams0,
        io_streams1 := (fun stream : netfs_io_stream =>
          if (!stream.avail) = true then { stream with submit_off := UINT_MAX, submit_len := 0 }
          else { stream with submit_off := 0, submit_len := flen % U32 }) wa.io_streams1 } : netfs_io_request) := by
  have hst : ∀ t, ({ wa with
        io_streams0 := (fun stream : netfs_io_stream =>
          if (!stream.avail) = true then { stream with submit_off := UINT_MAX, submit_len := 0 }
          else { stream with submit_off := 0, submit_len := flen % U32 }) wa.io_streams0,
        io_streams1 := (fun stream : netfs_io_stream =>
          if (!stream.avail) = true then { stream with submit_off := UINT_MAX, submit_len := 0 }
          else { stream with submit_off := 0, submit_len := flen % U32 }) wa.io_streams1 } :
        netfs_io_request).stream t =
        (if (!(wa.stream t).avail) = true
          then { wa.stream t with submit_off := UINT_MAX, submit_len := 0 }
          else { wa.stream t with submit_off := 0, submit_len := flen % U32 }) := by
    intro t
    unfold netfs_io_request.stream
    split <;> rfl
  have hbs : ∀ t, stream_static (wa.stream t) (if (!(wa.stream t).avail) = true
        then { wa.stream t with submit_off := UINT_MAX, submit_len := 0 }
        else { wa.stream t with submit_off := 0, submit_len := flen % U32 }) := by
    intro t
    split <;> exact ⟨rfl, rfl, rfl, rfl⟩
  have hbf : planner_frame wa ({ wa with
        io_streams0 := (fun stream : netfs_io_stream =>
          if (!stream.avail) = true then { stream with submit_off := UINT_MAX, submit_len := 0 }
          else { stream with submit_off := 0, submit_len := flen % U32 }) wa.io_streams0,
        io_streams1 := (fun stream : netfs_io_stream =>
          if (!stream.avail) = true then { stream with submit_off := UINT_MAX, submit_len := 0 }
          else { stream with submit_off := 0, submit_len := flen % U32 }) wa.io_streams1 } : netfs_io_request) := by
    refine ⟨rfl, rfl, rfl, rfl, rfl, rfl, rfl, rfl, rfl, rfl, rfl, rfl, rfl, rfl, ?_⟩
    intro t
    rw [hst t]
    exact hbs t
  refine ⟨?_, planner_pos_of_frame hbf posa, ?_,
    ⟨[], (List.append_nil _).symm, fun _ h => absurd h (List.not_mem_nil _)⟩⟩
  · intro t
    rw [hst t]
    refine ⟨?_, limits_in_range_static _ (hbs t) (oka t).2⟩
    split <;> exact stream_ok_congr rfl rfl rfl rfl (oka t).1
  · intro t
    rw [hst t]
    split
    · exact ⟨show 0 < U32 by decide, show UINT_MAX < U32 by decide,
        fun h => absurd h (Nat.lt_irrefl 0)⟩
    · rename_i hav
      refine ⟨Nat.mod_lt _ (by decide), show 0 < U32 by decide, fun _ => ?_⟩
      simpa using hav

/-- A call of `netfs_write_folio_single` returns 0, and the calls it makes after
the zero-fill are calls of the planner. -/
theorem write_folio_single_returns (fuel : Nat) (w : netfs_io_request) (f : folio)
    (hfpos : f.pos ≤ LONG_MAX) (hok : planner_ok w) (hpos : planner_pos w)
    (hfuel : 2 * U32 ≤ fuel) :
    ∃ w', netfs_write_folio_single fuel w f = some (w', 0) ∧
      planner_appends
        (if f.size > wrap_sub U64 w.i_size f.pos
         then w.emit (netfs_event.folio_zero_segment f (wrap_sub U64 w.i_size f.pos) f.size)
         else w) w' := by
  unfold netfs_write_folio_single
  simp only []
  have hz : (if f.size > wrap_sub U64 w.i_size f.pos then
      w.emit (netfs_event.folio_zero_segment f (if f.size > wrap_sub U64 w.i_size f.pos
        then wrap_sub U64 w.i_size f.pos else f.size) f.size) else w) =
      (if f.size > wrap_sub U64 w.i_size f.pos
         then w.emit (netfs_event.folio_zero_segment f (wrap_sub U64 w.i_size f.pos) f.size)
         else w) := by
    by_cases h : f.size > wrap_sub U64 w.i_size f.pos
    · rw [if_pos h, if_pos h, if_pos h]
    · rw [if_neg h, if_neg h]
  rw [hz]
  obtain ⟨f1, s1⟩ := cond_emit_frame (f.size > wrap_sub U64 w.i_size f.pos) w
    (netfs_event.folio_zero_segment f (wrap_sub U64 w.i_size f.pos) f.size)
  have ok1 := planner_ok_of_same f1 s1 hok
  have pos1 := planner_pos_of_frame f1 hpos
  generalize (if f.size > wrap_sub U64 w.i_size f.pos
         then w.emit (netfs_event.folio_zero_segment f (wrap_sub U64 w.i_size f.pos) f.size)
         else w) = w1 at *
  generalize (if f.size > wrap_sub U64 w.i_size f.pos
    then wrap_sub U64 w.i_size f.pos else f.size) = flen
  split
  · exact ⟨_, rfl, planner_appends_refl _⟩
  · have ha : planner_appends w1 (rolling_buffer_append (w1.emit (netfs_event.folio_get f)) f) :=
      planner_appends_trans (emit_appends _ (netfs_event.folio_get f) rfl)
        (rolling_buffer_append_appends _ _)
    have fa : planner_frame w1 (rolling_buffer_append (w1.emit (netfs_event.folio_get f)) f) :=
      planner_frame_trans (emit_planner_frame _ _) (rolling_buffer_append_frame _ _)
    have sa : ∀ t, (rolling_buffer_append (w1.emit (netfs_event.folio_get f)) f).stream t =
        w1.stream t := fun _ => rfl
    have oka := planner_ok_of_same fa sa ok1
    have posa := planner_pos_of_frame fa pos1
    generalize rolling_buffer_append (w1.emit (netfs_event.folio_get f)) f = wa at *
    obtain ⟨hbok, hbpos, hbrd, hab⟩ := single_ready_facts wa flen oka posa
    generalize ({ wa with
        io_streams0 := (fun stream : netfs_io_stream =>
          if (!stream.avail) = true then { stream with submit_off := UINT_MAX, submit_len := 0 }
          else { stream with submit_off := 0, submit_len := flen % U32 }) wa.io_streams0,
        io_streams1 := (fun stream : netfs_io_stream =>
          if (!stream.avail) = true then { stream with submit_off := UINT_MAX, submit_len := 0 }
          else { stream with submit_off := 0, submit_len := flen % U32 }) wa.io_streams1 } : netfs_io_request) = wb at *
    have hmeasure : (wb.stream 0).submit_len + (wb.stream 1).submit_len < fuel := by
      have h0 := (hbrd 0).1
      have h1 := (hbrd 1).1
      omega
    obtain ⟨w9, io, hrun, _, _, _⟩ := loop_total f.pos f.size
      (decide (f.size > wrap_sub U64 w.i_size f.pos) || decide (f.size = wrap_sub U64 w.i_size f.pos))
      hfpos fuel wb 0 hbok hbpos hbrd hmeasure
    rw [hrun]
    refine ⟨_, rfl, ?_⟩
    have hl := loop_appends _ _ _ _ _ _ _ hrun
    refine planner_appends_trans ha (planner_appends_trans hab (planner_appends_trans hl ?_))
    refine planner_appends_trans ?_ (atomic64_set_issued_to_appends _ _)
    split
    · exact rolling_buffer_advance_appends _ _
    · exact planner_appends_refl _

theorem wrap_sub_zero (a : Nat) (h : a < U64) : wrap_sub U64 a 0 = a := by
  unfold wrap_sub
  rw [Nat.mod_eq_of_lt h]
  show (a + (U64 - 0)) % U64 = a
  rw [Nat.sub_zero, Nat.add_mod_right, Nat.mod_eq_of_lt h]

/-- The extent of a folio, not written by streaming, in which the file ends. -/
theorem extent_last (w : netfs_io_request) (f : folio) (hfin : f.finfo = none)
    (hlo : f.pos < w.inode_i_size) (hhi : w.inode_i_size ≤ f.pos + f.size)
    (hsz : f.size < U32) :
    (netfs_write_folio_entry w f).2 =
      { foff := 0, flen := w.inode_i_size - f.pos,
        to_eof := decide (w.origin ≠ netfs_io_origin.NETFS_WRITETHROUGH), streamw := false } := by
  rw [entry_extent]
  have hr : w.inode_i_size - f.pos < U64 := by
    unfold U32 at hsz
    unfold U64
    omega
  have hw := wrap_sub_zero _ hr
  have hw2 : wrap_sub U64 f.size 0 = f.size :=
    wrap_sub_zero _ (by unfold U32 at hsz; unfold U64; omega)
  unfold netfs_write_folio_extent
  simp only [hfin, Option.isSome_none]
  by_cases ho : w.origin = netfs_io_origin.NETFS_WRITETHROUGH
  · rw [if_pos ho]
    by_cases hgt : f.size > w.inode_i_size - f.pos
    · rw [if_pos hgt, hw]
      simp [ho]
    · rw [if_neg hgt, hw2]
      have : f.size = w.inode_i_size - f.pos := by omega
      simp [ho, this]
  · rw [if_neg ho]
    by_cases hgt : f.size > w.inode_i_size - f.pos
    · rw [if_pos hgt]
      simp only [hw]
      simp [ho]
    · rw [if_neg hgt]
      have he : f.size = w.inode_i_size - f.pos := by omega
      rw [if_pos he, hw2]
      simp [ho, he]

theorem flushed_plain (w : netfs_io_request) (f : folio)
    (hctc : f.group ≠ netfs_group_ptr.NETFS_FOLIO_COPY_TO_CACHE)
    (hoff : (netfs_write_folio_entry w f).2.foff = 0)
    (hsw : (netfs_write_folio_entry w f).2.streamw = false) (t : Nat) :
    (netfs_write_folio_flushed w f).stream t = w.stream t := by
  obtain ⟨h0, h1⟩ := flushed_stream w f
  rw [hoff, if_neg (fun h => by rcases h with h | h; exact hctc h; exact Nat.lt_irrefl _ h)] at h0
  rw [hsw, if_neg (by decide)] at h1
  unfold netfs_io_request.stream
  split
  · exact h0
  · exact h1

theorem wrap_sub_le (a b : Nat) (ha : a < U64) (hb : b ≤ a) : wrap_sub U64 a b = a - b := by
  unfold wrap_sub
  have h1 : a % U64 = a := Nat.mod_eq_of_lt ha
  have h2 : b % U64 = b := Nat.mod_eq_of_lt (by omega)
  rw [h1, h2]
  have h3 : a + (U64 - b) = (a - b) + U64 := by omega
  rw [h3, Nat.add_mod_right]
  exact Nat.mod_eq_of_lt (by omega)

theorem set_submit_upload (st : netfs_io_stream) (foff flen : Nat) (streamw : Bool)
    (g : netfs_group_ptr) (hav : st.avail = true)
    (hs : st.source = netfs_io_source.NETFS_UPLOAD_TO_SERVER)
    (hg : g ≠ netfs_group_ptr.NETFS_FOLIO_COPY_TO_CACHE) :
    netfs_set_submit st foff flen streamw g =
      { st with submit_off := foff % U32, submit_len := flen % U32 } := by
  unfold netfs_set_submit
  rw [if_neg]
  simp [hav, hs, hg]

/-- The extent of a folio that is not written by streaming and not beyond EOF:
the folio up to EOF. -/
theorem extent_whole (w : netfs_io_request) (f : folio) (hfin : f.finfo = none)
    (hlo : f.pos < w.inode_i_size) (hsz : f.size < U32) :
    (netfs_write_folio_entry w f).2.foff = 0 ∧
    (netfs_write_folio_entry w f).2.flen = min f.size (w.inode_i_size - f.pos) ∧
    (netfs_write_folio_entry w f).2.streamw = false := by
  by_cases hhi : w.inode_i_size ≤ f.pos + f.size
  · rw [extent_last w f hfin hlo hhi hsz]
    exact ⟨rfl, (Nat.min_eq_right (show w.inode_i_size - f.pos ≤ f.size by omega)).symm, rfl⟩
  · rw [entry_extent]
    obtain ⟨h1, h2, h3, _⟩ := extent_plain w f hfin (by omega)
      (by unfold U32 at hsz; unfold U64; omega)
    exact ⟨h1, h2.trans (Nat.min_eq_left (by omega)).symm, h3⟩

theorem set_submit_skip_upload (st : netfs_io_stream) (foff flen : Nat) (streamw : Bool)
    (hs : st.source = netfs_io_source.NETFS_UPLOAD_TO_SERVER) :
    netfs_set_submit st foff flen streamw netfs_group_ptr.NETFS_FOLIO_COPY_TO_CACHE =
      { st with submit_off := UINT_MAX, submit_len := 0 } := by
  unfold netfs_set_submit
  rw [if_pos]
  simp [hs]

theorem set_submit_cache (st : netfs_io_stream) (foff flen : Nat) (g : netfs_group_ptr)
    (hav : st.avail = true) (hs : st.source = netfs_io_source.NETFS_WRITE_TO_CACHE) :
    netfs_set_submit st foff flen false g =
      { st with submit_off := foff % U32, submit_len := flen % U32 } := by
  unfold netfs_set_submit
  rw [if_neg]
  simp [hav, hs]

/-- C15 (as amended): a folio of the copy-to-cache cohort that is not beyond
EOF, given space in the rolling buffer.  `netfs_write_folio` returns 0 and
leaves the upload stream as `netfs_issue_write` leaves it, with nothing to
submit: its construct is dispatched and no subrequest of it changes its range.
If the cache stream is available, the bytes of the folio up to EOF are routed to
it: the lengths of its subrequests grow by their number and the bytes they hold
are those held before and those.  If it is not, the folio is marked written
back, the cache stream is not touched and nothing is appended to the rolling
buffer.  (A folio of the cohort carries no streaming-write record, and the
streams have the destinations `netfs_create_write_req` gives them.) -/
theorem netfs_write_folio_copy_to_cache (fuel : Nat) (w : netfs_io_request) (f : folio)
    (hfpos : f.pos ≤ LONG_MAX) (hok : planner_ok w) (hpos : planner_pos w)
    (hfuel : 2 * U32 ≤ fuel) (hspace : w.buffer.space ≠ some 0)
    (hs0 : w.io_streams0.source = netfs_io_source.NETFS_UPLOAD_TO_SERVER)
    (hs1 : w.io_streams1.source = netfs_io_source.NETFS_WRITE_TO_CACHE)
    (hctc : f.group = netfs_group_ptr.NETFS_FOLIO_COPY_TO_CACHE) (hfin : f.finfo = none)
    (hsz : f.size < U32) (hlo : f.pos < w.inode_i_size) :
    ∃ w', netfs_write_folio fuel w f = some (w', 0) ∧
      w'.io_streams0.extents = w.io_streams0.extents ∧
      w'.io_streams0.construct = none ∧
      (∃ l, w'.events = w.events ++
          (if w.origin ≠ netfs_io_origin.NETFS_WRITETHROUGH ∧ f.finfo = none ∧
              f.size > w.inode_i_size - f.pos
           then [netfs_event.folio_zero_segment f (w.inode_i_size - f.pos) f.size] else []) ++
          w.io_streams0.issue_events 0 ++ l) ∧
      (w.io_streams1.avail = true →
        w'.io_streams0 = { w.io_streams0.issued with submit_off := UINT_MAX, submit_len := 0 } ∧
        w'.io_streams1.total_len =
          w.io_streams1.total_len + min f.size (w.inode_i_size - f.pos) ∧
        ∀ b, w'.io_streams1.covers b ↔
          (w.io_streams1.covers b ∨
            (f.pos ≤ b ∧ b < f.pos + min f.size (w.inode_i_size - f.pos)))) ∧
      (w.io_streams1.avail = false →
        w'.io_streams0 = w.io_streams0.issued ∧ w'.io_streams1 = w.io_streams1 ∧
        w'.buffer.folios = w.buffer.folios ∧
        w'.events = w.events ++
          (if w.origin ≠ netfs_io_origin.NETFS_WRITETHROUGH ∧ f.finfo = none ∧
              f.size > w.inode_i_size - f.pos
           then [netfs_event.folio_zero_segment f (w.inode_i_size - f.pos) f.size] else []) ++
          w.io_streams0.issue_events 0 ++
          (if w.origin = netfs_io_origin.NETFS_WRITEBACK
           then [netfs_event.folio_start_writeback f] else []) ++
          [netfs_event.folio_unlock f, netfs_event.folio_written_back f]) := by
  obtain ⟨x0, x1, x2⟩ := extent_whole w f hfin hlo hsz
  obtain ⟨hf0, hf1⟩ := flushed_stream w f
  rw [if_pos (Or.inl hctc)] at hf0
  rw [x2, if_neg (by decide)] at hf1
  have hfe := flushed_events w f
  rw [if_pos (Or.inl hctc), x2, if_neg (by decide), List.append_nil, entry_events] at hfe
  have hfr := flushed_frame w f
  have hfb := flushed_builder w f
  obtain ⟨_, hbuf, _, _⟩ := entry_fields w f
  cases hav : w.io_streams1.avail with
  | false =>
    rw [write_folio_eq fuel w f hspace hlo, if_neg (fun h => h.1 hctc), if_pos ⟨hctc, hav⟩]
    have hn : ((netfs_write_folio_flushed w f).stream 0).construct = none := by
      rw [stream_zero, hf0]
      exact issued_construct _
    rw [issue_none _ 0 hn]
    have e0 : ((netfs_write_folio_flushed w f).emit
        (netfs_event.folio_written_back f)).io_streams0 = w.io_streams0.issued := hf0
    have e1 : ((netfs_write_folio_flushed w f).emit
        (netfs_event.folio_written_back f)).io_streams1 = w.io_streams1 := hf1
    have ee : ((netfs_write_folio_flushed w f).emit (netfs_event.folio_written_back f)).events =
        w.events ++
          (if w.origin ≠ netfs_io_origin.NETFS_WRITETHROUGH ∧ f.finfo = none ∧
              f.size > w.inode_i_size - f.pos
           then [netfs_event.folio_zero_segment f (w.inode_i_size - f.pos) f.size] else []) ++
          w.io_streams0.issue_events 0 ++
          (if w.origin = netfs_io_origin.NETFS_WRITEBACK
           then [netfs_event.folio_start_writeback f] else []) ++
          [netfs_event.folio_unlock f, netfs_event.folio_written_back f] := by
      rw [emit_events, hfe]
      simp only [List.append_assoc, List.singleton_append]
    refine ⟨_, rfl, ?_, ?_, ⟨(if w.origin = netfs_io_origin.NETFS_WRITEBACK
        then [netfs_event.folio_start_writeback f] else []) ++
        [netfs_event.folio_unlock f, netfs_event.folio_written_back f],
        by rw [ee]; simp only [List.append_assoc]⟩,
      fun h => Bool.noConfusion h, fun _ => ⟨e0, e1, ?_, ee⟩⟩
    · rw [e0]
      exact issued_extents _
    · rw [e0]
      exact issued_construct _
    · show (netfs_write_folio_flushed w f).buffer.folios = _
      rw [hfb.buffer, hbuf]
      exact (make_space_folios w.buffer).1
  | true =>
    have hsub : netfs_submitted w f :=
      ⟨hspace, hlo, Or.inl hctc, fun _ => hav, Or.inr hav⟩
    obtain ⟨w', hrun, _, htot, hcov, hidle, _, l, hl, _⟩ :=
      write_folio_facts fuel w f hfpos hok hpos hfuel hsub
    have hsrc0 : (netfs_write_folio_flushed w f).io_streams0.source =
        netfs_io_source.NETFS_UPLOAD_TO_SERVER := ((hfr.static 0).source).trans hs0
    have hsrc1 : (netfs_write_folio_flushed w f).io_streams1.source =
        netfs_io_source.NETFS_WRITE_TO_CACHE := ((hfr.static 1).source).trans hs1
    have ha1 : (netfs_write_folio_flushed w f).io_streams1.avail = true :=
      ((hfr.static 1).avail).trans hav
    have hr0 : (netfs_write_folio_ready w f).stream 0 =
        { w.io_streams0.issued with submit_off := UINT_MAX, submit_len := 0 } := by
      rw [ready_stream, hctc, stream_zero, set_submit_skip_upload _ _ _ _ hsrc0, hf0]
    have hr1 : (netfs_write_folio_ready w f).stream 1 =
        { w.io_streams1 with
          submit_off := 0, submit_len := min f.size (w.inode_i_size - f.pos) } := by
      rw [ready_stream, x0, x1, x2, stream_one, set_submit_cache _ _ _ _ ha1 hsrc1, hf1,
        Nat.mod_eq_of_lt (show min f.size (w.inode_i_size - f.pos) < U32 from
          Nat.lt_of_le_of_lt (Nat.min_le_left _ _) hsz)]
      rfl
    have h0 : w'.io_streams0 =
        { w.io_streams0.issued with submit_off := UINT_MAX, submit_len := 0 } := by
      have := hidle 0 (by rw [hr0])
      rw [stream_zero, hr0] at this
      rw [this]
      split
      · exact issued_none _ (issued_construct _)
      · rfl
    refine ⟨w', hrun, ?_, ?_, ⟨(if w.origin = netfs_io_origin.NETFS_WRITEBACK
        then [netfs_event.folio_start_writeback f] else []) ++
        [netfs_event.folio_unlock f] ++ [netfs_event.rolling_buffer_append f] ++ l,
        by rw [hl, ready_events, hfe]; simp only [List.append_assoc]⟩,
      fun _ => ⟨h0, ?_, ?_⟩, fun h => Bool.noConfusion h⟩
    · rw [h0]
      exact issued_extents _
    · rw [h0]
      exact issued_construct _
    · have := htot 1
      rw [hr1] at this
      exact this
    · intro b
      have hsum : ∀ t, ((netfs_write_folio_ready w f).stream t).submit_off +
          ((netfs_write_folio_ready w f).stream t).submit_len < U32 := by
        intro t
        by_cases ht : t = 0
        · subst ht
          rw [hr0]
          show UINT_MAX + 0 < U32
          decide
        · rw [stream_eq_of_iff _ 1 t (by simp [ht]), hr1]
          show 0 + min f.size (w.inode_i_size - f.pos) < U32
          have := Nat.min_le_left f.size (w.inode_i_size - f.pos)
          omega
      have := hcov hsum 1 b
      rw [hr1] at this
      rw [stream_one, stream_one] at this
      rw [this]
      unfold netfs_io_stream.pending
      show _ ∨ (f.pos + 0 ≤ b ∧ b < f.pos + 0 + min f.size (w.inode_i_size - f.pos)) ↔ _
      rw [Nat.add_zero]

theorem netfs_write_folio_copy_to_cache_witness :
    ∃ w', netfs_write_folio (2 * U32) example_request example_folio_copy = some (w', 0) ∧
      w'.io_streams0.extents = example_request.io_streams0.extents ∧
      w'.io_streams0.construct = none ∧
      (∃ l, w'.events = example_request.events ++
          (if example_request.origin ≠ netfs_io_origin.NETFS_WRITETHROUGH ∧
              example_folio_copy.finfo = none ∧
              example_folio_copy.size > example_request.inode_i_size - example_folio_copy.pos
           then [netfs_event.folio_zero_segment example_folio_copy
             (example_request.inode_i_size - example_folio_copy.pos) example_folio_copy.size]
           else []) ++
          example_request.io_streams0.issue_events 0 ++ l) ∧
      (example_request.io_streams1.avail = true →
        w'.io_streams0 =
          { example_request.io_streams0.issued with submit_off := UINT_MAX, submit_len := 0 } ∧
        w'.io_streams1.total_len =
          example_request.io_streams1.total_len +
            min example_folio_copy.size (example_request.inode_i_size - example_folio_copy.pos) ∧
        ∀ b, w'.io_streams1.covers b ↔
          (example_request.io_streams1.covers b ∨
            (example_folio_copy.pos ≤ b ∧ b < example_folio_copy.pos +
              min example_folio_copy.size
                (example_request.inode_i_size - example_folio_copy.pos)))) ∧
      (example_request.io_streams1.avail = false →
        w'.io_streams0 = example_request.io_streams0.issued ∧
        w'.io_streams1 = example_request.io_streams1 ∧
        w'.buffer.folios = example_request.buffer.folios ∧
        w'.events = example_request.events ++
          (if example_request.origin ≠ netfs_io_origin.NETFS_WRITETHROUGH ∧
              example_folio_copy.finfo = none ∧
              example_folio_copy.size > example_request.inode_i_size - example_folio_copy.pos
           then [netfs_event.folio_zero_segment example_folio_copy
             (example_request.inode_i_size - example_folio_copy.pos) example_folio_copy.size]
           else []) ++
          example_request.io_streams0.issue_events 0 ++
          (if example_request.origin = netfs_io_origin.NETFS_WRITEBACK
           then [netfs_event.folio_start_writeback example_folio_copy] else []) ++
          [netfs_event.folio_unlock example_folio_copy,
           netfs_event.folio_written_back example_folio_copy]) :=
  netfs_write_folio_copy_to_cache (2 * U32) example_request example_folio_copy (by decide)
    example_request_planner_ok example_request_planner_pos (Nat.le_refl _) (by decide)
    (by decide) (by decide) (by decide) (by decide) (by decide) (by decide)

/-- C15 (counterexample): the upload stream has an open construct.  With space
in the rolling buffer `netfs_write_folio` on a folio of the copy-to-cache cohort
dispatches that construct and routes the folio to the cache stream; when the
allocator has no page left it returns `-ENOMEM` with the upload construct still
open and nothing routed to the cache stream. -/
theorem netfs_write_folio_copy_to_cache_counterexample :
    example_folio_copy.pos < example_request_open_nomem.inode_i_size ∧
    (netfs_write_folio 8 example_request_open example_folio_copy).map
        (fun r => (r.1.io_streams0.construct, r.1.dispatched 0, r.1.io_streams1.extents, r.2)) =
      some (none, [(0, 1000)], [(0, 4096)], 0) ∧
    (netfs_write_folio 8 example_request_open_nomem example_folio_copy).map
        (fun r => (r.1.io_streams0.construct, r.1.dispatched 0, r.1.io_streams1.extents, r.2)) =
      some (some 0, [], [], -ENOMEM) := by
  refine ⟨by decide, by rfl, by rfl⟩

/-! ## Every call of `netfs_write_folio` returns -/

theorem make_space_same (b : rolling_buffer) (h : b.space = some 0) :
    (rolling_buffer_make_space b).1 = b := by
  unfold rolling_buffer_make_space
  rw [h]

theorem entry_ok (w : netfs_io_request) (f : folio) (hok : planner_ok w) :
    planner_ok (netfs_write_folio_entry w f).1 :=
  planner_ok_of_same (entry_frame w f) (entry_stream w f) (fun t => hok t)

theorem emit_ok (w : netfs_io_request) (e : netfs_event) (hok : planner_ok w) :
    planner_ok (w.emit e) :=
  planner_ok_of_same (emit_planner_frame w e) (fun _ => rfl) hok

theorem beyond_eof_eq (fuel : Nat) (w : netfs_io_request) (f : folio)
    (heof : f.pos ≥ w.inode_i_size) (hspace : w.buffer.space ≠ some 0) :
    netfs_write_folio fuel w f =
      some ({ w with
              buffer := (rolling_buffer_make_space w.buffer).1,
              nr_group_rel := 0,
              events := w.events ++
                [netfs_event.folio_start_writeback f, netfs_event.folio_unlock f,
                 netfs_event.folio_written_back f,
                 netfs_event.put_group_many (w.nr_group_rel + f.gcount)] }, 0) := by
  unfold netfs_write_folio
  rw [if_neg (make_space_ok _ hspace)]
  unfold netfs_write_folio_planned
  rw [if_pos heof]
  simp [netfs_io_request.emit]

/-- Every call of `netfs_write_folio` returns, with 0 or `-ENOMEM`, given fuel
for the submission loop and limits of at least 1; it keeps the invariant of the
streams, and the calls it makes are calls of the planner. -/
theorem write_folio_total (fuel : Nat) (w : netfs_io_request) (f : folio)
    (hfpos : f.pos ≤ LONG_MAX) (hok : planner_ok w) (hpos : planner_pos w)
    (hfuel : 2 * U32 ≤ fuel) :
    ∃ w' ret, netfs_write_folio fuel w f = some (w', ret) ∧ (ret = 0 ∨ ret = -ENOMEM) ∧
      planner_frame { w with buffer := (rolling_buffer_make_space w.buffer).1 } w' ∧
      planner_ok w' ∧ planner_appends w w' := by
  have hok' : planner_ok { w with buffer := (rolling_buffer_make_space w.buffer).1 } :=
    fun t => hok t
  by_cases hspace : w.buffer.space = some 0
  · refine ⟨w, -ENOMEM, ?_, Or.inr rfl, ?_, hok, planner_appends_refl w⟩
    · unfold netfs_write_folio
      rw [if_pos (make_space_nomem _ hspace)]
    · rw [make_space_same _ hspace]
      exact planner_frame_refl w
  · by_cases heof : f.pos < w.inode_i_size
    · by_cases hsub : netfs_submitted w f
      · obtain ⟨w', hrun, hf, hok1, _⟩ := planned_total fuel
          { w with buffer := (rolling_buffer_make_space w.buffer).1 } f hfpos hok'
          (fun t => hpos t) hfuel heof hsub.2.2.1 hsub.2.2.2.1 hsub.2.2.2.2
        obtain ⟨w2, hrun2, happ⟩ := write_folio_returns fuel w f hfpos hok hpos hfuel hspace heof
        have hrun3 : netfs_write_folio fuel w f = some (w', 0) := by
          unfold netfs_write_folio
          rw [if_neg (make_space_ok _ hspace)]
          exact hrun
        have : w2 = w' := by
          rw [hrun3] at hrun2
          exact (congrArg Prod.fst (Option.some.inj hrun2)).symm
        subst this
        exact ⟨w2, 0, hrun3, Or.inl rfl, hf, hok1,
          planner_appends_trans (entry_appends w f) happ⟩
      · obtain ⟨w2, hrun2, happ⟩ := write_folio_returns fuel w f hfpos hok hpos hfuel hspace heof
        refine ⟨w2, 0, hrun2, Or.inl rfl, ?_, ?_, planner_appends_trans (entry_appends w f) happ⟩
        · rw [write_folio_eq fuel w f hspace heof] at hrun2
          have hfl := flushed_frame w f
          have hen := entry_frame w f
          split at hrun2
          · have := congrArg Prod.fst (Option.some.inj hrun2)
            subst this
            exact planner_frame_trans hen (planner_frame_trans
              (planner_frame_trans (emit_planner_frame _ _) (emit_planner_frame _ _))
              (planner_frame_trans (issue_planner_frame _ 0) (issue_planner_frame _ 1)))
          · split at hrun2
            · have := congrArg Prod.fst (Option.some.inj hrun2)
              subst this
              exact planner_frame_trans hfl (planner_frame_trans (issue_planner_frame _ 0)
                (emit_planner_frame _ _))
            · split at hrun2
              · have := congrArg Prod.fst (Option.some.inj hrun2)
                subst this
                exact planner_frame_trans hfl (emit_planner_frame _ _)
              · rename_i h1 h2 h3
                exfalso
                apply hsub
                refine ⟨hspace, heof, ?_, ?_, ?_⟩
                · by_contra hn
                  exact h1 ⟨fun h => hn (Or.inl h), fun h => hn (Or.inr h)⟩
                · intro hc
                  cases hav : w.io_streams1.avail with
                  | true => rfl
                  | false => exact absurd ⟨hc, hav⟩ h2
                · cases hav0 : w.io_streams0.avail with
                  | true => exact Or.inl rfl
                  | false =>
                    cases hav1 : w.io_streams1.avail with
                    | true => exact Or.inr rfl
                    | false =>
                      exfalso
                      by_cases hc : f.group = netfs_group_ptr.NETFS_FOLIO_COPY_TO_CACHE
                      · exact h2 ⟨hc, hav1⟩
                      · exact h3 ⟨hc, hav0, hav1⟩
        · rw [write_folio_eq fuel w f hspace heof] at hrun2
          have hfl := flushed_ok w f hok
          have hen := entry_ok w f hok
          split at hrun2
          · have := congrArg Prod.fst (Option.some.inj hrun2)
            subst this
            exact issue_planner_ok _ 1 (issue_planner_ok _ 0 (emit_ok _ _ (emit_ok _ _ hen)))
          · split at hrun2
            · have := congrArg Prod.fst (Option.some.inj hrun2)
              subst this
              exact emit_ok _ _ (issue_planner_ok _ 0 hfl)
            · split at hrun2
              · have := congrArg Prod.fst (Option.some.inj hrun2)
                subst this
                exact emit_ok _ _ hfl
              · rename_i h1 h2 h3
                exfalso
                apply hsub
                refine ⟨hspace, heof, ?_, ?_, ?_⟩
                · by_contra hn
                  exact h1 ⟨fun h => hn (Or.inl h), fun h => hn (Or.inr h)⟩
                · intro hc
                  cases hav : w.io_streams1.avail with
                  | true => rfl
                  | false => exact absurd ⟨hc, hav⟩ h2
                · cases hav0 : w.io_streams0.avail with
                  | true => exact Or.inl rfl
                  | false =>
                    cases hav1 : w.io_streams1.avail with
                    | true => exact Or.inr rfl
                    | false =>
                      exfalso
                      by_cases hc : f.group = netfs_group_ptr.NETFS_FOLIO_COPY_TO_CACHE
                      · exact h2 ⟨hc, hav1⟩
                      · exact h3 ⟨hc, hav0, hav1⟩
    · have hrun := beyond_eof_eq fuel w f (Nat.not_lt.1 heof) hspace
      generalize (rolling_buffer_make_space w.buffer).1 = rb at *
      refine ⟨_, 0, hrun, Or.inl rfl, ?_, ?_, ?_⟩
      · exact ⟨rfl, rfl, rfl, rfl, rfl, rfl, rfl, rfl, rfl, rfl, rfl, rfl, rfl, rfl,
          fun _ => stream_static_refl _⟩
      · exact fun t => hok t
      · refine ⟨[netfs_event.folio_start_writeback f, netfs_event.folio_unlock f,
          netfs_event.folio_written_back f,
          netfs_event.put_group_many (w.nr_group_rel + f.gcount)], rfl, ?_⟩
        intro e he
        simp only [List.mem_cons, List.mem_singleton, List.not_mem_nil, or_false] at he
        rcases he with h | h | h | h <;> rw [h] <;> rfl

/-! ## `begin_writeback` in `netfs_writepages` -/

theorem hook_calls_appends {w w' : netfs_io_request} (h : planner_appends w w') :
    w'.hook_calls = w.hook_calls := by
  obtain ⟨l, hl, hp⟩ := h
  unfold netfs_io_request.hook_calls
  rw [hl, List.count_append]
  have : l.count netfs_event.begin_writeback = 0 := by
    apply List.count_eq_zero.2
    intro hm
    exact absurd (hp _ hm) (by decide)
  rw [this, Nat.add_zero]

theorem begin_writeback_facts (ua : Bool) (w : netfs_io_request) (hok : planner_ok w)
    (hpos : planner_pos w) :
    planner_ok (netfs_begin_writeback ua { w with NETFS_RREQ_UPLOAD_TO_SERVER := true }) ∧
    planner_pos (netfs_begin_writeback ua { w with NETFS_RREQ_UPLOAD_TO_SERVER := true }) ∧
    (netfs_begin_writeback ua
      { w with NETFS_RREQ_UPLOAD_TO_SERVER := true }).NETFS_RREQ_UPLOAD_TO_SERVER = true ∧
    (netfs_begin_writeback ua { w with NETFS_RREQ_UPLOAD_TO_SERVER := true }).events =
      w.events ++ [netfs_event.begin_writeback] := by
  refine ⟨?_, ?_, rfl, rfl⟩
  · intro t
    by_cases ht : t = 0
    · subst ht
      exact ⟨stream_ok_congr rfl rfl rfl rfl (hok 0).1, (hok 0).2⟩
    · have h1 : (netfs_begin_writeback ua
          { w with NETFS_RREQ_UPLOAD_TO_SERVER := true }).stream t = w.stream t := by
        unfold netfs_io_request.stream
        rw [if_neg ht, if_neg ht]
        rfl
      rw [h1]
      exact hok t
  · intro t
    by_cases ht : t = 0
    · subst ht
      exact hpos 0
    · have h1 : (netfs_begin_writeback ua
          { w with NETFS_RREQ_UPLOAD_TO_SERVER := true }).stream t = w.stream t := by
        unfold netfs_io_request.stream
        rw [if_neg ht, if_neg ht]
        rfl
      rw [h1]
      exact hpos t

theorem frame_pos {w w' : netfs_io_request} (rb : rolling_buffer)
    (hf : planner_frame { w with buffer := rb } w') (hpos : planner_pos w) : planner_pos w' :=
  planner_pos_of_frame hf (fun t => hpos t)

/-- The loop of `netfs_writepages` when the hook cannot fire: uploading has
started, or every folio is of the copy-to-cache cohort. -/
theorem writepages_loop_quiet (ua : Bool) (fuel : Nat) (hfuel : 2 * U32 ≤ fuel) :
    ∀ (fs : List folio) (w : netfs_io_request), planner_ok w → planner_pos w →
    (∀ f ∈ fs, f.pos ≤ LONG_MAX) →
    (w.NETFS_RREQ_UPLOAD_TO_SERVER = true ∨
      ∀ f ∈ fs, f.group = netfs_group_ptr.NETFS_FOLIO_COPY_TO_CACHE) →
    ∃ r, netfs_writepages_loop ua fuel w fs = some r ∧ planner_appends w r.1 := by
  intro fs
  induction fs with
  | nil =>
    intro w _ _ _ _
    exact ⟨(w, 0), rfl, planner_appends_refl w⟩
  | cons f fs ih =>
    intro w hok hpos hfp hq
    unfold netfs_writepages_loop
    have hno : ¬(f.group ≠ netfs_group_ptr.NETFS_FOLIO_COPY_TO_CACHE ∧
        (!w.NETFS_RREQ_UPLOAD_TO_SERVER) = true) := by
      rintro ⟨h1, h2⟩
      rcases hq with h | h
      · rw [h] at h2
        exact Bool.noConfusion h2
      · exact h1 (h f (List.mem_cons_self _ _))
    simp only []
    rw [if_neg hno]
    obtain ⟨w', ret, hrun, hret, hf, hok', happ⟩ :=
      write_folio_total fuel w f (hfp f (List.mem_cons_self _ _)) hok hpos hfuel
    rw [hrun]
    simp only []
    by_cases hneg : ret < 0
    · rw [if_pos hneg]
      exact ⟨_, rfl, happ⟩
    · rw [if_neg hneg]
      cases fs with
      | nil => exact ⟨_, rfl, happ⟩
      | cons g gs =>
        simp only []
        obtain ⟨r, hr, hra⟩ := ih w' hok' (frame_pos _ hf hpos)
          (fun x hx => hfp x (List.mem_cons_of_mem _ hx))
          (by
            rcases hq with h | h
            · exact Or.inl (hf.upload_to_server.trans h)
            · exact Or.inr (fun x hx => h x (List.mem_cons_of_mem _ hx)))
        exact ⟨r, hr, planner_appends_trans happ hra⟩

/-- The loop of `netfs_writepages` on folios of the copy-to-cache cohort
followed by a folio `f` that is not: up to `f` it is a sequence of calls of
`netfs_write_folio`; if none of them fails, the hook is called on the request
they leave, `f` is planned on the request the hook leaves, and the hook is not
called again. -/
theorem writepages_loop_fires (ua : Bool) (fuel : Nat) (hfuel : 2 * U32 ≤ fuel) :
    ∀ (cs : List folio) (w : netfs_io_request) (f : folio) (rest : List folio),
    planner_ok w → planner_pos w → (∀ g ∈ cs ++ f :: rest, g.pos ≤ LONG_MAX) →
    w.NETFS_RREQ_UPLOAD_TO_SERVER = false →
    (∀ c ∈ cs, c.group = netfs_group_ptr.NETFS_FOLIO_COPY_TO_CACHE) →
    f.group ≠ netfs_group_ptr.NETFS_FOLIO_COPY_TO_CACHE →
    ∃ r, netfs_writepages_loop ua fuel w (cs ++ f :: rest) = some r ∧
      ((∃ w1, netfs_write_folios fuel w cs = some (w1, -ENOMEM) ∧ planner_appends w w1 ∧
          r = (w1, -ENOMEM)) ∨
       (∃ w1 rf, netfs_write_folios fuel w cs = some (w1, 0) ∧ planner_appends w w1 ∧
          netfs_write_folio fuel
            (netfs_begin_writeback ua { w1 with NETFS_RREQ_UPLOAD_TO_SERVER := true }) f =
            some rf ∧
          planner_appends
            (netfs_begin_writeback ua { w1 with NETFS_RREQ_UPLOAD_TO_SERVER := true }) rf.1 ∧
          planner_appends rf.1 r.1)) := by
  intro cs
  induction cs with
  | nil =>
    intro w f rest hok hpos hfp hflag _ hf
    rw [List.nil_append]
    unfold netfs_writepages_loop
    simp only []
    rw [if_pos ⟨hf, by rw [hflag]; rfl⟩]
    obtain ⟨bok, bpos, bflag, _⟩ := begin_writeback_facts ua w hok hpos
    obtain ⟨w', ret, hrun, hret, hfr, hok', happ⟩ :=
      write_folio_total fuel _ f (hfp f (List.mem_cons_self _ _)) bok bpos hfuel
    rw [hrun]
    simp only []
    have hsecond : ∀ r : netfs_io_request × Int, planner_appends w' r.1 →
        (∃ w1, netfs_write_folios fuel w [] = some (w1, -ENOMEM) ∧ planner_appends w w1 ∧
          r = (w1, -ENOMEM)) ∨
        (∃ w1 rf, netfs_write_folios fuel w [] = some (w1, 0) ∧ planner_appends w w1 ∧
          netfs_write_folio fuel
            (netfs_begin_writeback ua { w1 with NETFS_RREQ_UPLOAD_TO_SERVER := true }) f =
            some rf ∧
          planner_appends
            (netfs_begin_writeback ua { w1 with NETFS_RREQ_UPLOAD_TO_SERVER := true }) rf.1 ∧
          planner_appends rf.1 r.1) :=
      fun r hr => Or.inr ⟨w, (w', ret), rfl, planner_appends_refl w, hrun, happ, hr⟩
    by_cases hneg : ret < 0
    · rw [if_pos hneg]
      exact ⟨_, rfl, hsecond _ (planner_appends_refl _)⟩
    · rw [if_neg hneg]
      cases rest with
      | nil => exact ⟨_, rfl, hsecond _ (planner_appends_refl _)⟩
      | cons g gs =>
        simp only []
        obtain ⟨r, hr, hra⟩ := writepages_loop_quiet ua fuel hfuel (g :: gs) w' hok'
          (frame_pos _ hfr bpos) (fun x hx => hfp x (List.mem_cons_of_mem _ hx))
          (Or.inl (hfr.upload_to_server.trans bflag))
        exact ⟨r, hr, hsecond r hra⟩
  | cons c cs ih =>
    intro w f rest hok hpos hfp hflag hcs hf
    rw [List.cons_append]
    unfold netfs_writepages_loop
    have hc : c.group = netfs_group_ptr.NETFS_FOLIO_COPY_TO_CACHE := hcs c (List.mem_cons_self _ _)
    simp only []
    rw [if_neg (fun h => h.1 hc)]
    obtain ⟨w', ret, hrun, hret, hfr, hok', happ⟩ :=
      write_folio_total fuel w c (hfp c (List.mem_cons_self _ _)) hok hpos hfuel
    rw [hrun]
    simp only []
    by_cases hneg : ret < 0
    · rw [if_pos hneg]
      have hre : ret = -ENOMEM := by
        rcases hret with h | h
        · rw [h] at hneg
          exact absurd hneg (by decide)
        · exact h
      subst hre
      refine ⟨_, rfl, Or.inl ⟨w', ?_, happ, rfl⟩⟩
      unfold netfs_write_folios
      rw [hrun]
      simp only []
      rw [if_pos hneg]
    · rw [if_neg hneg]
      have hre : ret = 0 := by
        rcases hret with h | h
        · exact h
        · rw [h] at hneg
          exact absurd (show (-ENOMEM : Int) < 0 by decide) hneg
      subst hre
      have hstep : netfs_write_folios fuel w (c :: cs) = netfs_write_folios fuel w' cs := by
        conv => lhs; unfold netfs_write_folios
        rw [hrun]
        simp only []
        rw [if_neg hneg]
      obtain ⟨r, hr, hcase⟩ := ih w' f rest hok' (frame_pos _ hfr hpos)
        (fun x hx => hfp x (List.mem_cons_of_mem _ hx))
        (hfr.upload_to_server.trans hflag)
        (fun x hx => hcs x (List.mem_cons_of_mem _ hx)) hf
      have hne : ∃ g gs, cs ++ f :: rest = g :: gs := by
        cases cs with
        | nil => exact ⟨f, rest, rfl⟩
        | cons a as => exact ⟨a, as ++ f :: rest, rfl⟩
      obtain ⟨g, gs, hg⟩ := hne
      rw [hg] at hr ⊢
      simp only []
      refine ⟨r, hr, ?_⟩
      rw [hstep]
      rcases hcase with ⟨w1, h1, h2, h3⟩ | ⟨w1, rf, h1, h2, h3, h4, h5⟩
      · exact Or.inl ⟨w1, h1, planner_appends_trans happ h2, h3⟩
      · exact Or.inr ⟨w1, rf, h1, planner_appends_trans happ h2, h3, h4, h5⟩

theorem create_write_req_fresh (ictx : netfs_inode) (start : Nat) (origin : netfs_io_origin)
    (w : netfs_io_request) (h : netfs_create_write_req ictx start origin = Except.ok w) :
    w.NETFS_RREQ_UPLOAD_TO_SERVER = false ∧ w.events = [] := by
  unfold netfs_create_write_req netfs_alloc_request at h
  simp only [] at h
  cases ha : ictx.alloc_error with
  | some e => rw [ha] at h; exact Except.noConfusion h
  | none =>
    rw [ha] at h
    simp only [] at h
    cases hb : ictx.buffer_nomem with
    | true => rw [hb] at h; exact Except.noConfusion h
    | false =>
      rw [hb] at h
      have := Except.ok.inj h
      subst this
      exact ⟨rfl, rfl⟩

theorem end_issue_write_tail (w : netfs_io_request) :
    ∃ l, ((netfs_end_issue_write w).emit netfs_event.wake_collector).events = w.events ++ l ∧
      netfs_event.begin_writeback ∉ l := by
  refine ⟨_, by rw [emit_events, end_issue_write_events, List.append_assoc, List.append_assoc,
    List.append_assoc], ?_⟩
  have hno : ∀ (st : netfs_io_stream) (s : Nat),
      netfs_event.begin_writeback ∉ st.issue_events s := by
    intro st s hmem
    exact absurd (issue_events_from_planner st s _ hmem) (by decide)
  intro hm
  rcases List.mem_append.1 hm with h | h
  · split at h
    · exact hno _ _ h
    · exact absurd h (List.not_mem_nil _)
  · rcases List.mem_append.1 h with h | h
    · split at h
      · exact hno _ _ h
      · exact absurd h (List.not_mem_nil _)
    · rcases List.mem_append.1 h with h | h
      · split at h
        · exact netfs_event.noConfusion (List.mem_singleton.1 h)
        · exact absurd h (List.not_mem_nil _)
      · exact netfs_event.noConfusion (List.mem_singleton.1 h)

theorem hook_calls_tail {w w' : netfs_io_request} {l : List netfs_event}
    (h : w'.events = w.events ++ l) (hl : netfs_event.begin_writeback ∉ l) :
    w'.hook_calls = w.hook_calls := by
  unfold netfs_io_request.hook_calls
  rw [h, List.count_append, List.count_eq_zero.2 hl, Nat.add_zero]

theorem first_split_unique (cs cs0 : List folio) (f g0 : folio) (rest rest0 : List folio)
    (h : cs ++ f :: rest = cs0 ++ g0 :: rest0)
    (hcs : ∀ c ∈ cs, c.group = netfs_group_ptr.NETFS_FOLIO_COPY_TO_CACHE)
    (hcs0 : ∀ c ∈ cs0, c.group = netfs_group_ptr.NETFS_FOLIO_COPY_TO_CACHE)
    (hf : f.group ≠ netfs_group_ptr.NETFS_FOLIO_COPY_TO_CACHE)
    (hg0 : g0.group ≠ netfs_group_ptr.NETFS_FOLIO_COPY_TO_CACHE) :
    cs = cs0 ∧ f = g0 ∧ rest = rest0 := by
  induction cs generalizing cs0 with
  | nil =>
    cases cs0 with
    | nil =>
      simp only [List.nil_append, List.cons.injEq] at h
      exact ⟨rfl, h.1, h.2⟩
    | cons a as =>
      simp only [List.nil_append, List.cons_append, List.cons.injEq] at h
      exact absurd (hcs0 a (List.mem_cons_self _ _)) (by rw [← h.1]; exact hf)
  | cons c cs ih =>
    cases cs0 with
    | nil =>
      simp only [List.nil_append, List.cons_append, List.cons.injEq] at h
      exact absurd (hcs c (List.mem_cons_self _ _)) (by rw [h.1]; exact hg0)
    | cons a as =>
      simp only [List.cons_append, List.cons.injEq] at h
      obtain ⟨h1, h2, h3⟩ := ih as h.2 (fun x hx => hcs x (List.mem_cons_of_mem _ hx))
        (fun x hx => hcs0 x (List.mem_cons_of_mem _ hx))
      exact ⟨by rw [h.1, h1], h2, h3⟩

/-- C20: one pass of `netfs_writepages` over the folios `f0 :: fs` on a request
it has created returns.  If every folio is of the copy-to-cache cohort the
backend's `begin_writeback` hook is not called.  If `f` is the first folio that
is not, then either the planning of a folio before `f` has failed and ended the
pass, in which case the hook is not called, or `f` is reached: the hook is
called exactly once, on the request the folios before `f` have left (the call
follows their calls immediately), and `f` is planned on the request the hook
leaves. -/
theorem netfs_writepages_begin_writeback (ictx : netfs_inode) (ua : Bool) (fuel : Nat)
    (f0 : folio) (fs : List folio) (wc : netfs_io_request) (hfuel : 2 * U32 ≤ fuel)
    (hfp : ∀ g ∈ f0 :: fs, g.pos ≤ LONG_MAX)
    (hc : netfs_create_write_req ictx f0.pos netfs_io_origin.NETFS_WRITEBACK = Except.ok wc)
    (hok : planner_ok wc) (hpos : planner_pos wc) :
    ∃ w ret, netfs_writepages ictx ua fuel (f0 :: fs) =
        some { wreq := some w, ret := ret, killed := [] } ∧
      ((∀ g ∈ f0 :: fs, g.group = netfs_group_ptr.NETFS_FOLIO_COPY_TO_CACHE) →
        w.hook_calls = 0) ∧
      (∀ cs f rest, f0 :: fs = cs ++ f :: rest →
        (∀ c ∈ cs, c.group = netfs_group_ptr.NETFS_FOLIO_COPY_TO_CACHE) →
        f.group ≠ netfs_group_ptr.NETFS_FOLIO_COPY_TO_CACHE →
        (∃ w1, netfs_write_folios fuel { wc with NETFS_RREQ_OFFLOAD_COLLECTION := true } cs =
            some (w1, -ENOMEM) ∧ w.hook_calls = 0) ∨
        (∃ w1 rf l, netfs_write_folios fuel { wc with NETFS_RREQ_OFFLOAD_COLLECTION := true } cs =
            some (w1, 0) ∧
          netfs_write_folio fuel
            (netfs_begin_writeback ua { w1 with NETFS_RREQ_UPLOAD_TO_SERVER := true }) f =
            some rf ∧
          w.events = w1.events ++ netfs_event.begin_writeback :: l ∧
          rf.1.events <+: w.events ∧ w.hook_calls = 1)) := by
  obtain ⟨hflag, hev⟩ := create_write_req_fresh _ _ _ _ hc
  have hok0 : planner_ok { wc with NETFS_RREQ_OFFLOAD_COLLECTION := true } := fun t => hok t
  have hpos0 : planner_pos { wc with NETFS_RREQ_OFFLOAD_COLLECTION := true } := fun t => hpos t
  have hcalls0 : ({ wc with NETFS_RREQ_OFFLOAD_COLLECTION := true } :
      netfs_io_request).hook_calls = 0 := by
    unfold netfs_io_request.hook_calls
    show wc.events.count _ = 0
    rw [hev]
    rfl
  have hflag0 : ({ wc with NETFS_RREQ_OFFLOAD_COLLECTION := true } :
      netfs_io_request).NETFS_RREQ_UPLOAD_TO_SERVER = false := hflag
  unfold netfs_writepages
  simp only []
  rw [hc]
  simp only []
  generalize ({ wc with NETFS_RREQ_OFFLOAD_COLLECTION := true } : netfs_io_request) = w0 at *
  by_cases hall : ∀ g ∈ f0 :: fs, g.group = netfs_group_ptr.NETFS_FOLIO_COPY_TO_CACHE
  · obtain ⟨r, hr, hra⟩ := writepages_loop_quiet ua fuel hfuel (f0 :: fs) w0 hok0 hpos0 hfp
      (Or.inr hall)
    rw [hr]
    obtain ⟨l2, hl2, hn2⟩ := end_issue_write_tail r.1
    refine ⟨_, _, rfl, fun _ => ?_, ?_⟩
    · rw [hook_calls_tail hl2 hn2, hook_calls_appends hra, hcalls0]
    · intro cs f rest hsplit _ hf
      exfalso
      apply hf
      apply hall
      rw [hsplit]
      exact List.mem_append_right _ (List.mem_cons_self _ _)
  · have hex : ∃ cs f rest, f0 :: fs = cs ++ f :: rest ∧
        (∀ c ∈ cs, c.group = netfs_group_ptr.NETFS_FOLIO_COPY_TO_CACHE) ∧
        f.group ≠ netfs_group_ptr.NETFS_FOLIO_COPY_TO_CACHE := by
      clear hfp hc
      generalize f0 :: fs = all at hall
      induction all with
      | nil => exact absurd (fun g hg => absurd hg (List.not_mem_nil _)) hall
      | cons a as ih =>
        by_cases ha : a.group = netfs_group_ptr.NETFS_FOLIO_COPY_TO_CACHE
        · have : ¬∀ g ∈ as, g.group = netfs_group_ptr.NETFS_FOLIO_COPY_TO_CACHE := by
            intro h
            apply hall
            intro g hg
            rcases List.mem_cons.1 hg with h1 | h1
            · rw [h1]; exact ha
            · exact h g h1
          obtain ⟨cs, f, rest, h1, h2, h3⟩ := ih this
          refine ⟨a :: cs, f, rest, by rw [h1]; rfl, ?_, h3⟩
          intro c hc
          rcases List.mem_cons.1 hc with h | h
          · rw [h]; exact ha
          · exact h2 c h
        · exact ⟨[], a, as, rfl, fun c hc => absurd hc (List.not_mem_nil _), ha⟩
    obtain ⟨cs0, g0, rest0, hsplit0, hcs0, hg0⟩ := hex
    obtain ⟨r, hr, hcase⟩ := writepages_loop_fires ua fuel hfuel cs0 w0 g0 rest0 hok0 hpos0
      (by rw [← hsplit0]; exact hfp) hflag0 hcs0 hg0
    rw [← hsplit0] at hr
    rw [hr]
    obtain ⟨l2, hl2, hn2⟩ := end_issue_write_tail r.1
    refine ⟨_, _, rfl, fun h => absurd h hall, ?_⟩
    intro cs f rest hsplit hcs hf
    have hsame := first_split_unique cs cs0 f g0 rest rest0 (hsplit.symm.trans hsplit0) hcs hcs0 hf hg0
    obtain ⟨h1, h2, h3⟩ := hsame
    subst h1 h2 h3
    rcases hcase with ⟨w1, e1, e2, e3⟩ | ⟨w1, rf, e1, e2, e3, e4, e5⟩
    · refine Or.inl ⟨w1, e1, ?_⟩
      rw [hook_calls_tail hl2 hn2, e3]
      show w1.hook_calls = 0
      rw [hook_calls_appends e2, hcalls0]
    · obtain ⟨l4, hl4, hp4⟩ := e4
      obtain ⟨l5, hl5, hp5⟩ := e5
      have hevents : ((netfs_end_issue_write r.1).emit netfs_event.wake_collector).events =
          w1.events ++ netfs_event.begin_writeback :: (l4 ++ (l5 ++ l2)) := by
        rw [hl2, hl5, hl4]
        show (((w1.events ++ [netfs_event.begin_writeback]) ++ l4) ++ l5) ++ l2 = _
        simp only [List.append_assoc, List.singleton_append, List.cons_append, List.nil_append]
      refine Or.inr ⟨w1, rf, l4 ++ (l5 ++ l2), e1, e3, hevents, ?_, ?_⟩
      · rw [hl2, hl5, List.append_assoc]
        exact List.prefix_append _ _
      · unfold netfs_io_request.hook_calls
        rw [hevents, List.count_append, List.count_cons_self, List.count_append,
          List.count_append]
        have c1 : w1.events.count netfs_event.begin_writeback = 0 := by
          have := hook_calls_appends e2
          unfold netfs_io_request.hook_calls at this hcalls0
          rw [this, hcalls0]
        have c4 : l4.count netfs_event.begin_writeback = 0 :=
          List.count_eq_zero.2 (fun hm => absurd (hp4 _ hm) (by decide))
        have c5 : l5.count netfs_event.begin_writeback = 0 :=
          List.count_eq_zero.2 (fun hm => absurd (hp5 _ hm) (by decide))
        rw [c1, c4, c5, List.count_eq_zero.2 hn2]

theorem example_noupload_planner : planner_ok example_request_noupload ∧
    planner_pos example_request_noupload := by
  refine ⟨?_, ?_⟩
  · intro t
    unfold netfs_io_request.stream
    split
    · exact ⟨by decide, fun q => by
        simp [netfs_prepare_write_limits, example_request_noupload, example_request,
          netfs_io_stream.zero, U64, U32, INT_MAX]⟩
    · exact ⟨by decide, fun q => by
        simp [netfs_prepare_write_limits, example_request_noupload, example_request,
          netfs_io_stream.zero, U64, U32, INT_MAX, UINT_MAX]⟩
  · intro t
    unfold netfs_io_request.stream
    split
    · intro q
      simp [netfs_prepare_write_limits, example_request_noupload, example_request,
        netfs_io_stream.zero]
    · intro q
      simp [netfs_prepare_write_limits, example_request_noupload, example_request,
        netfs_io_stream.zero, UINT_MAX]

theorem netfs_writepages_begin_writeback_witness :
    ∃ w ret, netfs_writepages example_inode true (2 * U32) (example_folio_copy :: [example_folio1]) =
        some { wreq := some w, ret := ret, killed := [] } ∧
      ((∀ g ∈ example_folio_copy :: [example_folio1],
          g.group = netfs_group_ptr.NETFS_FOLIO_COPY_TO_CACHE) →
        w.hook_calls = 0) ∧
      (∀ cs f rest, example_folio_copy :: [example_folio1] = cs ++ f :: rest →
        (∀ c ∈ cs, c.group = netfs_group_ptr.NETFS_FOLIO_COPY_TO_CACHE) →
        f.group ≠ netfs_group_ptr.NETFS_FOLIO_COPY_TO_CACHE →
        (∃ w1, netfs_write_folios (2 * U32)
            { example_request_noupload with NETFS_RREQ_OFFLOAD_COLLECTION := true } cs =
            some (w1, -ENOMEM) ∧ w.hook_calls = 0) ∨
        (∃ w1 rf l, netfs_write_folios (2 * U32)
            { example_request_noupload with NETFS_RREQ_OFFLOAD_COLLECTION := true } cs =
            some (w1, 0) ∧
          netfs_write_folio (2 * U32)
            (netfs_begin_writeback true { w1 with NETFS_RREQ_UPLOAD_TO_SERVER := true }) f =
            some rf ∧
          w.events = w1.events ++ netfs_event.begin_writeback :: l ∧
          rf.1.events <+: w.events ∧ w.hook_calls = 1)) :=
  netfs_writepages_begin_writeback example_inode true (2 * U32) example_folio_copy
    [example_folio1] example_request_noupload (Nat.le_refl _) (by decide) rfl
    example_noupload_planner.1 example_noupload_planner.2

/-! ## `netfs_unbuffered_write` -/

theorem grow_deref {st : netfs_io_stream} {j start : Nat} (h : stream_open st j start)
    (len : Nat) : (st.grow len).deref j = st.grown_subreq len := by
  unfold netfs_io_stream.grow netfs_io_stream.store netfs_io_stream.deref
  rw [h.construct]
  simp [h.lt]

theorem issued_ranges_append (w w' : netfs_io_request) (l : List netfs_event)
    (h : w'.events = w.events ++ l) :
    w'.issued_ranges = w.issued_ranges ++
      l.filterMap (fun e => match e with
        | netfs_event.issue_write _ q => some (q.start, q.len)
        | netfs_event.write_subrequest_terminated q _ => some (q.start, q.len)
        | _ => none) := by
  unfold netfs_io_request.issued_ranges
  rw [h, List.filterMap_append]

theorem issued_ranges_dispatch (s : Nat) (q : netfs_io_subrequest) :
    [netfs_dispatch s q].filterMap (fun e => match e with
        | netfs_event.issue_write _ q => some (q.start, q.len)
        | netfs_event.write_subrequest_terminated q _ => some (q.start, q.len)
        | _ => none) = [(q.start, q.len)] := by
  unfold netfs_dispatch
  split <;> rfl

theorem unbuffered_flags_facts (view : collector_view) (k : Nat) (w : netfs_io_request) :
    (netfs_unbuffered_write_flags view k w).io_streams0 = w.io_streams0 ∧
    (netfs_unbuffered_write_flags view k w).io_streams1 = w.io_streams1 ∧
    (netfs_unbuffered_write_flags view k w).wsize = w.wsize ∧
    (netfs_unbuffered_write_flags view k w).NETFS_RREQ_FAILED =
      (w.NETFS_RREQ_FAILED || view.failed k) ∧
    (netfs_unbuffered_write_flags view k w).issued_ranges = w.issued_ranges := by
  unfold netfs_unbuffered_write_flags
  simp only []
  split
  · exact ⟨rfl, rfl, rfl, rfl, by
      unfold netfs_io_request.issued_ranges
      show List.filterMap _ (w.events ++ [netfs_event.wait_for_paused_write]) = _
      rw [List.filterMap_append]
      simp⟩
  · exact ⟨rfl, rfl, rfl, rfl, rfl⟩

/-- One pass of the loop of `netfs_unbuffered_write` on an upload stream without
a construct: a subrequest for the next `min W len` bytes is added, and it is
dispatched when it holds `W` bytes. -/
theorem unbuffered_pass (view : collector_view) (k : Nat) (w : netfs_io_request)
    (start len W : Nat) (a : netfs_io_request × Nat) (w2 : netfs_io_request)
    (ha : netfs_advance_write w 0 start len false = a)
    (h2 : netfs_unbuffered_write_flags view k (rolling_buffer_advance a.1 a.2) = w2)
    (hr : unbuffered_ready w W) (hc : w.io_streams0.construct = none)
    (hrange : start + len < U64) :
    a.2 = min W len ∧ unbuffered_ready w2 W ∧
    w2.io_streams0.extents = w.io_streams0.extents ++ [(start, min W len)] ∧
    (W ≤ len → w2.io_streams0.construct = none) ∧
    w2.issued_ranges ++ w2.io_streams0.open_range = w.issued_ranges ++ [(start, min W len)] ∧
    w2.io_streams1 = w.io_streams1 ∧
    ((w.io_streams0.subrequests.isEmpty = false → w.io_streams0.active = true) →
      w2.io_streams0.active = true) ∧
    w2.NETFS_RREQ_FAILED = (w.NETFS_RREQ_FAILED || view.failed k) := by
  obtain ⟨hav, hok, hlim, hfix⟩ := hr
  have hstart : start < U64 := by omega
  have hst := advance_stream w 0 start len false hav
  have hpt := advance_part w 0 start len false hav
  have hev := advance_events w 0 start len false hav
  have hne := advance_stream_ne w 0 1 start len false (by decide)
  have hfr := advance_frame w 0 start len false
  rw [ha] at hst hpt hev hne hfr
  obtain ⟨e1, e2, _, _, e5, e6, e7, e8, _, _, e11⟩ :=
    advanced_fresh w.io_streams0 w start len false hc hok hlim hstart
  rw [hfix] at e2 e6
  have ho := opened_open w.io_streams0 w start hok hlim hstart
  have hrcv : netfs_receiver w.io_streams0 start = w.io_streams0.subrequests.length := by
    unfold netfs_receiver
    rw [hc]
  rw [hrcv] at ho
  obtain ⟨f0, f1, fw, ff, fi⟩ := unbuffered_flags_facts view k (rolling_buffer_advance a.1 a.2)
  rw [h2] at f0 f1 fw ff fi
  have s0 : w2.io_streams0 = (w.io_streams0.opened w start).grown len false := by
    rw [f0]
    exact hst
  have s1 : w2.io_streams1 = w.io_streams1 := by
    rw [f1]
    exact hne
  have hws : w2.wsize = w.wsize := by
    rw [fw]
    exact hfr.wsize
  have hstat : stream_static w.io_streams0 w2.io_streams0 := by
    rw [s0]
    exact advanced_static _ w start len false
  refine ⟨by rw [hpt]; exact e2, ?_, by rw [s0]; rw [e1, e2], ?_, ?_, s1, ?_, ?_⟩
  · refine ⟨hstat.avail.trans hav, ?_, ?_, ?_⟩
    · rw [s0]
      exact advanced_ok _ w start len false hok hlim hrange
    · rw [hws]
      exact limits_in_range_static _ hstat hlim
    · intro q
      rw [hws, hstat.source, hstat.prepare_write]
      exact hfix q
  · intro hle
    rw [s0, e5, if_pos]
    rw [e6, e2]
    exact Or.inl (by rw [Nat.min_eq_left hle])
  · rw [fi]
    have hflush : (w.stream 0).flushed 0 start = [] := by
      unfold netfs_io_stream.flushed
      rw [stream_zero, hc]
    have hra : (rolling_buffer_advance a.1 a.2).issued_ranges = a.1.issued_ranges := by
      unfold netfs_io_request.issued_ranges
      show List.filterMap _ (a.1.events ++ [netfs_event.rolling_buffer_advance a.2]) = _
      rw [List.filterMap_append]
      simp
    rw [hra]
    rw [hflush, List.append_nil] at hev
    simp only [stream_zero, hrcv] at hev
    by_cases hfull : (w.io_streams0.opened w start).full len false
    · rw [if_pos hfull] at hev
      rw [issued_ranges_append w a.1 _ hev, issued_ranges_dispatch, frozen_start, frozen_len,
        grow_deref ho, open_grown_start ho, open_grown_len ho]
      have hopen : w2.io_streams0.open_range = [] := by
        unfold netfs_io_stream.open_range
        rw [s0, e5, if_pos hfull]
      have hh := (opened_held w.io_streams0 w start).1
      have hz : netfs_held_len w.io_streams0 start = 0 := by
        unfold netfs_held_len
        rw [hc]
      rw [hrcv, hz] at hh
      have hs0 := ho.ends
      rw [hh] at hs0
      rw [hopen, List.append_nil, hh, Nat.zero_add, e2]
      have : ((w.io_streams0.opened w start).deref w.io_streams0.subrequests.length).start =
          start := by omega
      rw [this]
    · rw [if_neg hfull, List.append_nil] at hev
      have : a.1.issued_ranges = w.issued_ranges := by
        unfold netfs_io_request.issued_ranges
        rw [hev]
      rw [this]
      unfold netfs_io_stream.open_range
      rw [s0, e5, if_neg hfull]
      simp only []
      rw [e7, e8, e2]
  · intro hact
    rw [s0, e11]
    split
    · rfl
    · rename_i hemp
      exact hact (by simpa using hemp)
  · rw [ff]
    have : (rolling_buffer_advance a.1 a.2).NETFS_RREQ_FAILED = a.1.NETFS_RREQ_FAILED := rfl
    rw [this, hfr.failed]

/-- The loop of `netfs_unbuffered_write` on an upload stream without a construct
whose subrequests get the length limit `W`: it returns, having added one
subrequest for each of the chunks. -/
theorem unbuffered_loop (view : collector_view) (W : Nat) (hW : 1 ≤ W) :
    ∀ (fuel k : Nat) (w : netfs_io_request) (start len : Nat), unbuffered_ready w W →
    w.io_streams0.construct = none → start + len < U64 → len < fuel →
    w.NETFS_RREQ_FAILED = false →
    (w.io_streams0.subrequests.isEmpty = false → w.io_streams0.active = true) →
    ∃ w', netfs_unbuffered_write_loop view fuel k w start len = some w' ∧
      w'.io_streams0.extents = w.io_streams0.extents ++
        netfs_unbuffered_chunks view.failed W fuel k start len ∧
      w'.issued_ranges ++ w'.io_streams0.open_range = w.issued_ranges ++
        netfs_unbuffered_chunks view.failed W fuel k start len ∧
      w'.io_streams1 = w.io_streams1 ∧
      (0 < len → w'.io_streams0.active = true) := by
  intro fuel
  induction fuel with
  | zero => intro k w start len _ _ _ h; omega
  | succ n ih =>
    intro k w start len hr hc hrange hfuel hnf hact
    unfold netfs_unbuffered_write_loop netfs_unbuffered_chunks
    by_cases hl0 : len = 0
    · rw [if_pos hl0, if_pos hl0]
      refine ⟨w, rfl, by rw [List.append_nil], ?_, rfl, fun h => by omega⟩
      rw [List.append_nil]
      unfold netfs_io_stream.open_range
      rw [hc, List.append_nil]
    · rw [if_neg hl0, if_neg hl0]
      simp only []
      obtain ⟨p1, p2, p3, p4, p5, p6, p7, p8⟩ := unbuffered_pass view k w start len W
        (netfs_advance_write w 0 start len false)
        (netfs_unbuffered_write_flags view k (rolling_buffer_advance
          (netfs_advance_write w 0 start len false).1 (netfs_advance_write w 0 start len false).2))
        rfl rfl hr hc hrange
      rw [hnf, Bool.false_or] at p8
      rw [p1] at p2 p3 p4 p5 p6 p7 p8 ⊢
      generalize netfs_unbuffered_write_flags view k (rolling_buffer_advance
          (netfs_advance_write w 0 start len false).1 (min W len)) = w2 at *
      have hact2 := p7 hact
      rw [p8]
      cases hfk : view.failed k with
      | true =>
        rw [if_pos rfl]
        simp only [if_true]
        exact ⟨w2, rfl, p3, p5, p6, fun _ => hact2⟩
      | false =>
        rw [if_neg (by decide)]
        simp only [Bool.false_eq_true, if_false]
        have hm : min W len ≤ len := Nat.min_le_right _ _
        have hsub : wrap_sub U64 len (min W len) = len - min W len :=
          wrap_sub_le _ _ (by omega) hm
        rw [hsub]
        by_cases hrest : len - min W len = 0
        · rw [hrest]
          cases n with
          | zero => omega
          | succ m =>
            unfold netfs_unbuffered_write_loop netfs_unbuffered_chunks
            rw [if_pos rfl, if_pos rfl]
            exact ⟨w2, rfl, p3, p5, p6, fun _ => hact2⟩
        · have hWlen : W ≤ len := by
            by_contra hn
            rw [Nat.min_eq_right (by omega)] at hrest
            omega
          obtain ⟨w', hrun, q1, q2, q3, q4⟩ := ih (k + 1) w2 (start + min W len)
            (len - min W len) p2 (p4 hWlen) (by omega) (by omega) (p8.trans hfk)
            (fun _ => hact2)
          have hopen2 : w2.io_streams0.open_range = [] := by
            unfold netfs_io_stream.open_range
            rw [p4 hWlen]
          rw [hopen2, List.append_nil] at p5
          refine ⟨w', hrun, ?_, ?_, q3.trans p6, fun _ => q4 (by omega)⟩
          · rw [q1, p3, List.append_assoc]
            rfl
          · rw [q2, p5, List.append_assoc]
            rfl

theorem range_succ_map {β : Type} (f : Nat → β) (n : Nat) :
    (List.range (n + 1)).map f = f 0 :: (List.range n).map (fun i => f (i + 1)) := by
  rw [List.range_succ_eq_map, List.map_cons, List.map_map]
  rfl

/-- The chunks when `NETFS_RREQ_FAILED` is never seen: `ceil(len / W)` of them,
the one of index `i` at `start + i * W`, of `W` bytes or of what is left. -/
theorem chunks_closed (failed : Nat → Bool) (W : Nat) (hW : 1 ≤ W)
    (hnf : ∀ j, failed j = false) :
    ∀ (fuel k start len : Nat), len ≤ fuel →
    netfs_unbuffered_chunks failed W fuel k start len =
      (List.range ((len + W - 1) / W)).map (fun i => (start + i * W, min W (len - i * W))) := by
  intro fuel
  induction fuel with
  | zero =>
    intro k start len h
    have : len = 0 := by omega
    subst this
    unfold netfs_unbuffered_chunks
    rw [Nat.zero_add, Nat.div_eq_of_lt (by omega)]
    rfl
  | succ n ih =>
    intro k start len h
    unfold netfs_unbuffered_chunks
    by_cases hl0 : len = 0
    · subst hl0
      rw [if_pos rfl, Nat.zero_add, Nat.div_eq_of_lt (by omega)]
      rfl
    · rw [if_neg hl0, hnf k]
      simp only [Bool.false_eq_true, if_false]
      rw [ih (k + 1) (start + min W len) (len - min W len) (by
        have := Nat.min_le_right W len
        have : 1 ≤ min W len := Nat.le_min.2 ⟨hW, by omega⟩
        omega)]
      by_cases hle : len ≤ W
      · rw [Nat.min_eq_right hle, Nat.sub_self, Nat.zero_add, Nat.div_eq_of_lt (by omega)]
        have hN : (len + W - 1) / W = 1 :=
          Nat.div_eq_of_lt_le (by omega) (by omega)
        rw [hN]
        show _ = [(start + 0 * W, min W (len - 0 * W))]
        rw [Nat.zero_mul, Nat.add_zero, Nat.sub_zero, Nat.min_eq_right hle]
        rfl
      · have hlt : W < len := by omega
        rw [Nat.min_eq_left (by omega)]
        have hN : (len + W - 1) / W = (len - W + W - 1) / W + 1 := by
          have : len + W - 1 = (len - W + W - 1) + W := by omega
          rw [this, Nat.add_div_right _ (by omega)]
        rw [hN, range_succ_map]
        simp only [Nat.zero_mul, Nat.add_zero, Nat.sub_zero, Nat.min_eq_left (Nat.le_of_lt hlt)]
        congr 1
        apply List.map_congr_left
        intro i _
        rw [Nat.succ_mul]
        congr 1
        · omega
        · congr 1
          omega

/-- The sum of the lengths of the chunks when `NETFS_RREQ_FAILED` is never
seen. -/
theorem chunks_sum (failed : Nat → Bool) (W : Nat) (hW : 1 ≤ W)
    (hnf : ∀ j, failed j = false) :
    ∀ (fuel k start len : Nat), len ≤ fuel →
    ((netfs_unbuffered_chunks failed W fuel k start len).map (fun e => e.2)).sum = len := by
  intro fuel
  induction fuel with
  | zero =>
    intro k start len h
    have : len = 0 := by omega
    subst this
    rfl
  | succ n ih =>
    intro k start len h
    unfold netfs_unbuffered_chunks
    by_cases hl0 : len = 0
    · subst hl0
      rfl
    · rw [if_neg hl0, hnf k]
      simp only [Bool.false_eq_true, if_false, List.map_cons, List.sum_cons]
      have hm := Nat.min_le_right W len
      have h1 : 1 ≤ min W len := Nat.le_min.2 ⟨hW, by omega⟩
      rw [ih (k + 1) (start + min W len) (len - min W len) (by omega)]
      omega

/-- The chunks when `NETFS_RREQ_FAILED` is first seen after the pass `k + d`,
with more than `d + 1` chunks of `W` bytes to write: `d + 1` chunks of `W`
bytes. -/
theorem chunks_failed (failed : Nat → Bool) (W : Nat) (hW : 1 ≤ W) :
    ∀ (d fuel k start len : Nat), len ≤ fuel →
    (∀ j, k ≤ j → j < k + d → failed j = false) → failed (k + d) = true →
    (d + 1) * W < len →
    netfs_unbuffered_chunks failed W fuel k start len =
      (List.range (d + 1)).map (fun i => (start + i * W, W)) := by
  intro d
  induction d with
  | zero =>
    intro fuel k start len hf _ hfail hlen
    cases fuel with
    | zero => omega
    | succ n =>
      unfold netfs_unbuffered_chunks
      rw [Nat.add_zero] at hfail
      rw [Nat.zero_add, Nat.one_mul] at hlen
      rw [if_neg (by omega), hfail, Nat.min_eq_left (by omega), range_succ_map]
      simp
  | succ d ih =>
    intro fuel k start len hf hok hfail hlen
    cases fuel with
    | zero => omega
    | succ n =>
      unfold netfs_unbuffered_chunks
      rw [Nat.succ_mul] at hlen
      have hWlen : W < len := by omega
      rw [if_neg (by omega), hok k (Nat.le_refl _) (by omega), Nat.min_eq_left (by omega)]
      simp only [Bool.false_eq_true, if_false]
      rw [ih n (k + 1) (start + W) (len - W) (by omega)
        (fun j h1 h2 => hok j (by omega) (by omega))
        (by rw [show k + 1 + d = k + (d + 1) by omega]; exact hfail)
        (by omega)]
      rw [range_succ_map (fun i => (start + i * W, W)) (d + 1)]
      simp only [Nat.zero_mul, Nat.add_zero]
      congr 1
      apply List.map_congr_left
      intro i _
      rw [Nat.succ_mul]
      congr 1
      omega

theorem total_len_extents (st : netfs_io_stream) :
    st.total_len = (st.extents.map (fun e => e.2)).sum := by
  unfold netfs_io_stream.total_len netfs_io_stream.extents
  rw [List.map_map]
  rfl

theorem issue_events_ranges (st : netfs_io_stream) (s : Nat) :
    (st.issue_events s).filterMap (fun e => match e with
        | netfs_event.issue_write _ q => some (q.start, q.len)
        | netfs_event.write_subrequest_terminated q _ => some (q.start, q.len)
        | _ => none) = st.open_range := by
  unfold netfs_io_stream.issue_events netfs_io_stream.open_range
  cases st.construct with
  | none => rfl
  | some i =>
    simp only []
    rw [issued_ranges_dispatch]
    rfl

/-- C19: an unbuffered write of `L > 0` bytes on a request whose upload stream
is available, has no construct and gives every subrequest the length limit
`W >= 1`, where no stream has a construct and `NETFS_RREQ_FAILED` is not set at
entry.  `netfs_unbuffered_write` returns 0; the subrequests it has added to the
upload stream are the chunks, in order, and each has been handed to
`netfs_do_issue_write`, in that order; the stream has no construct left.  If
`NETFS_RREQ_FAILED` is never seen there are `ceil(L / W)` chunks, the one of
index `i` covering `min W (L - i * W)` bytes from `start + i * W`, `L` bytes in
all.  If it is first seen after pass `d`, with more than `d + 1` chunks of `W`
bytes to write, the loop stops there: `d + 1` chunks of `W` bytes, fewer than
`L` bytes in all.  Whether `NETFS_RREQ_PAUSE` is seen makes no difference. -/
theorem netfs_unbuffered_write_chunks (view : collector_view) (fuel : Nat)
    (w : netfs_io_request) (L W : Nat) (hL : 0 < L) (hW : 1 ≤ W) (hr : unbuffered_ready w W)
    (hc0 : w.io_streams0.construct = none) (hc1 : w.io_streams1.construct = none)
    (hact : w.io_streams0.subrequests.isEmpty = false → w.io_streams0.active = true)
    (hrange : w.start + L < U64) (hfuel : L < fuel) (hnf : w.NETFS_RREQ_FAILED = false) :
    ∃ w', netfs_unbuffered_write view fuel w L = some (w', 0) ∧
      w'.io_streams0.construct = none ∧
      w'.io_streams0.extents = w.io_streams0.extents ++
        netfs_unbuffered_chunks view.failed W fuel 0 w.start L ∧
      w'.issued_ranges = w.issued_ranges ++
        netfs_unbuffered_chunks view.failed W fuel 0 w.start L ∧
      ((∀ k, view.failed k = false) →
        netfs_unbuffered_chunks view.failed W fuel 0 w.start L =
          (List.range ((L + W - 1) / W)).map
            (fun i => (w.start + i * W, min W (L - i * W))) ∧
        w'.io_streams0.total_len = w.io_streams0.total_len + L) ∧
      (∀ d, (∀ j, j < d → view.failed j = false) → view.failed d = true → (d + 1) * W < L →
        netfs_unbuffered_chunks view.failed W fuel 0 w.start L =
          (List.range (d + 1)).map (fun i => (w.start + i * W, W)) ∧
        w'.io_streams0.total_len = w.io_streams0.total_len + (d + 1) * W ∧
        (d + 1) * W < L) := by
  unfold netfs_unbuffered_write
  simp only []
  have h0 : ∀ w0 : netfs_io_request,
      w0 = (if w.origin = netfs_io_origin.NETFS_DIO_WRITE
        then w.emit netfs_event.inode_dio_begin else w) →
      w0.io_streams0 = w.io_streams0 ∧ w0.io_streams1 = w.io_streams1 ∧ w0.wsize = w.wsize ∧
      w0.start = w.start ∧ w0.NETFS_RREQ_FAILED = w.NETFS_RREQ_FAILED ∧
      w0.issued_ranges = w.issued_ranges := by
    intro w0 h
    rw [h]
    split
    · refine ⟨rfl, rfl, rfl, rfl, rfl, ?_⟩
      unfold netfs_io_request.issued_ranges
      show List.filterMap _ (w.events ++ [netfs_event.inode_dio_begin]) = _
      rw [List.filterMap_append]
      simp
    · exact ⟨rfl, rfl, rfl, rfl, rfl, rfl⟩
  obtain ⟨a0, a1, aw, as, af, ai⟩ := h0 _ rfl
  generalize (if w.origin = netfs_io_origin.NETFS_DIO_WRITE
        then w.emit netfs_event.inode_dio_begin else w) = w0 at *
  have hr0 : unbuffered_ready w0 W := by
    obtain ⟨r1, r2, r3, r4⟩ := hr
    refine ⟨by rw [a0]; exact r1, by rw [a0]; exact r2, by rw [a0, aw]; exact r3, ?_⟩
    intro q
    rw [a0, aw]
    exact r4 q
  obtain ⟨w1, hrun, q1, q2, q3, q4⟩ := unbuffered_loop view W hW fuel 0 w0 w0.start L hr0
    (by rw [a0]; exact hc0) (by rw [as]; exact hrange) hfuel (af.trans hnf)
    (by rw [a0]; exact hact)
  rw [hrun]
  simp only []
  rw [a0, as] at q1
  rw [ai, as] at q2
  rw [a1] at q3
  have hact1 := q4 hL
  have hs0 : (netfs_end_issue_write w1).io_streams0 = w1.io_streams0.issued := by
    have := end_issue_write_stream_eq w1 0
    rw [stream_zero, stream_zero, if_pos hact1] at this
    exact this
  have hext : (netfs_end_issue_write w1).io_streams0.extents = w.io_streams0.extents ++
      netfs_unbuffered_chunks view.failed W fuel 0 w.start L := by
    rw [hs0, issued_extents, q1]
  have htot : (netfs_end_issue_write w1).io_streams0.total_len =
      w.io_streams0.total_len +
        ((netfs_unbuffered_chunks view.failed W fuel 0 w.start L).map (fun e => e.2)).sum := by
    rw [total_len_extents, hext, List.map_append, List.sum_append, ← total_len_extents]
  refine ⟨_, rfl, by rw [hs0]; exact issued_construct _, hext, ?_, ?_, ?_⟩
  · have hev := end_issue_write_events w1
    rw [if_pos hact1] at hev
    have hie1 : (if w1.io_streams1.active = true then w1.io_streams1.issue_events 1 else []) =
        [] := by
      split
      · exact issue_events_none _ _ (by rw [q3]; exact hc1)
      · rfl
    rw [hie1, List.append_nil, List.append_assoc] at hev
    rw [issued_ranges_append w1 _ _ hev, List.filterMap_append, issue_events_ranges,
      ← List.append_assoc, q2]
    have : (if (!(w1.io_streams0.active && !w1.io_streams0.subrequests.isEmpty) &&
          !(w1.io_streams1.active && !w1.io_streams1.subrequests.isEmpty)) = true
        then [netfs_event.wake_collector] else []).filterMap (fun e => match e with
        | netfs_event.issue_write _ q => some (q.start, q.len)
        | netfs_event.write_subrequest_terminated q _ => some (q.start, q.len)
        | _ => none) = [] := by
      split <;> rfl
    rw [this, List.append_nil]
  · intro hquiet
    refine ⟨chunks_closed view.failed W hW hquiet fuel 0 w.start L (by omega), ?_⟩
    rw [htot, chunks_sum view.failed W hW hquiet fuel 0 w.start L (by omega)]
  · intro d hbefore hfail hmore
    have hcl := chunks_failed view.failed W hW d fuel 0 w.start L (by omega)
      (fun j _ h2 => hbefore j (by omega)) (by rw [Nat.zero_add]; exact hfail) hmore
    refine ⟨hcl, ?_, hmore⟩
    rw [htot, hcl, List.map_map]
    congr 1
    have : ∀ n, ((List.range n).map ((fun e : Nat × Nat => e.2) ∘
        (fun i => (w.start + i * W, W)))).sum = n * W := by
      intro n
      induction n with
      | zero => simp
      | succ m ih =>
        rw [List.range_succ, List.map_append, List.sum_append, ih]
        simp [Nat.succ_mul]
    exact this (d + 1)

theorem example_unbuffered_ready : unbuffered_ready example_request_unbuffered 4096 := by
  refine ⟨by decide, by decide, ?_, ?_⟩
  · intro q
    simp [netfs_prepare_write_limits, example_request_unbuffered, example_request_nocache,
      example_request, netfs_io_stream.zero, U64, U32, INT_MAX]
  · intro q
    simp [netfs_prepare_write_limits, example_request_unbuffered, example_request_nocache,
      example_request, netfs_io_stream.zero]

/-- An unbuffered write of 10000 bytes at 8192 with a write size of 4096 bytes:
three subrequests, all dispatched, when the request does not fail, and two when
`NETFS_RREQ_FAILED` is seen after the second pass. -/
theorem example_unbuffered_evaluates :
    (netfs_unbuffered_write example_view_quiet 4 example_request_unbuffered 10000).map
        (fun r => (r.1.io_streams0.extents, r.1.issued_ranges, r.1.io_streams0.construct, r.2)) =
      some ([(8192, 4096), (12288, 4096), (16384, 1808)],
        [(8192, 4096), (12288, 4096), (16384, 1808)], none, 0) ∧
    (netfs_unbuffered_write example_view_failing 4 example_request_unbuffered 10000).map
        (fun r => (r.1.io_streams0.extents, r.1.issued_ranges, r.1.io_streams0.construct, r.2)) =
      some ([(8192, 4096), (12288, 4096)], [(8192, 4096), (12288, 4096)], none, 0) := by
  refine ⟨by rfl, by rfl⟩

theorem netfs_unbuffered_write_chunks_witness :
    ∃ w', netfs_unbuffered_write example_view_failing 10001 example_request_unbuffered 10000 =
        some (w', 0) ∧
      w'.io_streams0.construct = none ∧
      w'.io_streams0.extents = example_request_unbuffered.io_streams0.extents ++
        netfs_unbuffered_chunks example_view_failing.failed 4096 10001 0
          example_request_unbuffered.start 10000 ∧
      w'.issued_ranges = example_request_unbuffered.issued_ranges ++
        netfs_unbuffered_chunks example_view_failing.failed 4096 10001 0
          example_request_unbuffered.start 10000 ∧
      ((∀ k, example_view_failing.failed k = false) →
        netfs_unbuffered_chunks example_view_failing.failed 4096 10001 0
            example_request_unbuffered.start 10000 =
          (List.range ((10000 + 4096 - 1) / 4096)).map
            (fun i => (example_request_unbuffered.start + i * 4096,
              min 4096 (10000 - i * 4096))) ∧
        w'.io_streams0.total_len = example_request_unbuffered.io_streams0.total_len + 10000) ∧
      (∀ d, (∀ j, j < d → example_view_failing.failed j = false) →
        example_view_failing.failed d = true → (d + 1) * 4096 < 10000 →
        netfs_unbuffered_chunks example_view_failing.failed 4096 10001 0
            example_request_unbuffered.start 10000 =
          (List.range (d + 1)).map (fun i => (example_request_unbuffered.start + i * 4096, 4096)) ∧
        w'.io_streams0.total_len =
          example_request_unbuffered.io_streams0.total_len + (d + 1) * 4096 ∧
        (d + 1) * 4096 < 10000) :=
  netfs_unbuffered_write_chunks example_view_failing 10001 example_request_unbuffered 10000
    4096 (by decide) (by decide) example_unbuffered_ready (by decide) (by decide) (by decide)
    (by decide) (by decide) (by decide)

/-! ## `begin_writeback` in `netfs_writeback_single` -/

/-- Whatever `netfs_write_folio_single` returns, it has only appended calls of
the builder and the planner to the record and has left
`NETFS_RREQ_UPLOAD_TO_SERVER` alone. -/
theorem write_folio_single_appends (fuel : Nat) (w : netfs_io_request) (f : folio)
    (r : netfs_io_request × Int) (h : netfs_write_folio_single fuel w f = some r) :
    planner_appends w r.1 ∧
    r.1.NETFS_RREQ_UPLOAD_TO_SERVER = w.NETFS_RREQ_UPLOAD_TO_SERVER := by
  unfold netfs_write_folio_single at h
  simp only [] at h
  have a1 := cond_emit_appends (f.size > wrap_sub U64 w.i_size f.pos) w
    (netfs_event.folio_zero_segment f (if f.size > wrap_sub U64 w.i_size f.pos
      then wrap_sub U64 w.i_size f.pos else f.size) f.size) rfl
  obtain ⟨f1, _⟩ := cond_emit_frame (f.size > wrap_sub U64 w.i_size f.pos) w
    (netfs_event.folio_zero_segment f (if f.size > wrap_sub U64 w.i_size f.pos
      then wrap_sub U64 w.i_size f.pos else f.size) f.size)
  generalize (if f.size > wrap_sub U64 w.i_size f.pos then
      w.emit (netfs_event.folio_zero_segment f (if f.size > wrap_sub U64 w.i_size f.pos
        then wrap_sub U64 w.i_size f.pos else f.size) f.size) else w) = w1 at *
  split at h
  · have := Option.some.inj h
    subst this
    exact ⟨a1, f1.upload_to_server⟩
  · split at h
    · exact Option.noConfusion h
    · rename_i q hl
      have := Option.some.inj h
      subst this
      have hf := loop_frame _ _ _ _ _ _ _ hl
      have ha := loop_appends _ _ _ _ _ _ _ hl
      have a2 : planner_appends w1 q.1 := by
        refine planner_appends_trans ?_ ha
        refine planner_appends_of_events
          [netfs_event.folio_get f, netfs_event.rolling_buffer_append f] ?_ ?_
        · show (w1.events ++ [netfs_event.folio_get f]) ++ [netfs_event.rolling_buffer_append f] = _
          simp only [List.append_assoc, List.singleton_append]
        · intro e he
          rcases List.mem_cons.1 he with h1 | h1
          · rw [h1]; rfl
          · rw [List.mem_singleton.1 h1]; rfl
      have a3 : planner_appends q.1 (atomic64_set_issued_to
          (if f.size > q.2 then rolling_buffer_advance q.1 (f.size - q.2) else q.1)
          (f.pos + f.size)) := by
        refine planner_appends_trans ?_ (atomic64_set_issued_to_appends _ _)
        split
        · exact rolling_buffer_advance_appends _ _
        · exact planner_appends_refl _
      have f3 : (atomic64_set_issued_to
          (if f.size > q.2 then rolling_buffer_advance q.1 (f.size - q.2) else q.1)
          (f.pos + f.size)).NETFS_RREQ_UPLOAD_TO_SERVER = q.1.NETFS_RREQ_UPLOAD_TO_SERVER := by
        split <;> rfl
      exact ⟨planner_appends_trans a1 (planner_appends_trans a2 a3),
        f3.trans (hf.upload_to_server.trans f1.upload_to_server)⟩

/-- The loop of `netfs_writeback_single` makes calls of the builder and planner
only and leaves `NETFS_RREQ_UPLOAD_TO_SERVER` alone. -/
theorem writeback_single_loop_appends (fuel : Nat) :
    ∀ (fs : List folio) (w : netfs_io_request) (size : Nat) (ret : Int)
      (r : netfs_io_request × Int),
    netfs_writeback_single_loop fuel w fs size ret = some r →
    planner_appends w r.1 ∧
    r.1.NETFS_RREQ_UPLOAD_TO_SERVER = w.NETFS_RREQ_UPLOAD_TO_SERVER := by
  intro fs
  induction fs with
  | nil =>
    intro w size ret r h
    have := Option.some.inj h
    subst this
    exact ⟨planner_appends_refl _, rfl⟩
  | cons f fs ih =>
    intro w size ret r h
    unfold netfs_writeback_single_loop at h
    simp only [] at h
    cases hw : netfs_write_folio_single fuel w f with
    | none => rw [hw] at h; exact Option.noConfusion h
    | some q =>
      rw [hw] at h
      simp only [] at h
      obtain ⟨hq1, hq2⟩ := write_folio_single_appends fuel w f q hw
      by_cases hneg : q.2 < 0
      · rw [if_pos hneg] at h
        have := Option.some.inj h
        subst this
        exact ⟨hq1, hq2⟩
      · rw [if_neg hneg] at h
        by_cases hz : wrap_sub U64 size (umin f.size size) = 0
        · rw [if_pos hz] at h
          have := Option.some.inj h
          subst this
          exact ⟨hq1, hq2⟩
        · rw [if_neg hz] at h
          obtain ⟨h1, h2⟩ := ih _ _ _ _ h
          exact ⟨planner_appends_trans hq1 h1, h2.trans hq2⟩

/-- C21 (evaluated on the code): whatever `netfs_writeback_single` returns with
a request, the backend's `begin_writeback` hook has not been called on that
request, although `NETFS_RREQ_UPLOAD_TO_SERVER` is set in it: the flag is clear
in the request `netfs_create_write_req` returns, `__test_and_set_bit` returns
that old value, and the hook is called only when the value is true.  The claim
expects exactly one call. -/
theorem netfs_writeback_single_begin_writeback (ictx : netfs_inode) (ua : Bool) (fuel : Nat)
    (fs : List folio) (size : Nat) (ret0 : Int) (r : driver_result) (w' : netfs_io_request)
    (h : netfs_writeback_single ictx ua fuel fs size ret0 = some r) (hw : r.wreq = some w') :
    w'.hook_calls = 0 ∧ w'.NETFS_RREQ_UPLOAD_TO_SERVER = true := by
  unfold netfs_writeback_single at h
  simp only [] at h
  cases hc : netfs_create_write_req ictx 0 netfs_io_origin.NETFS_WRITEBACK_SINGLE with
  | error e =>
    rw [hc] at h
    have := Option.some.inj h
    subst this
    exact Option.noConfusion hw
  | ok wc =>
    rw [hc] at h
    simp only [] at h
    obtain ⟨hflag, hev⟩ := create_write_req_fresh _ _ _ _ hc
    rw [hflag] at h
    simp only [Bool.false_eq_true, if_false] at h
    cases hl : netfs_writeback_single_loop fuel
        { wc with NETFS_RREQ_OFFLOAD_COLLECTION := true, NETFS_RREQ_UPLOAD_TO_SERVER := true }
        fs size ret0 with
    | none => rw [hl] at h; exact Option.noConfusion h
    | some q =>
      rw [hl] at h
      have := Option.some.inj h
      subst this
      have := Option.some.inj hw
      subst this
      obtain ⟨ha, hu⟩ := writeback_single_loop_appends fuel fs _ size ret0 q hl
      have hq : q.1.hook_calls = 0 := by
        rw [hook_calls_appends ha]
        unfold netfs_io_request.hook_calls
        show wc.events.count _ = 0
        rw [hev]
        rfl
      have hi := planner_appends_trans (issue_appends q.1 0)
        (issue_appends (netfs_issue_write q.1 0) 1)
      refine ⟨?_, ?_⟩
      · have hlast : (({ netfs_issue_write (netfs_issue_write q.1 0) 1 with
            NETFS_RREQ_ALL_QUEUED := true } : netfs_io_request).emit
              netfs_event.wake_collector).events =
            (netfs_issue_write (netfs_issue_write q.1 0) 1).events ++
              [netfs_event.wake_collector] := rfl
        rw [hook_calls_tail hlast (by decide), hook_calls_appends hi, hq]
      · show (netfs_issue_write (netfs_issue_write q.1 0) 1).NETFS_RREQ_UPLOAD_TO_SERVER = true
        rw [(issue_frame _ 1).upload_to_server, (issue_frame _ 0).upload_to_server, hu]

theorem netfs_writeback_single_begin_writeback_witness :
    ∃ (r : driver_result) (w' : netfs_io_request),
      netfs_writeback_single example_inode true 8 [example_folio0] 4096 0 = some r ∧
      r.wreq = some w' ∧ w'.hook_calls = 0 ∧ w'.NETFS_RREQ_UPLOAD_TO_SERVER = true := by
  obtain ⟨r, hr⟩ := Option.isSome_iff_exists.1
    (show (netfs_writeback_single example_inode true 8 [example_folio0] 4096 0).isSome = true
      from rfl)
  obtain ⟨w', hw⟩ := Option.isSome_iff_exists.1
    (show ((netfs_writeback_single example_inode true 8 [example_folio0] 4096 0).bind
      (fun r => r.wreq)).isSome = true from rfl)
  rw [hr] at hw
  exact ⟨r, w', hr, hw,
    netfs_writeback_single_begin_writeback example_inode true 8 [example_folio0] 4096 0 r w' hr hw⟩

/-- The payload of one page on the example inode: the hook is not called, the
upload stream is never made available, and the page goes to the cache only. -/
theorem example_writeback_single_evaluates :
    (netfs_writeback_single example_inode true 8 [example_folio0] 4096 0).map
      (fun r => (r.ret, r.wreq.map (fun w =>
        (w.hook_calls, w.NETFS_RREQ_UPLOAD_TO_SERVER, w.io_streams0.avail,
          w.io_streams0.extents, w.io_streams1.extents)))) =
    some (0, some (0, true, false, [], [(0, 4096)])) := by
  rfl

/-! ## A planner error in `netfs_writepages` -/

/-- The request `netfs_create_write_req` returns: the upload stream is not
available, and the cache stream is available and active exactly when the origin
is cacheable, the cache is enabled and its resources are valid. -/
theorem create_write_req_streams (ictx : netfs_inode) (start : Nat) (origin : netfs_io_origin)
    (w : netfs_io_request) (h : netfs_create_write_req ictx start origin = Except.ok w) :
    w.io_streams0.avail = false ∧ w.io_streams0.active = false ∧
    w.io_streams0.subrequests = [] ∧ w.io_streams1.subrequests = [] ∧
    w.io_streams0.construct = none ∧ w.io_streams1.construct = none ∧
    w.io_streams1.avail =
      ((origin = netfs_io_origin.NETFS_WRITEBACK ||
        origin = netfs_io_origin.NETFS_WRITEBACK_SINGLE ||
        origin = netfs_io_origin.NETFS_WRITETHROUGH ||
        origin = netfs_io_origin.NETFS_PGPRIV2_COPY_TO_CACHE) &&
        ictx.cache_enabled && ictx.cache_begins) ∧
    w.io_streams1.active = w.io_streams1.avail := by
  unfold netfs_create_write_req netfs_alloc_request at h
  simp only [] at h
  cases ha : ictx.alloc_error with
  | some e => rw [ha] at h; exact Except.noConfusion h
  | none =>
    rw [ha] at h
    simp only [] at h
    cases hb : ictx.buffer_nomem with
    | true => rw [hb] at h; exact Except.noConfusion h
    | false =>
      rw [hb] at h
      have := Except.ok.inj h
      subst this
      refine ⟨rfl, rfl, rfl, ?_, rfl, ?_, ?_, ?_⟩
      · simp only []
        split <;> rfl
      · simp only []
        split <;> rfl
      · simp only []
        split
        · rename_i hv
          simp only [hv]
        · rename_i hv
          simp only [Bool.not_eq_true] at hv
          simp only [hv]
          rfl
      · simp only []
        split <;> rfl

/-- C23 (amended): in every request `netfs_begin_writethrough` returns, the
upload stream is marked available, and the cache stream is marked available
exactly when the cache is enabled and its resources are valid
(`netfs_create_write_req` marks it, a write-through request being cacheable);
so the upload stream is the only stream marked available exactly when they are
not.  The function returns a request whenever the allocations succeed. -/
theorem netfs_begin_writethrough_streams (ictx : netfs_inode) (ki_pos : Nat) :
    (∀ w, netfs_begin_writethrough ictx ki_pos = Except.ok w →
      w.io_streams0.avail = true ∧
      w.io_streams1.avail = (ictx.cache_enabled && ictx.cache_begins) ∧
      (w.io_streams1.avail = false ↔ ¬(ictx.cache_enabled = true ∧ ictx.cache_begins = true))) ∧
    (ictx.alloc_error = none → ictx.buffer_nomem = false →
      ∃ w, netfs_begin_writethrough ictx ki_pos = Except.ok w) := by
  refine ⟨?_, ?_⟩
  · intro w h
    unfold netfs_begin_writethrough at h
    cases hc : netfs_create_write_req ictx ki_pos netfs_io_origin.NETFS_WRITETHROUGH with
    | error e => rw [hc] at h; exact Except.noConfusion h
    | ok wc =>
      rw [hc] at h
      have := Except.ok.inj h
      subst this
      obtain ⟨_, _, _, _, _, _, h7, _⟩ := create_write_req_streams _ _ _ _ hc
      have h1 : wc.io_streams1.avail = (ictx.cache_enabled && ictx.cache_begins) := by
        rw [h7]
        simp
      refine ⟨rfl, h1, ?_⟩
      show wc.io_streams1.avail = false ↔ _
      rw [h1]
      cases ictx.cache_enabled <;> cases ictx.cache_begins <;> simp
  · intro ha hb
    unfold netfs_begin_writethrough netfs_create_write_req netfs_alloc_request
    simp only []
    rw [ha]
    simp only []
    rw [hb]
    exact ⟨_, rfl⟩

/-- C23 (as stated) fails: on the example inode, whose cache is enabled, the
request `netfs_begin_writethrough` returns has both streams marked available. -/
theorem netfs_begin_writethrough_streams_counterexample :
    match netfs_begin_writethrough example_inode 0 with
    | Except.ok w => w.io_streams0.avail = true ∧ w.io_streams1.avail = true
    | Except.error _ => False := by
  exact ⟨rfl, rfl⟩

/-- C23 (witness): on the example inode `netfs_begin_writethrough` returns a
request, with the upload stream marked available and the cache stream marked as
the cache of the inode says. -/
theorem netfs_begin_writethrough_streams_witness :
    ∃ w, netfs_begin_writethrough example_inode 0 = Except.ok w ∧
      w.io_streams0.avail = true ∧
      w.io_streams1.avail = (example_inode.cache_enabled && example_inode.cache_begins) := by
  obtain ⟨w, hw⟩ := (netfs_begin_writethrough_streams example_inode 0).2 rfl rfl
  exact ⟨w, hw, ((netfs_begin_writethrough_streams example_inode 0).1 w hw).1,
    ((netfs_begin_writethrough_streams example_inode 0).1 w hw).2.1⟩

/-! ## The meaning of `active` -/

theorem stream_keeps_refl (st : netfs_io_stream) : stream_keeps st st :=
  ⟨fun _ h => h, rfl⟩

theorem stream_keeps_trans {a b c : netfs_io_stream} (h1 : stream_keeps a b)
    (h2 : stream_keeps b c) : stream_keeps a c :=
  ⟨fun m h => h2.1 m (h1.1 m h), h2.2.trans h1.2⟩

theorem isEmpty_of_length {α β : Type} (l : List α) (l' : List β) (h : l.length = l'.length) :
    l.isEmpty = l'.isEmpty := by
  cases l with
  | nil =>
    cases l' with
    | nil => rfl
    | cons b bs => exact absurd h (by simp)
  | cons a as =>
    cases l' with
    | nil => exact absurd h (by simp)
    | cons b bs => rfl

/-- A change of a stream that leaves the length of its list, its flag `active`
and its availability alone, and gives it no construct it had not, keeps the
agreement of `active` with the list. -/
theorem stream_keeps_of_fields {st st' : netfs_io_stream}
    (h1 : st'.subrequests.length = st.subrequests.length)
    (h2 : st'.construct.isSome = true → st.construct.isSome = true)
    (h3 : st'.active = st.active) (h4 : st'.avail = st.avail) : stream_keeps st st' := by
  have he : st'.subrequests.isEmpty = st.subrequests.isEmpty := isEmpty_of_length _ _ h1
  refine ⟨fun b h => ⟨?_, ?_⟩, h4⟩
  · intro hx
    rw [h3]
    apply h.1
    rcases hx with hx | hx
    · exact Or.inl (he ▸ hx)
    · exact Or.inr (h2 hx)
  · intro ha
    rw [he]
    exact h.2 (h3 ▸ ha)

theorem issued_active (st : netfs_io_stream) : st.issued.active = st.active := by
  unfold netfs_io_stream.issued
  split <;> rfl

theorem stream_keeps_issued (st : netfs_io_stream) : stream_keeps st st.issued :=
  stream_keeps_of_fields (issued_length st)
    (fun h => by rw [issued_construct] at h; exact Bool.noConfusion h)
    (issued_active st) (issued_static st).avail

theorem stream_keeps_prepared (st : netfs_io_stream) (w : netfs_io_request) (start : Nat) :
    stream_keeps st (st.prepared w start) := by
  refine ⟨fun b h => ⟨?_, ?_⟩, (prepared_static st w start).avail⟩
  · intro _
    show (if st.subrequests.isEmpty then true else st.active) = true
    cases he : st.subrequests.isEmpty with
    | true => rfl
    | false => exact h.1 (Or.inl he)
  · intro _
    refine Or.inl ?_
    show (st.subrequests ++ [_]).isEmpty = false
    cases st.subrequests <;> rfl

theorem stream_keeps_opened (st : netfs_io_stream) (w : netfs_io_request) (start : Nat) :
    stream_keeps st (st.opened w start) := by
  unfold netfs_io_stream.opened
  split
  · exact stream_keeps_trans (stream_keeps_issued st) (stream_keeps_prepared _ w start)
  · exact stream_keeps_refl st

theorem stream_keeps_grow (st : netfs_io_stream) (len : Nat) : stream_keeps st (st.grow len) :=
  stream_keeps_of_fields (by
      unfold netfs_io_stream.grow netfs_io_stream.store
      simp only [List.length_set])
    (fun h => h) rfl rfl

theorem stream_keeps_grown (st : netfs_io_stream) (len : Nat) (to_eof : Bool) :
    stream_keeps st (st.grown len to_eof) := by
  unfold netfs_io_stream.grown
  split
  · exact stream_keeps_trans (stream_keeps_grow st len) (stream_keeps_issued _)
  · exact stream_keeps_grow st len

theorem request_keeps_refl (w : netfs_io_request) : request_keeps w w :=
  fun _ => stream_keeps_refl _

theorem request_keeps_trans {a b c : netfs_io_request} (h1 : request_keeps a b)
    (h2 : request_keeps b c) : request_keeps a c :=
  fun t => stream_keeps_trans (h1 t) (h2 t)

theorem request_keeps_of_eq {w w' : netfs_io_request} (h : ∀ t, w'.stream t = w.stream t) :
    request_keeps w w' := by
  intro t
  rw [h t]
  exact stream_keeps_refl _

/-- A change of one stream that `stream_keeps` allows. -/
theorem request_keeps_of_stream {w w' : netfs_io_request} (s : Nat)
    (hs : stream_keeps (w.stream s) (w'.stream s))
    (hne : ∀ t, ¬(s = 0 ↔ t = 0) → w'.stream t = w.stream t) : request_keeps w w' := by
  intro t
  by_cases h : s = 0 ↔ t = 0
  · rw [stream_eq_of_iff w s t h, stream_eq_of_iff w' s t h]
    exact hs
  · rw [hne t h]
    exact stream_keeps_refl _

theorem request_keeps_emit (w : netfs_io_request) (e : netfs_event) :
    request_keeps w (w.emit e) :=
  request_keeps_of_eq (fun t => stream_emit w e t)

theorem request_keeps_cond_emit (c : Prop) [Decidable c] (w : netfs_io_request)
    (e : netfs_event) : request_keeps w (if c then w.emit e else w) := by
  split
  · exact request_keeps_emit w e
  · exact request_keeps_refl w

theorem request_keeps_issue (w : netfs_io_request) (s : Nat) :
    request_keeps w (netfs_issue_write w s) :=
  request_keeps_of_stream s (by rw [issue_stream]; exact stream_keeps_issued _)
    (fun t h => issue_stream_ne w s t h)

theorem request_keeps_cond_issue (c : Prop) [Decidable c] (w : netfs_io_request) (s : Nat) :
    request_keeps w (if c then netfs_issue_write w s else w) := by
  split
  · exact request_keeps_issue w s
  · exact request_keeps_refl w

theorem request_keeps_prepare (w : netfs_io_request) (s start : Nat) :
    request_keeps w (netfs_prepare_write w s start) :=
  request_keeps_of_stream s (by rw [prepare_stream]; exact stream_keeps_prepared _ _ _)
    (fun t h => prepare_stream_ne w s t start h)

theorem request_keeps_advance (w : netfs_io_request) (s start len : Nat) (to_eof : Bool) :
    request_keeps w (netfs_advance_write w s start len to_eof).1 := by
  cases hav : (w.stream s).avail with
  | false =>
    rw [advance_unavailable w s start len to_eof hav]
    exact request_keeps_refl w
  | true =>
    refine request_keeps_of_stream s ?_ (fun t h => advance_stream_ne w s t start len to_eof h)
    rw [advance_stream w s start len to_eof hav]
    exact stream_keeps_trans (stream_keeps_opened _ w start) (stream_keeps_grown _ len to_eof)

theorem request_keeps_reissue (w : netfs_io_request) (s i : Nat) (source : iov_iter) :
    request_keeps w (netfs_reissue_write w s i source).1 := by
  unfold netfs_reissue_write
  simp only []
  have hst : ∀ (x : netfs_io_request) (q : netfs_io_subrequest) (t : Nat),
      (netfs_do_issue_write x s q).stream t = x.stream t := by
    intro x q t
    unfold netfs_do_issue_write
    split <;> exact stream_emit _ _ _
  refine request_keeps_of_stream s ?_ ?_
  · rw [hst, stream_set_stream]
    exact stream_keeps_of_fields (by
        unfold netfs_io_stream.store
        simp only [List.length_set])
      (fun h => h) rfl rfl
  · intro t h
    rw [hst, stream_set_stream_ne _ _ _ _ h]

theorem request_keeps_step (fpos fsize : Nat) (to_eof : Bool) (w : netfs_io_request)
    (iter_off s : Nat) :
    request_keeps w (netfs_write_folio_step fpos fsize to_eof w iter_off s).1 := by
  rw [step_eq]
  simp only []
  have h1 : request_keeps w (netfs_write_folio_step_pre fpos fsize w iter_off s) :=
    request_keeps_of_stream s (by
        rw [step_pre_stream]
        exact stream_keeps_of_fields rfl (fun h => h) rfl rfl)
      (fun t h => step_pre_stream_ne fpos fsize w iter_off s t h)
  generalize netfs_write_folio_step_pre fpos fsize w iter_off s = pre at *
  have h2 := request_keeps_advance pre s (fpos + (w.stream s).submit_off)
    (w.stream s).submit_len to_eof
  generalize netfs_advance_write pre s (fpos + (w.stream s).submit_off)
    (w.stream s).submit_len to_eof = r at *
  have h3 : request_keeps r.1 (r.1.set_stream s (netfs_submit_advance (r.1.stream s) r.2)) :=
    request_keeps_of_stream s (by
        rw [stream_set_stream]
        exact stream_keeps_of_fields rfl (fun h => h) rfl rfl)
      (fun t h => stream_set_stream_ne _ _ _ _ h)
  exact request_keeps_trans h1 (request_keeps_trans h2 h3)

theorem request_keeps_loop (fpos fsize : Nat) (to_eof : Bool) :
    ∀ (fuel : Nat) (w : netfs_io_request) (iter_off : Nat) (r : netfs_io_request × Nat),
    netfs_write_folio_loop fpos fsize to_eof fuel w iter_off = some r → request_keeps w r.1 := by
  intro fuel
  induction fuel with
  | zero => intro w io r h; exact Option.noConfusion h
  | succ n ih =>
    intro w io r h
    unfold netfs_write_folio_loop at h
    cases hch : netfs_choose_stream w with
    | none =>
      rw [hch] at h
      have := Option.some.inj h
      subst this
      exact request_keeps_refl w
    | some s =>
      rw [hch] at h
      exact request_keeps_trans (request_keeps_step fpos fsize to_eof w io s) (ih _ _ r h)

theorem set_submit_keeps (st : netfs_io_stream) (foff flen : Nat) (streamw : Bool)
    (g : netfs_group_ptr) : stream_keeps st (netfs_set_submit st foff flen streamw g) := by
  unfold netfs_set_submit
  split <;> exact stream_keeps_of_fields rfl (fun h => h) rfl rfl

theorem request_keeps_finish (w : netfs_io_request) (f : folio) (x : folio_extent) (io : Nat) :
    request_keeps w (netfs_write_folio_finish w f x io) := by
  unfold netfs_write_folio_finish
  simp only []
  have h1 : request_keeps w
      (if f.size > io then rolling_buffer_advance w (f.size - io) else w) := by
    split
    · exact request_keeps_of_eq (fun _ => rfl)
    · exact request_keeps_refl w
  generalize (if f.size > io then rolling_buffer_advance w (f.size - io) else w) = w1 at *
  have h2 : request_keeps w1 (atomic64_set_issued_to w1 (f.pos + f.size)) :=
    request_keeps_of_eq (fun _ => rfl)
  generalize atomic64_set_issued_to w1 (f.pos + f.size) = w2 at *
  split
  · exact request_keeps_trans h1 (request_keeps_trans h2
      (request_keeps_trans (request_keeps_issue w2 0) (request_keeps_issue _ 1)))
  · exact request_keeps_trans h1 h2

theorem request_keeps_submit (fuel : Nat) (w : netfs_io_request) (f : folio) (x : folio_extent)
    (r : netfs_io_request × Int) (h : netfs_write_folio_submit fuel w f x = some r) :
    request_keeps w r.1 := by
  unfold netfs_write_folio_submit at h
  simp only [] at h
  have k1 : request_keeps w (rolling_buffer_append w f) := request_keeps_of_eq (fun _ => rfl)
  generalize rolling_buffer_append w f = w1 at *
  have k2 : request_keeps w1 { w1 with
      io_streams0 := netfs_set_submit w1.io_streams0 x.foff x.flen x.streamw f.group,
      io_streams1 := netfs_set_submit w1.io_streams1 x.foff x.flen x.streamw f.group } := by
    intro t
    rw [set_submit_both_stream]
    exact set_submit_keeps _ _ _ _ _
  generalize ({ w1 with
      io_streams0 := netfs_set_submit w1.io_streams0 x.foff x.flen x.streamw f.group,
      io_streams1 := netfs_set_submit w1.io_streams1 x.foff x.flen x.streamw f.group } :
      netfs_io_request) = w2 at *
  cases hl : netfs_write_folio_loop f.pos f.size x.to_eof fuel w2 0 with
  | none => rw [hl] at h; exact Option.noConfusion h
  | some q =>
    rw [hl] at h
    have := Option.some.inj h
    subst this
    exact request_keeps_trans k1 (request_keeps_trans k2
      (request_keeps_trans (request_keeps_loop _ _ _ _ _ _ _ hl)
        (request_keeps_finish q.1 f x q.2)))

theorem request_keeps_accepted (fuel : Nat) (w : netfs_io_request) (f : folio) (x : folio_extent)
    (r : netfs_io_request × Int) (h : netfs_write_folio_accepted fuel w f x = some r) :
    request_keeps w r.1 := by
  unfold netfs_write_folio_accepted at h
  simp only [] at h
  have k3 := request_keeps_cond_issue (x.foff > 0) w 0
  generalize (if x.foff > 0 then netfs_issue_write w 0 else w) = w3 at *
  have k4 := request_keeps_cond_issue (x.streamw = true) w3 1
  generalize (if x.streamw = true then netfs_issue_write w3 1 else w3) = w4 at *
  have k5 := request_keeps_cond_emit (w4.origin = netfs_io_origin.NETFS_WRITEBACK) w4
    (netfs_event.folio_start_writeback f)
  generalize (if w4.origin = netfs_io_origin.NETFS_WRITEBACK
    then w4.emit (netfs_event.folio_start_writeback f) else w4) = w5 at *
  have k6 := request_keeps_emit w5 (netfs_event.folio_unlock f)
  generalize w5.emit (netfs_event.folio_unlock f) = w6 at *
  have k := request_keeps_trans (request_keeps_trans (request_keeps_trans k3 k4) k5) k6
  split at h
  · split at h
    · have := Option.some.inj h
      subst this
      exact request_keeps_trans k (request_keeps_trans (request_keeps_issue w6 0)
        (request_keeps_emit _ _))
    · exact request_keeps_trans k (request_keeps_submit fuel w6 f x r h)
  · split at h
    · have := Option.some.inj h
      subst this
      exact request_keeps_trans k (request_keeps_emit _ _)
    · exact request_keeps_trans k (request_keeps_submit fuel w6 f x r h)

theorem request_keeps_extent (w : netfs_io_request) (f : folio) :
    request_keeps w (netfs_write_folio_extent w f).1 :=
  request_keeps_of_eq (extent_frame w f).2

theorem request_keeps_planned (fuel : Nat) (w : netfs_io_request) (f : folio)
    (r : netfs_io_request × Int) (h : netfs_write_folio_planned fuel w f = some r) :
    request_keeps w r.1 := by
  unfold netfs_write_folio_planned at h
  by_cases he : f.pos ≥ w.inode_i_size
  · rw [if_pos he] at h
    have := Option.some.inj h
    subst this
    apply request_keeps_of_eq
    intro t
    unfold netfs_io_request.stream
    split <;> rfl
  · rw [if_neg he] at h
    simp only [] at h
    have k1 : request_keeps w
        (if f.pos + f.size > w.i_size then { w with i_size := w.inode_i_size } else w) := by
      split
      · exact request_keeps_of_eq (fun _ => rfl)
      · exact request_keeps_refl w
    generalize (if f.pos + f.size > w.i_size then { w with i_size := w.inode_i_size }
        else w) = w1 at *
    have k2 := request_keeps_extent w1 f
    generalize netfs_write_folio_extent w1 f = e at *
    have k := request_keeps_trans k1 k2
    split at h
    · exact request_keeps_trans k (request_keeps_trans (request_keeps_issue e.1 0)
        (request_keeps_accepted fuel _ f e.2 r h))
    · split at h
      · have := Option.some.inj h
        subst this
        exact request_keeps_trans k (request_keeps_trans (request_keeps_emit _ _)
          (request_keeps_trans (request_keeps_emit _ _)
            (request_keeps_trans (request_keeps_issue _ 0) (request_keeps_issue _ 1))))
      · exact request_keeps_trans k (request_keeps_accepted fuel _ f e.2 r h)

theorem request_keeps_write_folio (fuel : Nat) (w : netfs_io_request) (f : folio)
    (r : netfs_io_request × Int) (h : netfs_write_folio fuel w f = some r) :
    request_keeps w r.1 := by
  unfold netfs_write_folio at h
  split at h
  · have := Option.some.inj h
    subst this
    exact request_keeps_refl w
  · have k := request_keeps_planned fuel
      { w with buffer := (rolling_buffer_make_space w.buffer).1 } f r h
    exact request_keeps_trans (request_keeps_of_eq (fun _ => rfl)) k

theorem request_keeps_write_folio_single (fuel : Nat) (w : netfs_io_request) (f : folio)
    (r : netfs_io_request × Int) (h : netfs_write_folio_single fuel w f = some r) :
    request_keeps w r.1 := by
  unfold netfs_write_folio_single at h
  simp only [] at h
  have k1 := request_keeps_cond_emit (f.size > wrap_sub U64 w.i_size f.pos) w
    (netfs_event.folio_zero_segment f (if f.size > wrap_sub U64 w.i_size f.pos
      then wrap_sub U64 w.i_size f.pos else f.size) f.size)
  generalize (if f.size > wrap_sub U64 w.i_size f.pos then
      w.emit (netfs_event.folio_zero_segment f (if f.size > wrap_sub U64 w.i_size f.pos
        then wrap_sub U64 w.i_size f.pos else f.size) f.size) else w) = w1 at *
  split at h
  · have := Option.some.inj h
    subst this
    exact k1
  · split at h
    · exact Option.noConfusion h
    · rename_i q hl
      have := Option.some.inj h
      subst this
      have k2 := request_keeps_loop _ _ _ _ _ _ _ hl
      refine request_keeps_trans k1 (request_keeps_trans ?_ (request_keeps_trans k2 ?_))
      · intro t
        unfold netfs_io_request.stream
        split
        · show stream_keeps w1.io_streams0 _
          simp only []
          split <;> exact stream_keeps_of_fields rfl (fun h => h) rfl rfl
        · show stream_keeps w1.io_streams1 _
          simp only []
          split <;> exact stream_keeps_of_fields rfl (fun h => h) rfl rfl
      · refine request_keeps_trans ?_ (request_keeps_of_eq (fun _ => rfl))
        split
        · exact request_keeps_of_eq (fun _ => rfl)
        · exact request_keeps_refl _

theorem request_keeps_end_issue_write (w : netfs_io_request) :
    request_keeps w (netfs_end_issue_write w) := by
  intro t
  rw [end_issue_write_stream_eq]
  split
  · exact stream_keeps_issued _
  · exact stream_keeps_refl _

theorem sound_of_keeps {w w' : netfs_io_request} (h : netfs_active_sound w)
    (k : request_keeps w w') : netfs_active_sound w' := by
  have k0 := k 0
  have k1 := k 1
  simp only [stream_zero, stream_one] at k0 k1
  refine ⟨k0.1 false h.1, ?_⟩
  rw [k1.2]
  exact k1.1 _ h.2

theorem sound_of_streams {w w' : netfs_io_request} (h : netfs_active_sound w)
    (h0 : w'.io_streams0 = w.io_streams0) (h1 : w'.io_streams1 = w.io_streams1) :
    netfs_active_sound w' := by
  unfold netfs_active_sound
  rw [h0, h1]
  exact h

theorem sound_begin_writeback (ua : Bool) (w : netfs_io_request) (h : netfs_active_sound w) :
    netfs_active_sound (netfs_begin_writeback ua
      { w with NETFS_RREQ_UPLOAD_TO_SERVER := true }) :=
  ⟨h.1, h.2⟩

theorem sound_create (ictx : netfs_inode) (start : Nat) (origin : netfs_io_origin)
    (w : netfs_io_request) (h : netfs_create_write_req ictx start origin = Except.ok w) :
    netfs_active_sound w := by
  obtain ⟨_, h2, h3, h4, h5, h6, _, h8⟩ := create_write_req_streams ictx start origin w h
  refine ⟨⟨?_, ?_⟩, ⟨?_, ?_⟩⟩
  · intro hx
    rw [h3, h5] at hx
    rcases hx with hx | hx <;> exact Bool.noConfusion hx
  · intro ha
    rw [h2] at ha
    exact Bool.noConfusion ha
  · intro hx
    rw [h4, h6] at hx
    rcases hx with hx | hx <;> exact Bool.noConfusion hx
  · intro ha
    rw [h8] at ha
    exact Or.inr ha

theorem sound_begin_writethrough (ictx : netfs_inode) (ki_pos : Nat) (w : netfs_io_request)
    (h : netfs_begin_writethrough ictx ki_pos = Except.ok w) : netfs_active_sound w := by
  unfold netfs_begin_writethrough at h
  cases hc : netfs_create_write_req ictx ki_pos netfs_io_origin.NETFS_WRITETHROUGH with
  | error e => rw [hc] at h; exact Except.noConfusion h
  | ok wc =>
    rw [hc] at h
    have := Except.ok.inj h
    subst this
    have hs := sound_create _ _ _ _ hc
    exact ⟨hs.1, hs.2⟩

theorem sound_writepages_loop (ua : Bool) (fuel : Nat) :
    ∀ (fs : List folio) (w : netfs_io_request) (r : netfs_io_request × Int),
    netfs_active_sound w → netfs_writepages_loop ua fuel w fs = some r →
    netfs_active_sound r.1 := by
  intro fs
  induction fs with
  | nil =>
    intro w r hs h
    have := Option.some.inj h
    subst this
    exact hs
  | cons f fs ih =>
    intro w r hs h
    unfold netfs_writepages_loop at h
    simp only [] at h
    have hs1 : netfs_active_sound
        (if f.group ≠ netfs_group_ptr.NETFS_FOLIO_COPY_TO_CACHE ∧
            (!w.NETFS_RREQ_UPLOAD_TO_SERVER) = true
         then netfs_begin_writeback ua { w with NETFS_RREQ_UPLOAD_TO_SERVER := true }
         else w) := by
      split
      · exact sound_begin_writeback ua w hs
      · exact hs
    generalize (if f.group ≠ netfs_group_ptr.NETFS_FOLIO_COPY_TO_CACHE ∧
        (!w.NETFS_RREQ_UPLOAD_TO_SERVER) = true
      then netfs_begin_writeback ua { w with NETFS_RREQ_UPLOAD_TO_SERVER := true }
      else w) = w1 at *
    cases hw : netfs_write_folio fuel w1 f with
    | none => rw [hw] at h; exact Option.noConfusion h
    | some q =>
      rw [hw] at h
      simp only [] at h
      have hq := sound_of_keeps hs1 (request_keeps_write_folio fuel w1 f q hw)
      by_cases hneg : q.2 < 0
      · rw [if_pos hneg] at h
        have := Option.some.inj h
        subst this
        exact hq
      · rw [if_neg hneg] at h
        cases fs with
        | nil =>
          have := Option.some.inj h
          subst this
          exact hq
        | cons g gs =>
          simp only [] at h
          exact ih q.1 r hq h

theorem sound_writepages (ictx : netfs_inode) (ua : Bool) (fuel : Nat) (fs : List folio)
    (r : driver_result) (w : netfs_io_request)
    (h : netfs_writepages ictx ua fuel fs = some r) (hw : r.wreq = some w) :
    netfs_active_sound w := by
  unfold netfs_writepages at h
  cases fs with
  | nil =>
    have := Option.some.inj h
    subst this
    exact Option.noConfusion hw
  | cons f0 rest =>
    simp only [] at h
    cases hc : netfs_create_write_req ictx f0.pos netfs_io_origin.NETFS_WRITEBACK with
    | error e =>
      rw [hc] at h
      have := Option.some.inj h
      subst this
      exact Option.noConfusion hw
    | ok wc =>
      rw [hc] at h
      simp only [] at h
      have hs := sound_create _ _ _ _ hc
      have hs0 : netfs_active_sound { wc with NETFS_RREQ_OFFLOAD_COLLECTION := true } :=
        ⟨hs.1, hs.2⟩
      cases hl : netfs_writepages_loop ua fuel
          { wc with NETFS_RREQ_OFFLOAD_COLLECTION := true } (f0 :: rest) with
      | none => rw [hl] at h; exact Option.noConfusion h
      | some q =>
        rw [hl] at h
        have := Option.some.inj h
        subst this
        have := Option.some.inj hw
        subst this
        have hq := sound_writepages_loop ua fuel _ _ q hs0 hl
        exact sound_of_keeps hq (request_keeps_trans (request_keeps_end_issue_write q.1)
          (request_keeps_emit _ _))

theorem sound_advance_writethrough (fuel : Nat) (w : netfs_io_request) (c : Option folio)
    (f : folio) (copied : Nat) (to_page_end : Bool) (r : netfs_io_request × Option folio × Int)
    (hs : netfs_active_sound w)
    (h : netfs_advance_writethrough fuel w c f copied to_page_end = some r) :
    netfs_active_sound r.1 := by
  have key : ∀ w2 : netfs_io_request, netfs_active_sound w2 →
      (if (!to_page_end) = true then some (w2, (match c with | none => some f | some x => some x),
          (0 : Int))
        else match netfs_write_folio fuel w2 f with
          | none => none
          | some q => some (q.1, none, q.2)) = some r → netfs_active_sound r.1 := by
    intro w2 hs2 h2
    split at h2
    · have := Option.some.inj h2
      subst this
      exact hs2
    · split at h2
      · exact Option.noConfusion h2
      · rename_i q hq
        have := Option.some.inj h2
        subst this
        exact sound_of_keeps hs2 (request_keeps_write_folio fuel w2 f q hq)
  unfold netfs_advance_writethrough at h
  cases c with
  | none =>
    exact key { w.emit (netfs_event.folio_start_writeback f) with
      len := wrap_add U64 (w.emit (netfs_event.folio_start_writeback f)).len copied }
      ⟨hs.1, hs.2⟩ h
  | some x =>
    exact key { w with len := wrap_add U64 w.len copied } ⟨hs.1, hs.2⟩ h

theorem sound_end_writethrough (fuel : Nat) (w : netfs_io_request) (c : Option folio)
    (r : netfs_io_request) (hs : netfs_active_sound w)
    (h : netfs_end_writethrough fuel w c = some r) : netfs_active_sound r := by
  unfold netfs_end_writethrough at h
  cases c with
  | none =>
    simp only [] at h
    have := Option.some.inj h
    subst this
    exact sound_of_keeps hs (request_keeps_end_issue_write w)
  | some f =>
    simp only [] at h
    split at h
    · exact Option.noConfusion h
    · rename_i q hq
      have := Option.some.inj h
      subst this
      exact sound_of_keeps hs (request_keeps_trans (request_keeps_write_folio fuel w f q hq)
        (request_keeps_end_issue_write q.1))

theorem request_keeps_unbuffered_loop (view : collector_view) :
    ∀ (fuel k : Nat) (w : netfs_io_request) (start len : Nat) (r : netfs_io_request),
    netfs_unbuffered_write_loop view fuel k w start len = some r → request_keeps w r := by
  intro fuel
  induction fuel with
  | zero => intro k w start len r h; exact Option.noConfusion h
  | succ n ih =>
    intro k w start len r h
    unfold netfs_unbuffered_write_loop at h
    by_cases hz : len = 0
    · rw [if_pos hz] at h
      have := Option.some.inj h
      subst this
      exact request_keeps_refl w
    · rw [if_neg hz] at h
      simp only [] at h
      have k1 := request_keeps_advance w 0 start len false
      obtain ⟨f0, f1, _, _, _⟩ := unbuffered_flags_facts view k
        (rolling_buffer_advance (netfs_advance_write w 0 start len false).1
          (netfs_advance_write w 0 start len false).2)
      have k2 : request_keeps (netfs_advance_write w 0 start len false).1
          (netfs_unbuffered_write_flags view k
            (rolling_buffer_advance (netfs_advance_write w 0 start len false).1
              (netfs_advance_write w 0 start len false).2)) := by
        apply request_keeps_of_eq
        intro t
        unfold netfs_io_request.stream
        split
        · rw [f0]; rfl
        · rw [f1]; rfl
      split at h
      · have := Option.some.inj h
        subst this
        exact request_keeps_trans k1 k2
      · exact request_keeps_trans k1 (request_keeps_trans k2 (ih _ _ _ _ r h))

theorem request_keeps_unbuffered_write (view : collector_view) (fuel : Nat)
    (w : netfs_io_request) (len : Nat) (r : netfs_io_request × Int)
    (h : netfs_unbuffered_write view fuel w len = some r) : request_keeps w r.1 := by
  unfold netfs_unbuffered_write at h
  simp only [] at h
  have k1 := request_keeps_cond_emit (w.origin = netfs_io_origin.NETFS_DIO_WRITE) w
    netfs_event.inode_dio_begin
  have hst : (if w.origin = netfs_io_origin.NETFS_DIO_WRITE
      then w.emit netfs_event.inode_dio_begin else w).start = w.start := by
    split <;> rfl
  generalize (if w.origin = netfs_io_origin.NETFS_DIO_WRITE
      then w.emit netfs_event.inode_dio_begin else w) = w1 at *
  split at h
  · exact Option.noConfusion h
  · rename_i q hq
    have := Option.some.inj h
    subst this
    exact request_keeps_trans k1 (request_keeps_trans
      (request_keeps_unbuffered_loop view fuel 0 w1 _ len q hq)
      (request_keeps_end_issue_write q))

theorem request_keeps_writeback_single_loop (fuel : Nat) :
    ∀ (fs : List folio) (w : netfs_io_request) (size : Nat) (ret : Int)
      (r : netfs_io_request × Int),
    netfs_writeback_single_loop fuel w fs size ret = some r → request_keeps w r.1 := by
  intro fs
  induction fs with
  | nil =>
    intro w size ret r h
    have := Option.some.inj h
    subst this
    exact request_keeps_refl w
  | cons f fs ih =>
    intro w size ret r h
    unfold netfs_writeback_single_loop at h
    simp only [] at h
    cases hw : netfs_write_folio_single fuel w f with
    | none => rw [hw] at h; exact Option.noConfusion h
    | some q =>
      rw [hw] at h
      simp only [] at h
      have hq := request_keeps_write_folio_single fuel w f q hw
      by_cases hneg : q.2 < 0
      · rw [if_pos hneg] at h
        have := Option.some.inj h
        subst this
        exact hq
      · rw [if_neg hneg] at h
        by_cases hz : wrap_sub U64 size (umin f.size size) = 0
        · rw [if_pos hz] at h
          have := Option.some.inj h
          subst this
          exact hq
        · rw [if_neg hz] at h
          exact request_keeps_trans hq (ih _ _ _ _ h)

theorem sound_writeback_single (ictx : netfs_inode) (ua : Bool) (fuel : Nat) (fs : List folio)
    (size : Nat) (ret0 : Int) (r : driver_result) (w : netfs_io_request)
    (h : netfs_writeback_single ictx ua fuel fs size ret0 = some r) (hw : r.wreq = some w) :
    netfs_active_sound w := by
  unfold netfs_writeback_single at h
  simp only [] at h
  cases hc : netfs_create_write_req ictx 0 netfs_io_origin.NETFS_WRITEBACK_SINGLE with
  | error e =>
    rw [hc] at h
    have := Option.some.inj h
    subst this
    exact Option.noConfusion hw
  | ok wc =>
    rw [hc] at h
    simp only [] at h
    have hs := sound_create _ _ _ _ hc
    have hs1 : netfs_active_sound
        (if wc.NETFS_RREQ_UPLOAD_TO_SERVER = true
         then netfs_begin_writeback ua
           { wc with NETFS_RREQ_OFFLOAD_COLLECTION := true, NETFS_RREQ_UPLOAD_TO_SERVER := true }
         else
           { wc with NETFS_RREQ_OFFLOAD_COLLECTION := true,
                     NETFS_RREQ_UPLOAD_TO_SERVER := true }) := by
      split
      · exact ⟨hs.1, hs.2⟩
      · exact ⟨hs.1, hs.2⟩
    generalize (if wc.NETFS_RREQ_UPLOAD_TO_SERVER = true
         then netfs_begin_writeback ua
           { wc with NETFS_RREQ_OFFLOAD_COLLECTION := true, NETFS_RREQ_UPLOAD_TO_SERVER := true }
         else
           { wc with NETFS_RREQ_OFFLOAD_COLLECTION := true,
                     NETFS_RREQ_UPLOAD_TO_SERVER := true }) = w1 at *
    split at h
    · exact Option.noConfusion h
    · rename_i q hq
      have := Option.some.inj h
      subst this
      have := Option.some.inj hw
      subst this
      have hk := request_keeps_writeback_single_loop fuel fs w1 size ret0 q hq
      have hq1 := sound_of_keeps hs1 (request_keeps_trans hk
        (request_keeps_trans (request_keeps_issue q.1 0) (request_keeps_issue _ 1)))
      exact ⟨hq1.1, hq1.2⟩

/-- The agreement of `active` with the lists holds in every reachable state. -/
theorem reachable_sound (w : netfs_io_request) (h : netfs_reachable w) :
    netfs_active_sound w := by
  induction h with
  | create_write_req ictx start origin w h => exact sound_create _ _ _ _ h
  | begin_writethrough ictx ki_pos w h => exact sound_begin_writethrough _ _ _ h
  | begin_writeback ua w _ ih => exact sound_begin_writeback ua w ih
  | prepare_write w s start _ ih => exact sound_of_keeps ih (request_keeps_prepare w s start)
  | issue_write w s _ ih => exact sound_of_keeps ih (request_keeps_issue w s)
  | reissue_write w s i source _ ih =>
    exact sound_of_keeps ih (request_keeps_reissue w s i source)
  | advance_write w s start len to_eof _ ih =>
    exact sound_of_keeps ih (request_keeps_advance w s start len to_eof)
  | write_folio fuel w f r _ h ih =>
    exact sound_of_keeps ih (request_keeps_write_folio fuel w f r h)
  | write_folio_single fuel w f r _ h ih =>
    exact sound_of_keeps ih (request_keeps_write_folio_single fuel w f r h)
  | end_issue_write w _ ih => exact sound_of_keeps ih (request_keeps_end_issue_write w)
  | writepages ictx ua fuel folios r w h hw => exact sound_writepages _ _ _ _ r w h hw
  | advance_writethrough fuel w c f copied to_page_end r _ h ih =>
    exact sound_advance_writethrough fuel w c f copied to_page_end r ih h
  | end_writethrough fuel w c r _ h ih => exact sound_end_writethrough fuel w c r ih h
  | unbuffered_write view fuel w len r _ h ih =>
    exact sound_of_keeps ih (request_keeps_unbuffered_write view fuel w len r h)
  | writeback_single ictx ua fuel folios size ret0 r w h hw =>
    exact sound_writeback_single _ _ _ _ _ _ r w h hw

/-- C24 (amended): in every state reachable from `netfs_create_write_req`
through the functions of this file, the upload stream's flag `active` is true
only if a subrequest has been queued on its list, and the cache stream's flag
`active` is true only if a subrequest has been queued on its list or the stream
is available, that is, `netfs_create_write_req` found valid cache resources and
marked it available and active together.  Conversely a stream with a subrequest
on its list or with a construct is active. -/
theorem netfs_active_meaning (w : netfs_io_request) (h : netfs_reachable w) :
    (w.io_streams0.active = true → w.io_streams0.subrequests ≠ []) ∧
    (w.io_streams1.active = true →
      w.io_streams1.subrequests ≠ [] ∨ w.io_streams1.avail = true) ∧
    (∀ t, (w.stream t).subrequests ≠ [] ∨ (w.stream t).construct.isSome = true →
      (w.stream t).active = true) := by
  have hs := reachable_sound w h
  have hne : ∀ l : List netfs_io_subrequest, l.isEmpty = false ↔ l ≠ [] := by
    intro l
    cases l with
    | nil => exact ⟨fun h => Bool.noConfusion h, fun h => absurd rfl h⟩
    | cons a as => exact ⟨fun _ => List.noConfusion, fun _ => rfl⟩
  refine ⟨?_, ?_, ?_⟩
  · intro ha
    rcases hs.1.2 ha with h1 | h1
    · exact (hne _).1 h1
    · exact Bool.noConfusion h1
  · intro ha
    rcases hs.2.2 ha with h1 | h1
    · exact Or.inl ((hne _).1 h1)
    · exact Or.inr h1
  · intro t hx
    have hx' : (w.stream t).subrequests.isEmpty = false ∨
        (w.stream t).construct.isSome = true := by
      rcases hx with h1 | h1
      · exact Or.inl ((hne _).2 h1)
      · exact Or.inr h1
    unfold netfs_io_request.stream at hx' ⊢
    split
    · rename_i ht
      rw [if_pos ht] at hx'
      exact hs.1.1 hx'
    · rename_i ht
      rw [if_neg ht] at hx'
      exact hs.2.1 hx'

theorem netfs_active_meaning_witness :
    ((netfs_advance_write example_request_noupload 1 0 100 false).1.io_streams0.active = true →
      (netfs_advance_write example_request_noupload 1 0 100 false).1.io_streams0.subrequests ≠
        []) ∧
    ((netfs_advance_write example_request_noupload 1 0 100 false).1.io_streams1.active = true →
      (netfs_advance_write example_request_noupload 1 0 100 false).1.io_streams1.subrequests ≠
        [] ∨
      (netfs_advance_write example_request_noupload 1 0 100 false).1.io_streams1.avail = true) ∧
    (∀ t, ((netfs_advance_write example_request_noupload 1 0 100 false).1.stream t).subrequests ≠
        [] ∨
      ((netfs_advance_write example_request_noupload 1 0 100 false).1.stream
        t).construct.isSome = true →
      ((netfs_advance_write example_request_noupload 1 0 100 false).1.stream t).active = true) :=
  netfs_active_meaning _
    (netfs_reachable.advance_write example_request_noupload 1 0 100 false
      (netfs_reachable.create_write_req example_inode 0 netfs_io_origin.NETFS_WRITEBACK
        example_request_noupload rfl))

/-- C24 (as stated) fails: the request `netfs_create_write_req` returns for the
example inode, whose cache is enabled, has an active cache stream with no
subrequest on its list. -/
theorem netfs_active_meaning_counterexample :
    netfs_create_write_req example_inode 0 netfs_io_origin.NETFS_WRITEBACK =
      Except.ok example_request_noupload ∧
    example_request_noupload.io_streams1.active = true ∧
    example_request_noupload.io_streams1.subrequests = [] ∧
    example_request_noupload.io_streams1.avail = true :=
  ⟨rfl, rfl, rfl, rfl⟩

/-! ## Subrequests whose preparation failed -/

theorem reissue_events (w : netfs_io_request) (s i : Nat) (source : iov_iter) :
    (netfs_reissue_write w s i source).1.events =
      w.events ++ [netfs_dispatch s
        { (w.stream s).deref i with
          io_iter := iov_iter_truncate source
            (wrap_sub U64 ((w.stream s).deref i).len ((w.stream s).deref i).transferred),
          retry_count := ((w.stream s).deref i).retry_count + 1,
          NETFS_SREQ_MADE_PROGRESS := false, NETFS_SREQ_IN_PROGRESS := true }] := by
  unfold netfs_reissue_write
  simp only []
  rw [do_issue_events, set_stream_events]

theorem dispatch_failed (s : Nat) (q : netfs_io_subrequest) (h : q.NETFS_SREQ_FAILED = true) :
    netfs_dispatch s q = netfs_event.write_subrequest_terminated q q.error := by
  unfold netfs_dispatch
  rw [if_pos h]

theorem dispatch_sound (s : Nat) (q : netfs_io_subrequest) (h : q.NETFS_SREQ_FAILED = false) :
    netfs_dispatch s q = netfs_event.issue_write s q := by
  unfold netfs_dispatch
  rw [if_neg (by rw [h]; exact Bool.noConfusion)]

/-- C25: `netfs_prepare_write_failed` sets `NETFS_SREQ_FAILED` and nothing else,
and a subrequest whose preparation the backend's hook has failed is queued by
`netfs_prepare_write` with the flag set and the hook's error.  A subrequest with
the flag set that is dispatched by `netfs_do_issue_write`, issued as the
construct of its stream by `netfs_issue_write`, or reissued by
`netfs_reissue_write`, makes exactly one call, the report
`netfs_write_subrequest_terminated(subreq, subreq->error)`, and no call of
`issue_write`; a subrequest without the flag makes exactly one call of
`issue_write`.  Neither the freezing of the iterator nor the reissue changes
the flag or the error. -/
theorem netfs_failed_subrequest_terminated :
    (∀ q : netfs_io_subrequest,
      (netfs_prepare_write_failed q).NETFS_SREQ_FAILED = true ∧
      (netfs_prepare_write_failed q).error = q.error ∧
      (netfs_prepare_write_failed q).start = q.start ∧
      (netfs_prepare_write_failed q).len = q.len) ∧
    (∀ (w : netfs_io_request) (s start : Nat),
      (netfs_prepare_write_limits w.wsize (w.stream s).source (w.stream s).prepare_write
        (netfs_prepare_write_alloc w (w.stream s) start)).failed = true →
      ((netfs_prepare_write w s start).stream s).construct =
        some (w.stream s).subrequests.length ∧
      (((netfs_prepare_write w s start).stream s).deref
        (w.stream s).subrequests.length).NETFS_SREQ_FAILED = true ∧
      (((netfs_prepare_write w s start).stream s).deref
        (w.stream s).subrequests.length).error =
        (netfs_prepare_write_limits w.wsize (w.stream s).source (w.stream s).prepare_write
          (netfs_prepare_write_alloc w (w.stream s) start)).error) ∧
    (∀ (w : netfs_io_request) (s : Nat) (q : netfs_io_subrequest),
      (q.NETFS_SREQ_FAILED = true →
        (netfs_do_issue_write w s q).events =
          w.events ++ [netfs_event.write_subrequest_terminated q q.error]) ∧
      (q.NETFS_SREQ_FAILED = false →
        (netfs_do_issue_write w s q).events = w.events ++ [netfs_event.issue_write s q])) ∧
    (∀ (w : netfs_io_request) (s i : Nat), (w.stream s).construct = some i →
      (netfs_frozen ((w.stream s).deref i)).NETFS_SREQ_FAILED =
        ((w.stream s).deref i).NETFS_SREQ_FAILED ∧
      (netfs_frozen ((w.stream s).deref i)).error = ((w.stream s).deref i).error ∧
      (((w.stream s).deref i).NETFS_SREQ_FAILED = true →
        (netfs_issue_write w s).events =
          w.events ++ [netfs_event.write_subrequest_terminated
            (netfs_frozen ((w.stream s).deref i)) ((w.stream s).deref i).error]) ∧
      (((w.stream s).deref i).NETFS_SREQ_FAILED = false →
        (netfs_issue_write w s).events =
          w.events ++ [netfs_event.issue_write s (netfs_frozen ((w.stream s).deref i))])) ∧
    (∀ (w : netfs_io_request) (s i : Nat) (source : iov_iter),
      ∃ q : netfs_io_subrequest,
        q.NETFS_SREQ_FAILED = ((w.stream s).deref i).NETFS_SREQ_FAILED ∧
        q.error = ((w.stream s).deref i).error ∧
        q.start = ((w.stream s).deref i).start ∧ q.len = ((w.stream s).deref i).len ∧
        q.retry_count = ((w.stream s).deref i).retry_count + 1 ∧
        (i < (w.stream s).subrequests.length →
          ((netfs_reissue_write w s i source).1.stream s).deref i = q) ∧
        (((w.stream s).deref i).NETFS_SREQ_FAILED = true →
          (netfs_reissue_write w s i source).1.events =
            w.events ++ [netfs_event.write_subrequest_terminated q
              ((w.stream s).deref i).error]) ∧
        (((w.stream s).deref i).NETFS_SREQ_FAILED = false →
          (netfs_reissue_write w s i source).1.events =
            w.events ++ [netfs_event.issue_write s q])) := by
  refine ⟨fun q => ⟨rfl, rfl, rfl, rfl⟩, ?_, ?_, ?_, ?_⟩
  · intro w s start hfail
    rw [prepare_stream]
    refine ⟨rfl, ?_, ?_⟩
    · rw [prepared_deref]
      unfold netfs_prepare_write_subreq
      simp only []
      rw [if_pos hfail]
      rfl
    · rw [prepared_deref]
      unfold netfs_prepare_write_subreq
      simp only []
      rw [if_pos hfail]
      rfl
  · intro w s q
    refine ⟨fun h => ?_, fun h => ?_⟩
    · rw [do_issue_events, dispatch_failed s q h]
    · rw [do_issue_events, dispatch_sound s q h]
  · intro w s i hc
    refine ⟨rfl, rfl, fun h => ?_, fun h => ?_⟩
    · rw [issue_events w s i hc, dispatch_failed s _ (show (netfs_frozen _).NETFS_SREQ_FAILED = true from h)]
      rfl
    · rw [issue_events w s i hc, dispatch_sound s _ (show (netfs_frozen _).NETFS_SREQ_FAILED = false from h)]
  · intro w s i source
    refine ⟨{ (w.stream s).deref i with
        io_iter := iov_iter_truncate source
          (wrap_sub U64 ((w.stream s).deref i).len ((w.stream s).deref i).transferred),
        retry_count := ((w.stream s).deref i).retry_count + 1,
        NETFS_SREQ_MADE_PROGRESS := false, NETFS_SREQ_IN_PROGRESS := true },
      rfl, rfl, rfl, rfl, rfl, fun hi => ?_, fun h => ?_, fun h => ?_⟩
    · unfold netfs_reissue_write
      simp only []
      have hfr := do_issue_frame (w.set_stream s ((w.stream s).store i
        { (w.stream s).deref i with
          io_iter := iov_iter_truncate source
            (wrap_sub U64 ((w.stream s).deref i).len ((w.stream s).deref i).transferred),
          retry_count := ((w.stream s).deref i).retry_count + 1,
          NETFS_SREQ_MADE_PROGRESS := false, NETFS_SREQ_IN_PROGRESS := true })) s
        { (w.stream s).deref i with
          io_iter := iov_iter_truncate source
            (wrap_sub U64 ((w.stream s).deref i).len ((w.stream s).deref i).transferred),
          retry_count := ((w.stream s).deref i).retry_count + 1,
          NETFS_SREQ_MADE_PROGRESS := false, NETFS_SREQ_IN_PROGRESS := true }
      have hst : ∀ (x : netfs_io_request) (q : netfs_io_subrequest),
          (netfs_do_issue_write x s q).stream s = x.stream s := by
        intro x q
        unfold netfs_do_issue_write
        split <;> exact stream_emit _ _ _
      rw [hst, stream_set_stream]
      unfold netfs_io_stream.deref netfs_io_stream.store
      simp only []
      rw [List.getD_eq_getElem?_getD, List.getElem?_set_self (by exact hi)]
      rfl
    · rw [reissue_events]
      unfold netfs_dispatch
      rw [if_pos (by exact h)]
    · rw [reissue_events]
      unfold netfs_dispatch
      rw [if_neg (fun hx => Bool.noConfusion (h.symm.trans hx))]

/-- On the example request with a backend that fails every preparation, one page
added to the upload stream and one reissue of the subrequest: the subrequest is
reported terminated with the backend's error once for the issue and once for the
reissue, and `issue_write` is never called on the upload stream. -/
theorem example_failing_evaluates :
    ((netfs_advance_write example_request_failing 0 0 4096 false).1.issue_calls,
     (netfs_advance_write example_request_failing 0 0 4096 false).1.terminations) =
      ([], [(0, 4096, -5)]) ∧
    ((netfs_reissue_write (netfs_advance_write example_request_failing 0 0 4096 false).1 0 0
        { pos := 0, count := 4096 }).1.issue_calls,
     (netfs_reissue_write (netfs_advance_write example_request_failing 0 0 4096 false).1 0 0
        { pos := 0, count := 4096 }).1.terminations) =
      ([], [(0, 4096, -5), (0, 4096, -5)]) ∧
    ((netfs_advance_write example_request 0 0 4096 false).1.issue_calls,
     (netfs_advance_write example_request 0 0 4096 false).1.terminations) =
      ([(0, 0, 4096)], []) := by
  exact ⟨rfl, rfl, rfl⟩

/-- C25 (witness): on the example request with a backend that fails every
preparation, the subrequest prepared on the upload stream at offset 0 is queued
as the construct with the flag set and the backend's error. -/
theorem netfs_failed_subrequest_terminated_witness :
    ((netfs_prepare_write example_request_failing 0 0).stream 0).construct =
      some (example_request_failing.stream 0).subrequests.length ∧
    (((netfs_prepare_write example_request_failing 0 0).stream 0).deref
      (example_request_failing.stream 0).subrequests.length).NETFS_SREQ_FAILED = true ∧
    (((netfs_prepare_write example_request_failing 0 0).stream 0).deref
      (example_request_failing.stream 0).subrequests.length).error =
      (netfs_prepare_write_limits example_request_failing.wsize
        (example_request_failing.stream 0).source (example_request_failing.stream 0).prepare_write
        (netfs_prepare_write_alloc example_request_failing (example_request_failing.stream 0)
          0)).error :=
  netfs_failed_subrequest_terminated.2.1 example_request_failing 0 0 rfl

/-! ## Progress and termination of the submission loop -/

/-- The value of `part` in one pass of the submission loop, when every prepared
subrequest takes at least one byte: it is at least 1 and at most the stream's
`submit_len`, so that the branch `part > stream->submit_len` is not taken and
`submit_len` goes down by `part`. -/
theorem step_part (fpos fsize : Nat) (to_eof : Bool) (w : netfs_io_request) (iter_off s : Nat)
    (hfpos : fpos ≤ LONG_MAX) (hok : planner_ok w) (hpos : planner_pos w)
    (hrd : submit_ready w) (hlen : 0 < (w.stream s).submit_len) :
    1 ≤ (netfs_advance_write (netfs_write_folio_step_pre fpos fsize w iter_off s) s
      (fpos + (w.stream s).submit_off) (w.stream s).submit_len to_eof).2 ∧
    (netfs_advance_write (netfs_write_folio_step_pre fpos fsize w iter_off s) s
      (fpos + (w.stream s).submit_off) (w.stream s).submit_len to_eof).2 ≤
      (w.stream s).submit_len ∧
    ((netfs_advance_write (netfs_write_folio_step_pre fpos fsize w iter_off s) s
      (fpos + (w.stream s).submit_off) (w.stream s).submit_len to_eof).1.stream s).submit_len =
      (w.stream s).submit_len ∧
    ((netfs_write_folio_step fpos fsize to_eof w iter_off s).1.stream s).submit_len =
      (w.stream s).submit_len -
        (netfs_advance_write (netfs_write_folio_step_pre fpos fsize w iter_off s) s
          (fpos + (w.stream s).submit_off) (w.stream s).submit_len to_eof).2 := by
  obtain ⟨hsl, hso, hsa⟩ := hrd s
  have hav := hsa hlen
  have hpre_s := step_pre_stream fpos fsize w iter_off s
  have hpre_ne := step_pre_stream_ne fpos fsize w iter_off s
  have hpre_f := step_pre_frame fpos fsize w iter_off s
  have hpre_ok_s : stream_ok ((netfs_write_folio_step_pre fpos fsize w iter_off s).stream s) := by
    rw [hpre_s]
    exact stream_ok_congr rfl rfl rfl rfl (hok s).1
  have hpre_ok := planner_ok_of_frame s hpre_f hok hpre_ok_s hpre_ne
  have hpre_pos := planner_pos_of_frame hpre_f hpos
  have hpre_av : ((netfs_write_folio_step_pre fpos fsize w iter_off s).stream s).avail = true := by
    rw [hpre_s]; exact hav
  have hstart : fpos + (w.stream s).submit_off < U64 := by
    unfold LONG_MAX at hfpos
    unfold U32 at hso
    unfold U64
    omega
  rw [step_eq]
  simp only []
  generalize hpre : netfs_write_folio_step_pre fpos fsize w iter_off s = pre at *
  have hadv_s := advance_stream pre s (fpos + (w.stream s).submit_off) (w.stream s).submit_len
    to_eof hpre_av
  have hadv_p := advance_part pre s (fpos + (w.stream s).submit_off) (w.stream s).submit_len
    to_eof hpre_av
  obtain ⟨hp0, hp1⟩ := advanced_part_pos (pre.stream s) pre (fpos + (w.stream s).submit_off)
    (w.stream s).submit_len (hpre_ok s).1 (hpre_ok s).2 (hpre_pos s) hstart hlen
  obtain ⟨hsub_o, hsub_l⟩ := advanced_submit (pre.stream s) pre (fpos + (w.stream s).submit_off)
    (w.stream s).submit_len to_eof
  rw [← hadv_s] at hsub_o hsub_l
  rw [← hadv_p] at hp0 hp1
  generalize netfs_advance_write pre s (fpos + (w.stream s).submit_off)
    (w.stream s).submit_len to_eof = r at *
  have hpre_sl : (pre.stream s).submit_len = (w.stream s).submit_len := by rw [hpre_s]
  refine ⟨hp0, hp1, hsub_l.trans hpre_sl, ?_⟩
  rw [stream_set_stream]
  unfold netfs_submit_advance
  simp only []
  rw [hsub_l, hpre_sl, if_neg (by omega)]
  unfold wrap_sub
  unfold U32 at *
  omega

/-- The stream chosen by the submission loop depends on the submission points
only. -/
theorem choose_stream_congr (w w' : netfs_io_request)
    (h : ∀ t, (w'.stream t).submit_off = (w.stream t).submit_off ∧
      (w'.stream t).submit_len = (w.stream t).submit_len) :
    netfs_choose_stream w' = netfs_choose_stream w := by
  have h0 := h 0
  have h1 := h 1
  simp only [stream_zero, stream_one] at h0 h1
  rw [choose_stream_eq, choose_stream_eq, h0.1, h0.2, h1.1, h1.2]

/-- One pass of the submission loop on a stream without a construct whose
prepared subrequests get a length limit of 0: no byte is consumed, the
subrequest is dispatched empty, and the stream's submission point is where it
was. -/
theorem step_stalled (fpos fsize : Nat) (to_eof : Bool) (w : netfs_io_request) (iter_off s : Nat)
    (hav : (w.stream s).avail = true) (hc : (w.stream s).construct = none)
    (hzero : ∀ q, (netfs_prepare_write_limits w.wsize (w.stream s).source
      (w.stream s).prepare_write q).sreq_max_len = 0)
    (hso : (w.stream s).submit_off < U32) (hsl : (w.stream s).submit_len < U32) :
    (netfs_advance_write (netfs_write_folio_step_pre fpos fsize w iter_off s) s
      (fpos + (w.stream s).submit_off) (w.stream s).submit_len to_eof).2 = 0 ∧
    ((netfs_write_folio_step fpos fsize to_eof w iter_off s).1.stream s).submit_off =
      (w.stream s).submit_off ∧
    ((netfs_write_folio_step fpos fsize to_eof w iter_off s).1.stream s).submit_len =
      (w.stream s).submit_len ∧
    ((netfs_write_folio_step fpos fsize to_eof w iter_off s).1.stream s).construct = none ∧
    ((netfs_write_folio_step fpos fsize to_eof w iter_off s).1.stream s).subrequests.length =
      (w.stream s).subrequests.length + 1 := by
  have hpre_s := step_pre_stream fpos fsize w iter_off s
  have hpre_f := step_pre_frame fpos fsize w iter_off s
  have hpre_av : ((netfs_write_folio_step_pre fpos fsize w iter_off s).stream s).avail = true := by
    rw [hpre_s]; exact hav
  have hpart := advance_part (netfs_write_folio_step_pre fpos fsize w iter_off s) s
    (fpos + (w.stream s).submit_off) (w.stream s).submit_len to_eof hpre_av
  rw [hpart, step_stream fpos fsize to_eof w iter_off s hav, hpre_s]
  unfold netfs_io_stream.paged
  simp only []
  generalize hwx : netfs_write_folio_step_pre fpos fsize w iter_off s = wx at *
  generalize hst : w.stream s = st at *
  have hfresh : ({ st with submit_extendable_to := wrap_sub U32 fsize st.submit_off } :
      netfs_io_stream).fresh (fpos + st.submit_off) = true := by
    unfold netfs_io_stream.fresh
    simp only [hc]
  have hiss : ({ st with submit_extendable_to := wrap_sub U32 fsize st.submit_off } :
      netfs_io_stream).issued =
      { st with submit_extendable_to := wrap_sub U32 fsize st.submit_off } :=
    issued_none _ hc
  have hop := opened_fresh { st with submit_extendable_to := wrap_sub U32 fsize st.submit_off }
    wx (fpos + st.submit_off) hfresh
  rw [hiss] at hop
  rw [hop]
  generalize ho : ({ st with submit_extendable_to := wrap_sub U32 fsize st.submit_off } :
      netfs_io_stream).prepared wx (fpos + st.submit_off) = o
  have hmax : o.sreq_max_len = 0 := by
    rw [← ho]
    show (netfs_prepare_write_limits wx.wsize st.source st.prepare_write _).sreq_max_len = 0
    rw [hpre_f.wsize]
    exact hzero _
  have hcon : o.construct = some st.subrequests.length := by rw [← ho]; rfl
  have hlen : o.subrequests.length = st.subrequests.length + 1 := by
    rw [← ho]
    show (st.subrequests ++ [_]).length = _
    rw [List.length_append]
    rfl
  have hder : (o.deref st.subrequests.length).len = 0 := by
    rw [← ho]
    have := prepared_deref { st with submit_extendable_to := wrap_sub U32 fsize st.submit_off }
      wx (fpos + st.submit_off)
    rw [show ({ st with submit_extendable_to := wrap_sub U32 fsize st.submit_off } :
      netfs_io_stream).subrequests.length = st.subrequests.length from rfl] at this
    rw [this]
    exact prepare_subreq_len _ _ _
  have hp : o.part st.submit_len = 0 := by
    unfold netfs_io_stream.part
    rw [hcon, hmax]
    simp only [Option.getD_some]
    rw [hder]
    unfold umin wrap_sub
    split
    · rfl
    · rename_i h
      simp only [U64] at h
      omega
  have hfull : o.full st.submit_len to_eof := Or.inl (by rw [hmax]; exact Nat.zero_le _)
  have hos : o.submit_off = st.submit_off ∧ o.submit_len = st.submit_len := by
    rw [← ho]
    exact ⟨rfl, rfl⟩
  obtain ⟨hgo, hgl⟩ := grown_submit o st.submit_len to_eof
  refine ⟨hp, ?_, ?_, ?_, ?_⟩
  · unfold netfs_submit_advance wrap_add
    simp only []
    rw [hgo, hos.1, hp, Nat.add_zero]
    exact Nat.mod_eq_of_lt hso
  · unfold netfs_submit_advance
    simp only []
    rw [hgl, hos.2, hp, if_neg (fun h => by omega)]
    unfold wrap_sub
    rw [Nat.mod_eq_of_lt hsl]
    have h0 : (0 : Nat) % U32 = 0 := rfl
    rw [h0, Nat.sub_zero, Nat.add_mod_right]
    exact Nat.mod_eq_of_lt hsl
  · show (o.grown st.submit_len to_eof).construct = none
    unfold netfs_io_stream.grown
    rw [if_pos hfull]
    exact issued_construct _
  · show (o.grown st.submit_len to_eof).subrequests.length = _
    unfold netfs_io_stream.grown
    rw [if_pos hfull]
    have h1 : (o.grow st.submit_len).issued.subrequests.length =
        (o.grow st.submit_len).subrequests.length := by
      have := issued_map (fun _ => ()) (fun _ => rfl) (o.grow st.submit_len)
      have h2 := congrArg List.length this
      rw [List.length_map, List.length_map] at h2
      exact h2
    rw [h1]
    unfold netfs_io_stream.grow netfs_io_stream.store
    simp only [List.length_set]
    exact hlen

/-- With a length limit of 0 on the chosen stream the submission loop is never
left. -/
theorem loop_stalled (fpos fsize : Nat) (to_eof : Bool) (s : Nat) :
    ∀ (fuel : Nat) (w : netfs_io_request) (iter_off : Nat),
    netfs_choose_stream w = some s → (w.stream s).avail = true →
    (w.stream s).construct = none →
    (∀ q, (netfs_prepare_write_limits w.wsize (w.stream s).source
      (w.stream s).prepare_write q).sreq_max_len = 0) →
    (w.stream s).submit_off < U32 → (w.stream s).submit_len < U32 →
    netfs_write_folio_loop fpos fsize to_eof fuel w iter_off = none := by
  intro fuel
  induction fuel with
  | zero => intro w io _ _ _ _ _ _; rfl
  | succ n ih =>
    intro w io hch hav hc hzero hso hsl
    unfold netfs_write_folio_loop
    rw [hch]
    simp only []
    obtain ⟨_, h1, h2, h3, _⟩ := step_stalled fpos fsize to_eof w io s hav hc hzero hso hsl
    have hf := step_frame fpos fsize to_eof w io s
    apply ih
    · rw [choose_stream_congr w _ ?_]
      · exact hch
      · intro t
        by_cases h : s = 0 ↔ t = 0
        · rw [stream_eq_of_iff _ s t h, stream_eq_of_iff w s t h]
          exact ⟨h1, h2⟩
        · rw [step_stream_ne fpos fsize to_eof w io s t h]
          exact ⟨rfl, rfl⟩
    · rw [(hf.static s).avail]; exact hav
    · exact h3
    · intro q
      rw [hf.wsize, (hf.static s).source, (hf.static s).prepare_write]
      exact hzero q
    · rw [h1]; exact hso
    · rw [h2]; exact hsl

/-- C26: progress and termination of the submission loop of `netfs_write_folio`
and `netfs_write_folio_single`.  When every subrequest prepared on either stream
gets a length limit of at least 1 (and the streams satisfy the invariant of the
builder), each pass of the loop calls `netfs_advance_write` with a result `part`
between 1 and the chosen stream's `submit_len`, the branch
`part > stream->submit_len` is not taken, `submit_len` goes down by `part`, the
total of the two `submit_len` goes down strictly, and the invariant is kept; the
loop is left, with nothing to submit, after at most as many passes as there are
bytes to submit, and both functions return.  With a limit of 0 on the chosen
stream a pass consumes no byte and leaves the submission point where it was, and
the loop is never left. -/
theorem netfs_write_folio_loop_progress :
    (∀ (fpos fsize : Nat) (to_eof : Bool) (w : netfs_io_request) (iter_off s : Nat),
      fpos ≤ LONG_MAX → planner_ok w → planner_pos w → submit_ready w →
      netfs_choose_stream w = some s →
      1 ≤ (netfs_advance_write (netfs_write_folio_step_pre fpos fsize w iter_off s) s
        (fpos + (w.stream s).submit_off) (w.stream s).submit_len to_eof).2 ∧
      (netfs_advance_write (netfs_write_folio_step_pre fpos fsize w iter_off s) s
        (fpos + (w.stream s).submit_off) (w.stream s).submit_len to_eof).2 ≤
        (w.stream s).submit_len ∧
      ¬((netfs_advance_write (netfs_write_folio_step_pre fpos fsize w iter_off s) s
          (fpos + (w.stream s).submit_off) (w.stream s).submit_len to_eof).2 >
        ((netfs_advance_write (netfs_write_folio_step_pre fpos fsize w iter_off s) s
          (fpos + (w.stream s).submit_off) (w.stream s).submit_len
            to_eof).1.stream s).submit_len) ∧
      ((netfs_write_folio_step fpos fsize to_eof w iter_off s).1.stream s).submit_len =
        (w.stream s).submit_len -
          (netfs_advance_write (netfs_write_folio_step_pre fpos fsize w iter_off s) s
            (fpos + (w.stream s).submit_off) (w.stream s).submit_len to_eof).2 ∧
      ((netfs_write_folio_step fpos fsize to_eof w iter_off s).1.stream 0).submit_len +
        ((netfs_write_folio_step fpos fsize to_eof w iter_off s).1.stream 1).submit_len <
        (w.stream 0).submit_len + (w.stream 1).submit_len ∧
      planner_ok (netfs_write_folio_step fpos fsize to_eof w iter_off s).1 ∧
      planner_pos (netfs_write_folio_step fpos fsize to_eof w iter_off s).1 ∧
      submit_ready (netfs_write_folio_step fpos fsize to_eof w iter_off s).1) ∧
    (∀ (fpos fsize : Nat) (to_eof : Bool) (fuel : Nat) (w : netfs_io_request) (iter_off : Nat),
      fpos ≤ LONG_MAX → planner_ok w → planner_pos w → submit_ready w →
      (w.stream 0).submit_len + (w.stream 1).submit_len < fuel →
      ∃ w' io, netfs_write_folio_loop fpos fsize to_eof fuel w iter_off = some (w', io) ∧
        (w'.stream 0).submit_len = 0 ∧ (w'.stream 1).submit_len = 0) ∧
    (∀ (fuel : Nat) (w : netfs_io_request) (f : folio),
      f.pos ≤ LONG_MAX → planner_ok w → planner_pos w → 2 * U32 ≤ fuel →
      (∃ w' ret, netfs_write_folio fuel w f = some (w', ret)) ∧
      (∃ w', netfs_write_folio_single fuel w f = some (w', 0))) ∧
    (∀ (fpos fsize : Nat) (to_eof : Bool) (w : netfs_io_request) (iter_off s : Nat),
      netfs_choose_stream w = some s → (w.stream s).avail = true →
      (w.stream s).construct = none →
      (∀ q, (netfs_prepare_write_limits w.wsize (w.stream s).source
        (w.stream s).prepare_write q).sreq_max_len = 0) →
      (w.stream s).submit_off < U32 → (w.stream s).submit_len < U32 →
      (netfs_advance_write (netfs_write_folio_step_pre fpos fsize w iter_off s) s
        (fpos + (w.stream s).submit_off) (w.stream s).submit_len to_eof).2 = 0 ∧
      ((netfs_write_folio_step fpos fsize to_eof w iter_off s).1.stream s).submit_off =
        (w.stream s).submit_off ∧
      ((netfs_write_folio_step fpos fsize to_eof w iter_off s).1.stream s).submit_len =
        (w.stream s).submit_len ∧
      ∀ fuel, netfs_write_folio_loop fpos fsize to_eof fuel w iter_off = none) := by
  refine ⟨?_, ?_, ?_, ?_⟩
  · intro fpos fsize to_eof w io s hfpos hok hpos hrd hch
    obtain ⟨hs01, hlen⟩ := choose_stream_some w s hch
    obtain ⟨hp1, hp2, hp3, hp4⟩ := step_part fpos fsize to_eof w io s hfpos hok hpos hrd hlen
    obtain ⟨hf, hok1, hrd1, _, hdec, hne⟩ :=
      step_spec fpos fsize to_eof w io s hfpos hok hpos hrd hlen
    refine ⟨hp1, hp2, ?_, hp4, ?_, hok1, planner_pos_of_frame hf hpos, hrd1⟩
    · rw [hp3]
      omega
    · rcases hs01 with h | h
      · subst h
        rw [hne 1 (by decide)]
        omega
      · subst h
        rw [hne 0 (by decide)]
        omega
  · intro fpos fsize to_eof fuel w io hfpos hok hpos hrd hfuel
    obtain ⟨w', io', hrun, _, _, _, hz0, hz1⟩ := loop_inv fpos fsize to_eof hfpos
      (fun _ => True) (fun _ _ _ _ _ _ _ _ _ => trivial) fuel w io hok hpos hrd trivial hfuel
    exact ⟨w', io', hrun, hz0, hz1⟩
  · intro fuel w f hfpos hok hpos hfuel
    obtain ⟨w', ret, hrun, _⟩ := write_folio_total fuel w f hfpos hok hpos hfuel
    obtain ⟨w2, hrun2, _⟩ := write_folio_single_returns fuel w f hfpos hok hpos hfuel
    exact ⟨⟨w', ret, hrun⟩, ⟨w2, hrun2⟩⟩
  · intro fpos fsize to_eof w io s hch hav hc hzero hso hsl
    obtain ⟨h0, h1, h2, _, _⟩ := step_stalled fpos fsize to_eof w io s hav hc hzero hso hsl
    exact ⟨h0, h1, h2, fun fuel =>
      loop_stalled fpos fsize to_eof s fuel w io hch hav hc hzero hso hsl⟩

theorem netfs_write_folio_loop_progress_witness :
    ((∃ w' ret, netfs_write_folio (2 * U32) example_request example_folio0 = some (w', ret)) ∧
      (∃ w', netfs_write_folio_single (2 * U32) example_request example_folio0 = some (w', 0))) ∧
    ((netfs_advance_write (netfs_write_folio_step_pre 0 4096
        (netfs_write_folio_ready example_request_stalled example_folio0) 0 0) 0
        (0 + ((netfs_write_folio_ready example_request_stalled example_folio0).stream
          0).submit_off)
        ((netfs_write_folio_ready example_request_stalled example_folio0).stream 0).submit_len
        false).2 = 0 ∧
      ((netfs_write_folio_step 0 4096 false
        (netfs_write_folio_ready example_request_stalled example_folio0) 0 0).1.stream
          0).submit_off =
        ((netfs_write_folio_ready example_request_stalled example_folio0).stream 0).submit_off ∧
      ((netfs_write_folio_step 0 4096 false
        (netfs_write_folio_ready example_request_stalled example_folio0) 0 0).1.stream
          0).submit_len =
        ((netfs_write_folio_ready example_request_stalled example_folio0).stream 0).submit_len ∧
      ∀ fuel, netfs_write_folio_loop 0 4096 false fuel
        (netfs_write_folio_ready example_request_stalled example_folio0) 0 = none) :=
  ⟨netfs_write_folio_loop_progress.2.2.1 (2 * U32) example_request example_folio0 (by decide)
      example_request_planner_ok example_request_planner_pos (Nat.le_refl _),
    netfs_write_folio_loop_progress.2.2.2 0 4096 false
      (netfs_write_folio_ready example_request_stalled example_folio0) 0 0 rfl rfl rfl
      (fun _ => rfl) (by decide) (by decide)⟩

/-- With a write size of 0 the planning of the first page of the example file
never returns, whatever the fuel. -/
theorem example_stalled_never_returns (fuel : Nat) :
    netfs_write_folio fuel example_request_stalled example_folio0 = none := by
  rw [write_folio_run fuel example_request_stalled example_folio0 (by decide)]
  have hx : (netfs_write_folio_entry example_request_stalled example_folio0).2.to_eof = false :=
    rfl
  rw [hx, show example_folio0.pos = 0 from rfl, show example_folio0.size = 4096 from rfl,
    loop_stalled 0 4096 false 0 fuel
      (netfs_write_folio_ready example_request_stalled example_folio0) 0 rfl rfl rfl
      (fun _ => rfl) (by decide) (by decide)]

/-! ## Alignment of the buffer cursor -/

/-- C27: a streaming-write folio at position 0 whose dirty bytes `[100, 150)`
lie beyond the end of a file truncated to 50 bytes, planned by
`netfs_write_folio` from an empty rolling buffer.  The routed length `50 - 100`
wraps.  With a write size of 4294967196 the second pass of the loop calls
`netfs_advance_write` with `submit_off = 0` while the cursor stands at
`iter_off = 100`: the second subrequest starts at byte 0 and the snapshot of the
cursor it is given starts at byte 100.  With a write size of 2147483647 the
calls of `rolling_buffer_advance` for the folio are by 100 and by 2147483647
bytes, which do not sum to the folio size of 4096. -/
theorem netfs_write_folio_cursor_misaligned :
    (example_request_truncated 4294967196).buffer.iter.pos = 0 ∧
    (netfs_write_folio 8 (example_request_truncated 4294967196) example_folio_streamw).map
        (fun r => (r.2, (r.1.stream 0).snapshots, r.1.cursor_advances)) =
      some (0, [(100, 100), (0, 100)], [100, 3996]) ∧
    (netfs_write_folio 8 (example_request_truncated 2147483647) example_folio_streamw).map
        (fun r => (r.2, r.1.cursor_advances, r.1.cursor_advances.sum, example_folio_streamw.size)) =
      some (0, [100, 2147483647], 2147483747, 4096) := by
  refine ⟨by rfl, by rfl, by rfl⟩

/-! ## The range routed for a streaming-write folio -/

/-- The unsigned subtraction `a - b` when `a < b`: it wraps. -/
theorem wrap_sub_wraps (a b : Nat) (hb : b < U64) (hab : a < b) :
    wrap_sub U64 a b = U64 - (b - a) := by
  unfold wrap_sub
  have h1 : a % U64 = a := Nat.mod_eq_of_lt (by omega)
  have h2 : b % U64 = b := Nat.mod_eq_of_lt hb
  rw [h1, h2]
  have h3 : a + (U64 - b) = U64 - (b - a) := by omega
  rw [h3]
  exact Nat.mod_eq_of_lt (by omega)

/-- The extent `netfs_write_folio` works out for a folio written by streaming
that is not beyond EOF: `flen` is the dirty range clamped to EOF minus
`dirty_offset`, and the subtraction wraps when EOF lies below `dirty_offset`. -/
theorem extent_streaming_clamped (w : netfs_io_request) (f : folio) (fi : netfs_folio)
    (hfi : f.finfo = some fi) (hin : fi.dirty_offset + fi.dirty_len ≤ f.size)
    (hsz : f.size < U32) :
    (netfs_write_folio_entry w f).2.foff = fi.dirty_offset ∧
    (netfs_write_folio_entry w f).2.streamw = true ∧
    (fi.dirty_offset ≤ w.inode_i_size - f.pos →
      (netfs_write_folio_entry w f).2.flen =
        min (fi.dirty_offset + fi.dirty_len) (w.inode_i_size - f.pos) - fi.dirty_offset) ∧
    (w.inode_i_size - f.pos < fi.dirty_offset →
      (netfs_write_folio_entry w f).2.flen =
        U64 - (fi.dirty_offset - (w.inode_i_size - f.pos))) := by
  rw [entry_extent]
  have hu : U32 < U64 := by decide
  have hs : fi.dirty_offset + fi.dirty_len < U64 := by omega
  have hadd : wrap_add U64 fi.dirty_offset fi.dirty_len = fi.dirty_offset + fi.dirty_len :=
    Nat.mod_eq_of_lt hs
  unfold netfs_write_folio_extent
  simp only [hfi, Option.isSome_some, hadd]
  split
  · refine ⟨rfl, rfl, fun hle => ?_, fun hlt => ?_⟩
    · simp only []
      split
      · rw [wrap_sub_le _ _ (by omega) hle, Nat.min_eq_right (by omega)]
      · rw [wrap_sub_le _ _ hs (Nat.le_add_right _ _), Nat.min_eq_left (by omega)]
    · simp only []
      rw [if_pos (by omega)]
      exact wrap_sub_wraps _ _ (by omega) hlt
  · split
    · refine ⟨rfl, rfl, fun hle => ?_, fun hlt => ?_⟩
      · simp only []
        rw [wrap_sub_le _ _ (by omega) hle, Nat.min_eq_right (by omega)]
      · simp only []
        exact wrap_sub_wraps _ _ (by omega) hlt
    · split
      · refine ⟨rfl, rfl, fun hle => ?_, fun hlt => ?_⟩
        · simp only []
          rw [wrap_sub_le _ _ hs (Nat.le_add_right _ _), Nat.min_eq_left (by omega)]
        · omega
      · refine ⟨rfl, rfl, fun hle => ?_, fun hlt => ?_⟩
        · simp only []
          rw [wrap_sub_le _ _ hs (Nat.le_add_right _ _), Nat.min_eq_left (by omega)]
        · omega

/-- C28 (evaluated on the code): the submission point `netfs_write_folio` gives
the upload stream for a streaming-write folio of an accepted group, with
`dirty_offset + dirty_len <= fsize < 2^32`, whatever the origin of the request.
When EOF does not lie below `dirty_offset` the range is inside the folio and no
longer than `dirty_len`, as the claim says.  When `i_size - fpos < dirty_offset`
the subtraction `flen -= foff` wraps: `submit_len` is
`2^32 - (dirty_offset - (i_size - fpos))`, which is more than `dirty_len`, and
`submit_off + submit_len` is beyond the end of the folio. -/
theorem netfs_write_folio_streaming_range (w : netfs_io_request) (f : folio) (fi : netfs_folio)
    (hfi : f.finfo = some fi) (hin : fi.dirty_offset + fi.dirty_len ≤ f.size)
    (hsz : f.size < U32) (hav : w.io_streams0.avail = true)
    (hs0 : w.io_streams0.source = netfs_io_source.NETFS_UPLOAD_TO_SERVER)
    (hctc : f.group ≠ netfs_group_ptr.NETFS_FOLIO_COPY_TO_CACHE) :
    ((netfs_write_folio_ready w f).stream 0).submit_off = fi.dirty_offset ∧
    (fi.dirty_offset ≤ w.inode_i_size - f.pos →
      ((netfs_write_folio_ready w f).stream 0).submit_len =
        min (fi.dirty_offset + fi.dirty_len) (w.inode_i_size - f.pos) - fi.dirty_offset ∧
      ((netfs_write_folio_ready w f).stream 0).submit_off +
        ((netfs_write_folio_ready w f).stream 0).submit_len ≤ f.size ∧
      ((netfs_write_folio_ready w f).stream 0).submit_len ≤ fi.dirty_len) ∧
    (w.inode_i_size - f.pos < fi.dirty_offset →
      ((netfs_write_folio_ready w f).stream 0).submit_len =
        U32 - (fi.dirty_offset - (w.inode_i_size - f.pos)) ∧
      f.size < ((netfs_write_folio_ready w f).stream 0).submit_off +
        ((netfs_write_folio_ready w f).stream 0).submit_len ∧
      fi.dirty_len < ((netfs_write_folio_ready w f).stream 0).submit_len) := by
  obtain ⟨hoff, hsw, hle, hwrap⟩ := extent_streaming_clamped w f fi hfi hin hsz
  have hfl := flushed_frame w f
  have hav' : ((netfs_write_folio_flushed w f).stream 0).avail = true :=
    ((hfl.static 0).avail).trans hav
  have hs' : ((netfs_write_folio_flushed w f).stream 0).source =
      netfs_io_source.NETFS_UPLOAD_TO_SERVER := ((hfl.static 0).source).trans hs0
  rw [ready_stream, set_submit_upload _ _ _ _ _ hav' hs' hctc, hoff]
  have hu : U32 < U64 := by decide
  have ho : fi.dirty_offset % U32 = fi.dirty_offset := Nat.mod_eq_of_lt (by omega)
  refine ⟨ho, fun h => ?_, fun h => ?_⟩
  · show (netfs_write_folio_entry w f).2.flen % U32 = _ ∧
      fi.dirty_offset % U32 + (netfs_write_folio_entry w f).2.flen % U32 ≤ f.size ∧
      (netfs_write_folio_entry w f).2.flen % U32 ≤ fi.dirty_len
    rw [hle h, ho]
    have hm : (min (fi.dirty_offset + fi.dirty_len) (w.inode_i_size - f.pos) - fi.dirty_offset) %
        U32 = min (fi.dirty_offset + fi.dirty_len) (w.inode_i_size - f.pos) - fi.dirty_offset :=
      Nat.mod_eq_of_lt (by omega)
    rw [hm]
    omega
  · show (netfs_write_folio_entry w f).2.flen % U32 = _ ∧
      f.size < fi.dirty_offset % U32 + (netfs_write_folio_entry w f).2.flen % U32 ∧
      fi.dirty_len < (netfs_write_folio_entry w f).2.flen % U32
    rw [hwrap h, ho]
    have hm : (U64 - (fi.dirty_offset - (w.inode_i_size - f.pos))) % U32 =
        U32 - (fi.dirty_offset - (w.inode_i_size - f.pos)) := by
      have hd : fi.dirty_offset - (w.inode_i_size - f.pos) < U32 := by omega
      have hd0 : 0 < fi.dirty_offset - (w.inode_i_size - f.pos) := by omega
      generalize fi.dirty_offset - (w.inode_i_size - f.pos) = d at hd hd0
      unfold U64 U32 at *
      omega
    rw [hm]
    omega

theorem netfs_write_folio_streaming_range_witness :
    ((netfs_write_folio_ready (example_request_truncated 4096) example_folio_streamw).stream
      0).submit_off = 100 ∧
    (100 ≤ (example_request_truncated 4096).inode_i_size - example_folio_streamw.pos →
      ((netfs_write_folio_ready (example_request_truncated 4096) example_folio_streamw).stream
        0).submit_len =
        min (100 + 50) ((example_request_truncated 4096).inode_i_size -
          example_folio_streamw.pos) - 100 ∧
      ((netfs_write_folio_ready (example_request_truncated 4096) example_folio_streamw).stream
        0).submit_off +
        ((netfs_write_folio_ready (example_request_truncated 4096) example_folio_streamw).stream
          0).submit_len ≤ example_folio_streamw.size ∧
      ((netfs_write_folio_ready (example_request_truncated 4096) example_folio_streamw).stream
        0).submit_len ≤ 50) ∧
    ((example_request_truncated 4096).inode_i_size - example_folio_streamw.pos < 100 →
      ((netfs_write_folio_ready (example_request_truncated 4096) example_folio_streamw).stream
        0).submit_len =
        U32 - (100 - ((example_request_truncated 4096).inode_i_size -
          example_folio_streamw.pos)) ∧
      example_folio_streamw.size <
        ((netfs_write_folio_ready (example_request_truncated 4096) example_folio_streamw).stream
          0).submit_off +
        ((netfs_write_folio_ready (example_request_truncated 4096) example_folio_streamw).stream
          0).submit_len ∧
      50 < ((netfs_write_folio_ready (example_request_truncated 4096)
        example_folio_streamw).stream 0).submit_len) :=
  netfs_write_folio_streaming_range (example_request_truncated 4096) example_folio_streamw
    { dirty_offset := 100, dirty_len := 50 } rfl (by decide) (by decide) rfl rfl (by decide)

/-- The failing input of C28, evaluated: a file truncated to 50 bytes and a
streaming-write folio of 4096 bytes with the dirty bytes `[100, 150)`.  The
upload stream is given the range `(100, 2^32 - 50)`; with a write size of
`2^31 - 1` the call routes `2^32 - 50` bytes in two subrequests. -/
theorem example_streaming_range_evaluates :
    example_folio_streamw.pos < (example_request_truncated 4096).inode_i_size ∧
    (((netfs_write_folio_ready (example_request_truncated 4096) example_folio_streamw).stream
        0).submit_off,
      ((netfs_write_folio_ready (example_request_truncated 4096) example_folio_streamw).stream
        0).submit_len) = (100, 4294967246) ∧
    (netfs_write_folio 8 (example_request_truncated 2147483647) example_folio_streamw).map
      (fun r => (r.2, (r.1.stream 0).extents, (r.1.stream 0).total_len)) =
    some (0, [(100, 2147483647), (2147483747, 2147483599)], 4294967246) := by
  exact ⟨by decide, rfl, rfl⟩

/-! ## Runs that agree on the plan -/

theorem plan_eq_refl (a : netfs_io_request) : plan_eq a a := ⟨fun _ => rfl, rfl, rfl, rfl⟩

theorem plan_sync_refl {a b : netfs_io_request} (h : plan_eq a b) : plan_sync a b a b :=
  ⟨h, [], by rw [List.append_nil], by rw [List.append_nil]⟩

theorem plan_sync_trans {a b a1 b1 a2 b2 : netfs_io_request} (h1 : plan_sync a b a1 b1)
    (h2 : plan_sync a1 b1 a2 b2) : plan_sync a b a2 b2 := by
  obtain ⟨_, D1, ha1, hb1⟩ := h1
  obtain ⟨he, D2, ha2, hb2⟩ := h2
  exact ⟨he, D1 ++ D2, by rw [ha2, ha1, List.append_assoc], by rw [hb2, hb1, List.append_assoc]⟩

theorem dispatches_append {w w' : netfs_io_request} (l : List netfs_event)
    (h : w'.events = w.events ++ l) :
    w'.dispatches = w.dispatches ++ l.filter netfs_event.is_dispatch := by
  unfold netfs_io_request.dispatches
  rw [h, List.filter_append]

theorem dispatches_quiet {w w' : netfs_io_request} (l : List netfs_event)
    (h : w'.events = w.events ++ l) (hl : ∀ e ∈ l, e.is_dispatch = false) :
    w'.dispatches = w.dispatches := by
  rw [dispatches_append l h]
  have : l.filter netfs_event.is_dispatch = [] := by
    apply List.filter_eq_nil_iff.2
    intro e he
    rw [hl e he]
    exact Bool.noConfusion
  rw [this, List.append_nil]

/-- Two changes that make the same calls and end in agreement. -/
theorem plan_sync_of {a b a' b' : netfs_io_request} (l : List netfs_event)
    (he : plan_eq a' b') (ha : a'.events = a.events ++ l) (hb : b'.events = b.events ++ l) :
    plan_sync a b a' b' :=
  ⟨he, l.filter netfs_event.is_dispatch, dispatches_append l ha, dispatches_append l hb⟩

theorem prepare_alloc_plan (st : netfs_io_stream) (a b : netfs_io_request) (start : Nat)
    (h : plan_eq a b) :
    netfs_prepare_write_alloc a st start = netfs_prepare_write_alloc b st start := by
  simp [netfs_prepare_write_alloc, netfs_alloc_subrequest, h.subreq_counter, h.iter]

theorem prepared_plan (st : netfs_io_stream) (a b : netfs_io_request) (start : Nat)
    (h : plan_eq a b) : st.prepared a start = st.prepared b start := by
  simp only [netfs_io_stream.prepared, netfs_prepare_write_subreq,
    prepare_alloc_plan st a b start h, h.wsize]

theorem opened_plan (st : netfs_io_stream) (a b : netfs_io_request) (start : Nat)
    (h : plan_eq a b) : st.opened a start = st.opened b start := by
  unfold netfs_io_stream.opened
  rw [prepared_plan _ a b start h]

theorem advance_construct_counter (w : netfs_io_request) (s start : Nat) :
    (netfs_advance_write_construct w s start).subreq_counter =
      w.subreq_counter + (if (w.stream s).fresh start then 1 else 0) := by
  unfold netfs_advance_write_construct netfs_io_stream.fresh
  cases hc : (w.stream s).construct with
  | none =>
    simp only [hc]
    rw [prepare_counter]
    simp
  | some i =>
    simp only [hc]
    by_cases hne : start ≠ wrap_add U64 ((w.stream s).deref i).start ((w.stream s).deref i).len
    · rw [if_pos hne]
      rw [issue_construct]
      simp only []
      rw [prepare_counter, issue_counter]
      simp [hne]
    · rw [if_neg hne, hc]
      simp [hne]

theorem advance_counter (w : netfs_io_request) (s start len : Nat) (to_eof : Bool)
    (hav : (w.stream s).avail = true) :
    (netfs_advance_write w s start len to_eof).1.subreq_counter =
      w.subreq_counter + (if (w.stream s).fresh start then 1 else 0) := by
  rw [advance_eq w s start len to_eof hav]
  simp only []
  split
  · rw [issue_counter, set_stream_subreq_counter, advance_construct_counter]
  · rw [set_stream_subreq_counter, advance_construct_counter]

/-- `netfs_advance_write` on two requests that agree on the plan. -/
theorem advance_plan (a b : netfs_io_request) (s start len : Nat) (to_eof : Bool)
    (h : plan_eq a b) :
    plan_sync a b (netfs_advance_write a s start len to_eof).1
      (netfs_advance_write b s start len to_eof).1 ∧
    (netfs_advance_write a s start len to_eof).2 = (netfs_advance_write b s start len to_eof).2 := by
  have hs := h.streams s
  cases hav : (a.stream s).avail with
  | false =>
    rw [advance_unavailable a s start len to_eof hav,
      advance_unavailable b s start len to_eof (by rw [← hs]; exact hav)]
    exact ⟨plan_sync_refl h, rfl⟩
  | true =>
    have havb : (b.stream s).avail = true := by rw [← hs]; exact hav
    have hop := opened_plan (a.stream s) a b start h
    refine ⟨plan_sync_of _ ⟨?_, ?_, ?_, ?_⟩
      (by rw [advance_events a s start len to_eof hav, List.append_assoc]) ?_, ?_⟩
    · intro t
      by_cases hst : s = 0 ↔ t = 0
      · rw [stream_eq_of_iff _ s t hst, stream_eq_of_iff _ s t hst,
          advance_stream a s start len to_eof hav, advance_stream b s start len to_eof havb,
          ← hs, hop]
      · rw [advance_stream_ne a s t start len to_eof hst,
          advance_stream_ne b s t start len to_eof hst]
        exact h.streams t
    · rw [(advance_frame a s start len to_eof).buffer, (advance_frame b s start len to_eof).buffer]
      exact h.iter
    · rw [(advance_frame a s start len to_eof).wsize, (advance_frame b s start len to_eof).wsize]
      exact h.wsize
    · rw [advance_counter a s start len to_eof hav, advance_counter b s start len to_eof havb,
        h.subreq_counter, hs]
    · rw [advance_events b s start len to_eof havb, ← hs, ← hop, List.append_assoc]
    · rw [advance_part a s start len to_eof hav, advance_part b s start len to_eof havb, ← hs, hop]

theorem step_pre_plan (fpos fsize : Nat) (a b : netfs_io_request) (iter_off s : Nat)
    (h : plan_eq a b) :
    plan_sync a b (netfs_write_folio_step_pre fpos fsize a iter_off s)
      (netfs_write_folio_step_pre fpos fsize b iter_off s) := by
  have hs := h.streams s
  have hev : ∀ w : netfs_io_request,
      (netfs_write_folio_step_pre fpos fsize w iter_off s).events =
        w.events ++ ((if (w.stream s).submit_off > iter_off
          then [netfs_event.rolling_buffer_advance ((w.stream s).submit_off - iter_off)]
          else []) ++ [netfs_event.issued_to (fpos + (w.stream s).submit_off)]) := by
    intro w
    unfold netfs_write_folio_step_pre
    simp only [set_stream_events]
    unfold atomic64_set_issued_to
    simp only []
    split
    · show (w.events ++ [_]) ++ [_] = _
      rw [List.append_assoc]
    · simp
  have hit : ∀ w : netfs_io_request,
      (netfs_write_folio_step_pre fpos fsize w iter_off s).buffer.iter =
        (if (w.stream s).submit_off > iter_off
         then { w.buffer.iter with
           pos := w.buffer.iter.pos + ((w.stream s).submit_off - iter_off) }
         else w.buffer.iter) := by
    intro w
    unfold netfs_write_folio_step_pre
    simp only [set_stream_buffer]
    unfold atomic64_set_issued_to
    simp only []
    split <;> rfl
  have hct : ∀ w : netfs_io_request,
      (netfs_write_folio_step_pre fpos fsize w iter_off s).subreq_counter = w.subreq_counter := by
    intro w
    unfold netfs_write_folio_step_pre
    simp only [set_stream_subreq_counter]
    unfold atomic64_set_issued_to
    simp only []
    split <;> rfl
  refine plan_sync_of _ ⟨?_, ?_, ?_, ?_⟩ (hev a) (by rw [hev b, hs])
  · intro t
    by_cases hst : s = 0 ↔ t = 0
    · rw [stream_eq_of_iff _ s t hst, stream_eq_of_iff _ s t hst, step_pre_stream,
        step_pre_stream, hs]
    · rw [step_pre_stream_ne fpos fsize a iter_off s t hst,
        step_pre_stream_ne fpos fsize b iter_off s t hst]
      exact h.streams t
  · rw [hit a, hit b, hs, h.iter]
  · rw [(step_pre_frame fpos fsize a iter_off s).wsize,
      (step_pre_frame fpos fsize b iter_off s).wsize]
    exact h.wsize
  · rw [hct a, hct b]
    exact h.subreq_counter

theorem set_stream_plan (a b : netfs_io_request) (s : Nat) (st : netfs_io_stream)
    (h : plan_eq a b) : plan_sync a b (a.set_stream s st) (b.set_stream s st) := by
  refine plan_sync_of [] ⟨?_, ?_, ?_, ?_⟩ (by simp) (by simp)
  · intro t
    by_cases hst : s = 0 ↔ t = 0
    · rw [stream_eq_of_iff _ s t hst, stream_eq_of_iff _ s t hst, stream_set_stream,
        stream_set_stream]
    · rw [stream_set_stream_ne _ _ _ _ hst, stream_set_stream_ne _ _ _ _ hst]
      exact h.streams t
  · simp only [set_stream_buffer]
    exact h.iter
  · simp only [set_stream_wsize]
    exact h.wsize
  · simp only [set_stream_subreq_counter]
    exact h.subreq_counter

/-- One pass of the submission loop on two requests that agree on the plan. -/
theorem step_plan (fpos fsize : Nat) (to_eof : Bool) (a b : netfs_io_request) (iter_off s : Nat)
    (h : plan_eq a b) :
    plan_sync a b (netfs_write_folio_step fpos fsize to_eof a iter_off s).1
      (netfs_write_folio_step fpos fsize to_eof b iter_off s).1 ∧
    (netfs_write_folio_step fpos fsize to_eof a iter_off s).2 =
      (netfs_write_folio_step fpos fsize to_eof b iter_off s).2 := by
  have hs := h.streams s
  rw [step_eq, step_eq]
  simp only []
  have h1 := step_pre_plan fpos fsize a b iter_off s h
  rw [← hs]
  generalize netfs_write_folio_step_pre fpos fsize a iter_off s = pa at *
  generalize netfs_write_folio_step_pre fpos fsize b iter_off s = pb at *
  obtain ⟨h2, hp⟩ := advance_plan pa pb s (fpos + (a.stream s).submit_off)
    (a.stream s).submit_len to_eof h1.1
  generalize netfs_advance_write pa s (fpos + (a.stream s).submit_off)
    (a.stream s).submit_len to_eof = ra at *
  generalize netfs_advance_write pb s (fpos + (a.stream s).submit_off)
    (a.stream s).submit_len to_eof = rb at *
  have h3 := set_stream_plan ra.1 rb.1 s (netfs_submit_advance (ra.1.stream s) ra.2) h2.1
  rw [← h2.1.streams s, ← hp]
  exact ⟨plan_sync_trans h1 (plan_sync_trans h2 h3), rfl⟩

/-- The submission loop on two requests that agree on the plan: both runs are
left or neither is, at the same value of `iter_off`, in agreement, and with the
same dispatches. -/
theorem loop_plan (fpos fsize : Nat) (to_eof : Bool) :
    ∀ (fuel : Nat) (a b : netfs_io_request) (iter_off : Nat), plan_eq a b →
    (netfs_write_folio_loop fpos fsize to_eof fuel a iter_off = none ∧
      netfs_write_folio_loop fpos fsize to_eof fuel b iter_off = none) ∨
    ∃ ra rb, netfs_write_folio_loop fpos fsize to_eof fuel a iter_off = some ra ∧
      netfs_write_folio_loop fpos fsize to_eof fuel b iter_off = some rb ∧
      plan_sync a b ra.1 rb.1 ∧ ra.2 = rb.2 := by
  intro fuel
  induction fuel with
  | zero => intro a b io _; exact Or.inl ⟨rfl, rfl⟩
  | succ n ih =>
    intro a b io h
    have hch : netfs_choose_stream b = netfs_choose_stream a :=
      choose_stream_congr a b (fun t => by rw [h.streams t]; exact ⟨rfl, rfl⟩)
    unfold netfs_write_folio_loop
    rw [hch]
    cases hc : netfs_choose_stream a with
    | none => exact Or.inr ⟨_, _, rfl, rfl, plan_sync_refl h, rfl⟩
    | some s =>
      simp only []
      obtain ⟨h1, hio⟩ := step_plan fpos fsize to_eof a b io s h
      rw [← hio]
      rcases ih _ _ (netfs_write_folio_step fpos fsize to_eof a io s).2 h1.1 with hn | hsome
      · exact Or.inl hn
      · obtain ⟨ra, rb, e1, e2, e3, e4⟩ := hsome
        exact Or.inr ⟨ra, rb, e1, e2, plan_sync_trans h1 e3, e4⟩

/-! ## The single-folio planner and the general planner -/

theorem make_space_iter (b : rolling_buffer) : (rolling_buffer_make_space b).1.iter = b.iter := by
  unfold rolling_buffer_make_space
  split <;> rfl

theorem flushed_counter (w : netfs_io_request) (f : folio) :
    (netfs_write_folio_flushed w f).subreq_counter = w.subreq_counter := by
  rw [flushed_eq, ← (entry_fields w f).2.2.2]
  generalize netfs_write_folio_entry w f = e
  have hc : ∀ (c : Prop) [Decidable c] (x : netfs_io_request) (s : Nat),
      (if c then netfs_issue_write x s else x).subreq_counter = x.subreq_counter := by
    intro c _ x s
    split
    · exact issue_counter x s
    · rfl
  have he : ∀ (c : Prop) [Decidable c] (x : netfs_io_request) (ev : netfs_event),
      (if c then x.emit ev else x).subreq_counter = x.subreq_counter := by
    intro c _ x ev
    split <;> rfl
  have hu : ∀ (x : netfs_io_request) (ev : netfs_event),
      (x.emit ev).subreq_counter = x.subreq_counter := fun _ _ => rfl
  rw [hu, he, hc, hc]

theorem filter_cond_quiet (c : Prop) [Decidable c] (e : netfs_event)
    (h : e.is_dispatch = false) :
    (if c then [e] else []).filter netfs_event.is_dispatch = [] := by
  split
  · rw [List.filter_cons, h]
    rfl
  · rfl

/-- The extent of a folio that is not written by streaming, for an origin other
than write-through. -/
theorem entry_plain (w : netfs_io_request) (f : folio)
    (horigin : w.origin ≠ netfs_io_origin.NETFS_WRITETHROUGH) (hfin : f.finfo = none)
    (hsz : f.size < U64) (hisz : w.inode_i_size < U64) :
    (netfs_write_folio_entry w f).2 =
      { foff := 0,
        flen := if f.size > w.inode_i_size - f.pos then w.inode_i_size - f.pos else f.size,
        to_eof := decide (f.size > w.inode_i_size - f.pos) ||
          decide (f.size = w.inode_i_size - f.pos),
        streamw := false } := by
  rw [entry_extent]
  have hr : w.inode_i_size - f.pos < U64 := by omega
  have h1 := wrap_sub_zero _ hr
  have h2 := wrap_sub_zero _ hsz
  unfold netfs_write_folio_extent
  simp only [hfin, Option.isSome_none]
  rw [if_neg horigin]
  by_cases hgt : f.size > w.inode_i_size - f.pos
  · rw [if_pos hgt, if_pos hgt, h1]
    simp [hgt]
  · rw [if_neg hgt, if_neg hgt, h2]
    by_cases heq : f.size = w.inode_i_size - f.pos
    · rw [if_pos heq]
      simp [heq]
    · rw [if_neg heq]
      simp [hgt, heq]

/-- What the submission loop of `netfs_write_folio` starts from, for a folio
that is not written by streaming, not of the copy-to-cache cohort, and whose
range starts at offset 0: nothing has been dispatched yet. -/
theorem ready_plain (w : netfs_io_request) (f : folio)
    (hctc : f.group ≠ netfs_group_ptr.NETFS_FOLIO_COPY_TO_CACHE)
    (hoff : (netfs_write_folio_entry w f).2.foff = 0)
    (hsw : (netfs_write_folio_entry w f).2.streamw = false) :
    (netfs_write_folio_ready w f).buffer.iter = w.buffer.iter ∧
    (netfs_write_folio_ready w f).wsize = w.wsize ∧
    (netfs_write_folio_ready w f).subreq_counter = w.subreq_counter ∧
    (netfs_write_folio_ready w f).dispatches = w.dispatches := by
  refine ⟨?_, ?_, ?_, ?_⟩
  · have h1 := (flushed_builder w f).buffer
    have h2 := (entry_fields w f).2.1
    have h3 : (netfs_write_folio_ready w f).buffer.iter =
        (netfs_write_folio_flushed w f).buffer.iter := by
      unfold netfs_write_folio_ready
      simp only []
      generalize netfs_write_folio_flushed w f = wf
      rfl
    rw [h3, h1, h2, make_space_iter]
  · rw [(ready_frame w f).wsize, (flushed_frame w f).wsize]
  · have h3 : (netfs_write_folio_ready w f).subreq_counter =
        (netfs_write_folio_flushed w f).subreq_counter := by
      unfold netfs_write_folio_ready
      simp only []
      generalize netfs_write_folio_flushed w f = wf
      rfl
    rw [h3, flushed_counter]
  · unfold netfs_io_request.dispatches
    rw [ready_events, flushed_events, entry_events, hoff, hsw]
    have hA : (if f.group = netfs_group_ptr.NETFS_FOLIO_COPY_TO_CACHE ∨ 0 > 0
        then w.io_streams0.issue_events 0 else []) = [] :=
      if_neg (fun h => by rcases h with h | h; exact hctc h; exact Nat.lt_irrefl _ h)
    have hB : (if false = true then w.io_streams1.issue_events 1 else []) = [] :=
      if_neg (by decide)
    rw [hA, hB]
    simp only [List.filter_append, List.append_nil]
    rw [filter_cond_quiet _ (netfs_event.folio_zero_segment f (w.inode_i_size - f.pos) f.size) rfl,
      filter_cond_quiet _ (netfs_event.folio_start_writeback f) rfl]
    simp [netfs_event.is_dispatch]

/-- The call `netfs_write_folio_single(wreq, folio)` when a stream is available:
the submission loop is run from `netfs_write_folio_single_ready`. -/
theorem write_folio_single_run (fuel : Nat) (w : netfs_io_request) (f : folio)
    (hav : w.io_streams0.avail = true ∨ w.io_streams1.avail = true) :
    netfs_write_folio_single fuel w f =
      match netfs_write_folio_loop f.pos f.size
          (decide (f.size > wrap_sub U64 w.i_size f.pos) ||
            decide (f.size = wrap_sub U64 w.i_size f.pos)) fuel
          (netfs_write_folio_single_ready w f) 0 with
      | none => none
      | some q => some (netfs_write_folio_single_finish q.1 f q.2, (0 : Int)) := by
  unfold netfs_write_folio_single netfs_write_folio_single_ready
  simp only []
  have hs := (cond_emit_frame (f.size > wrap_sub U64 w.i_size f.pos) w
    (netfs_event.folio_zero_segment f
      (if f.size > wrap_sub U64 w.i_size f.pos then wrap_sub U64 w.i_size f.pos else f.size)
      f.size)).2
  have h0 := hs 0
  have h1 := hs 1
  simp only [stream_zero, stream_one] at h0 h1
  rw [if_neg (by
    rw [h0, h1]
    rcases hav with h | h
    · rw [h]; simp
    · rw [h]; simp)]
  rfl

/-- What the submission loop of `netfs_write_folio_single` starts from. -/
theorem single_ready_plain (w : netfs_io_request) (f : folio) :
    (∀ t, ((netfs_write_folio_single_ready w f).stream t) =
      if (w.stream t).avail = true
      then { w.stream t with
        submit_off := 0,
        submit_len := (if f.size > wrap_sub U64 w.i_size f.pos
          then wrap_sub U64 w.i_size f.pos else f.size) % U32 }
      else { w.stream t with submit_off := UINT_MAX, submit_len := 0 }) ∧
    (netfs_write_folio_single_ready w f).buffer.iter = w.buffer.iter ∧
    (netfs_write_folio_single_ready w f).wsize = w.wsize ∧
    (netfs_write_folio_single_ready w f).subreq_counter = w.subreq_counter ∧
    (netfs_write_folio_single_ready w f).dispatches = w.dispatches := by
  unfold netfs_write_folio_single_ready
  simp only []
  by_cases hz : f.size > wrap_sub U64 w.i_size f.pos
  · simp only [if_pos hz]
    refine ⟨?_, rfl, rfl, rfl, ?_⟩
    · intro t
      unfold netfs_io_request.stream
      split
      · cases h : w.io_streams0.avail <;> simp [rolling_buffer_append, netfs_io_request.emit, h]
      · cases h : w.io_streams1.avail <;> simp [rolling_buffer_append, netfs_io_request.emit, h]
    · simp [netfs_io_request.dispatches, rolling_buffer_append, netfs_io_request.emit,
        List.filter_append, netfs_event.is_dispatch]
  · simp only [if_neg hz]
    refine ⟨?_, rfl, rfl, rfl, ?_⟩
    · intro t
      unfold netfs_io_request.stream
      split
      · cases h : w.io_streams0.avail <;> simp [rolling_buffer_append, netfs_io_request.emit, h]
      · cases h : w.io_streams1.avail <;> simp [rolling_buffer_append, netfs_io_request.emit, h]
    · simp [netfs_io_request.dispatches, rolling_buffer_append, netfs_io_request.emit,
        List.filter_append, netfs_event.is_dispatch]

/-- The end of `netfs_write_folio` when no stream is left with a construct to
flush: it is the end of `netfs_write_folio_single`. -/
theorem finish_plain (w : netfs_io_request) (f : folio) (x : folio_extent) (io : Nat)
    (h : wrap_add U64 x.foff x.flen < f.size → ∀ t, (w.stream t).construct = none) :
    netfs_write_folio_finish w f x io = netfs_write_folio_single_finish w f io := by
  unfold netfs_write_folio_finish netfs_write_folio_single_finish
  simp only []
  have h1s : ∀ t, (atomic64_set_issued_to
      (if f.size > io then rolling_buffer_advance w (f.size - io) else w)
      (f.pos + f.size)).stream t = w.stream t := by
    intro t; split <;> rfl
  generalize atomic64_set_issued_to
      (if f.size > io then rolling_buffer_advance w (f.size - io) else w)
      (f.pos + f.size) = w2 at *
  split
  · rename_i hlt
    rw [issue_none w2 0 (by rw [h1s]; exact h hlt 0),
      issue_none w2 1 (by rw [h1s]; exact h hlt 1)]
  · rfl

/-- The end of `netfs_write_folio_single` on two requests that agree on the
plan. -/
theorem single_finish_plan (f : folio) (io : Nat) (a b : netfs_io_request) (h : plan_eq a b) :
    plan_sync a b (netfs_write_folio_single_finish a f io)
      (netfs_write_folio_single_finish b f io) ∧
    (netfs_write_folio_single_finish a f io).issued_to =
      (netfs_write_folio_single_finish b f io).issued_to := by
  unfold netfs_write_folio_single_finish
  simp only []
  by_cases hgt : f.size > io
  · rw [if_pos hgt, if_pos hgt]
    refine ⟨plan_sync_of [netfs_event.rolling_buffer_advance (f.size - io),
      netfs_event.issued_to (f.pos + f.size)] ⟨fun t => ?_, ?_, h.wsize, h.subreq_counter⟩
      ?_ ?_, rfl⟩
    · exact h.streams t
    · show ({ a.buffer.iter with pos := a.buffer.iter.pos + (f.size - io) } : iov_iter) =
        { b.buffer.iter with pos := b.buffer.iter.pos + (f.size - io) }
      rw [h.iter]
    · simp [atomic64_set_issued_to, rolling_buffer_advance]
    · simp [atomic64_set_issued_to, rolling_buffer_advance]
  · rw [if_neg hgt, if_neg hgt]
    exact ⟨plan_sync_of [netfs_event.issued_to (f.pos + f.size)]
      ⟨fun t => h.streams t, h.iter, h.wsize, h.subreq_counter⟩ rfl rfl, rfl⟩

/-- The two planners start their submission loops in agreement, with nothing
dispatched by either. -/
theorem single_ready_agrees (w : netfs_io_request) (f : folio)
    (horigin : w.origin ≠ netfs_io_origin.NETFS_WRITETHROUGH) (hfin : f.finfo = none)
    (hctc : f.group ≠ netfs_group_ptr.NETFS_FOLIO_COPY_TO_CACHE)
    (hlo : f.pos < w.i_size) (hsize : w.inode_i_size = w.i_size)
    (hsz : f.size < U32) (hisz : w.i_size ≤ LONG_MAX) :
    plan_sync w w (netfs_write_folio_ready w f) (netfs_write_folio_single_ready w f) := by
  have hU : f.size < U64 := Nat.lt_trans hsz (by decide)
  have hI : w.i_size < U64 := Nat.lt_of_le_of_lt hisz (by decide)
  have hx := entry_plain w f horigin hfin hU (by rw [hsize]; exact hI)
  have hroom : wrap_sub U64 w.i_size f.pos = w.inode_i_size - f.pos := by
    rw [hsize]
    exact wrap_sub_le _ _ hI (Nat.le_of_lt hlo)
  obtain ⟨ri, rw1, rc, rd⟩ := ready_plain w f hctc (by rw [hx]) (by rw [hx])
  obtain ⟨ss, si, sw, sc, sd⟩ := single_ready_plain w f
  refine ⟨⟨fun t => ?_, ri.trans si.symm, rw1.trans sw.symm, rc.trans sc.symm⟩, [], ?_, ?_⟩
  · rw [ready_stream, flushed_plain w f hctc (by rw [hx]) (by rw [hx]) t, hx, ss t, hroom]
    unfold netfs_set_submit
    simp only [Bool.and_false, Bool.or_false, hctc, decide_False]
    cases hav : (w.stream t).avail with
    | false => simp
    | true =>
      simp only [Bool.not_true, Bool.false_eq_true, if_false, if_true]
      rfl
  · rw [rd, List.append_nil]
  · rw [sd, List.append_nil]

/-- C29 (as amended): the single-folio planner agrees with the general planner.
For every request whose origin is not write-through, with at least one stream
available and no construct on a stream that is not available, and every folio
that is not written by streaming, of the request's group, with `fpos < i_size`
and the inode size equal to `wreq->i_size`, when the rolling buffer can be given
space, `netfs_write_folio` and `netfs_write_folio_single` started from the same
state both return 0 and leave the same stream states (the whole of both
`io_streams` records: subrequest lists, constructs, submission points), the same
`issued_to`, and have dispatched the same subrequests in the same order. -/
theorem netfs_write_folio_single_agrees (fuel : Nat) (w : netfs_io_request) (f : folio)
    (horigin : w.origin ≠ netfs_io_origin.NETFS_WRITETHROUGH)
    (hav : w.io_streams0.avail = true ∨ w.io_streams1.avail = true)
    (hcon : ∀ t, (w.stream t).avail = false → (w.stream t).construct = none)
    (hfin : f.finfo = none) (hgrp : f.group = w.group)
    (hctc : f.group ≠ netfs_group_ptr.NETFS_FOLIO_COPY_TO_CACHE)
    (hlo : f.pos < w.i_size) (hsize : w.inode_i_size = w.i_size)
    (hspace : w.buffer.space ≠ some 0)
    (hsz : f.size < U32) (hisz : w.i_size ≤ LONG_MAX)
    (hok : planner_ok w) (hpos : planner_pos w) (hfuel : 2 * U32 ≤ fuel) :
    ∃ w1 w2, netfs_write_folio fuel w f = some (w1, 0) ∧
      netfs_write_folio_single fuel w f = some (w2, 0) ∧
      w1.io_streams0 = w2.io_streams0 ∧ w1.io_streams1 = w2.io_streams1 ∧
      w1.issued_to = w2.issued_to ∧
      ∃ D : List netfs_event,
        w1.dispatches = w.dispatches ++ D ∧ w2.dispatches = w.dispatches ++ D := by
  have hlo1 : f.pos < w.inode_i_size := by rw [hsize]; exact hlo
  have hfpos : f.pos ≤ LONG_MAX := by omega
  have hU : f.size < U64 := Nat.lt_trans hsz (by decide)
  have hI : w.i_size < U64 := Nat.lt_of_le_of_lt hisz (by decide)
  have hsub : netfs_submitted w f := ⟨hspace, hlo1, Or.inr hgrp, fun h => absurd h hctc, hav⟩
  have hx := entry_plain w f horigin hfin hU (by rw [hsize]; exact hI)
  have hroom : wrap_sub U64 w.i_size f.pos = w.inode_i_size - f.pos := by
    rw [hsize]
    exact wrap_sub_le _ _ hI (Nat.le_of_lt hlo)
  have h0 := single_ready_agrees w f horigin hfin hctc hlo hsize hsz hisz
  have rok := ready_ok w f hok
  have rpos := ready_pos w f hpos
  have rrd := ready_submit w f
  -- a stream with nothing to submit has no construct
  have rcon : f.size > w.inode_i_size - f.pos →
      ∀ t, ((netfs_write_folio_ready w f).stream t).submit_len = 0 →
      ((netfs_write_folio_ready w f).stream t).construct = none := by
    intro hgt t hz
    rw [ready_stream, flushed_plain w f hctc (by rw [hx]) (by rw [hx]) t, hx] at hz ⊢
    rw [(set_submit_subrequests _ _ _ _ _).2]
    cases hat : (w.stream t).avail with
    | false => exact hcon t hat
    | true =>
      exfalso
      unfold netfs_set_submit at hz
      simp only [Bool.and_false, Bool.or_false, hctc, decide_False, hat, Bool.not_true,
        Bool.false_eq_true, if_false] at hz
      have hz1 : (if f.size > w.inode_i_size - f.pos then w.inode_i_size - f.pos else f.size)
          % U32 = 0 := hz
      have hlt : (if f.size > w.inode_i_size - f.pos then w.inode_i_size - f.pos else f.size)
          < U32 := by
        split <;> omega
      rw [Nat.mod_eq_of_lt hlt] at hz1
      split at hz1 <;> omega
  rw [write_folio_run fuel w f hsub, write_folio_single_run fuel w f hav, hroom, hx]
  simp only []
  have hmeasure : ((netfs_write_folio_ready w f).stream 0).submit_len +
      ((netfs_write_folio_ready w f).stream 1).submit_len < fuel := by
    have a0 := (rrd 0).1
    have a1 := (rrd 1).1
    omega
  generalize netfs_write_folio_ready w f = R at *
  generalize netfs_write_folio_single_ready w f = S at *
  generalize htoeof : (decide (f.size > w.inode_i_size - f.pos) ||
    decide (f.size = w.inode_i_size - f.pos)) = toeof at *
  generalize hflen : (if f.size > w.inode_i_size - f.pos then w.inode_i_size - f.pos
    else f.size) = flen at *
  obtain ⟨wa, ioa, hruna, _, _, _⟩ := loop_total f.pos f.size toeof hfpos fuel R 0 rok rpos rrd
    hmeasure
  rcases loop_plan f.pos f.size toeof fuel R S 0 h0.1 with hn | hsome
  · rw [hruna] at hn
    exact Option.noConfusion hn.1
  · obtain ⟨ra, rb, ea, eb, hsync, hio⟩ := hsome
    rw [ea, eb]
    simp only []
    -- the flush at the end of the general planner finds nothing to dispatch
    have hnone : wrap_add U64 0 flen < f.size → ∀ t, (ra.1.stream t).construct = none := by
      intro hlt
      have hfl : flen < U64 := by
        rw [← hflen]
        split <;> omega
      have hlt1 : flen < f.size := by
        unfold wrap_add at hlt
        rw [Nat.zero_add, Nat.mod_eq_of_lt hfl] at hlt
        exact hlt
      have hgt : f.size > w.inode_i_size - f.pos := by
        rw [← hflen] at hlt1
        split at hlt1
        · assumption
        · omega
      have hte : toeof = true := by
        rw [← htoeof]
        simp [hgt]
      subst hte
      obtain ⟨w9, io9, hrun9, hc9⟩ := loop_eof f.pos f.size hfpos fuel R 0 rok rpos rrd
        (rcon hgt) hmeasure
      rw [ea] at hrun9
      have : ra.1 = w9 := congrArg Prod.fst (Option.some.inj hrun9)
      rw [this]
      exact hc9
    rw [finish_plain ra.1 f _ ra.2 hnone, hio]
    obtain ⟨hfin2, hiss⟩ := single_finish_plan f rb.2 ra.1 rb.1 hsync.1
    have hall := plan_sync_trans h0 (plan_sync_trans hsync hfin2)
    obtain ⟨he, D, hd1, hd2⟩ := hall
    have s0 := he.streams 0
    have s1 := he.streams 1
    simp only [stream_zero, stream_one] at s0 s1
    exact ⟨_, _, rfl, rfl, s0, s1, hiss, D, hd1, hd2⟩

/-- C29 (witness): the last page of the file of the example request, in which
the file ends at byte 1696, planned by both planners from the example request. -/
theorem netfs_write_folio_single_agrees_witness :
    ∃ w1 w2, netfs_write_folio (2 * U32) example_request example_folio_last = some (w1, 0) ∧
      netfs_write_folio_single (2 * U32) example_request example_folio_last = some (w2, 0) ∧
      w1.io_streams0 = w2.io_streams0 ∧ w1.io_streams1 = w2.io_streams1 ∧
      w1.issued_to = w2.issued_to ∧
      ∃ D : List netfs_event,
        w1.dispatches = example_request.dispatches ++ D ∧
        w2.dispatches = example_request.dispatches ++ D :=
  netfs_write_folio_single_agrees (2 * U32) example_request example_folio_last (by decide)
    (Or.inl rfl)
    (fun t => by
      unfold netfs_io_request.stream
      split <;> decide)
    rfl rfl (by decide) (by decide) rfl (by decide) (by decide) (by decide)
    example_request_planner_ok example_request_planner_pos (Nat.le_refl _)

/-- C29 (counterexample): the example request when no page can be allocated for
the rolling buffer, and the first page of its file.  The request is a writeback
with both streams available and no construct, the folio is not written by
streaming, is of the request's group and lies below `i_size`, which is the inode
size.  `netfs_write_folio` returns `-ENOMEM` with nothing routed and `issued_to`
left at 0; `netfs_write_folio_single` returns 0 with the 4096 bytes routed to
both streams, the upload subrequest dispatched, and `issued_to` at 4096. -/
theorem netfs_write_folio_single_agrees_counterexample :
    (example_request_nomem.origin ≠ netfs_io_origin.NETFS_WRITETHROUGH ∧
      example_request_nomem.io_streams0.avail = true ∧
      example_request_nomem.io_streams1.avail = true ∧
      example_request_nomem.io_streams0.construct = none ∧
      example_request_nomem.io_streams1.construct = none ∧
      example_folio0.finfo = none ∧ example_folio0.group = example_request_nomem.group ∧
      example_folio0.pos < example_request_nomem.i_size ∧
      example_request_nomem.inode_i_size = example_request_nomem.i_size) ∧
    (netfs_write_folio 8 example_request_nomem example_folio0).map
        (fun r => (r.1.io_streams0.extents, r.1.io_streams0.construct,
          r.1.io_streams1.extents, r.1.io_streams1.construct, r.1.issued_to,
          r.1.dispatches.length, r.2)) =
      some ([], none, [], none, 0, 0, -ENOMEM) ∧
    (netfs_write_folio_single 8 example_request_nomem example_folio0).map
        (fun r => (r.1.io_streams0.extents, r.1.io_streams0.construct,
          r.1.io_streams1.extents, r.1.io_streams1.construct, r.1.issued_to,
          r.1.dispatches.length, r.2)) =
      some ([(0, 4096)], none, [(0, 4096)], some 0, 4096, 1, 0) := by
  refine ⟨by decide, by rfl, by rfl⟩

/-! ## The return value of `netfs_unbuffered_write` -/

/-- Partial correctness: whatever `netfs_unbuffered_write` returns, the return
value is 0. -/
theorem unbuffered_write_ret (view : collector_view) (fuel : Nat) (w : netfs_io_request)
    (len : Nat) (r : netfs_io_request × Int)
    (h : netfs_unbuffered_write view fuel w len = some r) : r.2 = 0 := by
  unfold netfs_unbuffered_write at h
  simp only [] at h
  split at h
  · exact Option.noConfusion h
  · have := Option.some.inj h
    subst this
    rfl

/-- The loop of `netfs_unbuffered_write` is left after at most `len` passes when
every subrequest prepared on the upload stream takes at least one byte. -/
theorem unbuffered_loop_returns (view : collector_view) :
    ∀ (fuel k : Nat) (w : netfs_io_request) (start len : Nat),
    stream_ok w.io_streams0 → limits_in_range w.wsize w.io_streams0 →
    limits_pos w.wsize w.io_streams0 → start + len < U64 → len < fuel →
    ∃ w', netfs_unbuffered_write_loop view fuel k w start len = some w' := by
  intro fuel
  induction fuel with
  | zero => intro k w start len _ _ _ _ hf; omega
  | succ fuel ih =>
    intro k w start len hok hlim hpos hrange hfuel
    unfold netfs_unbuffered_write_loop
    by_cases hz : len = 0
    · rw [if_pos hz]
      exact ⟨w, rfl⟩
    · rw [if_neg hz]
      simp only []
      split
      · exact ⟨_, rfl⟩
      · obtain ⟨f0, f1, fw, _, _⟩ := unbuffered_flags_facts view k
          (rolling_buffer_advance (netfs_advance_write w 0 start len false).1
            (netfs_advance_write w 0 start len false).2)
        have hu : U32 < U64 := by decide
        have hs0 : (rolling_buffer_advance (netfs_advance_write w 0 start len false).1
            (netfs_advance_write w 0 start len false).2).io_streams0 =
            (netfs_advance_write w 0 start len false).1.stream 0 := rfl
        have hws : (rolling_buffer_advance (netfs_advance_write w 0 start len false).1
            (netfs_advance_write w 0 start len false).2).wsize = w.wsize :=
          (advance_frame w 0 start len false).wsize
        have hok' := advance_ok w 0 start len false hok hlim hrange
        have hlim' := advance_limits w 0 start len false hlim
        have hpos' : limits_pos w.wsize ((netfs_advance_write w 0 start len false).1.stream 0) :=
          limits_pos_static _ (advance_static w 0 start len false) hpos
        rw [(advance_frame w 0 start len false).wsize] at hlim'
        have hpart : (netfs_advance_write w 0 start len false).2 ≤ len ∧
            0 < (netfs_advance_write w 0 start len false).2 := by
          cases hav : (w.stream 0).avail with
          | false =>
            rw [advance_unavailable w 0 start len false hav]
            exact ⟨Nat.le_refl _, Nat.pos_of_ne_zero hz⟩
          | true =>
            rw [advance_part w 0 start len false hav]
            have := advanced_part_pos (w.stream 0) w start len hok hlim hpos (by omega)
              (Nat.pos_of_ne_zero hz)
            exact ⟨this.2, this.1⟩
        rw [wrap_sub_le _ _ (by omega) hpart.1]
        apply ih
        · rw [f0, hs0]; exact hok'
        · rw [f0, fw, hs0, hws]; exact hlim'
        · rw [f0, fw, hs0, hws]; exact hpos'
        · omega
        · omega

/-- C30: the return value of `netfs_unbuffered_write` is 0 whenever it returns,
for every request, length and behaviour of the collector; it does return, given
fuel for `len` passes, when the upload stream satisfies the stream invariant and
every subrequest prepared on it takes at least one byte; and when
`NETFS_RREQ_FAILED` is seen at the end of the first pass the loop is abandoned
after that pass: the call returns 0 with the flag set in the request, whatever
remains of `len`. -/
theorem netfs_unbuffered_write_returns_zero :
    (∀ (view : collector_view) (fuel : Nat) (w : netfs_io_request) (len : Nat)
        (r : netfs_io_request × Int),
      netfs_unbuffered_write view fuel w len = some r → r.2 = 0) ∧
    (∀ (view : collector_view) (fuel : Nat) (w : netfs_io_request) (len : Nat),
      stream_ok w.io_streams0 → limits_in_range w.wsize w.io_streams0 →
      limits_pos w.wsize w.io_streams0 → w.start + len < U64 → len < fuel →
      ∃ w', netfs_unbuffered_write view fuel w len = some (w', 0)) ∧
    (∀ (view : collector_view) (fuel : Nat) (w : netfs_io_request) (len : Nat),
      0 < len → (w.NETFS_RREQ_FAILED = true ∨ view.failed 0 = true) →
      ∃ w', netfs_unbuffered_write view (fuel + 1) w len = some (w', 0) ∧
        w'.NETFS_RREQ_FAILED = true ∧
        w'.io_streams0.total_len =
          ((netfs_advance_write
            (if w.origin = netfs_io_origin.NETFS_DIO_WRITE
             then w.emit netfs_event.inode_dio_begin else w) 0 w.start len false).1.stream
              0).total_len) := by
  refine ⟨unbuffered_write_ret, ?_, ?_⟩
  · intro view fuel w len hok hlim hpos hrange hfuel
    unfold netfs_unbuffered_write
    simp only []
    have hw : ∀ x : netfs_io_request, x = (if w.origin = netfs_io_origin.NETFS_DIO_WRITE
        then w.emit netfs_event.inode_dio_begin else w) →
        x.io_streams0 = w.io_streams0 ∧ x.wsize = w.wsize ∧ x.start = w.start := by
      intro x hx
      subst hx
      split <;> exact ⟨rfl, rfl, rfl⟩
    obtain ⟨e0, e1, e2⟩ := hw _ rfl
    generalize (if w.origin = netfs_io_origin.NETFS_DIO_WRITE
        then w.emit netfs_event.inode_dio_begin else w) = x at e0 e1 e2 ⊢
    obtain ⟨w', hw'⟩ := unbuffered_loop_returns view fuel 0 x x.start len
      (by rw [e0]; exact hok) (by rw [e0, e1]; exact hlim) (by rw [e0, e1]; exact hpos)
      (by rw [e2]; exact hrange) hfuel
    rw [hw']
    exact ⟨_, rfl⟩
  · intro view fuel w len hlen hfail
    unfold netfs_unbuffered_write
    simp only []
    have hw : ∀ x : netfs_io_request, x = (if w.origin = netfs_io_origin.NETFS_DIO_WRITE
        then w.emit netfs_event.inode_dio_begin else w) →
        x.NETFS_RREQ_FAILED = w.NETFS_RREQ_FAILED ∧ x.start = w.start := by
      intro x hx
      subst hx
      split <;> exact ⟨rfl, rfl⟩
    obtain ⟨e0, e2⟩ := hw _ rfl
    generalize (if w.origin = netfs_io_origin.NETFS_DIO_WRITE
        then w.emit netfs_event.inode_dio_begin else w) = x at e0 e2 ⊢
    unfold netfs_unbuffered_write_loop
    rw [if_neg (by omega)]
    simp only []
    obtain ⟨f0, f1, fw, ff, _⟩ := unbuffered_flags_facts view 0
      (rolling_buffer_advance (netfs_advance_write x 0 x.start len false).1
        (netfs_advance_write x 0 x.start len false).2)
    have hflag : (netfs_unbuffered_write_flags view 0
        (rolling_buffer_advance (netfs_advance_write x 0 x.start len false).1
          (netfs_advance_write x 0 x.start len false).2)).NETFS_RREQ_FAILED = true := by
      rw [ff]
      have : (rolling_buffer_advance (netfs_advance_write x 0 x.start len false).1
          (netfs_advance_write x 0 x.start len false).2).NETFS_RREQ_FAILED =
          w.NETFS_RREQ_FAILED :=
        ((advance_frame x 0 x.start len false).failed).trans e0
      rw [this]
      rcases hfail with h | h
      · rw [h]; rfl
      · rw [h]; exact Bool.or_true _
    rw [if_pos hflag]
    refine ⟨_, rfl, ?_, ?_⟩
    · have hb : ∀ y : netfs_io_request,
          (netfs_end_issue_write y).NETFS_RREQ_FAILED = y.NETFS_RREQ_FAILED := by
        intro y
        unfold netfs_end_issue_write
        simp only []
        have h1 := end_issue_write_stream_frame
          (({ y with NETFS_RREQ_ALL_QUEUED := true } : netfs_io_request), true) 0
        have h2 := end_issue_write_stream_frame
          (netfs_end_issue_write_stream
            (({ y with NETFS_RREQ_ALL_QUEUED := true } : netfs_io_request), true) 0) 1
        have h3 := h2.failed.trans h1.failed
        split
        · exact h3
        · exact h3
      rw [hb, hflag]
    · have ht : ∀ y : netfs_io_request,
          (netfs_end_issue_write y).io_streams0.total_len = y.io_streams0.total_len := by
        intro y
        have := end_issue_write_stream_eq y 0
        show ((netfs_end_issue_write y).stream 0).total_len = (y.stream 0).total_len
        rw [this]
        split
        · unfold netfs_io_stream.total_len
          exact congrArg List.sum (issued_map (fun q => q.len) (fun _ => rfl) _)
        · rfl
      rw [ht, f0, e2]
      rfl

theorem netfs_unbuffered_write_returns_zero_witness :
    ∃ w', netfs_unbuffered_write example_view_failing (4 + 1) example_request_unbuffered 10000 =
        some (w', 0) ∧
      ∃ w'', netfs_unbuffered_write { pause := fun _ => false, failed := fun _ => true } (0 + 1)
          example_request_unbuffered 10000 = some (w'', 0) ∧
        w''.NETFS_RREQ_FAILED = true ∧
        w''.io_streams0.total_len =
          ((netfs_advance_write
            (if example_request_unbuffered.origin = netfs_io_origin.NETFS_DIO_WRITE
             then example_request_unbuffered.emit netfs_event.inode_dio_begin
             else example_request_unbuffered) 0 example_request_unbuffered.start 10000
              false).1.stream 0).total_len := by
  obtain ⟨w', hw'⟩ := Option.isSome_iff_exists.1
    (show (netfs_unbuffered_write example_view_failing (4 + 1) example_request_unbuffered
      10000).isSome = true from rfl)
  have h0 := netfs_unbuffered_write_returns_zero.1 _ _ _ _ _ hw'
  refine ⟨w'.1, ?_, ?_⟩
  · rw [hw', ← h0]
  · exact netfs_unbuffered_write_returns_zero.2.2
      { pause := fun _ => false, failed := fun _ => true } 0 example_request_unbuffered 10000
      (by decide) (Or.inr rfl)

/-- The failing collector of the example, evaluated: `NETFS_RREQ_FAILED` is seen
after the second pass, 8192 of the 10000 bytes have been submitted, the flag is
set in the request and the return value is 0. -/
theorem example_unbuffered_failure_evaluates :
    (netfs_unbuffered_write example_view_failing 5 example_request_unbuffered 10000).map
      (fun r => (r.2, r.1.NETFS_RREQ_FAILED, r.1.io_streams0.total_len)) =
    some (0, true, 8192) := by
  rfl

/-! ## Byte conservation -/

/-- The local `flen` of `netfs_write_folio` for a routed folio whose dirty range
starts at or below EOF: it is the number of bytes of the folio that are to be
written, and it is stored in `submit_len` as it is. -/
theorem routed_bytes_stored (w : netfs_io_request) (f : folio) (s : Nat)
    (hr : netfs_routed w f s) (hsz : f.size < U32)
    (hfi : ∀ fi, f.finfo = some fi →
      fi.dirty_offset + fi.dirty_len ≤ f.size ∧ fi.dirty_offset ≤ w.inode_i_size - f.pos) :
    (netfs_write_folio_extent w f).2.flen = netfs_routed_bytes w f ∧
    (netfs_write_folio_extent w f).2.flen % U32 = netfs_routed_bytes w f := by
  have hlo : f.pos < w.inode_i_size := hr.1
  have hU : U32 < U64 := by decide
  have key : (netfs_write_folio_extent w f).2.flen = netfs_routed_bytes w f ∧
      netfs_routed_bytes w f < U32 := by
    cases hf : f.finfo with
    | none =>
      have hb : netfs_routed_bytes w f = min f.size (w.inode_i_size - f.pos) := by
        unfold netfs_routed_bytes
        simp only [hf]
        exact Nat.sub_zero _
      rw [hb]
      by_cases hle : f.size ≤ w.inode_i_size - f.pos
      · rw [(extent_plain w f hf hle (Nat.lt_trans hsz hU)).2.1, Nat.min_eq_left hle]
        exact ⟨rfl, hsz⟩
      · have hx := extent_last w f hf hlo (by omega) hsz
        rw [entry_extent] at hx
        rw [hx, Nat.min_eq_right (by omega)]
        exact ⟨rfl, by omega⟩
    | some fi =>
      obtain ⟨hin, hle⟩ := hfi fi hf
      have hb : netfs_routed_bytes w f =
          min (fi.dirty_offset + fi.dirty_len) (w.inode_i_size - f.pos) - fi.dirty_offset := by
        unfold netfs_routed_bytes
        simp only [hf]
      have hx := (extent_streaming_clamped w f fi hf hin hsz).2.2.1 hle
      rw [entry_extent] at hx
      rw [hx, hb]
      refine ⟨rfl, ?_⟩
      have := Nat.min_le_left (fi.dirty_offset + fi.dirty_len) (w.inode_i_size - f.pos)
      omega
  exact ⟨key.1, by rw [key.1, Nat.mod_eq_of_lt key.2]⟩

/-- The wrapped `flen` of a streaming-write folio whose dirty range starts
beyond EOF, as it is stored in the `unsigned int` `submit_len`. -/
theorem wrapped_flen_stored (d : Nat) (h0 : 0 < d) (hd : d < U32) :
    (U64 - d) % U32 = U32 - d := by
  unfold U64 U32 at *
  omega

/-- C1 (evaluated on the code): byte conservation.  The routed size of a folio
is the number of bytes of its dirty range that lie below EOF
(`netfs_routed_bytes`).  For every sequence of folios that `netfs_write_folio`
routes to the stream `s` (each not beyond EOF, of an accepted group, with `s`
available and not skipped for it), provided every prepared subrequest gets a
length limit of at least 1 and the dirty range of every streaming-write folio
starts at or below EOF, the local `flen` of each call is the routed size of the
folio, the calls return 0, and the sum of the `len` fields of the subrequests of
`s` grows by exactly the total routed size, as the claim says.  For a routed
streaming-write folio whose dirty range starts beyond EOF
(`i_size - fpos < dirty_offset`) the subtraction `flen -= foff` wraps: no byte
of the folio is to be written, the local `flen` is
`2^64 - (dirty_offset - (i_size - fpos))`, and the sum of the `len` fields grows
by `2^32 - (dirty_offset - (i_size - fpos))`, which is neither the routed size
nor `flen`, and is more than the folio holds. -/
theorem netfs_write_folio_byte_conservation (fuel : Nat) (w : netfs_io_request) (s : Nat)
    (hok : planner_ok w) (hpos : planner_pos w) (hfuel : 2 * U32 ≤ fuel) :
    (∀ fs : List folio, (∀ n, w.buffer.space = some n → fs.length ≤ n) →
      (∀ f ∈ fs, netfs_routed w f s ∧ f.pos ≤ LONG_MAX ∧ f.size < U32 ∧
        ∀ fi, f.finfo = some fi →
          fi.dirty_offset + fi.dirty_len ≤ f.size ∧
          fi.dirty_offset ≤ w.inode_i_size - f.pos) →
      (∀ f ∈ fs, (netfs_write_folio_extent w f).2.flen = netfs_routed_bytes w f) ∧
      ∃ w', netfs_write_folios fuel w fs = some (w', 0) ∧
        (w'.stream s).total_len =
          (w.stream s).total_len + (fs.map (fun f => netfs_routed_bytes w f)).sum) ∧
    (∀ (f : folio) (fi : netfs_folio), w.buffer.space ≠ some 0 → netfs_routed w f s →
      f.pos ≤ LONG_MAX → f.size < U32 → f.finfo = some fi →
      fi.dirty_offset + fi.dirty_len ≤ f.size → w.inode_i_size - f.pos < fi.dirty_offset →
      netfs_routed_bytes w f = 0 ∧
      (netfs_write_folio_extent w f).2.flen =
        U64 - (fi.dirty_offset - (w.inode_i_size - f.pos)) ∧
      f.size < U32 - (fi.dirty_offset - (w.inode_i_size - f.pos)) + fi.dirty_offset ∧
      ∃ w', netfs_write_folio fuel w f = some (w', 0) ∧
        (w'.stream s).total_len =
          (w.stream s).total_len + (U32 - (fi.dirty_offset - (w.inode_i_size - f.pos)))) := by
  refine ⟨?_, ?_⟩
  · intro fs hspace hr
    have hflen : ∀ f ∈ fs, (netfs_write_folio_extent w f).2.flen = netfs_routed_bytes w f ∧
        (netfs_write_folio_extent w f).2.flen % U32 = netfs_routed_bytes w f := by
      intro f hf
      obtain ⟨h1, _, h3, h4⟩ := hr f hf
      exact routed_bytes_stored w f s h1 h3 h4
    refine ⟨fun f hf => (hflen f hf).1, ?_⟩
    obtain ⟨w', hrun, _, htot⟩ := write_folios_routed fuel s fs w hok hpos hfuel hspace
      (fun f hf => ⟨(hr f hf).1, (hr f hf).2.1⟩)
    refine ⟨w', hrun, ?_⟩
    rw [htot]
    have : fs.map (fun f => (netfs_write_folio_extent w f).2.flen % U32) =
        fs.map (fun f => netfs_routed_bytes w f) := by
      apply List.map_congr_left
      intro f hf
      exact (hflen f hf).2
    rw [this]
  · intro f fi hspace hr hfpos hsz hfi hin hlt
    have hx := (extent_streaming_clamped w f fi hfi hin hsz).2.2.2 hlt
    rw [entry_extent] at hx
    have hb : netfs_routed_bytes w f = 0 := by
      unfold netfs_routed_bytes
      simp only [hfi]
      have := Nat.min_le_right (fi.dirty_offset + fi.dirty_len) (w.inode_i_size - f.pos)
      omega
    obtain ⟨w', hrun, _, _, htot⟩ := write_folio_routed fuel w f s hfpos hok hpos hfuel hspace hr
    refine ⟨hb, hx, ?_, w', hrun, ?_⟩
    · omega
    · rw [htot, hx, wrapped_flen_stored _ (by omega) (by omega)]

theorem example_truncated_planner :
    planner_ok (example_request_truncated 2147483647) ∧
    planner_pos (example_request_truncated 2147483647) := by
  refine ⟨?_, ?_⟩
  · intro t
    unfold netfs_io_request.stream
    split
    · exact ⟨by decide, fun q => by
        simp [netfs_prepare_write_limits, example_request_truncated, example_request_nocache,
          example_request, netfs_io_stream.zero, U64, U32, INT_MAX]⟩
    · exact ⟨by decide, fun q => by
        simp [netfs_prepare_write_limits, example_request_truncated, example_request_nocache,
          example_request, netfs_io_stream.zero, U64, U32, INT_MAX, UINT_MAX]⟩
  · intro t
    unfold netfs_io_request.stream
    split
    · intro q
      simp [netfs_prepare_write_limits, example_request_truncated, example_request_nocache,
        example_request, netfs_io_stream.zero]
    · intro q
      simp [netfs_prepare_write_limits, example_request_truncated, example_request_nocache,
        example_request, netfs_io_stream.zero, UINT_MAX]

/-- C1 (witness): the first two pages of the file of the example request reach
the upload stream with their 8192 bytes; and the streaming-write folio whose
dirty bytes `[100, 150)` lie beyond the end of a file truncated to 50 bytes has
no byte to be written, yet the upload stream grows by `2^32 - 50` bytes. -/
theorem netfs_write_folio_byte_conservation_witness :
    ((∀ f ∈ [example_folio0, example_folio1],
        (netfs_write_folio_extent example_request f).2.flen =
          netfs_routed_bytes example_request f) ∧
      ∃ w', netfs_write_folios (2 * U32) example_request [example_folio0, example_folio1] =
          some (w', 0) ∧
        (w'.stream 0).total_len =
          (example_request.stream 0).total_len +
            ([example_folio0, example_folio1].map
              (fun f => netfs_routed_bytes example_request f)).sum) ∧
    (netfs_routed_bytes (example_request_truncated 2147483647) example_folio_streamw = 0 ∧
      (netfs_write_folio_extent (example_request_truncated 2147483647)
          example_folio_streamw).2.flen =
        U64 - (100 - ((example_request_truncated 2147483647).inode_i_size -
          example_folio_streamw.pos)) ∧
      example_folio_streamw.size <
        U32 - (100 - ((example_request_truncated 2147483647).inode_i_size -
          example_folio_streamw.pos)) + 100 ∧
      ∃ w', netfs_write_folio (2 * U32) (example_request_truncated 2147483647)
          example_folio_streamw = some (w', 0) ∧
        (w'.stream 0).total_len =
          ((example_request_truncated 2147483647).stream 0).total_len +
            (U32 - (100 - ((example_request_truncated 2147483647).inode_i_size -
              example_folio_streamw.pos)))) :=
  ⟨(netfs_write_folio_byte_conservation (2 * U32) example_request 0
      example_request_planner_ok example_request_planner_pos (Nat.le_refl _)).1
      [example_folio0, example_folio1] (fun _ h => Option.noConfusion h) (by decide),
    (netfs_write_folio_byte_conservation (2 * U32) (example_request_truncated 2147483647) 0
      example_truncated_planner.1 example_truncated_planner.2 (Nat.le_refl _)).2
      example_folio_streamw { dirty_offset := 100, dirty_len := 50 } (by decide) (by decide)
      (by decide) (by decide) rfl (by decide) (by decide)⟩

/-- The streaming-write folio of 4096 bytes whose dirty bytes `[100, 150)` lie
beyond the end of a file truncated to 50 bytes, planned by `netfs_write_folio`
on a request with a write size of 2147483647 and empty streams: no byte of the
folio lies below EOF, the local `flen` is `2^64 - 50`, and the `len` fields of
the subrequests of the upload stream sum to `2^32 - 50`. -/
theorem example_byte_conservation_evaluates :
    netfs_routed (example_request_truncated 2147483647) example_folio_streamw 0 ∧
    netfs_routed_bytes (example_request_truncated 2147483647) example_folio_streamw = 0 ∧
    (netfs_write_folio_extent (example_request_truncated 2147483647)
      example_folio_streamw).2.flen = 18446744073709551566 ∧
    ((example_request_truncated 2147483647).stream 0).total_len = 0 ∧
    (netfs_write_folio 8 (example_request_truncated 2147483647) example_folio_streamw).map
        (fun r => (r.2, (r.1.stream 0).extents, (r.1.stream 0).total_len,
          example_folio_streamw.size)) =
      some (0, [(100, 2147483647), (2147483747, 2147483599)], 4294967246, 4096) := by
  refine ⟨by decide, by rfl, by rfl, by rfl, by rfl⟩

end Netfs
